import Mathlib

/-!
HDFIT systolic-array simulator: shallow embedding and verified properties.

Embedding conventions.

* `size_t` values are natural numbers below `SIZE = 2 ^ 64`; every `size_t`
  addition, subtraction and multiplication of the source is reduced modulo
  `SIZE` (`wrap`, `subw`).
* A `double` is carried as its 64-bit pattern (a natural number below `2 ^ 64`).
  The IEEE-754 addition and multiplication of the host are the two fields of an
  `Fpu`; nothing is assumed about them, so a statement proved for every `Fpu`
  holds for the host arithmetic, rounding and exceptional values included.
* Pointers to `double` are abstract cell addresses (natural numbers) into the
  process heap `heap_t`; `p + n` on a pointer is address addition, the
  `size_t` offset `n` having been computed modulo `SIZE` first.
* `rand()` reads the next element of a sequence of draws carried in the state.
* Loops whose trip count is not a literal are recursions on a fuel argument and
  return `none` when the fuel runs out; the entry points supply the fuel
  themselves.
-/

namespace SystolicArray

/-! ## Machine integers -/

/-- The modulus of `size_t` arithmetic. -/
def SIZE : Nat := 18446744073709551616

/-- The constant `SIZE_MAX` of `<stdint.h>`. -/
def SIZE_MAX : Nat := 18446744073709551615

/-- Reduction of a `size_t` result. -/
def wrap (x : Nat) : Nat := x % SIZE

/-- The `size_t` subtraction `a - b`. -/
def subw (a b : Nat) : Nat := (a % SIZE + SIZE - b % SIZE) % SIZE

/-! ## Configuration (`systolicArraySim.h`) -/

structure config_t where
  Mmma : Nat
  Kmma : Nat
  Nmma : Nat
  BufferLeftSize : Nat
  BufferRightSize : Nat
  Mtile : Nat
  Ntile : Nat
  ThreadCnt : Nat
  SystolicArrayCnt : Nat
deriving DecidableEq, Repr

def Config_ : config_t :=
  { Mmma := 8, Kmma := 8, Nmma := 8,
    BufferLeftSize := 8, BufferRightSize := 2,
    Mtile := 8 * 4, Ntile := 4 * 8,
    ThreadCnt := 4, SystolicArrayCnt := 16 }

def Mmma : Nat := Config_.Mmma
def Kmma : Nat := Config_.Kmma
def Nmma : Nat := Config_.Nmma
def Mtile : Nat := Config_.Mtile
def Ktile : Nat := Config_.Kmma
def Ntile : Nat := Config_.Ntile

def RequiredOutPositionsBetweenK : Nat := 4

def FmaCycles_ : Nat := 12
def JobCycleOutputStart_ : Nat := wrap (wrap ((Kmma / 2) * FmaCycles_) + 4)
def JobCycleDone_ : Nat := wrap (JobCycleOutputStart_ + wrap (2 * subw Nmma 1))
def JobCyclePassedFirstStage_ : Nat := wrap (wrap (2 * Nmma) + 1)

/-! ## Jobs and fault records -/

structure job_t where
  MatA : Nat
  StrideA : Nat
  MatB : Nat
  StrideB : Nat
  MatC : Nat
  StrideC : Nat
deriving DecidableEq, Repr, Inhabited

/-- The address of the element `MatA[row * StrideA + k]` of a job. -/
def job_t.cellA (job : job_t) (row k : Nat) : Nat :=
  job.MatA + wrap (wrap (row * job.StrideA) + k)

/-- The address of the element `MatB[k * StrideB + col]` of a job. -/
def job_t.cellB (job : job_t) (k col : Nat) : Nat :=
  job.MatB + wrap (wrap (k * job.StrideB) + col)

/-- The address of the element `MatC[row * StrideC + col]` of a job. -/
def job_t.cellC (job : job_t) (row col : Nat) : Nat :=
  job.MatC + wrap (wrap (row * job.StrideC) + col)

structure queueEntry_t where
  JobCycle : Nat
  Job : job_t
deriving DecidableEq, Repr, Inhabited

inductive fiCorruption where
  | None
  | StuckHigh
  | StuckLow
  | Flip
deriving DecidableEq, Repr

inductive fiMode where
  | None
  | Transient
  | Permanent
deriving DecidableEq, Repr

inductive fiBits where
  | None
  | Everywhere
  | Mantissa
deriving DecidableEq, Repr

inductive fiCsimPlace where
  | None
  | Everywhere
  | Inputs
  | Multipliers
  | AccAdders
  | ColumnAdders
deriving DecidableEq, Repr

structure faultCsim_t where
  Place : fiCsimPlace := fiCsimPlace.None
  Corruption : fiCorruption := fiCorruption.None
  Mode : fiMode := fiMode.None
  BitPos : Nat := 255
  Row : Nat := 0
deriving DecidableEq, Repr

structure faultRTL_t where
  ModuleInstanceChain : List Nat := []
  AssignUUID : Nat := 0
  BitPos : Nat := 65535
  Mode : fiMode := fiMode.None
deriving DecidableEq, Repr

/-! ## Pipeline accounting -/

def CyclesRequired (jobCnt : Nat) : Nat :=
  if 0 = jobCnt then 0
  else wrap (wrap (JobCycleDone_ + wrap (subw jobCnt 1 * wrap (JobCyclePassedFirstStage_ + 1))) + 1)

def JobsDoneInCycles (cycleCnt : Nat) : Nat :=
  if JobCycleDone_ > cycleCnt then 0
  else wrap (subw (subw cycleCnt JobCycleDone_) 1 / wrap (JobCyclePassedFirstStage_ + 1) + 1)


/-! ## Process state -/

/-- The two IEEE-754 operations of the host the simulator uses, on 64-bit
patterns. -/
structure Fpu where
  add : Nat → Nat → Nat
  mul : Nat → Nat → Nat

/-- Modelled from the spec: the Verilated test bench class `testBench_t`, whose
declaration is not among the sources, as the simulator sees it: the wide ports
as byte storage (`m_storage`, little-endian, its size being the length of the
list), the scalar ports, and the internal state of the netlist (`rtl`), which
only `eval` interprets. -/
structure testBench_t where
  clk : Nat
  multLeft : List Nat
  multRight : List Nat
  acc : List Nat
  out : List Nat
  error : Bool
  GlobalFiModInstNr : List Nat
  GlobalFiNumber : Nat
  GlobalFiSignal : List Nat
  rtl : Nat
deriving DecidableEq, Repr

/-- The process heap: the 64-bit pattern stored at each cell address. -/
structure heap_t where
  read : Nat → Nat

/-- A store of `v` to the cell `addr`. -/
def heap_t.write (h : heap_t) (addr v : Nat) : heap_t :=
  { read := fun x => if x = addr then v else h.read x }

/-- The members of `SystolicArraySim` together with the process state its
methods touch: the heap holding the matrices and the sequence `rand()` returns. -/
structure SystolicArraySim where
  CycleCnt_ : Nat
  DieError_ : Bool
  Tb : testBench_t
  JobQueue_ : List queueEntry_t
  FaultCsim_ : faultCsim_t
  FaultCsimTransCycle_ : Nat
  FaultRTL_ : faultRTL_t
  FaultRTLTransCycle_ : Nat
  Heap : heap_t
  Rand : Nat → Nat
  RandPos : Nat

/-- Runs `body` over `xs` in order, stopping at the first non-zero return code. -/
def forRc {α σ : Type} (body : α → σ → Int × σ) : List α → σ → Int × σ
  | [], s => (0, s)
  | x :: rest, s =>
    let r := body x s
    if r.1 ≠ 0 then r else forRc body rest r.2

/-! ## Dispatch -/

def DispatchMma (s : SystolicArraySim) (job : job_t) : Int × SystolicArraySim :=
  (0, { s with JobQueue_ := s.JobQueue_ ++ [{ JobCycle := 0, Job := job }] })

/-- Inner loop of `DispatchMma(job, mCnt, nCnt)`:
`for (col = 0; col < nCnt * Nmma(); col += Nmma())`. -/
def dispatchMmaCols (job : job_t) (Ap row colEnd : Nat) :
    Nat → Nat → SystolicArraySim → Option (Int × SystolicArraySim)
  | 0, _, _ => none
  | fuel + 1, col, s =>
    if col < colEnd then
      let Bp := job.MatB + col
      let Cp := job.MatC + wrap (row * job.StrideC) + col
      let jobMma : job_t :=
        { MatA := Ap, StrideA := job.StrideA, MatB := Bp, StrideB := job.StrideB,
          MatC := Cp, StrideC := job.StrideC }
      let r := DispatchMma s jobMma
      if r.1 ≠ 0 then some (-1, r.2)
      else dispatchMmaCols job Ap row colEnd fuel (wrap (col + Nmma)) r.2
    else some (0, s)

/-- Outer loop of `DispatchMma(job, mCnt, nCnt)`:
`for (row = 0; row < mCnt * Mmma(); row += Mmma())`. -/
def dispatchMmaRows (job : job_t) (rowEnd colEnd : Nat) :
    Nat → Nat → SystolicArraySim → Option (Int × SystolicArraySim)
  | 0, _, _ => none
  | fuel + 1, row, s =>
    if row < rowEnd then
      let Ap := job.MatA + wrap (row * job.StrideA)
      match dispatchMmaCols job Ap row colEnd (colEnd + 1) 0 s with
      | none => none
      | some r =>
        if r.1 ≠ 0 then some r
        else dispatchMmaRows job rowEnd colEnd fuel (wrap (row + Mmma)) r.2
    else some (0, s)

/-- The overload `DispatchMma(job, mCnt, nCnt)`. -/
def DispatchMmaCnt (s : SystolicArraySim) (job : job_t) (mCnt nCnt : Nat) :
    Option (Int × SystolicArraySim) :=
  dispatchMmaRows job (wrap (mCnt * Mmma)) (wrap (nCnt * Nmma)) (wrap (mCnt * Mmma) + 1) 0 s

/-- Inner loop of `DispatchTile`: `for (col = 0; col < Ntile(); col += Nmma())`. -/
def dispatchTileCols (job : job_t) (Ap row : Nat) :
    Nat → Nat → SystolicArraySim → Option (Int × SystolicArraySim)
  | 0, _, _ => none
  | fuel + 1, col, s =>
    if col < Ntile then
      let Bp := job.MatB + col
      let Cp := job.MatC + wrap (row * job.StrideC) + col
      let jobMma : job_t :=
        { MatA := Ap, StrideA := job.StrideA, MatB := Bp, StrideB := job.StrideB,
          MatC := Cp, StrideC := job.StrideC }
      let r := DispatchMma s jobMma
      if r.1 ≠ 0 then some (-1, r.2)
      else dispatchTileCols job Ap row fuel (wrap (col + Nmma)) r.2
    else some (0, s)

/-- Outer loop of `DispatchTile`: `for (row = 0; row < Mtile(); row += Mmma())`. -/
def dispatchTileRows (job : job_t) :
    Nat → Nat → SystolicArraySim → Option (Int × SystolicArraySim)
  | 0, _, _ => none
  | fuel + 1, row, s =>
    if row < Mtile then
      let Ap := job.MatA + wrap (row * job.StrideA)
      match dispatchTileCols job Ap row (Ntile + 1) 0 s with
      | none => none
      | some r =>
        if r.1 ≠ 0 then some r
        else dispatchTileRows job fuel (wrap (row + Mmma)) r.2
    else some (0, s)

def DispatchTile (s : SystolicArraySim) (job : job_t) : Option (Int × SystolicArraySim) :=
  dispatchTileRows job (Mtile + 1) 0 s

/-! ## Read-before-write check -/

/-- The two nested index loops of the source; the inner one runs `nextJob` from
`job + 1` up to `min(job + jobsInPipe, size)`.  Indices are bounded by the size
of the deque, so no `size_t` reduction applies. -/
def JobQueueReadBeforeWrite (jobQueue : List queueEntry_t) : Bool :=
  let jobsInPipe := JobCycleDone_ / JobCyclePassedFirstStage_
  (List.range jobQueue.length).any fun job =>
    (List.range' (job + 1) (min (job + jobsInPipe) jobQueue.length - (job + 1))).any fun nextJob =>
      decide ((jobQueue.getD job default).Job.MatC = (jobQueue.getD nextJob default).Job.MatA) ||
        decide ((jobQueue.getD job default).Job.MatC = (jobQueue.getD nextJob default).Job.MatB) ||
        decide ((jobQueue.getD job default).Job.MatC = (jobQueue.getD nextJob default).Job.MatC)

/-! ## Fault primitive -/

/-- The bit pattern of the `NAN` macro converted to `double`. -/
def NAN : Nat := 0x7FF8000000000000

/-- The source's `corrupt(in, corruption, bitPos)`; `~x` on 64 bits is
`SIZE_MAX ^^^ x`. -/
def corrupt (input : Nat) (corruption : fiCorruption) (bitPos : Nat) : Nat :=
  if 63 < bitPos then NAN
  else
    match corruption with
    | fiCorruption.None => input
    | fiCorruption.Flip => input ^^^ wrap (1 <<< bitPos)
    | fiCorruption.StuckHigh => input ||| wrap (1 <<< bitPos)
    | fiCorruption.StuckLow => input &&& (SIZE_MAX ^^^ wrap (1 <<< bitPos))


/-! ## Port encoding (`bitsCopy`, `setValue`, `getValue`, `toDouble`) -/

/-- The macro `BIT_MASK(NBITS)`, i.e. `(1ULL << NBITS) - 1`. -/
def BIT_MASK (nBits : Nat) : Nat := subw (wrap (1 <<< nBits)) 1

/-- The first `n` bytes of the little-endian object representation of `x`. -/
def bytesLE (x n : Nat) : List Nat := (List.range n).map fun i => (x >>> (8 * i)) % 256

/-- The 32-bit word number `i` of a little-endian byte storage. -/
def word32 (bytes : List Nat) (i : Nat) : Nat :=
  bytes.getD (4 * i) 0 + 256 * bytes.getD (4 * i + 1) 0 +
    65536 * bytes.getD (4 * i + 2) 0 + 16777216 * bytes.getD (4 * i + 3) 0

/-- The library predicate `std::isnormal` on the pattern of a double. -/
def isnormal (u : Nat) : Bool :=
  ((u >>> 52) &&& 2047) != 0 && ((u >>> 52) &&& 2047) != 2047

/-- The body of the bit loop of `bitsCopy`. -/
def bitsCopyBit (startBit : Nat) (bits : List Nat) (d : List Nat) (bit : Nat) : List Nat :=
  let destBit := wrap (startBit + bit)
  let destByte := destBit / 8
  let destByteBitOffset := destBit % 8
  if bits.getD (bit / 8) 0 &&& (1 <<< (bit % 8)) ≠ 0 then
    d.set destByte (d.getD destByte 0 ||| (1 <<< destByteBitOffset))
  else
    d.set destByte (d.getD destByte 0 &&& (255 ^^^ (1 <<< destByteBitOffset)))

def bitsCopy (pData : List Nat) (nData startBit : Nat) (bits : List Nat) (nBits : Nat) :
    Int × List Nat :=
  let endBit := wrap (startBit + nBits)
  let nDataRequ := wrap (endBit / 8 + (if endBit % 8 ≠ 0 then 1 else 0))
  if nDataRequ > nData then (-1, pData)
  else (0, (List.range nBits).foldl (bitsCopyBit startBit bits) pData)

/-- The 11-bit exponent field `tmpExp` the 65-bit encoders compute. -/
def tmpExp65 (value : Nat) : Nat := (value >>> 52) &&& BIT_MASK 11

/-- The 54-bit two's-complement field `signedMantissa` the 65-bit encoders
compute; the `int64_t` is carried as its 64-bit pattern. -/
def signedMantissa65 (value : Nat) : Nat :=
  let m0 := value &&& BIT_MASK 52
  let m1 := if isnormal value then m0 ||| wrap (1 <<< 52) else m0
  let m2 := if value &&& wrap (1 <<< 63) ≠ 0 then subw 0 m1 else m1
  m2 &&& BIT_MASK 54

/-- The netlist variant `setValue(WData*, nData, nBitsElem, pos, value)`. -/
def setValue (pData : List Nat) (nData nBitsElem pos value : Nat) : Int × List Nat :=
  if 65 ≠ nBitsElem then (-1, pData)
  else if wrap (nBitsElem * pos) ≥ wrap (8 * nData) then (-1, pData)
  else
    let tmpExp := tmpExp65 value
    let signedMantissa := signedMantissa65 value
    let r1 := bitsCopy pData nData (wrap (pos * nBitsElem)) (bytesLE signedMantissa 8) 54
    if r1.1 ≠ 0 then (-1, r1.2)
    else
      let r2 := bitsCopy r1.2 nData (wrap (wrap (pos * nBitsElem) + 54)) (bytesLE tmpExp 2) 11
      if r2.1 ≠ 0 then (-1, r2.2) else (0, r2.2)

/-- The decoder `toDouble(const sNFp64_t &)` on the 12 bytes of a `VlWide<3>`. -/
def toDouble (data : List Nat) : Nat :=
  let sm0 := (wrap (word32 data 1 <<< 32) ||| word32 data 0) &&& BIT_MASK 54
  let isNeg := sm0 &&& wrap (1 <<< 53) ≠ 0
  let signedMant := if isNeg then subw 0 (sm0 ||| 0xFFC0000000000000) else sm0
  let exp := (wrap (word32 data 2 <<< 10) ||| (word32 data 1 >>> 22)) &&& BIT_MASK 11
  let u0 : Nat := if isNeg then 1 else 0
  let u1 := wrap (u0 <<< 11) ||| exp
  wrap (u1 <<< 52) ||| (signedMant &&& BIT_MASK 52)

/-- The pattern of the double `-1.0`, which `getValue` returns for `return -1`. -/
def MINUS_ONE : Nat := 0xBFF0000000000000

/-- The netlist variant `getValue(const WData*, nData, nBitsElem, pos)`. -/
def getValue (pData : List Nat) (nData nBitsElem pos : Nat) : Nat :=
  if 65 ≠ nBitsElem then MINUS_ONE
  else if wrap (nBitsElem * wrap (pos + 1)) ≥ wrap (8 * nData) then MINUS_ONE
  else
    let bitStart := wrap (pos * nBitsElem)
    let tmpU8 := (List.range 65).foldl (fun t bit =>
      let tmpByte := bit / 8
      let tmpBit := bit % 8
      let dataByte := wrap (bitStart + bit) / 8
      let dataBit := wrap (bitStart + bit) % 8
      if pData.getD dataByte 0 &&& (1 <<< dataBit) ≠ 0 then
        t.set tmpByte (t.getD tmpByte 0 ||| (1 <<< tmpBit))
      else t) (List.replicate 12 0)
    toDouble tmpU8


/-! ## Behavioural compute: `RowCsim` and `ExecCsim` -/

/-- The locals of the fault branch of `RowCsim` (taken when `k == kFi` and a
fault record is passed) after that branch has run, and the position of the
draw sequence.  The branch assigns none of them through `out`. -/
structure rowFault_t where
  accIn : Nat
  aIn : Nat
  bIn : Nat
  mul : Nat
  acc : Nat
  RandPos : Nat
deriving DecidableEq, Repr

def rowCsimFault (fp : Fpu) (rand : Nat → Nat) (randPos : Nat) (out aK bK : Nat)
    (fi : faultCsim_t) : rowFault_t :=
  let inRand := rand randPos % 3
  let isMul := decide (fiCsimPlace.Multipliers = fi.Place)
  let accIn := if isMul && decide (0 = inRand) then corrupt out fi.Corruption fi.BitPos else out
  let aIn :=
    if isMul && !decide (0 = inRand) && decide (1 = inRand) then
      corrupt aK fi.Corruption fi.BitPos
    else aK
  let bIn :=
    if isMul && !decide (0 = inRand) && !decide (1 = inRand) then
      corrupt bK fi.Corruption fi.BitPos
    else bK
  let mul0 := fp.mul aIn bIn
  let mul := if isMul then corrupt mul0 fi.Corruption fi.BitPos else mul0
  let acc0 := fp.add mul accIn
  let acc :=
    if fiCsimPlace.AccAdders = fi.Place then corrupt acc0 fi.Corruption fi.BitPos else acc0
  { accIn := accIn, aIn := aIn, bIn := bIn, mul := mul, acc := acc,
    RandPos := if isMul then randPos + 1 else randPos }

/-- The method `RowCsim(out, a, b, fi)`: the result is the return code, the
final `*out` and the position of the draw sequence. -/
def RowCsim (fp : Fpu) (rand : Nat → Nat) (randPos : Nat) (out : Nat) (a b : List Nat)
    (fi : Option faultCsim_t) : Int × Nat × Nat :=
  let kFi := rand randPos % Kmma
  let st := (List.range Kmma).foldl (fun (st : Nat × Nat) k =>
    match fi with
    | some f =>
      if k = kFi then (st.1, (rowCsimFault fp rand st.2 st.1 (a.getD k 0) (b.getD k 0) f).RandPos)
      else (fp.add st.1 (fp.mul (a.getD k 0) (b.getD k 0)), st.2)
    | none => (fp.add st.1 (fp.mul (a.getD k 0) (b.getD k 0)), st.2)) (out, randPos + 1)
  let out1 :=
    match fi with
    | some f =>
      if fiCsimPlace.ColumnAdders = f.Place then corrupt st.1 f.Corruption f.BitPos else st.1
    | none => st.1
  (0, out1, st.2)

/-- The `sum` loop of `ExecCsim` for one row and column:
`MatC[row * StrideC + col] += MatA[row * StrideA + sum] * MatB[sum * StrideB + col]`. -/
def csimRowSum (fp : Fpu) (job : job_t) (row col : Nat) (heap : heap_t) : heap_t :=
  (List.range Kmma).foldl (fun h sum =>
    h.write (job.cellC row col)
      (fp.add (h.read (job.cellC row col))
        (fp.mul (h.read (job.cellA row sum))
          (h.read (job.cellB sum col))))) heap

/-- The `row` loop of `ExecCsim`, which skips `FaultCsim_.Row`. -/
def csimRows (fp : Fpu) (faultRow : Nat) (job : job_t) (col : Nat) (heap : heap_t) :
    heap_t :=
  (List.range Mmma).foldl (fun h row =>
    if faultRow = row then h else csimRowSum fp job row col h) heap

/-- One pass through the body of the `while` loop of `ExecCsim`, `e` being the
front of the queue. -/
def execCsimBody (fp : Fpu) (s : SystolicArraySim) (e : queueEntry_t) :
    Int × SystolicArraySim :=
  let job := e.Job
  let col := e.JobCycle
  let h1 := csimRows fp s.FaultCsim_.Row job col s.Heap
  let leftIn := (List.range Kmma).map fun sum =>
    h1.read (job.cellA s.FaultCsim_.Row sum)
  let rightIn := (List.range Kmma).map fun sum =>
    h1.read (job.cellB sum col)
  let colCsimFi :=
    if s.CycleCnt_ = s.FaultCsimTransCycle_ ∨ fiMode.Permanent = s.FaultCsim_.Mode then
      some s.FaultCsim_
    else none
  let outAddr := job.cellC s.FaultCsim_.Row col
  let r := RowCsim fp s.Rand s.RandPos (h1.read outAddr) leftIn rightIn colCsimFi
  let s1 := { s with Heap := h1.write outAddr r.2.1, RandPos := r.2.2 }
  if r.1 ≠ 0 then (-1, s1)
  else
    let jobCycle := wrap (e.JobCycle + 1)
    (0, { s1 with
      CycleCnt_ := wrap (s1.CycleCnt_ + 1),
      JobQueue_ :=
        if jobCycle ≥ Nmma then s.JobQueue_.tail
        else { JobCycle := jobCycle, Job := e.Job } :: s.JobQueue_.tail })

def ExecCsimLoop (fp : Fpu) (origJobs maxJobs : Nat) :
    Nat → SystolicArraySim → Option (Int × SystolicArraySim)
  | 0, _ => none
  | fuel + 1, s =>
    match s.JobQueue_ with
    | [] => some (0, s)
    | e :: _ =>
      if subw origJobs s.JobQueue_.length < maxJobs then
        let r := execCsimBody fp s e
        if r.1 ≠ 0 then some r else ExecCsimLoop fp origJobs maxJobs fuel r.2
      else some (0, s)

/-- The method `ExecCsim(maxJobs)`; the default argument is `SIZE_MAX`.  A
queue entry is popped after at most nine passes through the loop body. -/
def ExecCsim (fp : Fpu) (s : SystolicArraySim) (maxJobs : Nat) :
    Option (Int × SystolicArraySim) :=
  ExecCsimLoop fp s.JobQueue_.length maxJobs (9 * s.JobQueue_.length + 1) s


/-! ## Per-cycle I/O driver: `IoSet` -/

/-- The part of the state the port loops of `IoSet` work on. -/
structure ioState where
  Tb : testBench_t
  Heap : heap_t

/-- The even/odd phase test of `IoSet` at the (shifted) job cycle `c`:
`inEvenK = (0 == c % FmaCycles_)`, `inOddK = (0 == (c - 1) % FmaCycles_) && c`,
and, when one of them holds, `k = 2 * (c / FmaCycles_) + (inEvenK ? 0 : 1)`
provided `k < Kmma()`. -/
def ioPhaseK (c : Nat) : Option Nat :=
  let inEvenK := decide (0 = c % FmaCycles_)
  let inOddK := decide (0 = subw c 1 % FmaCycles_) && decide (c ≠ 0)
  if inEvenK || inOddK then
    let k := wrap (wrap (2 * (c / FmaCycles_)) + (if inEvenK then 0 else 1))
    if k < Kmma then some k else none
  else none

/-- The entries `IoSet` collects in `concurrentJobs` after the front entry. -/
def concurrentTail (prev : queueEntry_t) : List queueEntry_t → List queueEntry_t
  | [] => []
  | e :: rest =>
    if prev.JobCycle > JobCyclePassedFirstStage_ then e :: concurrentTail e rest else []

def concurrentJobs : List queueEntry_t → List queueEntry_t
  | [] => []
  | e :: rest => e :: concurrentTail e rest

/-- Left matrix input of row `m`. -/
def ioSetLeft (e : queueEntry_t) (m : Nat) (st : ioState) : Int × ioState :=
  match ioPhaseK e.JobCycle with
  | some k =>
    let r := setValue st.Tb.multLeft st.Tb.multLeft.length 65 (wrap (wrap (m * Kmma) + k))
      (st.Heap.read (e.Job.cellA m k))
    (if r.1 ≠ 0 then -1 else 0, { st with Tb := { st.Tb with multLeft := r.2 } })
  | none => (0, st)

/-- Right matrix input: the loop over `n < min(JobCycle / 2 + 1, Nmma())`. -/
def ioSetRight (e : queueEntry_t) (st : ioState) : Int × ioState :=
  let nCnt := min (wrap (e.JobCycle / 2 + 1)) Nmma
  forRc (fun n st =>
    match ioPhaseK (subw e.JobCycle (wrap (2 * n))) with
    | some k =>
      let r := setValue st.Tb.multRight st.Tb.multRight.length 65 k
        (st.Heap.read (e.Job.cellB k n))
      (if r.1 ≠ 0 then -1 else 0, { st with Tb := { st.Tb with multRight := r.2 } })
    | none => (0, st)) (List.range nCnt) st

/-- Accumulator input of row `m`. -/
def ioSetAcc (e : queueEntry_t) (m : Nat) (st : ioState) : Int × ioState :=
  if 0 = e.JobCycle % 2 then
    let n := e.JobCycle / 2
    if n < Nmma then
      let r := setValue st.Tb.acc st.Tb.acc.length 65 m
        (st.Heap.read (e.Job.cellC m n))
      (if r.1 ≠ 0 then -1 else 0, { st with Tb := { st.Tb with acc := r.2 } })
    else (0, st)
  else (0, st)

/-- Output gathering of row `m`. -/
def ioSetOut (e : queueEntry_t) (m : Nat) (st : ioState) : Int × ioState :=
  if JobCycleOutputStart_ ≤ e.JobCycle then
    let cycleOffset := subw e.JobCycle JobCycleOutputStart_
    if 0 = cycleOffset % 2 then
      let n := cycleOffset / 2
      if n > Nmma then (-1, st)
      else
        let v := getValue st.Tb.out st.Tb.out.length 65 m
        let addr := e.Job.cellC m n
        (0, { st with Heap := st.Heap.write addr v })
    else (0, st)
  else (0, st)

/-- The body of the loop over `m` for one concurrent job. -/
def ioSetRow (e : queueEntry_t) (m : Nat) (st : ioState) : Int × ioState :=
  let r1 := ioSetLeft e m st
  if r1.1 ≠ 0 then r1
  else
    let r2 := ioSetRight e r1.2
    if r2.1 ≠ 0 then r2
    else
      let r3 := ioSetAcc e m r2.2
      if r3.1 ≠ 0 then r3 else ioSetOut e m r3.2

/-- The loop over the concurrent jobs and, inside, over `m < MmmaRTL`. -/
def ioSetJobs (MmmaRTL : Nat) (conc : List queueEntry_t) (st : ioState) : Int × ioState :=
  forRc (fun e st => forRc (ioSetRow e) (List.range MmmaRTL) st) conc st

/-- The rows the RTL does not simulate, computed directly when the front job
retires: `for (row = MmmaRTL; row < Mmma(); row++)`. -/
def ioSetRest (fp : Fpu) (MmmaRTL : Nat) (job : job_t) (heap : heap_t) : heap_t :=
  (List.range' MmmaRTL (Mmma - MmmaRTL)).foldl (fun h row =>
    (List.range Nmma).foldl (fun h col =>
      (List.range Kmma).foldl (fun h k =>
        h.write (job.cellC row col)
          (fp.add (h.read (job.cellC row col))
            (fp.mul (h.read (job.cellA row k))
              (h.read (job.cellB k col))))) h) h) heap

/-- The closing loop `concurrentJobs[job]->JobCycle++` on the first `n` entries. -/
def bumpJobCycles : Nat → List queueEntry_t → List queueEntry_t
  | 0, q => q
  | _, [] => []
  | n + 1, e :: rest => { e with JobCycle := wrap (e.JobCycle + 1) } :: bumpJobCycles n rest

/-- The method `IoSet(Tb, &JobQueue_, clkHigh)`.  The entries in `concurrentJobs`
are the leading entries of the queue; the increment of a popped front entry is
lost with that entry. -/
def IoSet (fp : Fpu) (s : SystolicArraySim) (_clkHigh : Bool) : Int × SystolicArraySim :=
  match s.JobQueue_ with
  | [] => (-1, s)
  | front :: _ =>
    let conc := concurrentJobs s.JobQueue_
    let MmmaRTL := wrap (s.Tb.out.length * 8) / 65
    let r := ioSetJobs MmmaRTL conc { Tb := s.Tb, Heap := s.Heap }
    let s1 := { s with Tb := r.2.Tb, Heap := r.2.Heap }
    if r.1 ≠ 0 then (-1, s1)
    else if JobCycleDone_ = front.JobCycle then
      (0, { s1 with
        Heap := if MmmaRTL ≠ Mmma then ioSetRest fp MmmaRTL front.Job s1.Heap else s1.Heap,
        JobQueue_ := (bumpJobCycles conc.length s.JobQueue_).tail })
    else if JobCycleDone_ < front.JobCycle then (-4, s1)
    else (0, { s1 with JobQueue_ := bumpJobCycles conc.length s.JobQueue_ })

/-! ## RTL fault ports and `ExecRtl` -/

/-- The netlist variant of `FiRtlApply`; the fault signal is stored in 32-bit
words, as every wide Verilated signal is. -/
def FiRtlApply (tb : testBench_t) (modInst : List Nat) (assignNr fiBit : Nat) :
    Int × testBench_t :=
  let bitsInArrayElem := 32
  let arrayIndex := fiBit / bitsInArrayElem
  let arrayBit := fiBit % bitsInArrayElem
  (0, { tb with
    GlobalFiModInstNr := (List.range tb.GlobalFiModInstNr.length).map fun inst =>
      if modInst.length > inst then modInst.getD inst 0 else 0,
    GlobalFiNumber := assignNr,
    GlobalFiSignal :=
      (List.replicate tb.GlobalFiSignal.length 0).set arrayIndex
        (wrap (1 <<< arrayBit) % 4294967296) })

/-- The netlist variant of `FiRtlReset`. -/
def FiRtlReset (tb : testBench_t) : Int × testBench_t :=
  (0, { tb with GlobalFiModInstNr := List.replicate tb.GlobalFiModInstNr.length 0 })

/-- The loops `for (auto &job : JobQueue_) job.JobCycle = 0`. -/
def resetJobCycles (q : List queueEntry_t) : List queueEntry_t :=
  q.map fun e => { e with JobCycle := 0 }

/-- The main loop `while (!JobQueue_.empty())` of `ExecRtl`; `eval` is the
netlist evaluation `Tb->eval()`.  The flush test reads `JobQueue_.front()`,
which C++ leaves undefined once `IoSet` has popped the last entry; the loop then
ends with return code 0 and an unchanged state whichever way the test goes, and
that is what the branch for the empty queue returns on the next pass. -/
def execRtlLoop (fp : Fpu) (eval : testBench_t → testBench_t)
    (fastTransient fastTransientTest : Bool) :
    Nat → SystolicArraySim → Option (Int × SystolicArraySim)
  | 0, _ => none
  | fuel + 1, s =>
    match s.JobQueue_ with
    | [] => some (0, s)
    | _ :: _ =>
      let s1 := { s with Tb := { s.Tb with clk := if s.Tb.clk ≠ 0 then 0 else 1 } }
      let r := IoSet fp s1 (decide (s1.Tb.clk ≠ 0))
      if r.1 ≠ 0 then some (-1, r.2)
      else
        let s2 := r.2
        let fiR : Int × testBench_t :=
          if fiMode.Transient = s2.FaultRTL_.Mode then
            if s2.CycleCnt_ = s2.FaultRTLTransCycle_ then
              if !fastTransientTest then
                FiRtlApply s2.Tb s2.FaultRTL_.ModuleInstanceChain s2.FaultRTL_.AssignUUID
                  s2.FaultRTL_.BitPos
              else (0, s2.Tb)
            else FiRtlReset s2.Tb
          else (0, s2.Tb)
        if fiR.1 ≠ 0 then some (-1, { s2 with Tb := fiR.2 })
        else
          let tb3 := eval fiR.2
          let s3 := { s2 with
            Tb := tb3, CycleCnt_ := wrap (s2.CycleCnt_ + 1),
            DieError_ := if tb3.error then true else s2.DieError_ }
          if decide (fiMode.Transient = s3.FaultRTL_.Mode) && fastTransient then
            match s3.JobQueue_ with
            | front :: _ =>
              if s3.CycleCnt_ > wrap (wrap (s3.FaultRTLTransCycle_ + JobCycleDone_) + 1) ∧
                  front.JobCycle < JobCycleOutputStart_ then
                ExecCsim fp { s3 with JobQueue_ := resetJobCycles s3.JobQueue_ } SIZE_MAX
              else execRtlLoop fp eval fastTransient fastTransientTest fuel s3
            | [] => execRtlLoop fp eval fastTransient fastTransientTest fuel s3
          else execRtlLoop fp eval fastTransient fastTransientTest fuel s3

/-- The method `ExecRtl(fastTransient, fastTransientTest)` of the netlist build.
A front entry is popped, or `IoSet` fails, after at most 67 passes of the
main loop. -/
def ExecRtl (fp : Fpu) (eval : testBench_t → testBench_t) (s : SystolicArraySim)
    (fastTransient fastTransientTest : Bool) : Option (Int × SystolicArraySim) :=
  if JobQueueReadBeforeWrite s.JobQueue_ then some (-1, s)
  else
    let r0 :=
      if fiMode.Permanent = s.FaultRTL_.Mode then
        FiRtlApply s.Tb s.FaultRTL_.ModuleInstanceChain s.FaultRTL_.AssignUUID s.FaultRTL_.BitPos
      else FiRtlReset s.Tb
    let s0 := { s with Tb := r0.2 }
    if r0.1 ≠ 0 then some (-1, s0)
    else
      let skip : Option (Int × SystolicArraySim) :=
        if decide (fiMode.Transient = s0.FaultRTL_.Mode) && fastTransient then
          let jobsBefore :=
            if s0.FaultRTLTransCycle_ > JobCycleDone_ then
              JobsDoneInCycles (subw s0.FaultRTLTransCycle_ JobCycleDone_)
            else 0
          if jobsBefore ≠ 0 then
            match ExecCsim fp s0 jobsBefore with
            | none => none
            | some r =>
              if r.1 ≠ 0 then some (-1, r.2)
              else
                some (0, { r.2 with
                  JobQueue_ := resetJobCycles r.2.JobQueue_,
                  CycleCnt_ := CyclesRequired jobsBefore })
          else some (0, s0)
        else some (0, s0)
      match skip with
      | none => none
      | some r =>
        if r.1 ≠ 0 then some r
        else
          execRtlLoop fp eval fastTransient fastTransientTest (67 * r.2.JobQueue_.length + 1)
            { r.2 with Tb := { r.2.Tb with clk := 1 } }


/-! ## Fault selection: `FiSetCsim`, `FiResetCsim`, `FiResetRTL` -/

/-- The place `FiSetCsim` stores for `fiCsimPlace::Everywhere` when `rand()`
returns `randNr`.  `RAND_MAX` is the constant of the C library, a non-negative
`int`; the conversions between `int` and `size_t` keep such values. -/
def fiSetCsimPlace (RAND_MAX randNr : Nat) : fiCsimPlace :=
  let FractionRandMax := RAND_MAX / wrap (wrap (2 * Kmma) + 1)
  if randNr < wrap (Kmma * FractionRandMax) then fiCsimPlace.Multipliers
  else if randNr < wrap (wrap (2 * Kmma) * FractionRandMax) then fiCsimPlace.AccAdders
  else if randNr < wrap (wrap (wrap (2 * Kmma) + 1) * FractionRandMax) then
    fiCsimPlace.ColumnAdders
  else fiCsimPlace.Inputs

/-- The last statements of `FiSetCsim`: the draw of the row and the return of
the stored record. -/
def fiSetCsimRow (s : SystolicArraySim) : faultCsim_t × SystolicArraySim :=
  let s1 : SystolicArraySim :=
    { s with
      FaultCsim_ := { s.FaultCsim_ with Row := (s.Rand s.RandPos % Mmma) % 256 },
      RandPos := s.RandPos + 1 }
  (s1.FaultCsim_, s1)

/-- The method `FiSetCsim(place, bits, corruption, mode)`: the returned record
and the state after the call.  The result is `none` when the call divides by
zero (`rand() % totalJobQueueCycles` with an empty queue).  `BitPos` and `Row`
are `uint8_t`. -/
def FiSetCsim (RAND_MAX : Nat) (s : SystolicArraySim) (place : fiCsimPlace) (bits : fiBits)
    (corruption : fiCorruption) (mode : fiMode) : Option (faultCsim_t × SystolicArraySim) :=
  if fiCsimPlace.None = place ∨ fiBits.None = bits ∨ fiCorruption.None = corruption ∨
      fiMode.None = mode then
    some ({}, s)
  else
    let s1 : SystolicArraySim :=
      if fiCsimPlace.Everywhere = place then
        { s with
          FaultCsim_ :=
            { s.FaultCsim_ with Place := fiSetCsimPlace RAND_MAX (s.Rand s.RandPos) },
          RandPos := s.RandPos + 1 }
      else { s with FaultCsim_ := { s.FaultCsim_ with Place := place } }
    let s2 : SystolicArraySim :=
      { s1 with FaultCsim_ := { s1.FaultCsim_ with Corruption := corruption } }
    let totalJobQueueCycles := wrap (s2.JobQueue_.length * Nmma)
    if fiMode.Transient = mode ∧ totalJobQueueCycles = 0 then none
    else
      let s3 : SystolicArraySim :=
        if fiMode.Transient = mode then
          { s2 with
            CycleCnt_ := 0,
            FaultCsimTransCycle_ := s2.Rand s2.RandPos % totalJobQueueCycles,
            RandPos := s2.RandPos + 1 }
        else s2
      let s4 : SystolicArraySim := { s3 with FaultCsim_ := { s3.FaultCsim_ with Mode := mode } }
      match bits with
      | fiBits.None => some ({}, s4)
      | fiBits.Everywhere =>
        some (fiSetCsimRow
          { s4 with
            FaultCsim_ := { s4.FaultCsim_ with BitPos := (s4.Rand s4.RandPos % wrap (8 * 8)) % 256 },
            RandPos := s4.RandPos + 1 })
      | fiBits.Mantissa =>
        some (fiSetCsimRow
          { s4 with
            FaultCsim_ := { s4.FaultCsim_ with BitPos := (s4.Rand s4.RandPos % 52) % 256 },
            RandPos := s4.RandPos + 1 })

def FiResetRTL (s : SystolicArraySim) : Int × SystolicArraySim :=
  if fiMode.None = s.FaultRTL_.Mode then (-1, s)
  else (0, { s with FaultRTL_ := {}, FaultRTLTransCycle_ := SIZE_MAX })

def FiResetCsim (s : SystolicArraySim) : Int × SystolicArraySim :=
  if fiCsimPlace.None = s.FaultCsim_.Place then (-1, s)
  else (0, { s with FaultCsim_ := {}, FaultCsimTransCycle_ := SIZE_MAX })

/-! ## The fault pointer of `ExecCsim` -/

/-- The pointer `colCsimFi` that `ExecCsim` computes in state `s` and passes to
`RowCsim`; `none` is the null pointer. -/
def colCsimFi (s : SystolicArraySim) : Option faultCsim_t :=
  if s.CycleCnt_ = s.FaultCsimTransCycle_ ∨ fiMode.Permanent = s.FaultCsim_.Mode then
    some s.FaultCsim_
  else none

/-- The loop of `ExecCsim` together with the record of its `RowCsim`
invocations: the result of `ExecCsimLoop` and, for every pass through the loop
body in order, the fault pointer passed to `RowCsim`. -/
def ExecCsimCalls (fp : Fpu) (origJobs maxJobs : Nat) :
    Nat → SystolicArraySim → Option ((Int × SystolicArraySim) × List (Option faultCsim_t))
  | 0, _ => none
  | fuel + 1, s =>
    match s.JobQueue_ with
    | [] => some ((0, s), [])
    | e :: _ =>
      if subw origJobs s.JobQueue_.length < maxJobs then
        let r := execCsimBody fp s e
        if r.1 ≠ 0 then some (r, [colCsimFi s])
        else
          match ExecCsimCalls fp origJobs maxJobs fuel r.2 with
          | none => none
          | some (res, calls) => some (res, colCsimFi s :: calls)
      else some ((0, s), [])

/-! ## The 65-bit element type `sNFp64_t` of `helpers` -/

/-- The encoder `elemSet(sNFp64_t * pData, double value)`; `pData` is the
storage of the `VlWide<3>`, 12 bytes. -/
def elemSetNFp64 (pData : List Nat) (value : Nat) : Int × List Nat :=
  let tmpExp := tmpExp65 value
  let signedMantissa := signedMantissa65 value
  let r1 := bitsCopy pData 12 0 (bytesLE signedMantissa 8) 54
  if r1.1 ≠ 0 then (-1, r1.2)
  else
    let r2 := bitsCopy r1.2 12 54 (bytesLE tmpExp 2) 11
    if r2.1 ≠ 0 then (-1, r2.2) else (0, r2.2)

/-! ## The generic 65-bit element access of `helpers` -/

/-- The generic encoder
`elemSet(uint8_t * pData, size_t nData, size_t nBitsElem, size_t pos, double value)`. -/
def elemSet (pData : List Nat) (nData nBitsElem pos value : Nat) : Int × List Nat :=
  if 65 ≠ nBitsElem then (-1, pData)
  else if wrap (nBitsElem * pos) ≥ wrap (8 * nData) then (-1, pData)
  else
    let tmpExp := tmpExp65 value
    let signedMantissa := signedMantissa65 value
    let r1 := bitsCopy pData nData (wrap (pos * nBitsElem)) (bytesLE signedMantissa 8) 54
    if r1.1 ≠ 0 then (-1, r1.2)
    else
      let r2 := bitsCopy r1.2 nData (wrap (wrap (pos * nBitsElem) + 54)) (bytesLE tmpExp 2) 11
      if r2.1 ≠ 0 then (-1, r2.2) else (0, r2.2)

/-- The generic decoder
`elemGet(double * value, const uint8_t * pData, size_t nData, size_t nBitsElem, size_t pos)`:
the return code and the final `*value`. -/
def elemGet (value : Nat) (pData : List Nat) (nData nBitsElem pos : Nat) : Int × Nat :=
  if 65 ≠ nBitsElem then (-1, value)
  else if wrap (nBitsElem * wrap (pos + 1)) ≥ wrap (8 * nData) then (-1, value)
  else
    let bitStart := wrap (pos * nBitsElem)
    let tmpU8 := (List.range 65).foldl (fun t bit =>
      let tmpByte := bit / 8
      let tmpBit := bit % 8
      let dataByte := wrap (bitStart + bit) / 8
      let dataBit := wrap (bitStart + bit) % 8
      if pData.getD dataByte 0 &&& (1 <<< dataBit) ≠ 0 then
        t.set tmpByte (t.getD tmpByte 0 ||| (1 <<< tmpBit))
      else t) (List.replicate 12 0)
    (0, toDouble tmpU8)

/-! ## The 20-bit and 33-bit element types of `helpers` -/

/-- The conversions between `double` and `float` of the host where the value is
not carried over exactly: `narrow` converts a double that is no normal binary32
value, `widen` converts a float that is not normal. -/
structure hostCvt where
  narrow : Nat → Nat
  widen : Nat → Nat

/-- The pattern of `(float) value`. A double that is a normal binary32 value
(exponent field 897..1150, low 29 fraction bits zero) is converted exactly. -/
def floatOfDouble (cv : hostCvt) (value : Nat) : Nat :=
  let e := value / 2 ^ 52 % 2 ^ 11
  if 897 ≤ e ∧ e ≤ 1150 ∧ value % 2 ^ 29 = 0 then
    value / 2 ^ 63 % 2 * 2 ^ 31 + (e - 896) * 2 ^ 23 + value % 2 ^ 52 / 2 ^ 29
  else cv.narrow value % 2 ^ 32

/-- The pattern of the double a `float` is converted to on `return uflt.flt`;
a normal float (exponent field 1..254) is converted exactly. -/
def doubleOfFloat (cv : hostCvt) (u : Nat) : Nat :=
  let e := u / 2 ^ 23 % 2 ^ 8
  if 1 ≤ e ∧ e ≤ 254 then u / 2 ^ 31 % 2 * 2 ^ 63 + (e + 896) * 2 ^ 52 + u % 2 ^ 23 * 2 ^ 29
  else cv.widen u % 2 ^ 64

/-- Truncation to 32 bits. -/
def wrap32 (x : Nat) : Nat := x % 2 ^ 32

/-- The pattern of `-x` for an `int32_t` carried as its 32-bit pattern. -/
def neg32 (x : Nat) : Nat := (2 ^ 32 - x % 2 ^ 32) % 2 ^ 32

/-- The 64-bit pattern an `int32_t` is converted to in an expression with an
`unsigned long long` operand. -/
def sext32 (x : Nat) : Nat := if x < 2 ^ 31 then x else x + (2 ^ 64 - 2 ^ 32)

/-- The 64-bit word of a little-endian storage of 8 bytes. -/
def word64 (bytes : List Nat) : Nat := word32 bytes 0 + 2 ^ 32 * word32 bytes 1

/-- The word `tmp` that `elemSet(sNFp16_t * pData, double value)` assembles. -/
def tmpNFp16 (cv : hostCvt) (value : Nat) : Nat :=
  let u32 := floatOfDouble cv value
  let tmp0 := wrap32 (wrap32 ((u32 >>> 23) &&& BIT_MASK 8) <<< 12)
  let m0 := wrap32 ((u32 >>> 13) &&& BIT_MASK 10)
  let m1 := if isnormal value then m0 ||| (1 <<< 10) else m0
  let m2 := if u32 &&& wrap32 (1 <<< 31) ≠ 0 then neg32 m1 else m1
  wrap32 (tmp0 ||| (sext32 m2 &&& BIT_MASK 12))

/-- The encoder `elemSet(sNFp16_t * pData, double value)`; `pData` is the storage
of the `IData`, 4 bytes. -/
def elemSetNFp16 (cv : hostCvt) (pData : List Nat) (value : Nat) : Int × List Nat :=
  let r := bitsCopy pData 4 0 (bytesLE (tmpNFp16 cv value) 4) 20
  if r.1 ≠ 0 then (-1, r.2) else (0, r.2)

/-- The word `tmp` that `elemSet(sNFp32_t * pData, double value)` assembles. -/
def tmpNFp32 (cv : hostCvt) (value : Nat) : Nat :=
  let u32 := floatOfDouble cv value
  let tmp0 := wrap (((u32 >>> 23) &&& BIT_MASK 8) <<< 25)
  let m0 := wrap32 (u32 &&& BIT_MASK 23)
  let m1 := if isnormal value then m0 ||| (1 <<< 23) else m0
  let m2 := if u32 &&& wrap32 (1 <<< 31) ≠ 0 then neg32 m1 else m1
  tmp0 ||| (sext32 m2 &&& BIT_MASK 25)

/-- The encoder `elemSet(sNFp32_t * pData, double value)`; `pData` is the storage
of the `QData`, 8 bytes. -/
def elemSetNFp32 (cv : hostCvt) (pData : List Nat) (value : Nat) : Int × List Nat :=
  let r := bitsCopy pData 8 0 (bytesLE (tmpNFp32 cv value) 8) 33
  if r.1 ≠ 0 then (-1, r.2) else (0, r.2)

/-- The decoder `toDouble(const sNFp32_t &)`; `data` is the value of the `QData`. -/
def toDoubleNFp32 (cv : hostCvt) (data : Nat) : Nat :=
  let sm0 := wrap32 (data &&& BIT_MASK 25)
  let isNeg := sm0 &&& (1 <<< 24) ≠ 0
  let signedMant := if isNeg then neg32 (sm0 ||| 0xFE000000) else sm0
  let u0 : Nat := if isNeg then 1 else 0
  let u1 := wrap32 (u0 <<< 8)
  let u2 := wrap32 (u1 ||| ((data >>> 25) &&& BIT_MASK 8))
  let u3 := wrap32 (u2 <<< 23)
  let u4 := wrap32 (u3 ||| (sext32 signedMant &&& BIT_MASK 23))
  doubleOfFloat cv u4

/-- The decoder `toDouble(const sNFp16_t &)`; `data` is the value of the `IData`. -/
def toDoubleNFp16 (cv : hostCvt) (data : Nat) : Nat :=
  let sm0 := wrap32 (data &&& BIT_MASK 12)
  let isNeg := sm0 &&& (1 <<< 11) ≠ 0
  let signedMant := if isNeg then neg32 (sm0 ||| 0xFFFFF000) else sm0
  let u0 : Nat := if isNeg then 1 else 0
  let u1 := wrap32 (u0 <<< 8)
  let u2 := wrap32 (u1 ||| ((data >>> 12) &&& BIT_MASK 8))
  let u3 := wrap32 (u2 <<< 23)
  let u4 := wrap32 (u3 ||| (sext32 signedMant &&& BIT_MASK 23))
  doubleOfFloat cv u4

/-! ## `ErrorDetected`, `randomBits` and `FiSetRTL` -/

/-- The method `ErrorDetected()`. -/
def ErrorDetected (s : SystolicArraySim) : Bool := s.DieError_

/-- The function `randomBits()` of `helpers`: byte `byte` of the result is the
draw number `byte` of `rand()` truncated to `uint8_t`; the result is the value
and the position of the draw sequence after the call. -/
def randomBits (rand : Nat → Nat) (randPos : Nat) : Nat × Nat :=
  ((List.range 8).foldl (fun out byte => out + rand (randPos + byte) % 256 * 256 ^ byte) 0,
    randPos + 8)

/-- What a call of `NetlistFaultInjector::RandomFiGet` leaves behind: the return
code, the values of the three output arguments and the number of draws of
`rand()` it has made.  The injector is not part of the sources. -/
structure randomFiGet_t where
  rc : Int
  ModuleInstanceChain : List Nat
  AssignUUID : Nat
  fiSignalWidth : Nat
  draws : Nat

/-- The method `FiSetRTL(mode)` of the netlist build; `RandomFiGet` gives the
outcome of `netlistFaultInjector->RandomFiGet(...)` in the state of the call.
The result is `none` when the call divides by zero (`randomBits() % 0` for a
signal of width 0).  `BitPos` is `uint16_t`. -/
def FiSetRTL (RandomFiGet : SystolicArraySim → randomFiGet_t) (s : SystolicArraySim)
    (mode : fiMode) : Option (faultRTL_t × SystolicArraySim) :=
  if fiMode.None = mode then some ({}, s)
  else
    let g := RandomFiGet s
    let s1 : SystolicArraySim :=
      { s with
        FaultRTL_ :=
          { s.FaultRTL_ with ModuleInstanceChain := g.ModuleInstanceChain,
                             AssignUUID := g.AssignUUID },
        RandPos := s.RandPos + g.draws }
    if g.rc ≠ 0 then some ({}, s1)
    else if g.fiSignalWidth = 0 then none
    else
      let b := randomBits s1.Rand s1.RandPos
      let s2 : SystolicArraySim :=
        { s1 with
          FaultRTL_ := { s1.FaultRTL_ with BitPos := b.1 % g.fiSignalWidth % 65536 },
          RandPos := b.2 }
      if fiMode.Transient = mode then
        let s3 : SystolicArraySim := { s2 with CycleCnt_ := 0 }
        let cyclesRequired := CyclesRequired s3.JobQueue_.length
        if 0 = cyclesRequired then some ({}, s3)
        else
          let t := randomBits s3.Rand s3.RandPos
          let s4 : SystolicArraySim :=
            { s3 with FaultRTLTransCycle_ := t.1 % cyclesRequired, RandPos := t.2 }
          let s5 : SystolicArraySim := { s4 with FaultRTL_ := { s4.FaultRTL_ with Mode := mode } }
          some (s5.FaultRTL_, s5)
      else
        let s5 : SystolicArraySim := { s2 with FaultRTL_ := { s2.FaultRTL_ with Mode := mode } }
        some (s5.FaultRTL_, s5)

/-! ## The non-netlist variant of `setValue` -/

/-- The non-netlist variant `setValue(VlWide<3> * out, outIndex, in)`; `out` is
the array of the 12-byte storages of the elements, and the call writes the
element `out[outIndex]`. -/
def setValueWide (out : List (List Nat)) (outIndex : Nat) (input : Nat) :
    Int × List (List Nat) :=
  let tmpExp := tmpExp65 input
  let signedMantissa := signedMantissa65 input
  let r1 := bitsCopy (out.getD outIndex []) 12 0 (bytesLE signedMantissa 8) 54
  if r1.1 ≠ 0 then (-1, out.set outIndex r1.2)
  else
    let r2 := bitsCopy r1.2 12 54 (bytesLE tmpExp 2) 11
    if r2.1 ≠ 0 then (-1, out.set outIndex r2.2) else (0, out.set outIndex r2.2)

/-! ## The fast-transient skip count of `ExecRtl` -/

/-- The local constant `jobsBefore` of `ExecRtl` as a function of the transient
fault cycle: `FaultRTLTransCycle_ > JobCycleDone_ ?
JobsDoneInCycles(FaultRTLTransCycle_ - JobCycleDone_) : 0`. -/
def jobsBefore (faultCycle : Nat) : Nat :=
  if faultCycle > JobCycleDone_ then JobsDoneInCycles (subw faultCycle JobCycleDone_) else 0

/-! ## Specification-side definitions -/

/-- A freshly dispatched queue entry. -/
def fresh (job : job_t) : queueEntry_t := { JobCycle := 0, Job := job }

/-- The single-MMA job of block row `r` and block column `c` of a larger job. -/
def subJob (job : job_t) (r c : Nat) : job_t :=
  { MatA := job.MatA + wrap (8 * r * job.StrideA), StrideA := job.StrideA,
    MatB := job.MatB + 8 * c, StrideB := job.StrideB,
    MatC := job.MatC + wrap (8 * r * job.StrideC) + 8 * c, StrideC := job.StrideC }

/-- The queue entry `DispatchMma(job, mCnt, nCnt)` is to create for the MMA in
block row `r` and block column `c`. -/
def fanOutEntry (job : job_t) (r c : Nat) : queueEntry_t := fresh (subJob job r c)

/-- Modelled from the spec: a test bench of the netlist build right after
construction (the Verilated class is not among the sources), with ports for
`Mmma * Kmma`, `Kmma` and `Mmma` elements of 65 bits stored in 32-bit words. -/
def tbInit : testBench_t :=
  { clk := 0, multLeft := List.replicate 520 0, multRight := List.replicate 68 0,
    acc := List.replicate 68 0, out := List.replicate 68 0, error := false,
    GlobalFiModInstNr := List.replicate 8 0, GlobalFiNumber := 0,
    GlobalFiSignal := List.replicate 4 0, rtl := 0 }

/-- The entries the claim lists, row-major: all columns of a block row before
the next block row. -/
def fanOut (job : job_t) (mCnt nCnt : Nat) : List queueEntry_t :=
  (List.range mCnt).flatMap fun r => (List.range nCnt).map fun c => fanOutEntry job r c

/-- A freshly constructed simulator in a process with the given heap and
sequence of draws. -/
def simInit (heap : heap_t) (rand : Nat → Nat) : SystolicArraySim :=
  { CycleCnt_ := 0, DieError_ := false, Tb := tbInit, JobQueue_ := [],
    FaultCsim_ := {}, FaultCsimTransCycle_ := SIZE_MAX,
    FaultRTL_ := {}, FaultRTLTransCycle_ := SIZE_MAX,
    Heap := heap, Rand := rand, RandPos := 0 }

/-- The wide ports of the test bench hold the elements `IoSet` addresses:
`Kmma` elements per simulated row on the left port, `Kmma` on the right port
and one per simulated row on the accumulator port, of 65 bits each. -/
def portsFit (tb : testBench_t) : Prop :=
  8 * tb.out.length < SIZE ∧
  65 * (tb.out.length * 8 / 65) ≤ tb.multLeft.length ∧ 8 * tb.multLeft.length < SIZE ∧
  65 ≤ tb.multRight.length ∧ 8 * tb.multRight.length < SIZE ∧
  65 * (tb.out.length * 8 / 65) ≤ 8 * tb.acc.length ∧ 8 * tb.acc.length < SIZE

/-- The queue of the jobs `js` whose front entry is at job cycle `t` and in
which every entry is `JobCyclePassedFirstStage_ + 1` cycles behind the one
before it, entries that have not started being at job cycle 0. -/
def sched (t : Nat) : List job_t → List queueEntry_t
  | [] => []
  | j :: rest => { JobCycle := t, Job := j } :: sched (t - (JobCyclePassedFirstStage_ + 1)) rest

/-- The result of `n` successive calls of `IoSet`, the test bench being evaluated
by `eval` after each call as in the main loop of `ExecRtl`; `none` when one of
the calls returns an error. -/
def ioSetIter (fp : Fpu) (eval : testBench_t → testBench_t) :
    Nat → SystolicArraySim → Option SystolicArraySim
  | 0, s => some s
  | n + 1, s =>
    let r := IoSet fp s true
    if r.1 ≠ 0 then none else ioSetIter fp eval n { r.2 with Tb := eval r.2.Tb }

/-- Number of jobs of a fresh queue that have retired after `n` calls of `IoSet`. -/
def retiredAfter (n : Nat) : Nat :=
  if n ≤ JobCycleDone_ then 0 else (n - (JobCycleDone_ + 1)) / (JobCyclePassedFirstStage_ + 1) + 1

/-- The reference value of the claim for one output element of a job: the
products `MatA[row, k] * MatB[k, col]` added to `MatC[row, col]` for
`k = 0, 1, ..., Kmma - 1` in this order, all operands read from the heap `h`. -/
def refCell (fp : Fpu) (h : heap_t) (job : job_t) (row col : Nat) : Nat :=
  (List.range Kmma).foldl (fun acc k =>
    fp.add acc (fp.mul (h.read (job.cellA row k)) (h.read (job.cellB k col))))
    (h.read (job.cellC row col))

/-- The output block of a job consists of `Mmma * Nmma` distinct cells. -/
def job_t.outDistinct (job : job_t) : Prop :=
  ∀ r c r' c', r < 8 → c < 8 → r' < 8 → c' < 8 →
    job.cellC r c = job.cellC r' c' → r = r' ∧ c = c'

/-- No input cell of `j1` is an output cell of `j2`. -/
def job_t.inputsApart (j1 j2 : job_t) : Prop :=
  ∀ r k c r' c', r < 8 → k < 8 → c < 8 → r' < 8 → c' < 8 →
    j1.cellA r k ≠ j2.cellC r' c' ∧ j1.cellB k c ≠ j2.cellC r' c'

/-- No output cell of `j1` is an output cell of `j2`. -/
def job_t.outputsApart (j1 j2 : job_t) : Prop :=
  ∀ r c r' c', r < 8 → c < 8 → r' < 8 → c' < 8 → j1.cellC r c ≠ j2.cellC r' c'

/-- The members `ExecCsim` leaves alone. -/
def csimKeeps (s s' : SystolicArraySim) : Prop :=
  s'.FaultCsim_ = s.FaultCsim_ ∧ s'.FaultCsimTransCycle_ = s.FaultCsimTransCycle_ ∧
  s'.FaultRTL_ = s.FaultRTL_ ∧ s'.FaultRTLTransCycle_ = s.FaultRTLTransCycle_ ∧
  s'.Tb = s.Tb ∧ s'.DieError_ = s.DieError_

/-- The buffers of an `mCnt x nCnt` job exist in the 64-bit address space and
its strides are at least the row lengths. -/
def job_t.fits (job : job_t) (mCnt nCnt : Nat) : Prop :=
  8 ≤ job.StrideA ∧ 8 * nCnt ≤ job.StrideB ∧ 8 * nCnt ≤ job.StrideC ∧
  8 * (mCnt * job.StrideA) ≤ SIZE ∧ 8 * job.StrideB ≤ SIZE ∧ 8 * (mCnt * job.StrideC) ≤ SIZE

/-- The single-MMA jobs of an `mCnt x nCnt` job in row-major order. -/
def fanJobs (job : job_t) (mCnt nCnt : Nat) : List job_t :=
  (List.range (mCnt * nCnt)).map fun t => subJob job (t / nCnt) (t % nCnt)

/-- The reference value of element `(i, j)` of the result of a job: starting
from `C[i, j]`, the products `A[i, k] * B[k, j]` are added for `k = 0 .. 7` in
ascending order, all operands read from the heap `h`. -/
def refMma (fp : Fpu) (h : heap_t) (job : job_t) (i j : Nat) : Nat :=
  (List.range 8).foldl (fun acc k =>
    fp.add acc (fp.mul (h.read (job.MatA + i * job.StrideA + k))
      (h.read (job.MatB + k * job.StrideB + j))))
    (h.read (job.MatC + i * job.StrideC + j))

/-- A stand-in for the host arithmetic, used in the examples. -/
def exampleFpu : Fpu :=
  { add := fun a b => (a + b) % SIZE, mul := fun a b => (a * b) % SIZE }

/-- A heap used in the examples. -/
def exampleHeap : heap_t := { read := fun a => a % 7 }

/-- A job used in the examples: `A` at 1000 with stride 8, `B` at 2000 and `C`
at 3000 with stride 16. -/
def exampleJob : job_t :=
  { MatA := 1000, StrideA := 8, MatB := 2000, StrideB := 16, MatC := 3000, StrideC := 16 }

/-- A freshly constructed simulator used in the examples. -/
def exampleSim : SystolicArraySim := simInit exampleHeap fun _ => 0


/-- What `RowCsim` accumulates when it is passed a fault record and draws the
index `kFi`: the steps `k ≠ kFi` add `a[k] * b[k]`, the step `k = kFi` assigns
nothing to `*out`. -/
def rowCsimFaulted (fp : Fpu) (out : Nat) (a b : List Nat) (kFi : Nat) : Nat :=
  (List.range Kmma).foldl (fun acc k =>
    if k = kFi then acc else fp.add acc (fp.mul (a.getD k 0) (b.getD k 0))) out

/-- The fault-free row sum `out + a[0] * b[0] + ... + a[7] * b[7]`, added in
this order. -/
def specRowSum (fp : Fpu) (out : Nat) (a b : List Nat) : Nat :=
  (List.range 8).foldl (fun acc k => fp.add acc (fp.mul (a.getD k 0) (b.getD k 0))) out

/-- The specified result for a fault in the multipliers: the product of step
`kFi`, computed from the uncorrupted inputs, is corrupted before it is added. -/
def specRowMultipliers (fp : Fpu) (fi : faultCsim_t) (out : Nat) (a b : List Nat)
    (kFi : Nat) : Nat :=
  (List.range 8).foldl (fun acc k =>
    if k = kFi then
      fp.add acc (corrupt (fp.mul (a.getD k 0) (b.getD k 0)) fi.Corruption fi.BitPos)
    else fp.add acc (fp.mul (a.getD k 0) (b.getD k 0))) out

/-- The specified result for a fault in the column adder: the full fault-free
sum is corrupted. -/
def specRowColumnAdders (fp : Fpu) (fi : faultCsim_t) (out : Nat) (a b : List Nat) : Nat :=
  corrupt (specRowSum fp out a b) fi.Corruption fi.BitPos

/-- The specified result for a fault in the inputs: at step `kFi` the operand
selected by `sel` (0: the accumulator, 1: `a[kFi]`, otherwise `b[kFi]`) is
corrupted before the multiply-add `accIn + aIn * bIn`, whose result is stored. -/
def specRowInputs (fp : Fpu) (fi : faultCsim_t) (out : Nat) (a b : List Nat)
    (kFi sel : Nat) : Nat :=
  (List.range 8).foldl (fun acc k =>
    if k = kFi then
      let accIn := if sel = 0 then corrupt acc fi.Corruption fi.BitPos else acc
      let aIn := if sel = 1 then corrupt (a.getD k 0) fi.Corruption fi.BitPos else a.getD k 0
      let bIn :=
        if sel ≠ 0 ∧ sel ≠ 1 then corrupt (b.getD k 0) fi.Corruption fi.BitPos else b.getD k 0
      fp.add accIn (fp.mul aIn bIn)
    else fp.add acc (fp.mul (a.getD k 0) (b.getD k 0))) out

/-- The specified result for a fault in the accumulator adders: the partial sum
of step `kFi` is corrupted. -/
def specRowAccAdders (fp : Fpu) (fi : faultCsim_t) (out : Nat) (a b : List Nat)
    (kFi : Nat) : Nat :=
  (List.range 8).foldl (fun acc k =>
    if k = kFi then
      corrupt (fp.add acc (fp.mul (a.getD k 0) (b.getD k 0))) fi.Corruption fi.BitPos
    else fp.add acc (fp.mul (a.getD k 0) (b.getD k 0))) out

/-- The pattern of the double `1.0`. -/
def ONE : Nat := 0x3FF0000000000000

/-- The pattern of the double next above `1.0`, that is `1.0` with bit 0 flipped. -/
def ONE_ULP : Nat := 0x3FF0000000000001

/-- The vector `(1.0, 0, 0, 0, 0, 0, 0, 0)` of the examples. -/
def unitRow : List Nat := [ONE, 0, 0, 0, 0, 0, 0, 0]

/-- A fault record of the examples: flip bit 0 at `place`. -/
def flipBit0 (place : fiCsimPlace) : faultCsim_t :=
  { Place := place, Corruption := fiCorruption.Flip, Mode := fiMode.Transient, BitPos := 0,
    Row := 0 }

/-- A host arithmetic for the examples which agrees with IEEE-754 binary64 on
the operands used there: `0.0 + x = x + 0.0 = x`, `1.0 * x = x * 1.0 = x`,
`0.0 * 0.0 = 0.0` and `4.9e-324 + 1.0 = 1.0`. -/
def unitFpu : Fpu :=
  { add := fun x y => if x = 0 then y else if y = 0 then x else if x = 1 ∧ y = ONE then ONE
      else (x + y) % SIZE,
    mul := fun x y => if x = ONE then y else if y = ONE then x else (x * y) % SIZE }

/-- A simulator of the examples with a transient fault set. -/
def exampleFaultSim : SystolicArraySim :=
  { exampleSim with FaultCsim_ := flipBit0 fiCsimPlace.Multipliers, FaultCsimTransCycle_ := 5 }

/-- A simulator of the examples with one freshly dispatched job. -/
def exampleJobSim : SystolicArraySim := { exampleSim with JobQueue_ := [fresh exampleJob] }

/-- Bit `i` of a little-endian byte storage (bit `i % 8` of byte `i / 8`). -/
def bitAt (d : List Nat) (i : Nat) : Bool := (d.getD (i / 8) 0).testBit (i % 8)

/-- Every element of the storage is a byte. -/
def isBytes (d : List Nat) : Prop := ∀ b ∈ d, b < 256

/-- The double `toDouble` assembles from the 54-bit field `sm0` and the 11-bit
field `exp` it has read from the storage. -/
def decode65 (sm0 exp : Nat) : Nat :=
  let isNeg := sm0 &&& wrap (1 <<< 53) ≠ 0
  let signedMant := if isNeg then subw 0 (sm0 ||| 0xFFC0000000000000) else sm0
  let u0 : Nat := if isNeg then 1 else 0
  let u1 := wrap (u0 <<< 11) ||| exp
  wrap (u1 <<< 52) ||| (signedMant &&& BIT_MASK 52)

/-- The 54-bit field the format prescribes for the double `x`: the magnitude
`m` is the fraction, plus `2 ^ 52` iff `x` is normal, and the field is `m`, or
the two's complement of `m` on 54 bits iff the sign bit is set. -/
def specMantissa54 (x : Nat) : Nat :=
  let e := x / 2 ^ 52 % 2 ^ 11
  let m := x % 2 ^ 52 + (if 1 ≤ e ∧ e ≤ 2046 then 2 ^ 52 else 0)
  if x / 2 ^ 63 = 1 then (2 ^ 54 - m) % 2 ^ 54 else m

/-- A buffer of `2 ^ 61` zero bytes, which spans the bits `0 .. 2 ^ 64 - 1`. -/
def hugeBuffer : List Nat := List.replicate (2 ^ 61) 0

/-- The double `x` is a normal binary32 value. -/
def isFloatValue (x : Nat) : Prop :=
  x < 2 ^ 64 ∧ 897 ≤ x / 2 ^ 52 % 2 ^ 11 ∧ x / 2 ^ 52 % 2 ^ 11 ≤ 1150 ∧ x % 2 ^ 29 = 0

/-- The 25-bit two's-complement signed mantissa, with leading 1, of a normal
binary32 value. -/
def specMantissa25 (x : Nat) : Nat :=
  let m := 2 ^ 23 + x % 2 ^ 52 / 2 ^ 29
  if x / 2 ^ 63 = 1 then 2 ^ 25 - m else m

/-- The 33-bit word of a normal binary32 value: mantissa in bits 0..24, biased
exponent in bits 25..32. -/
def specWord33 (x : Nat) : Nat := (x / 2 ^ 52 % 2 ^ 11 - 896) * 2 ^ 25 + specMantissa25 x

/-- The 12-bit two's-complement signed mantissa, with leading 1, of a normal
binary32 value with 10 significant fraction bits. -/
def specMantissa12 (x : Nat) : Nat :=
  let m := 2 ^ 10 + x % 2 ^ 52 / 2 ^ 42
  if x / 2 ^ 63 = 1 then 2 ^ 12 - m else m

/-- The 20-bit word of such a value. -/
def specWord20 (x : Nat) : Nat := (x / 2 ^ 52 % 2 ^ 11 - 896) * 2 ^ 12 + specMantissa12 x

/-- A host whose inexact conversions all give zero. -/
def zeroCvt : hostCvt := { narrow := fun _ => 0, widen := fun _ => 0 }

/-- The pattern of the double `-1.5`. -/
def MINUS_ONE_HALF : Nat := 0xBFF8000000000000

/-- The pairs `(k, n)` for which the loop over `n` of the right matrix input of
`IoSet` calls `setValue` at the job cycle `c`, in the order of the calls. -/
def ioSetRightCalls (c : Nat) : List (Nat × Nat) :=
  (List.range (min (wrap (c / 2 + 1)) Nmma)).filterMap fun n =>
    (ioPhaseK (subw c (wrap (2 * n)))).map fun k => (k, n)

/-- The call `setValue(Tb->multRight, ..., k, MatB[k * StrideB + n])` of `IoSet`. -/
def ioSetRightCall (job : job_t) (p : Nat × Nat) (st : ioState) : Int × ioState :=
  let r := setValue st.Tb.multRight st.Tb.multRight.length 65 p.1
    (st.Heap.read (job.cellB p.1 p.2))
  (if r.1 ≠ 0 then -1 else 0, { st with Tb := { st.Tb with multRight := r.2 } })

/-- The port and heap state of the examples. -/
def exampleIoState : ioState := { Tb := tbInit, Heap := exampleHeap }

/-- The number of passes through the loop body of `ExecCsim` after which a front
entry at job cycle `c` has left the queue. -/
def csimNeed (c : Nat) : Nat := if wrap (c + 1) ≥ 8 then 1 else 9 - wrap (c + 1)

/-- The number of passes through the loop body of `ExecCsim` that empty a queue. -/
def csimCost (q : List queueEntry_t) : Nat := (q.map fun e => csimNeed e.JobCycle).sum

/-- A number of passes through the main loop of `ExecRtl` after which a queue
is empty or `IoSet` has failed. -/
def rtlBudget : List queueEntry_t → Nat
  | [] => 0
  | e :: rest => max 1 (67 - e.JobCycle) + 67 * rest.length

/-- The main loop of `ExecRtl` together with the values of the `error` output of
the netlist after each `Tb->eval()`, in the order of the evaluations. -/
def execRtlLoopErrs (fp : Fpu) (eval : testBench_t → testBench_t)
    (fastTransient fastTransientTest : Bool) :
    Nat → SystolicArraySim → Option ((Int × SystolicArraySim) × List Bool)
  | 0, _ => none
  | fuel + 1, s =>
    match s.JobQueue_ with
    | [] => some ((0, s), [])
    | _ :: _ =>
      let s1 := { s with Tb := { s.Tb with clk := if s.Tb.clk ≠ 0 then 0 else 1 } }
      let r := IoSet fp s1 (decide (s1.Tb.clk ≠ 0))
      if r.1 ≠ 0 then some ((-1, r.2), [])
      else
        let s2 := r.2
        let fiR : Int × testBench_t :=
          if fiMode.Transient = s2.FaultRTL_.Mode then
            if s2.CycleCnt_ = s2.FaultRTLTransCycle_ then
              if !fastTransientTest then
                FiRtlApply s2.Tb s2.FaultRTL_.ModuleInstanceChain s2.FaultRTL_.AssignUUID
                  s2.FaultRTL_.BitPos
              else (0, s2.Tb)
            else FiRtlReset s2.Tb
          else (0, s2.Tb)
        if fiR.1 ≠ 0 then some ((-1, { s2 with Tb := fiR.2 }), [])
        else
          let tb3 := eval fiR.2
          let s3 := { s2 with
            Tb := tb3, CycleCnt_ := wrap (s2.CycleCnt_ + 1),
            DieError_ := if tb3.error then true else s2.DieError_ }
          let cont : Option ((Int × SystolicArraySim) × List Bool) :=
            if decide (fiMode.Transient = s3.FaultRTL_.Mode) && fastTransient then
              match s3.JobQueue_ with
              | front :: _ =>
                if s3.CycleCnt_ > wrap (wrap (s3.FaultRTLTransCycle_ + JobCycleDone_) + 1) ∧
                    front.JobCycle < JobCycleOutputStart_ then
                  (ExecCsim fp { s3 with JobQueue_ := resetJobCycles s3.JobQueue_ } SIZE_MAX).map
                    fun x => (x, [])
                else execRtlLoopErrs fp eval fastTransient fastTransientTest fuel s3
              | [] => execRtlLoopErrs fp eval fastTransient fastTransientTest fuel s3
            else execRtlLoopErrs fp eval fastTransient fastTransientTest fuel s3
          cont.map fun x => (x.1, tb3.error :: x.2)

/-- The method `ExecRtl` together with the values of the `error` output of the
netlist after each `Tb->eval()` of the call. -/
def ExecRtlErrs (fp : Fpu) (eval : testBench_t → testBench_t) (s : SystolicArraySim)
    (fastTransient fastTransientTest : Bool) :
    Option ((Int × SystolicArraySim) × List Bool) :=
  if JobQueueReadBeforeWrite s.JobQueue_ then some ((-1, s), [])
  else
    let r0 :=
      if fiMode.Permanent = s.FaultRTL_.Mode then
        FiRtlApply s.Tb s.FaultRTL_.ModuleInstanceChain s.FaultRTL_.AssignUUID s.FaultRTL_.BitPos
      else FiRtlReset s.Tb
    let s0 := { s with Tb := r0.2 }
    if r0.1 ≠ 0 then some ((-1, s0), [])
    else
      let skip : Option (Int × SystolicArraySim) :=
        if decide (fiMode.Transient = s0.FaultRTL_.Mode) && fastTransient then
          let jobsBefore :=
            if s0.FaultRTLTransCycle_ > JobCycleDone_ then
              JobsDoneInCycles (subw s0.FaultRTLTransCycle_ JobCycleDone_)
            else 0
          if jobsBefore ≠ 0 then
            match ExecCsim fp s0 jobsBefore with
            | none => none
            | some r =>
              if r.1 ≠ 0 then some (-1, r.2)
              else
                some (0, { r.2 with
                  JobQueue_ := resetJobCycles r.2.JobQueue_,
                  CycleCnt_ := CyclesRequired jobsBefore })
          else some (0, s0)
        else some (0, s0)
      match skip with
      | none => none
      | some r =>
        if r.1 ≠ 0 then some (r, [])
        else
          execRtlLoopErrs fp eval fastTransient fastTransientTest (67 * r.2.JobQueue_.length + 1)
            { r.2 with Tb := { r.2.Tb with clk := 1 } }

/-- The netlist of the examples: it raises `error` when the clock is low. -/
def exampleEval (tb : testBench_t) : testBench_t := { tb with error := decide (tb.clk = 0) }

/-- A buffer of seven zero bytes: room for the mantissa field of the element at
position 0, not for its exponent field. -/
def sevenBytes : List Nat := List.replicate 7 0

/-- A buffer of 65 zero bytes: exactly eight elements of 65 bits. -/
def portBytes : List Nat := List.replicate 65 0

/-- The body of the bit loop of `elemGet` and `getValue`: bit `bit` of the
temporary word is set when bit `bitStart + bit` of the buffer is. -/
def gatherBit (pData : List Nat) (bitStart : Nat) (t : List Nat) (bit : Nat) : List Nat :=
  if pData.getD (wrap (bitStart + bit) / 8) 0 &&& (1 <<< (wrap (bitStart + bit) % 8)) ≠ 0 then
    t.set (bit / 8) (t.getD (bit / 8) 0 ||| (1 <<< (bit % 8)))
  else t

/-- The pattern of the double `-0.0`. -/
def NEG_ZERO : Nat := 0x8000000000000000

/-- The pattern of the double `+infinity`. -/
def POS_INF : Nat := 0x7FF0000000000000

/-- The pattern of the double `-infinity`. -/
def NEG_INF : Nat := 0xFFF0000000000000

/-- The entries `IoSet` services in its call number `n` (counted from 0) of a
run that started from a queue of the freshly dispatched jobs `js`. -/
def inFlightAt (js : List job_t) (n : Nat) : List queueEntry_t :=
  concurrentJobs (sched (n - 18 * retiredAfter n) (js.drop (retiredAfter n)))

/-- Job number `k` of the example queues; the buffers of different jobs are
disjoint. -/
def exampleJobNr (k : Nat) : job_t :=
  { MatA := 10000 * (k + 1) + 1000, StrideA := 8, MatB := 10000 * (k + 1) + 2000,
    StrideB := 16, MatC := 10000 * (k + 1) + 3000, StrideC := 16 }

/-- Five jobs with pairwise different buffers. -/
def exampleJobs : List job_t := (List.range 5).map exampleJobNr

/-- The example simulator after the five jobs of `exampleJobs` were dispatched. -/
def exampleJobsSim : SystolicArraySim := { exampleSim with JobQueue_ := exampleJobs.map fresh }

/-- Five jobs that accumulate into four output blocks, the block of the first
job recurring in the fifth, as in the K loop of `MultiMmaTest`. -/
def exampleAccJobs : List job_t :=
  (List.range 5).map fun k => { exampleJobNr k with MatC := (exampleJobNr (k % 4)).MatC }

/-- The example simulator after the five jobs of `exampleAccJobs` were dispatched. -/
def exampleAccSim : SystolicArraySim := { exampleSim with JobQueue_ := exampleAccJobs.map fresh }

/-- The main loop of `ExecRtl` together with, for every pass through the loop
body, the value of `CycleCnt_` at the start of the pass and the entries `IoSet`
services in the pass, in the order of the passes. -/
def execRtlLoopTrace (fp : Fpu) (eval : testBench_t → testBench_t)
    (fastTransient fastTransientTest : Bool) :
    Nat → SystolicArraySim →
      Option ((Int × SystolicArraySim) × List (Nat × List queueEntry_t))
  | 0, _ => none
  | fuel + 1, s =>
    match s.JobQueue_ with
    | [] => some ((0, s), [])
    | _ :: _ =>
      let s1 := { s with Tb := { s.Tb with clk := if s.Tb.clk ≠ 0 then 0 else 1 } }
      let r := IoSet fp s1 (decide (s1.Tb.clk ≠ 0))
      if r.1 ≠ 0 then some ((-1, r.2), [(s.CycleCnt_, concurrentJobs s.JobQueue_)])
      else
        let s2 := r.2
        let fiR : Int × testBench_t :=
          if fiMode.Transient = s2.FaultRTL_.Mode then
            if s2.CycleCnt_ = s2.FaultRTLTransCycle_ then
              if !fastTransientTest then
                FiRtlApply s2.Tb s2.FaultRTL_.ModuleInstanceChain s2.FaultRTL_.AssignUUID
                  s2.FaultRTL_.BitPos
              else (0, s2.Tb)
            else FiRtlReset s2.Tb
          else (0, s2.Tb)
        if fiR.1 ≠ 0 then
          some ((-1, { s2 with Tb := fiR.2 }), [(s.CycleCnt_, concurrentJobs s.JobQueue_)])
        else
          let tb3 := eval fiR.2
          let s3 := { s2 with
            Tb := tb3, CycleCnt_ := wrap (s2.CycleCnt_ + 1),
            DieError_ := if tb3.error then true else s2.DieError_ }
          let cont : Option ((Int × SystolicArraySim) × List (Nat × List queueEntry_t)) :=
            if decide (fiMode.Transient = s3.FaultRTL_.Mode) && fastTransient then
              match s3.JobQueue_ with
              | front :: _ =>
                if s3.CycleCnt_ > wrap (wrap (s3.FaultRTLTransCycle_ + JobCycleDone_) + 1) ∧
                    front.JobCycle < JobCycleOutputStart_ then
                  (ExecCsim fp { s3 with JobQueue_ := resetJobCycles s3.JobQueue_ } SIZE_MAX).map
                    fun x => (x, [])
                else execRtlLoopTrace fp eval fastTransient fastTransientTest fuel s3
              | [] => execRtlLoopTrace fp eval fastTransient fastTransientTest fuel s3
            else execRtlLoopTrace fp eval fastTransient fastTransientTest fuel s3
          cont.map fun x => (x.1, (s.CycleCnt_, concurrentJobs s.JobQueue_) :: x.2)

/-- The method `ExecRtl` together with, for every pass through its main loop,
the value of `CycleCnt_` at the start of the pass and the entries `IoSet`
services in the pass. -/
def ExecRtlTrace (fp : Fpu) (eval : testBench_t → testBench_t) (s : SystolicArraySim)
    (fastTransient fastTransientTest : Bool) :
    Option ((Int × SystolicArraySim) × List (Nat × List queueEntry_t)) :=
  if JobQueueReadBeforeWrite s.JobQueue_ then some ((-1, s), [])
  else
    let r0 :=
      if fiMode.Permanent = s.FaultRTL_.Mode then
        FiRtlApply s.Tb s.FaultRTL_.ModuleInstanceChain s.FaultRTL_.AssignUUID s.FaultRTL_.BitPos
      else FiRtlReset s.Tb
    let s0 := { s with Tb := r0.2 }
    if r0.1 ≠ 0 then some ((-1, s0), [])
    else
      let skip : Option (Int × SystolicArraySim) :=
        if decide (fiMode.Transient = s0.FaultRTL_.Mode) && fastTransient then
          let jobsBefore :=
            if s0.FaultRTLTransCycle_ > JobCycleDone_ then
              JobsDoneInCycles (subw s0.FaultRTLTransCycle_ JobCycleDone_)
            else 0
          if jobsBefore ≠ 0 then
            match ExecCsim fp s0 jobsBefore with
            | none => none
            | some r =>
              if r.1 ≠ 0 then some (-1, r.2)
              else
                some (0, { r.2 with
                  JobQueue_ := resetJobCycles r.2.JobQueue_,
                  CycleCnt_ := CyclesRequired jobsBefore })
          else some (0, s0)
        else some (0, s0)
      match skip with
      | none => none
      | some r =>
        if r.1 ≠ 0 then some (r, [])
        else
          execRtlLoopTrace fp eval fastTransient fastTransientTest
            (67 * r.2.JobQueue_.length + 1) { r.2 with Tb := { r.2.Tb with clk := 1 } }

/-- The entries `IoSet` services in the pass of the main loop of `ExecRtl` that
starts with `CycleCnt_ = cycle`, the pass in which a transient fault of that
cycle is applied; `none` when there is no such pass. -/
def servicedAt (cycle : Nat) (trace : List (Nat × List queueEntry_t)) :
    Option (List queueEntry_t) :=
  (trace.find? fun x => x.1 == cycle).map fun x => x.2

/-- The example simulator with five dispatched jobs and a transient RTL fault
set for the cycle `faultCycle`. -/
def exampleTransientSim (faultCycle : Nat) : SystolicArraySim :=
  { exampleJobsSim with
    FaultRTL_ := { Mode := fiMode.Transient }, FaultRTLTransCycle_ := faultCycle }

/-! # Verified properties -/

/-! ## Machine arithmetic and pipeline accounting -/

theorem JobCycleOutputStart_eq : JobCycleOutputStart_ = 52 := by decide
theorem JobCycleDone_eq : JobCycleDone_ = 66 := by decide
theorem JobCyclePassedFirstStage_eq : JobCyclePassedFirstStage_ = 17 := by decide

theorem wrap_of_lt {x : Nat} (h : x < SIZE) : wrap x = x := Nat.mod_eq_of_lt h

theorem subw_of_le {a b : Nat} (hb : b ≤ a) (ha : a < SIZE) : subw a b = a - b := by
  simp only [subw, SIZE] at *
  omega

theorem CyclesRequired_eq (k : Nat) (h1 : 1 ≤ k) (h2 : 67 + 18 * (k - 1) < SIZE) :
    CyclesRequired k = 67 + 18 * (k - 1) := by
  unfold CyclesRequired
  have hS : SIZE = 18446744073709551616 := rfl
  rw [if_neg (by omega), JobCycleDone_eq, JobCyclePassedFirstStage_eq,
    subw_of_le h1 (by omega), wrap_of_lt (show 17 + 1 < SIZE by decide),
    wrap_of_lt (show (k - 1) * (17 + 1) < SIZE by omega),
    wrap_of_lt (show 66 + (k - 1) * (17 + 1) < SIZE by omega),
    wrap_of_lt (show 66 + (k - 1) * (17 + 1) + 1 < SIZE by omega)]
  omega

theorem JobsDoneInCycles_eq (c : Nat) (h1 : 66 < c) (h2 : c < SIZE) :
    JobsDoneInCycles c = (c - 67) / 18 + 1 := by
  unfold JobsDoneInCycles
  have hS : SIZE = 18446744073709551616 := rfl
  rw [JobCycleDone_eq, JobCyclePassedFirstStage_eq, if_neg (by omega),
    subw_of_le (by omega) h2, subw_of_le (by omega) (by omega),
    wrap_of_lt (show 17 + 1 < SIZE by decide),
    wrap_of_lt (show (c - 66 - 1) / (17 + 1) + 1 < SIZE by omega)]
  omega

/-- C3: with `Kmma = Nmma = 8` and `FmaCycles_ = 12` the derived constants are
`JobCycleOutputStart_ = 52`, `JobCycleDone_ = 66`, `JobCyclePassedFirstStage_ = 17`;
`CyclesRequired 0 = 0`; for every job count `k >= 1` whose result does not
overflow `size_t`, `CyclesRequired k` is
`JobCycleDone_ + (k - 1) * (JobCyclePassedFirstStage_ + 1) + 1 = 67 + 18 * (k - 1)`;
and `CyclesRequired` is strictly increasing on that range. -/
theorem CyclesRequired_closed_form :
    JobCycleOutputStart_ = 52 ∧ JobCycleDone_ = 66 ∧ JobCyclePassedFirstStage_ = 17 ∧
    CyclesRequired 0 = 0 ∧
    (∀ k : Nat, 1 ≤ k → 67 + 18 * (k - 1) < SIZE →
      CyclesRequired k = JobCycleDone_ + (k - 1) * (JobCyclePassedFirstStage_ + 1) + 1 ∧
      CyclesRequired k = 67 + 18 * (k - 1)) ∧
    (∀ k k' : Nat, k < k' → 67 + 18 * (k' - 1) < SIZE →
      CyclesRequired k < CyclesRequired k') := by
  refine ⟨by decide, by decide, by decide, by decide, ?_, ?_⟩
  · intro k h1 h2
    rw [CyclesRequired_eq k h1 h2, JobCycleDone_eq, JobCyclePassedFirstStage_eq]
    constructor <;> omega
  · intro k k' hlt h2
    rw [CyclesRequired_eq k' (by omega) h2]
    rcases Nat.eq_zero_or_pos k with h0 | h0
    · subst h0
      have : CyclesRequired 0 = 0 := by decide
      omega
    · rw [CyclesRequired_eq k h0 (by omega)]
      omega

theorem CyclesRequired_closed_form_witness :
    (1 ≤ 16 ∧ 67 + 18 * (16 - 1) < SIZE ∧ CyclesRequired 16 = 337) ∧
    (3 < 16 ∧ CyclesRequired 3 < CyclesRequired 16) :=
  ⟨⟨by decide, by decide, (CyclesRequired_closed_form.2.2.2.2.1 16 (by decide) (by decide)).2⟩,
   ⟨by decide, CyclesRequired_closed_form.2.2.2.2.2 3 16 (by decide) (by decide)⟩⟩

/-- C4, counterexample: at the cycle count `SIZE_MAX` the upper bracket
`CyclesRequired(JobsDoneInCycles(c) + 1)` wraps around to 15, and for the job
count `SIZE_MAX` the round trip through `CyclesRequired` yields 0. -/
theorem cycles_bracket_wraps_at_SIZE_MAX :
    JobCycleDone_ < SIZE_MAX ∧
    ¬ (SIZE_MAX < CyclesRequired (JobsDoneInCycles SIZE_MAX + 1)) ∧
    CyclesRequired (JobsDoneInCycles SIZE_MAX + 1) = 15 ∧
    1 ≤ SIZE_MAX ∧ JobsDoneInCycles (CyclesRequired SIZE_MAX) = 0 := by decide

/-- C4, amended: for every cycle count `c` with `JobCycleDone_ < c` and
`c + 3 < 2 ^ 64`, `CyclesRequired (JobsDoneInCycles c) <= c <
CyclesRequired (JobsDoneInCycles c + 1)`; and `JobsDoneInCycles (CyclesRequired k) = k`
for every `k >= 1` whose `CyclesRequired k` does not overflow `size_t`. -/
theorem JobsDoneInCycles_brackets :
    (∀ c : Nat, JobCycleDone_ < c → c + 3 < SIZE →
      CyclesRequired (JobsDoneInCycles c) ≤ c ∧ c < CyclesRequired (JobsDoneInCycles c + 1)) ∧
    (∀ k : Nat, 1 ≤ k → 67 + 18 * (k - 1) < SIZE → JobsDoneInCycles (CyclesRequired k) = k) := by
  constructor
  · intro c h1 h2
    rw [JobCycleDone_eq] at h1
    have hS : SIZE = 18446744073709551616 := rfl
    rw [JobsDoneInCycles_eq c h1 (by omega)]
    rw [CyclesRequired_eq _ (by omega) (by omega), CyclesRequired_eq _ (by omega) (by omega)]
    omega
  · intro k h1 h2
    rw [CyclesRequired_eq k h1 h2, JobsDoneInCycles_eq _ (by omega) h2]
    omega

theorem JobsDoneInCycles_brackets_witness :
    (JobCycleDone_ < 337 ∧ 337 + 3 < SIZE ∧
      CyclesRequired (JobsDoneInCycles 337) ≤ 337 ∧ 337 < CyclesRequired (JobsDoneInCycles 337 + 1)) ∧
    (1 ≤ 16 ∧ 67 + 18 * (16 - 1) < SIZE ∧ JobsDoneInCycles (CyclesRequired 16) = 16) :=
  ⟨⟨by decide, by decide, JobsDoneInCycles_brackets.1 337 (by decide) (by decide)⟩,
   ⟨by decide, by decide, JobsDoneInCycles_brackets.2 16 (by decide) (by decide)⟩⟩

/-! ## The fault primitive -/

theorem wrap_one_shiftLeft {b : Nat} (hb : b ≤ 63) : wrap (1 <<< b) = 2 ^ b := by
  rw [Nat.one_shiftLeft]
  apply Nat.mod_eq_of_lt
  have : 2 ^ b ≤ 2 ^ 63 := Nat.pow_le_pow_right (by decide) hb
  have hS : SIZE = 18446744073709551616 := rfl
  omega

theorem testBit_SIZE_MAX (i : Nat) : SIZE_MAX.testBit i = decide (i < 64) := by
  have : SIZE_MAX = 2 ^ 64 - 1 := by decide
  rw [this, Nat.testBit_two_pow_sub_one]

theorem testBit_corrupt_flip (u b i : Nat) (hb : b ≤ 63) :
    (corrupt u fiCorruption.Flip b).testBit i = xor (u.testBit i) (decide (b = i)) := by
  simp only [corrupt, if_neg (show ¬ 63 < b by omega), wrap_one_shiftLeft hb,
    Nat.testBit_xor, Nat.testBit_two_pow]

theorem testBit_corrupt_high (u b i : Nat) (hb : b ≤ 63) :
    (corrupt u fiCorruption.StuckHigh b).testBit i = (u.testBit i || decide (b = i)) := by
  simp only [corrupt, if_neg (show ¬ 63 < b by omega), wrap_one_shiftLeft hb,
    Nat.testBit_or, Nat.testBit_two_pow]

theorem testBit_corrupt_low (u b i : Nat) (hu : u < 2 ^ 64) (hb : b ≤ 63) :
    (corrupt u fiCorruption.StuckLow b).testBit i = (u.testBit i && !decide (b = i)) := by
  simp only [corrupt, if_neg (show ¬ 63 < b by omega), wrap_one_shiftLeft hb,
    Nat.testBit_and, Nat.testBit_xor, Nat.testBit_two_pow, testBit_SIZE_MAX]
  by_cases hi : i < 64
  · by_cases hbi : b = i <;> simp [hi, hbi]
  · have : u.testBit i = false := by
      apply Nat.testBit_lt_two_pow
      exact lt_of_lt_of_le hu (Nat.pow_le_pow_right (by decide) (by omega))
    simp [this]


theorem corrupt_lt (u b : Nat) (c : fiCorruption) (hu : u < 2 ^ 64) (hb : b ≤ 63) :
    corrupt u c b < 2 ^ 64 := by
  have h2 : 2 ^ b < 2 ^ 64 := Nat.pow_lt_pow_right (by decide) (by omega)
  cases c <;> simp only [corrupt, if_neg (show ¬ 63 < b by omega), wrap_one_shiftLeft hb]
  · exact hu
  · exact Nat.or_lt_two_pow hu h2
  · exact lt_of_le_of_lt Nat.and_le_left hu
  · exact Nat.xor_lt_two_pow hu h2

/-- C10: on 64-bit patterns and bit positions 0..63, `corrupt` is XOR, OR and
AND-NOT with the single bit `2 ^ bitPos`; it changes no other bit, `Flip` is an
involution, `StuckHigh` and `StuckLow` are idempotent, and `None` returns the
input. -/
theorem corrupt_acts_on_one_bit (u bitPos : Nat) (hu : u < 2 ^ 64) (hb : bitPos ≤ 63) :
    corrupt u fiCorruption.Flip bitPos = u ^^^ 2 ^ bitPos ∧
    corrupt u fiCorruption.StuckHigh bitPos = u ||| 2 ^ bitPos ∧
    corrupt u fiCorruption.StuckLow bitPos = u &&& (2 ^ 64 - 1 - 2 ^ bitPos) ∧
    corrupt u fiCorruption.None bitPos = u ∧
    (∀ i, (corrupt u fiCorruption.Flip bitPos).testBit i
      = xor (u.testBit i) (decide (bitPos = i))) ∧
    (∀ i, (corrupt u fiCorruption.StuckHigh bitPos).testBit i
      = (u.testBit i || decide (bitPos = i))) ∧
    (∀ i, (corrupt u fiCorruption.StuckLow bitPos).testBit i
      = (u.testBit i && !decide (bitPos = i))) ∧
    (∀ c i, i ≠ bitPos → (corrupt u c bitPos).testBit i = u.testBit i) ∧
    (∀ c, corrupt u c bitPos < 2 ^ 64) ∧
    corrupt (corrupt u fiCorruption.Flip bitPos) fiCorruption.Flip bitPos = u ∧
    corrupt (corrupt u fiCorruption.StuckHigh bitPos) fiCorruption.StuckHigh bitPos
      = corrupt u fiCorruption.StuckHigh bitPos ∧
    corrupt (corrupt u fiCorruption.StuckLow bitPos) fiCorruption.StuckLow bitPos
      = corrupt u fiCorruption.StuckLow bitPos := by
  have hnb : ¬ 63 < bitPos := by omega
  have hmask : SIZE_MAX ^^^ 2 ^ bitPos = 2 ^ 64 - 1 - 2 ^ bitPos := by
    have h64 : bitPos < 64 := by omega
    interval_cases bitPos <;> decide
  refine ⟨?_, ?_, ?_, ?_, ?_, ?_, ?_, ?_, ?_, ?_, ?_, ?_⟩
  · simp only [corrupt, if_neg hnb, wrap_one_shiftLeft hb]
  · simp only [corrupt, if_neg hnb, wrap_one_shiftLeft hb]
  · simp only [corrupt, if_neg hnb, wrap_one_shiftLeft hb, hmask]
  · simp only [corrupt, if_neg hnb]
  · exact fun i => testBit_corrupt_flip u bitPos i hb
  · exact fun i => testBit_corrupt_high u bitPos i hb
  · exact fun i => testBit_corrupt_low u bitPos i hu hb
  · intro c i hi
    have hne : ¬ bitPos = i := fun h => hi h.symm
    cases c
    · simp only [corrupt, if_neg hnb]
    · rw [testBit_corrupt_high u bitPos i hb]; simp [hne]
    · rw [testBit_corrupt_low u bitPos i hu hb]; simp [hne]
    · rw [testBit_corrupt_flip u bitPos i hb]; simp [hne]
  · exact fun c => corrupt_lt u bitPos c hu hb
  · apply Nat.eq_of_testBit_eq
    intro i
    rw [testBit_corrupt_flip _ bitPos i hb, testBit_corrupt_flip u bitPos i hb]
    cases u.testBit i <;> cases decide (bitPos = i) <;> rfl
  · apply Nat.eq_of_testBit_eq
    intro i
    rw [testBit_corrupt_high _ bitPos i hb, testBit_corrupt_high u bitPos i hb]
    cases u.testBit i <;> cases decide (bitPos = i) <;> rfl
  · apply Nat.eq_of_testBit_eq
    intro i
    rw [testBit_corrupt_low _ bitPos i (corrupt_lt u bitPos _ hu hb) hb,
      testBit_corrupt_low u bitPos i hu hb]
    cases u.testBit i <;> cases decide (bitPos = i) <;> rfl

theorem corrupt_acts_on_one_bit_witness :
    (0x3FF0000000000000 < 2 ^ 64 ∧ 31 ≤ 63) ∧
    corrupt 0x3FF0000000000000 fiCorruption.Flip 31 = 0x3FF0000080000000 ∧
    corrupt 0x3FF0000000000000 fiCorruption.StuckHigh 62 = 0x7FF0000000000000 ∧
    corrupt 0x3FF0000000000000 fiCorruption.StuckLow 61 = 0x1FF0000000000000 :=
  ⟨⟨by decide, by decide⟩,
   (corrupt_acts_on_one_bit 0x3FF0000000000000 31 (by decide) (by decide)).1.trans (by decide),
   by decide, by decide⟩

/-! ## The read-before-write check -/

theorem readBeforeWrite_exists (q : List queueEntry_t) :
    JobQueueReadBeforeWrite q = true ↔
      ∃ i j, i < j ∧ j < q.length ∧ j - i < 3 ∧
        ((q.getD i default).Job.MatC = (q.getD j default).Job.MatA ∨
         (q.getD i default).Job.MatC = (q.getD j default).Job.MatB ∨
         (q.getD i default).Job.MatC = (q.getD j default).Job.MatC) := by
  have h3 : JobCycleDone_ / JobCyclePassedFirstStage_ = 3 := by decide
  unfold JobQueueReadBeforeWrite
  simp only [h3, List.any_eq_true, List.mem_range, List.mem_range', Bool.or_eq_true,
    decide_eq_true_eq]
  constructor
  · rintro ⟨i, hi, j, ⟨t, ht, rfl⟩, hc⟩
    refine ⟨i, i + 1 + 1 * t, by omega, by omega, by omega, ?_⟩
    tauto
  · rintro ⟨i, j, hij, hj, hd, hc⟩
    refine ⟨i, by omega, j, ⟨j - (i + 1), by omega, by omega⟩, ?_⟩
    tauto

/-- C9: `JobQueueReadBeforeWrite` returns true exactly when there are entries
`i < j` of the queue with `j - i < JobCycleDone_ / JobCyclePassedFirstStage_ = 3`
such that the pointer `MatC` of entry `i` equals the pointer `MatA`, `MatB` or
`MatC` of entry `j`; only the pointers are compared. -/
theorem JobQueueReadBeforeWrite_pointer_identity (q : List queueEntry_t) :
    JobCycleDone_ / JobCyclePassedFirstStage_ = 3 ∧
    (JobQueueReadBeforeWrite q = true ↔
      ∃ i j, i < j ∧ j < q.length ∧ j - i < JobCycleDone_ / JobCyclePassedFirstStage_ ∧
        ((q.getD i default).Job.MatC = (q.getD j default).Job.MatA ∨
         (q.getD i default).Job.MatC = (q.getD j default).Job.MatB ∨
         (q.getD i default).Job.MatC = (q.getD j default).Job.MatC)) := by
  have h3 : JobCycleDone_ / JobCyclePassedFirstStage_ = 3 := by decide
  rw [h3]
  exact ⟨rfl, readBeforeWrite_exists q⟩

/-! ## Dispatch -/


theorem dispatchMmaCols_eq (job : job_t) (r nCnt : Nat) (hn : 8 * nCnt < SIZE) :
    ∀ (d c0 fuel : Nat) (s : SystolicArraySim), c0 + d = nCnt → d + 1 ≤ fuel →
      dispatchMmaCols job (job.MatA + wrap (8 * r * job.StrideA)) (8 * r) (8 * nCnt) fuel (8 * c0) s
        = some (0, { s with JobQueue_ := s.JobQueue_ ++
            (List.range d).map fun t => fanOutEntry job r (c0 + t) }) := by
  intro d
  induction d with
  | zero =>
    intro c0 fuel s hc hf
    obtain ⟨f, rfl⟩ : ∃ f, fuel = f + 1 := ⟨fuel - 1, by omega⟩
    simp only [dispatchMmaCols, if_neg (show ¬ 8 * c0 < 8 * nCnt by omega)]
    simp
  | succ d ih =>
    intro c0 fuel s hc hf
    obtain ⟨f, rfl⟩ : ∃ f, fuel = f + 1 := ⟨fuel - 1, by omega⟩
    have hS : SIZE = 18446744073709551616 := rfl
    have hN : Nmma = 8 := rfl
    simp only [dispatchMmaCols, if_pos (show 8 * c0 < 8 * nCnt by omega), DispatchMma]
    rw [if_neg (by simp)]
    rw [hN, wrap_of_lt (show 8 * c0 + 8 < SIZE by omega),
      show 8 * c0 + 8 = 8 * (c0 + 1) by ring]
    rw [ih (c0 + 1) f _ (by omega) (by omega)]
    simp only [List.range_succ_eq_map, List.map_cons, List.map_map, List.append_assoc,
      List.singleton_append, fanOutEntry, fresh, subJob, Nat.add_zero]
    congr 5
    apply List.map_congr_left
    intro t _
    simp only [Function.comp, Nat.succ_eq_add_one,
      show c0 + 1 + t = c0 + (t + 1) by omega]


theorem dispatchMmaRows_eq (job : job_t) (mCnt nCnt : Nat) (hm : 8 * mCnt < SIZE)
    (hn : 8 * nCnt < SIZE) :
    ∀ (d r0 fuel : Nat) (s : SystolicArraySim), r0 + d = mCnt → d + 1 ≤ fuel →
      dispatchMmaRows job (8 * mCnt) (8 * nCnt) fuel (8 * r0) s
        = some (0, { s with JobQueue_ := s.JobQueue_ ++
            (List.range d).flatMap fun t =>
              (List.range nCnt).map fun c => fanOutEntry job (r0 + t) c }) := by
  intro d
  induction d with
  | zero =>
    intro r0 fuel s hr hf
    obtain ⟨f, rfl⟩ : ∃ f, fuel = f + 1 := ⟨fuel - 1, by omega⟩
    simp only [dispatchMmaRows, if_neg (show ¬ 8 * r0 < 8 * mCnt by omega)]
    simp
  | succ d ih =>
    intro r0 fuel s hr hf
    obtain ⟨f, rfl⟩ : ∃ f, fuel = f + 1 := ⟨fuel - 1, by omega⟩
    have hS : SIZE = 18446744073709551616 := rfl
    have hM : Mmma = 8 := rfl
    simp only [dispatchMmaRows, if_pos (show 8 * r0 < 8 * mCnt by omega)]
    have hcols := dispatchMmaCols_eq job r0 nCnt hn nCnt 0 (8 * nCnt + 1) s (by omega) (by omega)
    rw [Nat.mul_zero] at hcols
    rw [hcols]
    simp only
    rw [if_neg (by simp)]
    rw [hM, wrap_of_lt (show 8 * r0 + 8 < SIZE by omega),
      show 8 * r0 + 8 = 8 * (r0 + 1) by ring]
    rw [ih (r0 + 1) f _ (by omega) (by omega)]
    simp only [List.range_succ_eq_map, List.flatMap_cons, List.flatMap_map, List.append_assoc,
      Nat.zero_add, Nat.add_zero]
    congr 5
    apply List.flatMap_congr
    intro t _
    simp only [Function.comp, Nat.succ_eq_add_one,
      show r0 + 1 + t = r0 + (t + 1) by omega]

theorem fanOut_length (job : job_t) (mCnt nCnt : Nat) :
    (fanOut job mCnt nCnt).length = mCnt * nCnt := by
  induction mCnt with
  | zero => simp [fanOut]
  | succ m ih =>
    have : fanOut job (m + 1) nCnt
        = fanOut job m nCnt ++ (List.range nCnt).map fun c => fanOutEntry job m c := by
      simp [fanOut, List.range_succ, List.flatMap_append]
    rw [this, List.length_append, ih, List.length_map, List.length_range]
    ring

theorem fanOut_getElem? (job : job_t) (mCnt nCnt r c : Nat) (hr : r < mCnt) (hc : c < nCnt) :
    (fanOut job mCnt nCnt)[r * nCnt + c]? = some (fanOutEntry job r c) := by
  induction mCnt with
  | zero => omega
  | succ m ih =>
    have hsplit : fanOut job (m + 1) nCnt
        = fanOut job m nCnt ++ (List.range nCnt).map fun c => fanOutEntry job m c := by
      simp [fanOut, List.range_succ, List.flatMap_append]
    rw [hsplit]
    rcases Nat.lt_or_ge r m with h | h
    · have hlt : r * nCnt + c < (fanOut job m nCnt).length := by
        rw [fanOut_length]
        calc r * nCnt + c < r * nCnt + nCnt := by omega
          _ = (r + 1) * nCnt := by ring
          _ ≤ m * nCnt := Nat.mul_le_mul_right _ h
      rw [List.getElem?_append_left hlt]
      exact ih h
    · have hrm : r = m := by omega
      subst hrm
      rw [List.getElem?_append_right (by rw [fanOut_length]; omega), fanOut_length,
        show r * nCnt + c - r * nCnt = c by omega]
      simp [hc]


theorem DispatchMmaCnt_eq (s : SystolicArraySim) (job : job_t) (mCnt nCnt : Nat)
    (hm : 8 * mCnt < SIZE) (hn : 8 * nCnt < SIZE) :
    DispatchMmaCnt s job mCnt nCnt
      = some (0, { s with JobQueue_ := s.JobQueue_ ++ fanOut job mCnt nCnt }) := by
  have hM : Mmma = 8 := rfl
  have hN : Nmma = 8 := rfl
  unfold DispatchMmaCnt
  rw [hM, hN, Nat.mul_comm mCnt 8, Nat.mul_comm nCnt 8, wrap_of_lt hm, wrap_of_lt hn]
  have h := dispatchMmaRows_eq job mCnt nCnt hm hn mCnt 0 (8 * mCnt + 1) s (by omega) (by omega)
  rw [Nat.mul_zero] at h
  rw [h]
  simp only [fanOut, Nat.zero_add]

/-- C5, counterexample: for `mCnt = 2 ^ 61` the loop bound `mCnt * Mmma()` wraps
to 0, so `DispatchMma(job, mCnt, 1)` returns 0 without appending any of the
`mCnt * 1` entries. -/
theorem DispatchMmaCnt_row_bound_wraps :
    DispatchMmaCnt (simInit { read := fun _ => 0 } fun _ => 0)
        { MatA := 0, StrideA := 8, MatB := 0, StrideB := 8, MatC := 0, StrideC := 8 }
        2305843009213693952 1
      = some (0, simInit { read := fun _ => 0 } fun _ => 0) ∧
    (simInit { read := fun _ => 0 } fun _ => 0).JobQueue_.length = 0 ∧
    2305843009213693952 * 1 ≠ 0 := by
  refine ⟨?_, rfl, by decide⟩
  rfl

/-- C5, amended: for every job and every `mCnt`, `nCnt` with `8 * mCnt < 2 ^ 64`
and `8 * nCnt < 2 ^ 64`, `DispatchMma(job, mCnt, nCnt)` returns 0, keeps the
existing queue entries and appends exactly `mCnt * nCnt` entries with job cycle
0 in row-major order; entry `r * nCnt + c` has `MatA = job.MatA + 8 * r * StrideA`,
`MatB = job.MatB + 8 * c`, `MatC = job.MatC + 8 * r * StrideC + 8 * c` (offsets in
`size_t` arithmetic) and the strides of the job; `DispatchMma(job)` appends the
single entry with job cycle 0 and the job itself. -/
theorem DispatchMmaCnt_appends_fanOut (s : SystolicArraySim) (job : job_t) (mCnt nCnt : Nat)
    (hm : 8 * mCnt < SIZE) (hn : 8 * nCnt < SIZE) :
    DispatchMmaCnt s job mCnt nCnt
      = some (0, { s with JobQueue_ := s.JobQueue_ ++ fanOut job mCnt nCnt }) ∧
    (fanOut job mCnt nCnt).length = mCnt * nCnt ∧
    (∀ r c, r < mCnt → c < nCnt →
      (fanOut job mCnt nCnt)[r * nCnt + c]? = some
        { JobCycle := 0,
          Job :=
            { MatA := job.MatA + wrap (8 * r * job.StrideA), StrideA := job.StrideA,
              MatB := job.MatB + 8 * c, StrideB := job.StrideB,
              MatC := job.MatC + wrap (8 * r * job.StrideC) + 8 * c,
              StrideC := job.StrideC } }) ∧
    DispatchMma s job
      = (0, { s with JobQueue_ := s.JobQueue_ ++ [{ JobCycle := 0, Job := job }] }) := by
  exact ⟨DispatchMmaCnt_eq s job mCnt nCnt hm hn, fanOut_length job mCnt nCnt,
    fun r c hr hc => fanOut_getElem? job mCnt nCnt r c hr hc, rfl⟩

theorem DispatchMmaCnt_appends_fanOut_witness :
    (8 * 2 < SIZE ∧ 8 * 2 < SIZE) ∧
    DispatchMmaCnt (simInit { read := fun _ => 0 } fun _ => 0)
        { MatA := 1000, StrideA := 8, MatB := 2000, StrideB := 16, MatC := 3000, StrideC := 16 }
        2 2
      = some (0, { simInit { read := fun _ => 0 } (fun _ => 0) with
          JobQueue_ := [] ++ fanOut
            { MatA := 1000, StrideA := 8, MatB := 2000, StrideB := 16, MatC := 3000,
              StrideC := 16 } 2 2 }) :=
  ⟨⟨by decide, by decide⟩, (DispatchMmaCnt_appends_fanOut _ _ 2 2 (by decide) (by decide)).1⟩

theorem dispatchTileCols_eq (job : job_t) (Ap row : Nat) :
    ∀ (fuel col : Nat) (s : SystolicArraySim),
      dispatchTileCols job Ap row fuel col s = dispatchMmaCols job Ap row Ntile fuel col s := by
  intro fuel
  induction fuel with
  | zero => intro col s; rfl
  | succ f ih =>
    intro col s
    simp only [dispatchTileCols, dispatchMmaCols, ih]

theorem dispatchTileRows_eq (job : job_t) :
    ∀ (fuel row : Nat) (s : SystolicArraySim),
      dispatchTileRows job fuel row s = dispatchMmaRows job Mtile Ntile fuel row s := by
  intro fuel
  induction fuel with
  | zero => intro row s; rfl
  | succ f ih =>
    intro row s
    simp only [dispatchTileRows, dispatchMmaRows, ih, dispatchTileCols_eq]

theorem DispatchTile_eq (s : SystolicArraySim) (job : job_t) :
    DispatchTile s job = DispatchMmaCnt s job 4 4 := by
  unfold DispatchTile DispatchMmaCnt
  rw [dispatchTileRows_eq]
  rfl

/-- C6: for every job and every simulator state, `DispatchTile(job)` yields the
same return value and the same state as `DispatchMma(job, Mtile / Mmma,
Ntile / Nmma)`, which is `DispatchMma(job, 4, 4)`: 16 entries appended in
row-major order. -/
theorem DispatchTile_is_DispatchMma_4_4 (s : SystolicArraySim) (job : job_t) :
    DispatchTile s job = DispatchMmaCnt s job (Mtile / Mmma) (Ntile / Nmma) ∧
    Mtile / Mmma = 4 ∧ Ntile / Nmma = 4 ∧
    DispatchTile s job = some (0, { s with JobQueue_ := s.JobQueue_ ++ fanOut job 4 4 }) ∧
    (fanOut job 4 4).length = 16 := by
  have h1 : DispatchTile s job = DispatchMmaCnt s job (Mtile / Mmma) (Ntile / Nmma) :=
    DispatchTile_eq s job
  refine ⟨h1, by decide, by decide, ?_, fanOut_length job 4 4⟩
  rw [h1]
  exact DispatchMmaCnt_eq s job 4 4 (by decide) (by decide)

/-! ### `ExecRtl` on a queue with a hazard -/

theorem readBeforeWrite_adjacent (q1 q2 : List queueEntry_t) (e1 e2 : queueEntry_t)
    (h : e2.Job.MatA = e1.Job.MatC) :
    JobQueueReadBeforeWrite (q1 ++ e1 :: e2 :: q2) = true := by
  rw [readBeforeWrite_exists]
  refine ⟨q1.length, q1.length + 1, by omega, by simp, by omega, Or.inl ?_⟩
  have h1 : (q1 ++ e1 :: e2 :: q2).getD q1.length default = e1 := by
    rw [List.getD_eq_getElem?_getD, List.getElem?_append_right (Nat.le_refl _), Nat.sub_self]
    rfl
  have h2 : (q1 ++ e1 :: e2 :: q2).getD (q1.length + 1) default = e2 := by
    rw [List.getD_eq_getElem?_getD, List.getElem?_append_right (Nat.le_succ _),
      show q1.length.succ - q1.length = 1 by omega]
    simp
  rw [h1, h2, h]

/-- C8: when the read-before-write check reports a hazard on the queue, as it
does for two consecutive entries of which the second has the `MatC` of the
first as its `MatA`, `ExecRtl` returns the non-zero code -1 and the simulator,
the test bench and the heap are exactly as before the call. -/
theorem ExecRtl_refuses_hazard (fp : Fpu) (eval : testBench_t → testBench_t)
    (s : SystolicArraySim) (fastTransient fastTransientTest : Bool) :
    (JobQueueReadBeforeWrite s.JobQueue_ = true →
      ExecRtl fp eval s fastTransient fastTransientTest = some (-1, s)) ∧
    (∀ q1 q2 e1 e2, s.JobQueue_ = q1 ++ e1 :: e2 :: q2 → e2.Job.MatA = e1.Job.MatC →
      ExecRtl fp eval s fastTransient fastTransientTest = some (-1, s)) := by
  have h1 : JobQueueReadBeforeWrite s.JobQueue_ = true →
      ExecRtl fp eval s fastTransient fastTransientTest = some (-1, s) := by
    intro h
    unfold ExecRtl
    rw [if_pos h]
  refine ⟨h1, ?_⟩
  intro q1 q2 e1 e2 hq he
  apply h1
  rw [hq]
  exact readBeforeWrite_adjacent q1 q2 e1 e2 he

theorem ExecRtl_refuses_hazard_witness :
    JobQueueReadBeforeWrite
      [fresh exampleJob, fresh { exampleJob with MatA := 3000, MatC := 4000 }] = true ∧
    ExecRtl exampleFpu id
      { exampleSim with
        JobQueue_ := [fresh exampleJob, fresh { exampleJob with MatA := 3000, MatC := 4000 }] }
      false false
      = some (-1, { exampleSim with
        JobQueue_ := [fresh exampleJob, fresh { exampleJob with MatA := 3000, MatC := 4000 }] }) :=
  ⟨by decide, (ExecRtl_refuses_hazard exampleFpu id _ false false).1 (by decide)⟩

/-! ## The per-cycle I/O driver -/


theorem foldl_bitsCopyBit_length (startBit : Nat) (bits : List Nat) (l : List Nat) :
    ∀ pData : List Nat, (l.foldl (bitsCopyBit startBit bits) pData).length = pData.length := by
  induction l with
  | nil => intro pData; rfl
  | cons b l ih =>
    intro pData
    rw [List.foldl_cons, ih]
    unfold bitsCopyBit
    simp only
    split <;> simp

theorem bitsCopy_length (pData : List Nat) (nData startBit : Nat) (bits : List Nat) (nBits : Nat) :
    (bitsCopy pData nData startBit bits nBits).2.length = pData.length := by
  unfold bitsCopy
  simp only
  split_ifs <;> simp only [foldl_bitsCopyBit_length]

theorem bitsCopy_rc (pData : List Nat) (nData startBit : Nat) (bits : List Nat) (nBits : Nat)
    (h : startBit + nBits ≤ 8 * nData) (h2 : 8 * nData < SIZE) :
    (bitsCopy pData nData startBit bits nBits).1 = 0 := by
  have hS : SIZE = 18446744073709551616 := rfl
  unfold bitsCopy
  simp only
  rw [wrap_of_lt (show startBit + nBits < SIZE by omega)]
  rw [wrap_of_lt (by split <;> omega)]
  rw [if_neg (by split <;> omega)]

theorem setValue_ok (pData : List Nat) (pos value : Nat)
    (h : 65 * (pos + 1) ≤ 8 * pData.length) (h2 : 8 * pData.length < SIZE) :
    (setValue pData pData.length 65 pos value).1 = 0 ∧
    (setValue pData pData.length 65 pos value).2.length = pData.length := by
  have hS : SIZE = 18446744073709551616 := rfl
  unfold setValue
  rw [if_neg (by decide), wrap_of_lt (show 65 * pos < SIZE by omega), wrap_of_lt h2,
    if_neg (by omega)]
  simp only
  rw [Nat.mul_comm pos 65]
  simp only [wrap_of_lt (show 65 * pos < SIZE by omega),
    wrap_of_lt (show 65 * pos + 54 < SIZE by omega)]
  have r1 := bitsCopy_rc pData pData.length (65 * pos) (bytesLE (signedMantissa65 value) 8) 54
    (by omega) h2
  have l1 := bitsCopy_length pData pData.length (65 * pos) (bytesLE (signedMantissa65 value) 8) 54
  rw [if_neg (by rw [r1]; simp)]
  have r2 := bitsCopy_rc (bitsCopy pData pData.length (65 * pos)
    (bytesLE (signedMantissa65 value) 8) 54).2 pData.length (65 * pos + 54)
    (bytesLE (tmpExp65 value) 2) 11 (by omega) h2
  rw [if_neg (by rw [r2]; simp)]
  exact ⟨rfl, by rw [bitsCopy_length, l1]⟩

theorem setValue_length (pData : List Nat) (nData nBitsElem pos value : Nat) :
    (setValue pData nData nBitsElem pos value).2.length = pData.length := by
  unfold setValue
  simp only
  split
  · rfl
  · split
    · rfl
    · split
      · simp only [bitsCopy_length]
      · split <;> simp only [bitsCopy_length]


theorem forRc_ok {α σ : Type} (P : σ → Prop) (body : α → σ → Int × σ) (xs : List α)
    (h : ∀ x ∈ xs, ∀ s, P s → (body x s).1 = 0 ∧ P (body x s).2) :
    ∀ s, P s → (forRc body xs s).1 = 0 ∧ P (forRc body xs s).2 := by
  induction xs with
  | nil => intro s hs; exact ⟨rfl, hs⟩
  | cons x xs ih =>
    intro s hs
    have hx := h x (List.mem_cons_self _ _) s hs
    simp only [forRc]
    rw [if_neg (by rw [hx.1]; simp)]
    exact ih (fun y hy => h y (List.mem_cons_of_mem _ hy)) _ hx.2

theorem ioPhaseK_lt {c k : Nat} (h : ioPhaseK c = some k) : k < 8 := by
  have hK : Kmma = 8 := rfl
  unfold ioPhaseK at h
  simp only at h
  split_ifs at h <;> (injection h with h; subst h; rw [← hK]; assumption)

theorem ioSetLeft_ok (e : queueEntry_t) (m : Nat) (st : ioState) (hp : portsFit st.Tb)
    (hm : m < st.Tb.out.length * 8 / 65) :
    (ioSetLeft e m st).1 = 0 ∧ portsFit (ioSetLeft e m st).2.Tb := by
  obtain ⟨h0, h1, h2, h3, h4, h5, h6⟩ := hp
  have hS : SIZE = 18446744073709551616 := rfl
  have hK : Kmma = 8 := rfl
  unfold ioSetLeft
  split
  · rename_i k hk
    have hk8 := ioPhaseK_lt hk
    simp only
    rw [hK, wrap_of_lt (show m * 8 < SIZE by omega), wrap_of_lt (show m * 8 + k < SIZE by omega)]
    have hs := setValue_ok st.Tb.multLeft (m * 8 + k)
      (st.Heap.read (e.Job.cellA m k)) (by omega) h2
    refine ⟨by rw [if_neg (by rw [hs.1]; simp)], ?_⟩
    simp only [portsFit, hs.2]
    exact ⟨h0, h1, h2, h3, h4, h5, h6⟩
  · exact ⟨rfl, h0, h1, h2, h3, h4, h5, h6⟩

theorem ioSetRight_ok (e : queueEntry_t) (st : ioState) (hp : portsFit st.Tb) :
    (ioSetRight e st).1 = 0 ∧ portsFit (ioSetRight e st).2.Tb := by
  unfold ioSetRight
  simp only
  apply forRc_ok (fun st : ioState => portsFit st.Tb)
  · intro n _ st hp
    obtain ⟨h0, h1, h2, h3, h4, h5, h6⟩ := hp
    split
    · rename_i k hk
      have hk8 := ioPhaseK_lt hk
      have hs := setValue_ok st.Tb.multRight k
        (st.Heap.read (e.Job.cellB k n)) (by omega) h4
      simp only
      refine ⟨by rw [if_neg (by rw [hs.1]; simp)], ?_⟩
      simp only [portsFit, hs.2]
      exact ⟨h0, h1, h2, h3, h4, h5, h6⟩
    · exact ⟨rfl, h0, h1, h2, h3, h4, h5, h6⟩
  · exact hp

theorem ioSetAcc_ok (e : queueEntry_t) (m : Nat) (st : ioState) (hp : portsFit st.Tb)
    (hm : m < st.Tb.out.length * 8 / 65) :
    (ioSetAcc e m st).1 = 0 ∧ portsFit (ioSetAcc e m st).2.Tb := by
  obtain ⟨h0, h1, h2, h3, h4, h5, h6⟩ := hp
  unfold ioSetAcc
  split
  · simp only
    split
    · have hs := setValue_ok st.Tb.acc m
        (st.Heap.read (e.Job.cellC m (e.JobCycle / 2))) (by omega) h6
      refine ⟨by rw [if_neg (by rw [hs.1]; simp)], ?_⟩
      simp only [portsFit, hs.2]
      exact ⟨h0, h1, h2, h3, h4, h5, h6⟩
    · exact ⟨rfl, h0, h1, h2, h3, h4, h5, h6⟩
  · exact ⟨rfl, h0, h1, h2, h3, h4, h5, h6⟩

theorem ioSetOut_ok (e : queueEntry_t) (m : Nat) (st : ioState) (hp : portsFit st.Tb)
    (hc : e.JobCycle ≤ 69) :
    (ioSetOut e m st).1 = 0 ∧ portsFit (ioSetOut e m st).2.Tb := by
  have hS : SIZE = 18446744073709551616 := rfl
  have hO : JobCycleOutputStart_ = 52 := by decide
  have hN : Nmma = 8 := rfl
  unfold ioSetOut
  rw [hO, hN]
  split
  · rw [subw_of_le (by omega) (by omega)]
    simp only
    split
    · rw [if_neg (by omega)]
      exact ⟨rfl, hp⟩
    · exact ⟨rfl, hp⟩
  · exact ⟨rfl, hp⟩


theorem ioSetLeft_out (e : queueEntry_t) (m : Nat) (st : ioState) :
    (ioSetLeft e m st).2.Tb.out = st.Tb.out := by
  unfold ioSetLeft
  split <;> rfl

theorem ioSetRight_out (e : queueEntry_t) (st : ioState) :
    (ioSetRight e st).2.Tb.out = st.Tb.out := by
  unfold ioSetRight
  simp only
  generalize List.range (min (wrap (e.JobCycle / 2 + 1)) Nmma) = l
  induction l generalizing st with
  | nil => rfl
  | cons n l ih =>
    simp only [forRc]
    split
    · split <;> rfl
    · rw [ih]
      split <;> rfl

theorem ioSetAcc_out (e : queueEntry_t) (m : Nat) (st : ioState) :
    (ioSetAcc e m st).2.Tb.out = st.Tb.out := by
  unfold ioSetAcc
  simp only
  split_ifs <;> rfl

theorem ioSetOut_out (e : queueEntry_t) (m : Nat) (st : ioState) :
    (ioSetOut e m st).2.Tb.out = st.Tb.out := by
  unfold ioSetOut
  simp only
  split_ifs <;> rfl

theorem ioSetRow_ok (e : queueEntry_t) (hc : e.JobCycle ≤ 69) (M m : Nat) (st : ioState)
    (hp : portsFit st.Tb ∧ st.Tb.out.length * 8 / 65 = M) (hm : m < M) :
    (ioSetRow e m st).1 = 0 ∧
      (portsFit (ioSetRow e m st).2.Tb ∧ (ioSetRow e m st).2.Tb.out.length * 8 / 65 = M) := by
  obtain ⟨hp, hM⟩ := hp
  have h1 := ioSetLeft_ok e m st hp (by omega)
  have o1 := ioSetLeft_out e m st
  have h2 := ioSetRight_ok e (ioSetLeft e m st).2 h1.2
  have o2 := ioSetRight_out e (ioSetLeft e m st).2
  have h3 := ioSetAcc_ok e m (ioSetRight e (ioSetLeft e m st).2).2 h2.2 (by rw [o2, o1]; omega)
  have o3 := ioSetAcc_out e m (ioSetRight e (ioSetLeft e m st).2).2
  have h4 := ioSetOut_ok e m (ioSetAcc e m (ioSetRight e (ioSetLeft e m st).2).2).2 h3.2 hc
  have o4 := ioSetOut_out e m (ioSetAcc e m (ioSetRight e (ioSetLeft e m st).2).2).2
  unfold ioSetRow
  simp only
  rw [if_neg (by rw [h1.1]; simp), if_neg (by rw [h2.1]; simp), if_neg (by rw [h3.1]; simp)]
  exact ⟨h4.1, h4.2, by rw [o4, o3, o2, o1]; exact hM⟩

theorem ioSetJobs_ok (conc : List queueEntry_t) (hc : ∀ e ∈ conc, e.JobCycle ≤ 69)
    (st : ioState) (hp : portsFit st.Tb) :
    (ioSetJobs (st.Tb.out.length * 8 / 65) conc st).1 = 0 ∧
      portsFit (ioSetJobs (st.Tb.out.length * 8 / 65) conc st).2.Tb := by
  unfold ioSetJobs
  have h := forRc_ok
    (fun st' : ioState => portsFit st'.Tb ∧ st'.Tb.out.length * 8 / 65 = st.Tb.out.length * 8 / 65)
    (fun e st' => forRc (ioSetRow e) (List.range (st.Tb.out.length * 8 / 65)) st') conc
    (by
      intro e he st' hst'
      exact forRc_ok _ (ioSetRow e) _
        (fun m hm st'' hst'' =>
          ioSetRow_ok e (hc e he) _ m st'' hst'' (List.mem_range.mp hm)) st' hst')
    st ⟨hp, rfl⟩
  exact ⟨h.1, h.2.1⟩


theorem sched_zero (js : List job_t) :
    sched 0 js = js.map fun j => { JobCycle := 0, Job := j } := by
  induction js with
  | nil => rfl
  | cons j rest ih => simp only [sched, List.map_cons, Nat.zero_sub, ih]

theorem sched_map_Job (t : Nat) (js : List job_t) : (sched t js).map (·.Job) = js := by
  induction js generalizing t with
  | nil => rfl
  | cons j rest ih => simp only [sched, List.map_cons, ih]

theorem sched_le (js : List job_t) : ∀ t, ∀ e ∈ sched t js, e.JobCycle ≤ t := by
  induction js with
  | nil => intro t e he; cases he
  | cons j rest ih =>
    intro t e he
    simp only [sched, List.mem_cons] at he
    rcases he with rfl | he
    · exact Nat.le_refl _
    · exact Nat.le_trans (ih _ e he) (Nat.sub_le _ _)

theorem concurrentTail_subset (q : List queueEntry_t) :
    ∀ prev, ∀ e ∈ concurrentTail prev q, e ∈ q := by
  induction q with
  | nil => intro prev e he; cases he
  | cons x rest ih =>
    intro prev e he
    simp only [concurrentTail] at he
    split at he
    · simp only [List.mem_cons] at he ⊢
      rcases he with rfl | he
      · exact Or.inl rfl
      · exact Or.inr (ih _ e he)
    · cases he

theorem concurrentJobs_subset (q : List queueEntry_t) : ∀ e ∈ concurrentJobs q, e ∈ q := by
  cases q with
  | nil => intro e he; cases he
  | cons x rest =>
    intro e he
    simp only [concurrentJobs, List.mem_cons] at he ⊢
    rcases he with rfl | he
    · exact Or.inl rfl
    · exact Or.inr (concurrentTail_subset rest _ e he)

theorem bump_concurrentTail (js : List job_t) :
    ∀ (t : Nat) (j : job_t), t + 1 < SIZE →
      bumpJobCycles (concurrentTail { JobCycle := t, Job := j } (sched (t - 18) js)).length
          (sched (t - 18) js)
        = sched (t + 1 - 18) js := by
  have hP : JobCyclePassedFirstStage_ = 17 := by decide
  induction js with
  | nil => intro t j _; simp [sched, concurrentTail, bumpJobCycles]
  | cons j' rest ih =>
    intro t j ht
    simp only [sched, concurrentTail, hP]
    by_cases h17 : t > 17
    · rw [if_pos h17]
      simp only [List.length_cons, bumpJobCycles]
      have := ih (t - 18) j' (by omega)
      simp only [hP] at this
      rw [this, wrap_of_lt (by omega)]
      congr 2
      omega
    · rw [if_neg h17]
      simp only [List.length_nil, bumpJobCycles]
      congr 2 <;> omega


theorem IoSet_sched_step (fp : Fpu) (s : SystolicArraySim) (b : Bool) (t : Nat) (j : job_t)
    (rest : List job_t) (hq : s.JobQueue_ = sched t (j :: rest)) (ht : t ≤ 66)
    (hp : portsFit s.Tb) :
    (IoSet fp s b).1 = 0 ∧ portsFit (IoSet fp s b).2.Tb ∧
      (IoSet fp s b).2.JobQueue_ = if t = 66 then sched 49 rest else sched (t + 1) (j :: rest) := by
  have hS : SIZE = 18446744073709551616 := rfl
  have hP : JobCyclePassedFirstStage_ = 17 := by decide
  have hD : JobCycleDone_ = 66 := by decide
  have hq' : s.JobQueue_ = { JobCycle := t, Job := j } :: sched (t - 18) rest := by
    rw [hq]; simp only [sched, hP]
  have hconc : ∀ e ∈ concurrentJobs s.JobQueue_, e.JobCycle ≤ 69 := by
    intro e he
    have := sched_le (j :: rest) t e (by rw [← hq]; exact concurrentJobs_subset _ e he)
    omega
  have hM : wrap (s.Tb.out.length * 8) = s.Tb.out.length * 8 :=
    wrap_of_lt (by have := hp.1; omega)
  have hio := ioSetJobs_ok (concurrentJobs s.JobQueue_) hconc { Tb := s.Tb, Heap := s.Heap } hp
  simp only at hio
  have hbump : bumpJobCycles (concurrentJobs s.JobQueue_).length s.JobQueue_
      = sched (t + 1) (j :: rest) := by
    rw [hq']
    simp only [concurrentJobs, List.length_cons, bumpJobCycles, sched, hP]
    rw [bump_concurrentTail rest t j (by omega), wrap_of_lt (by omega)]
  unfold IoSet
  rw [hq']
  simp only
  rw [← hq', hM, if_neg (by rw [hio.1]; simp), hD]
  by_cases h66 : t = 66
  · subst h66
    rw [if_pos rfl, if_pos rfl]
    refine ⟨rfl, hio.2, ?_⟩
    simp only
    rw [hbump]
    simp only [sched, hP, List.tail_cons]
  · rw [if_neg (by omega), if_neg (by omega), if_neg h66]
    exact ⟨rfl, hio.2, hbump⟩

theorem retiredAfter_spec (n : Nat) :
    (n ≤ 66 ∧ retiredAfter n = 0) ∨ (66 < n ∧ retiredAfter n = (n - 67) / 18 + 1) := by
  have hP : JobCyclePassedFirstStage_ = 17 := by decide
  have hD : JobCycleDone_ = 66 := by decide
  simp only [retiredAfter, hP, hD]
  split
  · exact Or.inl ⟨by assumption, rfl⟩
  · exact Or.inr ⟨by omega, rfl⟩

/-- State after `n` calls of `IoSet` on a fresh queue of the jobs `js`. -/
theorem ioSetIter_sched (fp : Fpu) (eval : testBench_t → testBench_t)
    (heval : ∀ tb, portsFit tb → portsFit (eval tb)) (js : List job_t) :
    ∀ (n m : Nat) (s : SystolicArraySim), portsFit s.Tb →
      s.JobQueue_ = sched (m - 18 * retiredAfter m) (js.drop (retiredAfter m)) →
      m + n ≤ 67 + 18 * (js.length - 1) → js ≠ [] →
      ∃ s', ioSetIter fp eval n s = some s' ∧ portsFit s'.Tb ∧
        s'.JobQueue_ = sched (m + n - 18 * retiredAfter (m + n)) (js.drop (retiredAfter (m + n))) := by
  intro n
  induction n with
  | zero => intro m s hp hq _ _; exact ⟨s, rfl, hp, hq⟩
  | succ n ih =>
    intro m s hp hq hmn hjs
    have hlen : 0 < js.length := List.length_pos.mpr hjs
    have hm := retiredAfter_spec m
    have hm1 := retiredAfter_spec (m + 1)
    have hr : retiredAfter m < js.length := by omega
    obtain ⟨j, rest, hdrop⟩ : ∃ j rest, js.drop (retiredAfter m) = j :: rest := by
      cases h : js.drop (retiredAfter m) with
      | nil => rw [List.drop_eq_nil_iff] at h; omega
      | cons j rest => exact ⟨j, rest, rfl⟩
    have ht : m - 18 * retiredAfter m ≤ 66 := by omega
    rw [hdrop] at hq
    have hstep := IoSet_sched_step fp s true _ j rest hq ht hp
    simp only [ioSetIter]
    rw [if_neg (by rw [hstep.1]; simp)]
    have hq1 : (IoSet fp s true).2.JobQueue_
        = sched (m + 1 - 18 * retiredAfter (m + 1)) (js.drop (retiredAfter (m + 1))) := by
      rw [hstep.2.2]
      by_cases h66 : m - 18 * retiredAfter m = 66
      · rw [if_pos h66]
        have hr1 : retiredAfter (m + 1) = retiredAfter m + 1 := by omega
        rw [hr1, ← List.drop_drop, hdrop]
        simp only [List.drop_succ_cons, List.drop_zero]
        congr 1
        omega
      · rw [if_neg h66]
        have hr1 : retiredAfter (m + 1) = retiredAfter m := by omega
        rw [hr1, hdrop]
        congr 1
        omega
    obtain ⟨s', h1, h2, h3⟩ := ih (m + 1) { (IoSet fp s true).2 with Tb := eval (IoSet fp s true).2.Tb }
      (heval _ hstep.2.1) hq1 (by omega) hjs
    rw [show m + 1 + n = m + (n + 1) by omega] at h3
    exact ⟨s', h1, h2, h3⟩


/-- C2: from a queue of `k >= 1` freshly dispatched jobs, successive calls of
`IoSet` (the test bench being evaluated in between, as in the main loop of
`ExecRtl`) never return an error; after `n < CyclesRequired k` calls the queue
is not empty and holds the jobs from number `retiredAfter n` on in dispatch
order; after exactly `CyclesRequired k` calls the queue is empty; and
`CyclesRequired 16 = 337`. -/
theorem IoSet_drains_in_CyclesRequired (fp : Fpu) (eval : testBench_t → testBench_t)
    (s : SystolicArraySim) (js : List job_t) (hjs : 1 ≤ js.length)
    (hq : s.JobQueue_ = js.map fun j => { JobCycle := 0, Job := j })
    (hp : portsFit s.Tb) (heval : ∀ tb, portsFit tb → portsFit (eval tb))
    (hk : 56 * js.length < SIZE) :
    (∀ n, n < CyclesRequired js.length →
      ∃ sn, ioSetIter fp eval n s = some sn ∧ sn.JobQueue_ ≠ [] ∧
        sn.JobQueue_.map (fun e => e.Job) = js.drop (retiredAfter n) ∧
        (IoSet fp sn true).1 = 0) ∧
    (∃ sN, ioSetIter fp eval (CyclesRequired js.length) s = some sN ∧ sN.JobQueue_ = []) ∧
    CyclesRequired 16 = 337 := by
  have hS : SIZE = 18446744073709551616 := rfl
  have hne : js ≠ [] := by intro h; rw [h] at hjs; simp at hjs
  have hCR : CyclesRequired js.length = 67 + 18 * (js.length - 1) :=
    CyclesRequired_eq _ hjs (by omega)
  have h0 : s.JobQueue_ = sched (0 - 18 * retiredAfter 0) (js.drop (retiredAfter 0)) := by
    have : retiredAfter 0 = 0 := by decide
    rw [this, hq, List.drop_zero]
    exact (sched_zero js).symm
  refine ⟨?_, ?_, by decide⟩
  · intro n hn
    rw [hCR] at hn
    obtain ⟨sn, h1, h2, h3⟩ := ioSetIter_sched fp eval heval js n 0 s hp h0 (by omega) hne
    rw [Nat.zero_add] at h3
    have hr := retiredAfter_spec n
    have hlt : retiredAfter n < js.length := by omega
    obtain ⟨j, rest, hdrop⟩ : ∃ j rest, js.drop (retiredAfter n) = j :: rest := by
      cases h : js.drop (retiredAfter n) with
      | nil => rw [List.drop_eq_nil_iff] at h; omega
      | cons j rest => exact ⟨j, rest, rfl⟩
    refine ⟨sn, h1, ?_, ?_, ?_⟩
    · rw [h3, hdrop]; simp [sched]
    · rw [h3, sched_map_Job]
    · rw [hdrop] at h3
      exact (IoSet_sched_step fp sn true _ j rest h3 (by omega) h2).1
  · rw [hCR]
    obtain ⟨sN, h1, _, h3⟩ := ioSetIter_sched fp eval heval js (67 + 18 * (js.length - 1)) 0 s hp h0
      (by omega) hne
    rw [Nat.zero_add] at h3
    have hr := retiredAfter_spec (67 + 18 * (js.length - 1))
    have : retiredAfter (67 + 18 * (js.length - 1)) = js.length := by omega
    rw [this, List.drop_length] at h3
    exact ⟨sN, h1, h3⟩

/-! ## The behavioural model -/

@[simp] theorem read_write (h : heap_t) (a v x : Nat) :
    (h.write a v).read x = if x = a then v else h.read x := rfl

theorem foldl_range_congr {β : Type} (f g : β → Nat → β) (n : Nat)
    (hfg : ∀ b k, k < n → f b k = g b k) (b : β) :
    (List.range n).foldl f b = (List.range n).foldl g b := by
  induction n with
  | zero => rfl
  | succ n ih =>
    rw [List.range_succ, List.foldl_append, List.foldl_append, ih (fun b k hk => hfg b k (by omega))]
    simp only [List.foldl_cons, List.foldl_nil]
    exact hfg _ n (by omega)

theorem refCell_congr (fp : Fpu) (h h' : heap_t) (job : job_t) (row col : Nat)
    (hA : ∀ k, k < 8 → h'.read (job.cellA row k) = h.read (job.cellA row k))
    (hB : ∀ k, k < 8 → h'.read (job.cellB k col) = h.read (job.cellB k col))
    (hC : h'.read (job.cellC row col) = h.read (job.cellC row col)) :
    refCell fp h' job row col = refCell fp h job row col := by
  unfold refCell
  rw [hC]
  apply foldl_range_congr
  intro b k hk
  have hK : Kmma = 8 := rfl
  rw [hA k (by omega), hB k (by omega)]

/-- Partial sums of the `sum` loop. -/
theorem csimRowSum_upto (fp : Fpu) (job : job_t) (row col : Nat) (h : heap_t)
    (hA : ∀ k, k < 8 → job.cellA row k ≠ job.cellC row col)
    (hB : ∀ k, k < 8 → job.cellB k col ≠ job.cellC row col) :
    ∀ n, n ≤ 8 → ∀ x,
      ((List.range n).foldl (fun h sum =>
        h.write (job.cellC row col)
          (fp.add (h.read (job.cellC row col))
            (fp.mul (h.read (job.cellA row sum)) (h.read (job.cellB sum col))))) h).read x
        = if x = job.cellC row col then
            (List.range n).foldl (fun acc k =>
              fp.add acc (fp.mul (h.read (job.cellA row k)) (h.read (job.cellB k col))))
              (h.read (job.cellC row col))
          else h.read x := by
  intro n
  induction n with
  | zero =>
    intro _ x
    simp only [List.range_zero, List.foldl_nil]
    split
    · rename_i hx; rw [hx]
    · rfl
  | succ n ih =>
    intro hn x
    rw [List.range_succ, List.foldl_append, List.foldl_append]
    simp only [List.foldl_cons, List.foldl_nil, read_write]
    have ihn := ih (by omega)
    by_cases hx : x = job.cellC row col
    · rw [if_pos hx, if_pos hx, ihn, if_pos rfl, ihn, if_neg (hA n (by omega)), ihn,
        if_neg (hB n (by omega))]
    · rw [if_neg hx, if_neg hx, ihn, if_neg hx]

theorem csimRowSum_read (fp : Fpu) (job : job_t) (row col : Nat) (h : heap_t)
    (hA : ∀ k, k < 8 → job.cellA row k ≠ job.cellC row col)
    (hB : ∀ k, k < 8 → job.cellB k col ≠ job.cellC row col) (x : Nat) :
    (csimRowSum fp job row col h).read x
      = if x = job.cellC row col then refCell fp h job row col else h.read x :=
  csimRowSum_upto fp job row col h hA hB 8 (Nat.le_refl _) x

theorem csimRowSum_frame (fp : Fpu) (job : job_t) (row col : Nat) (h : heap_t) (x : Nat)
    (hx : x ≠ job.cellC row col) : (csimRowSum fp job row col h).read x = h.read x := by
  unfold csimRowSum
  generalize List.range Kmma = l
  induction l generalizing h with
  | nil => rfl
  | cons k l ih =>
    rw [List.foldl_cons, ih, read_write, if_neg hx]


theorem csimRows_upto (fp : Fpu) (fr : Nat) (job : job_t) (col : Nat) (h : heap_t)
    (hcol : col < 8) (hD : job.outDistinct) (hI : job.inputsApart job) :
    ∀ n, n ≤ 8 →
      (∀ r, r < n → r ≠ fr →
        ((List.range n).foldl (fun h row =>
          if fr = row then h else csimRowSum fp job row col h) h).read (job.cellC r col)
          = refCell fp h job r col) ∧
      (∀ x, (∀ r, r < n → r ≠ fr → x ≠ job.cellC r col) →
        ((List.range n).foldl (fun h row =>
          if fr = row then h else csimRowSum fp job row col h) h).read x = h.read x) := by
  intro n
  induction n with
  | zero =>
    intro _
    exact ⟨fun r hr => absurd hr (Nat.not_lt_zero r), fun x _ => rfl⟩
  | succ n ih =>
    intro hn
    obtain ⟨iha, ihb⟩ := ih (by omega)
    rw [List.range_succ, List.foldl_append]
    simp only [List.foldl_cons, List.foldl_nil]
    by_cases hfr : fr = n
    · rw [if_pos hfr]
      constructor
      · intro r hr hrf
        exact iha r (by omega) hrf
      · intro x hx
        exact ihb x (fun r hr hrf => hx r (by omega) hrf)
    · rw [if_neg hfr]
      have hA : ∀ k, k < 8 → job.cellA n k ≠ job.cellC n col :=
        fun k hk => (hI n k col n col (by omega) hk hcol (by omega) hcol).1
      have hB : ∀ k, k < 8 → job.cellB k col ≠ job.cellC n col :=
        fun k hk => (hI n k col n col (by omega) hk hcol (by omega) hcol).2
      constructor
      · intro r hr hrf
        rw [csimRowSum_read fp job n col _ hA hB]
        by_cases hrn : r = n
        · subst hrn
          rw [if_pos rfl]
          apply refCell_congr
          · intro k hk
            apply ihb
            intro r' hr' _
            exact (hI r k col r' col (by omega) hk hcol (by omega) hcol).1
          · intro k hk
            apply ihb
            intro r' hr' _
            exact (hI r k col r' col (by omega) hk hcol (by omega) hcol).2
          · apply ihb
            intro r' hr' _ heq
            have := (hD r col r' col (by omega) hcol (by omega) hcol heq).1
            omega
        · rw [if_neg]
          · exact iha r (by omega) hrf
          · intro heq
            exact hrn (hD r col n col (by omega) hcol (by omega) hcol heq).1
      · intro x hx
        rw [csimRowSum_frame fp job n col _ x (hx n (by omega) (fun h => hfr h.symm))]
        exact ihb x (fun r hr hrf => hx r (by omega) hrf)

theorem csimRows_frame (fp : Fpu) (fr : Nat) (job : job_t) (col : Nat) (h : heap_t) (x : Nat)
    (hx : ∀ r, r < 8 → r ≠ fr → x ≠ job.cellC r col) :
    (csimRows fp fr job col h).read x = h.read x := by
  unfold csimRows
  have hM : Mmma = 8 := rfl
  rw [hM]
  have : ∀ n, n ≤ 8 →
      ((List.range n).foldl (fun h row =>
        if fr = row then h else csimRowSum fp job row col h) h).read x = h.read x := by
    intro n
    induction n with
    | zero => intro _; rfl
    | succ n ih =>
      intro hn
      rw [List.range_succ, List.foldl_append]
      simp only [List.foldl_cons, List.foldl_nil]
      by_cases hfr : fr = n
      · rw [if_pos hfr]; exact ih (by omega)
      · rw [if_neg hfr, csimRowSum_frame fp job n col _ x (hx n (by omega) (fun h => hfr h.symm))]
        exact ih (by omega)
  exact this 8 (Nat.le_refl _)

theorem RowCsim_none (fp : Fpu) (rand : Nat → Nat) (randPos out : Nat) (a b : List Nat) :
    RowCsim fp rand randPos out a b none
      = (0, (List.range Kmma).foldl (fun acc k =>
          fp.add acc (fp.mul (a.getD k 0) (b.getD k 0))) out, randPos + 1) := by
  unfold RowCsim
  simp only
  have : ∀ (l : List Nat) (st : Nat × Nat),
      l.foldl (fun (st : Nat × Nat) k =>
        (fp.add st.1 (fp.mul (a.getD k 0) (b.getD k 0)), st.2)) st
        = (l.foldl (fun acc k => fp.add acc (fp.mul (a.getD k 0) (b.getD k 0))) st.1, st.2) := by
    intro l
    induction l with
    | nil => intro st; rfl
    | cons k l ih => intro st; rw [List.foldl_cons, ih]; rfl
  rw [this]

theorem RowCsim_rc (fp : Fpu) (rand : Nat → Nat) (randPos out : Nat) (a b : List Nat)
    (fi : Option faultCsim_t) : (RowCsim fp rand randPos out a b fi).1 = 0 := rfl


theorem execCsimBody_struct (fp : Fpu) (s : SystolicArraySim) (e : queueEntry_t) :
    (execCsimBody fp s e).1 = 0 ∧
    (execCsimBody fp s e).2.JobQueue_
      = (if wrap (e.JobCycle + 1) ≥ Nmma then s.JobQueue_.tail
          else { JobCycle := wrap (e.JobCycle + 1), Job := e.Job } :: s.JobQueue_.tail) ∧
    (execCsimBody fp s e).2.CycleCnt_ = wrap (s.CycleCnt_ + 1) ∧
    (execCsimBody fp s e).2.FaultCsim_ = s.FaultCsim_ ∧
    (execCsimBody fp s e).2.FaultCsimTransCycle_ = s.FaultCsimTransCycle_ ∧
    (execCsimBody fp s e).2.FaultRTL_ = s.FaultRTL_ ∧
    (execCsimBody fp s e).2.FaultRTLTransCycle_ = s.FaultRTLTransCycle_ ∧
    (execCsimBody fp s e).2.Tb = s.Tb ∧
    (execCsimBody fp s e).2.DieError_ = s.DieError_ := by
  unfold execCsimBody
  simp only [RowCsim_rc, ne_eq, not_true_eq_false, if_false, and_self]

theorem execCsimBody_frame (fp : Fpu) (s : SystolicArraySim) (e : queueEntry_t)
    (hfr : s.FaultCsim_.Row < 8) (x : Nat)
    (hx : ∀ r, r < 8 → x ≠ e.Job.cellC r e.JobCycle) :
    (execCsimBody fp s e).2.Heap.read x = s.Heap.read x := by
  unfold execCsimBody
  simp only [RowCsim_rc, ne_eq, not_true_eq_false, if_false, read_write]
  rw [if_neg (hx _ hfr)]
  exact csimRows_frame fp _ e.Job e.JobCycle s.Heap x (fun r hr _ => hx r hr)

theorem execCsimBody_values (fp : Fpu) (s : SystolicArraySim) (e : queueEntry_t)
    (hfr : s.FaultCsim_.Row < 8) (hcol : e.JobCycle < 8)
    (hD : e.Job.outDistinct) (hI : e.Job.inputsApart e.Job)
    (hT : s.CycleCnt_ ≠ s.FaultCsimTransCycle_) (hP : fiMode.Permanent ≠ s.FaultCsim_.Mode) :
    ∀ r, r < 8 →
      (execCsimBody fp s e).2.Heap.read (e.Job.cellC r e.JobCycle)
        = refCell fp s.Heap e.Job r e.JobCycle := by
  intro r hr
  have hK : Kmma = 8 := rfl
  have hM : Mmma = 8 := rfl
  have hpre := csimRows_upto fp s.FaultCsim_.Row e.Job e.JobCycle s.Heap hcol hD hI 8
    (Nat.le_refl _)
  have hfrm : ∀ x, (∀ r', r' < 8 → r' ≠ s.FaultCsim_.Row → x ≠ e.Job.cellC r' e.JobCycle) →
      (csimRows fp s.FaultCsim_.Row e.Job e.JobCycle s.Heap).read x = s.Heap.read x :=
    fun x hx => csimRows_frame fp _ e.Job e.JobCycle s.Heap x hx
  have hnf : ¬ (s.CycleCnt_ = s.FaultCsimTransCycle_ ∨ fiMode.Permanent = s.FaultCsim_.Mode) := by
    intro h
    rcases h with h | h
    · exact hT h
    · exact hP h
  unfold execCsimBody
  simp only [RowCsim_rc, ne_eq, not_true_eq_false, if_false, read_write, if_neg hnf, RowCsim_none]
  by_cases hrf : r = s.FaultCsim_.Row
  · subst hrf
    rw [if_pos rfl]
    have hinner : (List.range Kmma).foldl (fun acc k =>
          fp.add acc (fp.mul
            (((List.range Kmma).map fun sum =>
              (csimRows fp s.FaultCsim_.Row e.Job e.JobCycle s.Heap).read
                (e.Job.cellA s.FaultCsim_.Row sum)).getD k 0)
            (((List.range Kmma).map fun sum =>
              (csimRows fp s.FaultCsim_.Row e.Job e.JobCycle s.Heap).read
                (e.Job.cellB sum e.JobCycle)).getD k 0)))
          ((csimRows fp s.FaultCsim_.Row e.Job e.JobCycle s.Heap).read
            (e.Job.cellC s.FaultCsim_.Row e.JobCycle))
        = refCell fp (csimRows fp s.FaultCsim_.Row e.Job e.JobCycle s.Heap) e.Job
            s.FaultCsim_.Row e.JobCycle := by
      unfold refCell
      apply foldl_range_congr
      intro b k hk
      simp [List.getD_eq_getElem?_getD, hk]
    rw [hinner]
    apply refCell_congr
    · intro k hk
      apply hfrm
      intro r' hr' _
      exact (hI _ k e.JobCycle r' e.JobCycle hfr hk hcol hr' hcol).1
    · intro k hk
      apply hfrm
      intro r' hr' _
      exact (hI s.FaultCsim_.Row k e.JobCycle r' e.JobCycle hfr hk hcol hr' hcol).2
    · apply hfrm
      intro r' hr' hne heq
      exact hne (hD _ e.JobCycle r' e.JobCycle hfr hcol hr' hcol heq).1.symm
  · rw [if_neg (by
      intro heq
      exact hrf (hD r e.JobCycle _ e.JobCycle hr hcol hfr hcol heq).1)]
    have := hpre.1 r hr hrf
    unfold csimRows
    rw [hM]
    exact this


theorem csimKeeps_trans {s s1 s2 : SystolicArraySim} (h1 : csimKeeps s s1)
    (h2 : csimKeeps s1 s2) : csimKeeps s s2 := by
  unfold csimKeeps at h1 h2 ⊢
  refine ⟨?_, ?_, ?_, ?_, ?_, ?_⟩
  · rw [h2.1, h1.1]
  · rw [h2.2.1, h1.2.1]
  · rw [h2.2.2.1, h1.2.2.1]
  · rw [h2.2.2.2.1, h1.2.2.2.1]
  · rw [h2.2.2.2.2.1, h1.2.2.2.2.1]
  · rw [h2.2.2.2.2.2, h1.2.2.2.2.2]

theorem wrap_wrap_add (a b : Nat) : wrap (wrap a + b) = wrap (a + b) := by
  simp only [wrap, Nat.mod_add_mod]

theorem ExecCsimLoop_step (fp : Fpu) (o m fuel : Nat) (s : SystolicArraySim)
    (e : queueEntry_t) (rest : List queueEntry_t) (hq : s.JobQueue_ = e :: rest)
    (hc : subw o (rest.length + 1) < m) :
    ExecCsimLoop fp o m (fuel + 1) s = ExecCsimLoop fp o m fuel (execCsimBody fp s e).2 := by
  have h0 := (execCsimBody_struct fp s e).1
  simp only [ExecCsimLoop]
  rw [hq]
  simp only [List.length_cons]
  rw [if_pos hc, if_neg (by rw [h0]; simp)]

theorem execCsim_job (fp : Fpu) (o m : Nat) (job : job_t) (rest : List queueEntry_t)
    (hc : subw o (rest.length + 1) < m) :
    ∀ (d c : Nat) (s : SystolicArraySim) (fuel : Nat), 1 ≤ d → c + d = 8 →
      s.JobQueue_ = { JobCycle := c, Job := job } :: rest → s.FaultCsim_.Row < 8 →
      s.CycleCnt_ < SIZE →
      ∃ s', ExecCsimLoop fp o m (d + fuel) s = ExecCsimLoop fp o m fuel s' ∧
        s'.JobQueue_ = rest ∧ s'.CycleCnt_ = wrap (s.CycleCnt_ + d) ∧ csimKeeps s s' ∧
        (∀ x, (∀ r col, r < 8 → c ≤ col → col < 8 → x ≠ job.cellC r col) →
          s'.Heap.read x = s.Heap.read x) ∧
        (job.outDistinct → job.inputsApart job → fiMode.Permanent ≠ s.FaultCsim_.Mode →
          (∀ i, i < d → wrap (s.CycleCnt_ + i) ≠ s.FaultCsimTransCycle_) →
          ∀ r col, r < 8 → c ≤ col → col < 8 →
            s'.Heap.read (job.cellC r col) = refCell fp s.Heap job r col) := by
  have hS : SIZE = 18446744073709551616 := rfl
  have hN : Nmma = 8 := rfl
  intro d
  induction d with
  | zero => intro c s fuel h; omega
  | succ d ih =>
    intro c s fuel _ hcd hq hfr hcyc
    have hst := execCsimBody_struct fp s { JobCycle := c, Job := job }
    have hfm := execCsimBody_frame fp s { JobCycle := c, Job := job } hfr
    obtain ⟨_, hq1, hc1, hk1, hk2, hk3, hk4, hk5, hk6⟩ := hst
    rw [show d + 1 + fuel = (d + fuel) + 1 by omega,
      ExecCsimLoop_step fp o m (d + fuel) s _ rest hq hc]
    simp only at hq1 hfm
    rw [wrap_of_lt (show c + 1 < SIZE by omega), hN, hq, List.tail_cons] at hq1
    rcases Nat.eq_zero_or_pos d with hd0 | hdpos
    · subst hd0
      rw [if_pos (by omega)] at hq1
      refine ⟨_, by rw [Nat.zero_add], hq1, hc1, ⟨hk1, hk2, hk3, hk4, hk5, hk6⟩, ?_, ?_⟩
      · intro x hx
        exact hfm x (fun r hr => hx r c hr (Nat.le_refl _) (by omega))
      · intro hD hI hP hT r col hr hcc hcol
        have hceq : col = c := by omega
        subst hceq
        exact execCsimBody_values fp s { JobCycle := col, Job := job } hfr
          (show col < 8 by omega) hD hI
          (by have := hT 0 (by omega); rw [Nat.add_zero, wrap_of_lt hcyc] at this; exact this)
          hP r hr
    · rw [if_neg (by omega)] at hq1
      obtain ⟨s', h1, h2, h3, h4, h5, h6⟩ := ih (c + 1) (execCsimBody fp s ⟨c, job⟩).2 fuel hdpos
        (by omega) hq1 (by rw [hk1]; exact hfr) (by rw [hc1]; exact Nat.mod_lt _ (by decide))
      refine ⟨s', h1, h2, ?_, csimKeeps_trans ⟨hk1, hk2, hk3, hk4, hk5, hk6⟩ h4, ?_, ?_⟩
      · rw [h3, hc1, wrap_wrap_add]; congr 1; omega
      · intro x hx
        rw [h5 x (fun r col hr hcc hcol => hx r col hr (by omega) hcol)]
        exact hfm x (fun r hr => hx r c hr (Nat.le_refl _) (by omega))
      · intro hD hI hP hT r col hr hcc hcol
        have hv := execCsimBody_values fp s { JobCycle := c, Job := job } hfr
          (show c < 8 by omega) hD hI
          (by have := hT 0 (by omega); rw [Nat.add_zero, wrap_of_lt hcyc] at this; exact this) hP
        simp only at hv
        by_cases hceq : col = c
        · subst hceq
          rw [h5 _ (fun r' col' hr' hcc' hcol' heq => by
            have := (hD r col r' col' hr hcol hr' hcol' heq).2; omega)]
          exact hv r hr
        · rw [h6 hD hI (by rw [hk1]; exact hP)
            (by
              intro i hi
              rw [hc1, hk2, wrap_wrap_add, show s.CycleCnt_ + 1 + i = s.CycleCnt_ + (i + 1) by omega]
              exact hT (i + 1) (by omega))
            r col hr (by omega) hcol]
          apply refCell_congr
          · intro k hk
            exact hfm _ (fun r' hr' => (hI r k col r' c hr hk hcol hr' (by omega)).1)
          · intro k hk
            exact hfm _ (fun r' hr' => (hI r k col r' c hr hk hcol hr' (by omega)).2)
          · exact hfm _ (fun r' hr' heq => hceq (hD r col r' c hr hcol hr' (by omega) heq).2)


theorem execCsim_jobs (fp : Fpu) (o m : Nat) (rest : List queueEntry_t) :
    ∀ (js : List job_t) (s : SystolicArraySim) (fuel : Nat),
      s.JobQueue_ = js.map fresh ++ rest → s.FaultCsim_.Row < 8 → s.CycleCnt_ < SIZE →
      (∀ i, i < js.length → subw o (js.length - i + rest.length) < m) →
      ∃ s', ExecCsimLoop fp o m (8 * js.length + fuel) s = ExecCsimLoop fp o m fuel s' ∧
        s'.JobQueue_ = rest ∧ s'.CycleCnt_ = wrap (s.CycleCnt_ + 8 * js.length) ∧
        csimKeeps s s' ∧
        (∀ x, (∀ j ∈ js, ∀ r col, r < 8 → col < 8 → x ≠ j.cellC r col) →
          s'.Heap.read x = s.Heap.read x) ∧
        ((∀ j ∈ js, j.outDistinct) → (∀ j1 ∈ js, ∀ j2 ∈ js, j1.inputsApart j2) →
          js.Pairwise job_t.outputsApart → fiMode.Permanent ≠ s.FaultCsim_.Mode →
          (∀ i, i < 8 * js.length → wrap (s.CycleCnt_ + i) ≠ s.FaultCsimTransCycle_) →
          ∀ j ∈ js, ∀ r col, r < 8 → col < 8 →
            s'.Heap.read (j.cellC r col) = refCell fp s.Heap j r col) := by
  intro js
  induction js with
  | nil =>
    intro s fuel hq _ hcyc _
    refine ⟨s, by simp, by simpa using hq, ?_, ⟨rfl, rfl, rfl, rfl, rfl, rfl⟩, fun x _ => rfl, ?_⟩
    · simp only [List.length_nil, Nat.mul_zero, Nat.add_zero]
      exact (wrap_of_lt hcyc).symm
    · intro _ _ _ _ _ j hj
      cases hj
  | cons j js ih =>
    intro s fuel hq hfr hcyc hcond
    simp only [List.map_cons, List.cons_append, fresh] at hq
    have hc0 : subw o ((js.map fresh ++ rest).length + 1) < m := by
      have := hcond 0 (by simp)
      simpa [Nat.add_right_comm] using this
    obtain ⟨s1, e1, q1, c1, k1, f1, v1⟩ :=
      execCsim_job fp o m j (js.map fresh ++ rest) hc0 8 0 s (8 * js.length + fuel)
        (by omega) (by omega) hq hfr hcyc
    obtain ⟨s2, e2, q2, c2, k2, f2, v2⟩ := ih s1 fuel q1 (by rw [k1.1]; exact hfr)
      (by rw [c1]; exact Nat.mod_lt _ (by decide))
      (by
        intro i hi
        have := hcond (i + 1) (by simp; omega)
        simpa [Nat.add_sub_add_right] using this)
    refine ⟨s2, ?_, q2, ?_, csimKeeps_trans k1 k2, ?_, ?_⟩
    · rw [← e2, ← e1]
      congr 1
      simp only [List.length_cons]
      omega
    · rw [c2, c1, wrap_wrap_add]
      congr 1
      simp only [List.length_cons]
      omega
    · intro x hx
      rw [f2 x (fun j' hj' => hx j' (List.mem_cons_of_mem _ hj'))]
      exact f1 x (fun r col hr _ hcol => hx j (List.mem_cons_self _ _) r col hr hcol)
    · intro hD hI hO hP hT j' hj' r col hr hcol
      rw [List.pairwise_cons] at hO
      rcases List.mem_cons.mp hj' with hj | hj
      · subst hj
        rw [f2 _ (fun j2 hj2 r' col' hr' hcol' => hO.1 j2 hj2 r col r' col' hr hcol hr' hcol')]
        exact v1 (hD _ (List.mem_cons_self _ _))
          (hI _ (List.mem_cons_self _ _) _ (List.mem_cons_self _ _)) hP
          (fun i hi => hT i (by simp only [List.length_cons]; omega)) r col hr (Nat.zero_le _) hcol
      · rw [v2 (fun j2 hj2 => hD j2 (List.mem_cons_of_mem _ hj2))
          (fun j1 hj1 j2 hj2 => hI j1 (List.mem_cons_of_mem _ hj1) j2 (List.mem_cons_of_mem _ hj2))
          hO.2 (by rw [k1.1]; exact hP)
          (by
            intro i hi
            rw [c1, k1.2.1, wrap_wrap_add, Nat.add_assoc]
            exact hT (8 + i) (by simp only [List.length_cons]; omega))
          j' hj r col hr hcol]
        have hIj := hI j' (List.mem_cons_of_mem _ hj) j (List.mem_cons_self _ _)
        apply refCell_congr
        · intro k hk
          exact f1 _ (fun r' col' hr' _ hcol' => (hIj r k col r' col' hr hk hcol hr' hcol').1)
        · intro k hk
          exact f1 _ (fun r' col' hr' _ hcol' => (hIj r k col r' col' hr hk hcol hr' hcol').2)
        · exact f1 _ (fun r' col' hr' _ hcol' =>
            (hO.1 j' hj r' col' r col hr' hcol' hr hcol).symm)


theorem ExecCsimLoop_done (fp : Fpu) (o m fuel : Nat) (s : SystolicArraySim)
    (h : s.JobQueue_ = [] ∨ ¬ subw o s.JobQueue_.length < m) :
    ExecCsimLoop fp o m (fuel + 1) s = some (0, s) := by
  simp only [ExecCsimLoop]
  cases hq : s.JobQueue_ with
  | nil => rfl
  | cons e rest =>
    simp only
    rcases h with h | h
    · rw [hq] at h; cases h
    · rw [hq] at h; rw [if_neg h]

/-- C7: on a queue of freshly dispatched jobs `js`, `ExecCsim(maxJobs)` returns 0,
removes the first `min maxJobs js.length` entries, advances the cycle counter
by `Nmma` per removed job (in `size_t` arithmetic), leaves the other entries in
order at job cycle 0, writes no cell outside the output blocks of the removed
jobs and hence, when those blocks do not overlap the output blocks of the
remaining jobs, leaves the `MatC` contents of the remaining jobs untouched. -/
theorem ExecCsim_removes_min_maxJobs (fp : Fpu) (s : SystolicArraySim) (js : List job_t) (maxJobs : Nat)
    (hq : s.JobQueue_ = js.map fresh) (hlen : js.length < SIZE)
    (hfr : s.FaultCsim_.Row < Mmma) (hcyc : s.CycleCnt_ < SIZE) :
    ∃ s', ExecCsim fp s maxJobs = some (0, s') ∧
      s'.JobQueue_ = (js.drop (min maxJobs js.length)).map fresh ∧
      s'.CycleCnt_ = wrap (s.CycleCnt_ + Nmma * min maxJobs js.length) ∧
      csimKeeps s s' ∧
      (∀ x, (∀ j ∈ js.take (min maxJobs js.length), ∀ r col, r < Mmma → col < Nmma →
          x ≠ j.cellC r col) → s'.Heap.read x = s.Heap.read x) ∧
      ((∀ j1 ∈ js.take (min maxJobs js.length), ∀ j2 ∈ js.drop (min maxJobs js.length),
          j1.outputsApart j2) →
        ∀ j2 ∈ js.drop (min maxJobs js.length), ∀ r col, r < Mmma → col < Nmma →
          s'.Heap.read (j2.cellC r col) = s.Heap.read (j2.cellC r col)) := by
  have hS : SIZE = 18446744073709551616 := rfl
  have hM : Mmma = 8 := rfl
  have hN : Nmma = 8 := rfl
  rw [hM] at hfr
  simp only [hM, hN]
  have hNle : min maxJobs js.length ≤ js.length := Nat.min_le_right _ _
  have hNle' : min maxJobs js.length ≤ maxJobs := Nat.min_le_left _ _
  have htl : (js.take (min maxJobs js.length)).length = min maxJobs js.length := by
    rw [List.length_take]; omega
  have hdl : ((js.drop (min maxJobs js.length)).map fresh).length
      = js.length - min maxJobs js.length := by
    rw [List.length_map, List.length_drop]
  have hsplit : s.JobQueue_ = (js.take (min maxJobs js.length)).map fresh
      ++ (js.drop (min maxJobs js.length)).map fresh := by
    rw [← List.map_append, List.take_append_drop]; exact hq
  obtain ⟨s', e1, q1, c1, k1, f1, _⟩ :=
    execCsim_jobs fp js.length maxJobs ((js.drop (min maxJobs js.length)).map fresh)
      (js.take (min maxJobs js.length)) s (9 * js.length - 8 * min maxJobs js.length + 1)
      hsplit hfr hcyc (by
        intro i hi
        rw [htl] at hi ⊢
        rw [hdl, subw_of_le (by omega) hlen]
        omega)
  rw [htl] at e1 c1
  have hfuel : 9 * js.length + 1
      = 8 * min maxJobs js.length + (9 * js.length - 8 * min maxJobs js.length + 1) := by omega
  have hdone : ExecCsimLoop fp js.length maxJobs
      (9 * js.length - 8 * min maxJobs js.length + 1) s' = some (0, s') := by
    apply ExecCsimLoop_done
    rw [q1, hdl]
    by_cases hlt : min maxJobs js.length < js.length
    · right
      rw [subw_of_le (by omega) hlen]
      omega
    · left
      have : min maxJobs js.length = js.length := by omega
      rw [this, List.drop_length]
      rfl
  refine ⟨s', ?_, q1, c1, k1, f1, ?_⟩
  · unfold ExecCsim
    rw [hq, List.length_map, hfuel, e1, hdone]
  · intro hO j2 hj2 r col hr hcol
    exact f1 _ (fun j1 hj1 r' col' hr' hcol' =>
      (hO j1 hj1 j2 hj2 r' col' r col hr' hcol' hr hcol).symm)


theorem mul_stride_bound (S : Nat) {r mCnt : Nat} (hr : r < mCnt) : r * S + S ≤ mCnt * S := by
  calc r * S + S = (r + 1) * S := by ring
    _ ≤ mCnt * S := Nat.mul_le_mul_right _ hr

theorem subJob_cellA (job : job_t) (mCnt nCnt r c row k : Nat) (hf : job.fits mCnt nCnt)
    (hr : r < mCnt) (hrow : row < 8) (hk : k < 8) :
    (subJob job r c).cellA row k = job.MatA + (8 * r + row) * job.StrideA + k := by
  obtain ⟨h1, h2, h3, h4, h5, h6⟩ := hf
  have hS : SIZE = 18446744073709551616 := rfl
  have hb := mul_stride_bound job.StrideA hr
  simp only [job_t.cellA, subJob]
  have e1 : 8 * r * job.StrideA = 8 * (r * job.StrideA) := by ring
  have e2 : (8 * r + row) * job.StrideA = 8 * (r * job.StrideA) + row * job.StrideA := by ring
  have e3 : row * job.StrideA ≤ 7 * job.StrideA := Nat.mul_le_mul_right _ (by omega)
  rw [e1, e2, wrap_of_lt (show 8 * (r * job.StrideA) < SIZE by omega),
    wrap_of_lt (show row * job.StrideA < SIZE by omega),
    wrap_of_lt (show row * job.StrideA + k < SIZE by omega)]
  omega

theorem subJob_cellC (job : job_t) (mCnt nCnt r c row col : Nat) (hf : job.fits mCnt nCnt)
    (hn : 1 ≤ nCnt) (hr : r < mCnt) (hrow : row < 8) (hcol : col < 8) :
    (subJob job r c).cellC row col = job.MatC + (8 * r + row) * job.StrideC + (8 * c + col) := by
  obtain ⟨h1, h2, h3, h4, h5, h6⟩ := hf
  have hS : SIZE = 18446744073709551616 := rfl
  have hb := mul_stride_bound job.StrideC hr
  simp only [job_t.cellC, subJob]
  have e1 : 8 * r * job.StrideC = 8 * (r * job.StrideC) := by ring
  have e2 : (8 * r + row) * job.StrideC = 8 * (r * job.StrideC) + row * job.StrideC := by ring
  have e3 : row * job.StrideC ≤ 7 * job.StrideC := Nat.mul_le_mul_right _ (by omega)
  have hpos : 0 < mCnt := by omega
  have e4 : job.StrideC ≤ mCnt * job.StrideC := Nat.le_mul_of_pos_left _ hpos
  rw [e1, e2, wrap_of_lt (show 8 * (r * job.StrideC) < SIZE by omega),
    wrap_of_lt (show row * job.StrideC < SIZE by omega),
    wrap_of_lt (show row * job.StrideC + col < SIZE by omega)]
  omega

theorem subJob_cellB (job : job_t) (mCnt nCnt r c k col : Nat) (hf : job.fits mCnt nCnt)
    (hk : k < 8) (hcol : col < 8) :
    (subJob job r c).cellB k col = job.MatB + k * job.StrideB + (8 * c + col) := by
  obtain ⟨h1, h2, h3, h4, h5, h6⟩ := hf
  have hS : SIZE = 18446744073709551616 := rfl
  simp only [job_t.cellB, subJob]
  have e3 : k * job.StrideB ≤ 7 * job.StrideB := Nat.mul_le_mul_right _ (by omega)
  rw [wrap_of_lt (show k * job.StrideB < SIZE by omega),
    wrap_of_lt (show k * job.StrideB + col < SIZE by omega)]
  omega

theorem stride_index_inj (S i j i' j' : Nat) (hj : j < S) (hj' : j' < S)
    (h : i * S + j = i' * S + j') : i = i' ∧ j = j' := by
  have hS : 0 < S := by omega
  have h1 : (i * S + j) / S = i := by
    rw [Nat.mul_comm, Nat.mul_add_div hS, Nat.div_eq_of_lt hj, Nat.add_zero]
  have h2 : (i' * S + j') / S = i' := by
    rw [Nat.mul_comm, Nat.mul_add_div hS, Nat.div_eq_of_lt hj', Nat.add_zero]
  have hi : i = i' := by rw [← h1, ← h2, h]
  subst hi
  exact ⟨rfl, by omega⟩


theorem fanOut_eq_fanJobs (job : job_t) (mCnt nCnt : Nat) :
    fanOut job mCnt nCnt = (fanJobs job mCnt nCnt).map fresh := by
  apply List.ext_getElem?
  intro t
  by_cases ht : t < mCnt * nCnt
  · have hn : 0 < nCnt := by
      rcases Nat.eq_zero_or_pos nCnt with h | h
      · subst h; simp at ht
      · exact h
    have hr : t / nCnt < mCnt := Nat.div_lt_of_lt_mul (by rw [Nat.mul_comm]; exact ht)
    have hc : t % nCnt < nCnt := Nat.mod_lt _ hn
    have hdm : t / nCnt * nCnt + t % nCnt = t := by
      rw [Nat.mul_comm]; exact Nat.div_add_mod t nCnt
    have h1 := fanOut_getElem? job mCnt nCnt (t / nCnt) (t % nCnt) hr hc
    rw [hdm] at h1
    rw [h1]
    simp [fanJobs, ht, fresh, fanOutEntry, subJob]
  · have h1 : (fanOut job mCnt nCnt)[t]? = none := by
      rw [List.getElem?_eq_none_iff, fanOut_length]; omega
    rw [h1]
    symm
    rw [List.getElem?_eq_none_iff]
    simp [fanJobs]
    omega

theorem mem_fanJobs {job : job_t} {mCnt nCnt : Nat} {j : job_t} (h : j ∈ fanJobs job mCnt nCnt) :
    ∃ r c, r < mCnt ∧ c < nCnt ∧ j = subJob job r c := by
  simp only [fanJobs, List.mem_map, List.mem_range] at h
  obtain ⟨t, ht, rfl⟩ := h
  have hn : 0 < nCnt := by
    rcases Nat.eq_zero_or_pos nCnt with h | h
    · subst h; simp at ht
    · exact h
  exact ⟨t / nCnt, t % nCnt, Nat.div_lt_of_lt_mul (by rw [Nat.mul_comm]; exact ht),
    Nat.mod_lt _ hn, rfl⟩

theorem subJob_outDistinct (job : job_t) (mCnt nCnt r c : Nat) (hf : job.fits mCnt nCnt)
    (hn : 1 ≤ nCnt) (hr : r < mCnt) (hc : c < nCnt) : (subJob job r c).outDistinct := by
  intro row col row' col' hrow hcol hrow' hcol' heq
  rw [subJob_cellC job mCnt nCnt r c row col hf hn hr hrow hcol,
    subJob_cellC job mCnt nCnt r c row' col' hf hn hr hrow' hcol'] at heq
  have h3 := hf.2.2.1
  have := stride_index_inj job.StrideC (8 * r + row) (8 * c + col)
    (8 * r + row') (8 * c + col') (by omega) (by omega) (by omega)
  omega

theorem subJob_outputsApart (job : job_t) (mCnt nCnt r c r' c' : Nat) (hf : job.fits mCnt nCnt)
    (hn : 1 ≤ nCnt) (hr : r < mCnt) (hc : c < nCnt) (hr' : r' < mCnt) (hc' : c' < nCnt)
    (hne : r ≠ r' ∨ c ≠ c') : (subJob job r c).outputsApart (subJob job r' c') := by
  intro row col row' col' hrow hcol hrow' hcol' heq
  rw [subJob_cellC job mCnt nCnt r c row col hf hn hr hrow hcol,
    subJob_cellC job mCnt nCnt r' c' row' col' hf hn hr' hrow' hcol'] at heq
  have h3 := hf.2.2.1
  have := stride_index_inj job.StrideC (8 * r + row) (8 * c + col)
    (8 * r' + row') (8 * c' + col') (by omega) (by omega) (by omega)
  omega

theorem fanJobs_pairwise (job : job_t) (mCnt nCnt : Nat) (hf : job.fits mCnt nCnt)
    (hn : 1 ≤ nCnt) : (fanJobs job mCnt nCnt).Pairwise job_t.outputsApart := by
  unfold fanJobs
  rw [List.pairwise_map]
  apply List.Pairwise.imp_of_mem _ (List.pairwise_lt_range (mCnt * nCnt))
  intro a b ha hb hab
  rw [List.mem_range] at ha hb
  have hra : a / nCnt < mCnt := Nat.div_lt_of_lt_mul (by rw [Nat.mul_comm]; exact ha)
  have hrb : b / nCnt < mCnt := Nat.div_lt_of_lt_mul (by rw [Nat.mul_comm]; exact hb)
  apply subJob_outputsApart job mCnt nCnt _ _ _ _ hf hn hra (Nat.mod_lt _ hn) hrb (Nat.mod_lt _ hn)
  by_contra hcon
  have h1 : a / nCnt = b / nCnt := by omega
  have h2 : a % nCnt = b % nCnt := by omega
  have := Nat.div_add_mod a nCnt
  have := Nat.div_add_mod b nCnt
  rw [h1, h2] at *
  omega


theorem subJob_mem_fanJobs (job : job_t) (mCnt nCnt r c : Nat) (hr : r < mCnt) (hc : c < nCnt) :
    subJob job r c ∈ fanJobs job mCnt nCnt := by
  simp only [fanJobs, List.mem_map, List.mem_range]
  refine ⟨r * nCnt + c, ?_, ?_⟩
  · calc r * nCnt + c < r * nCnt + nCnt := by omega
      _ = (r + 1) * nCnt := by ring
      _ ≤ mCnt * nCnt := Nat.mul_le_mul_right _ hr
  · have h1 : (r * nCnt + c) / nCnt = r := by
      rw [Nat.mul_comm, Nat.mul_add_div (by omega), Nat.div_eq_of_lt hc, Nat.add_zero]
    have h2 : (r * nCnt + c) % nCnt = c := by
      rw [Nat.mul_comm, Nat.mul_add_mod, Nat.mod_eq_of_lt hc]
    rw [h1, h2]

/-- C1: for `mCnt, nCnt >= 1` and a job whose `A`, `B` and `C` buffers exist in
the address space with `StrideA >= 8`, `StrideB >= 8 * nCnt`, `StrideC >= 8 * nCnt`
and whose `C` cells are neither `A` nor `B` cells: after
`DispatchMma(job, mCnt, nCnt)` on an empty queue and `ExecCsim()` with no fault
set, both calls have returned 0, the queue is empty and every
`MatC[i * StrideC + j]` holds the reference value `refMma`, the original
`C[i, j]` plus `A[i, k] * B[k, j]` added for `k = 0 .. 7` in ascending order;
`DispatchTile` is the case `mCnt = nCnt = 4`. -/
theorem DispatchMma_ExecCsim_matches_reference (fp : Fpu) (s : SystolicArraySim) (job : job_t)
    (mCnt nCnt : Nat) (hm : 1 ≤ mCnt) (hn : 1 ≤ nCnt)
    (hq : s.JobQueue_ = [])
    (hF : s.FaultCsim_ = ({} : faultCsim_t)) (hT : s.FaultCsimTransCycle_ = SIZE_MAX)
    (hcyc : s.CycleCnt_ + 8 * (mCnt * nCnt) ≤ SIZE_MAX)
    (hf : job.fits mCnt nCnt)
    (hAC : ∀ i k i' j', i < 8 * mCnt → k < 8 → i' < 8 * mCnt → j' < 8 * nCnt →
      job.MatA + i * job.StrideA + k ≠ job.MatC + i' * job.StrideC + j')
    (hBC : ∀ k j i' j', k < 8 → j < 8 * nCnt → i' < 8 * mCnt → j' < 8 * nCnt →
      job.MatB + k * job.StrideB + j ≠ job.MatC + i' * job.StrideC + j') :
    ∃ s1 s2, DispatchMmaCnt s job mCnt nCnt = some (0, s1) ∧
      ExecCsim fp s1 SIZE_MAX = some (0, s2) ∧ s2.JobQueue_ = [] ∧
      (∀ i j, i < 8 * mCnt → j < 8 * nCnt →
        s2.Heap.read (job.MatC + i * job.StrideC + j) = refMma fp s.Heap job i j) ∧
      (mCnt = 4 → nCnt = 4 → DispatchTile s job = some (0, s1)) := by
  have hS : SIZE = 18446744073709551616 := rfl
  have hSM : SIZE_MAX = 18446744073709551615 := rfl
  obtain ⟨f1, f2, f3, f4, f5, f6⟩ := id hf
  have hm8 : 8 * mCnt < SIZE := by
    have : mCnt * 8 ≤ mCnt * job.StrideA := Nat.mul_le_mul_left _ f1
    omega
  have hn8 : 8 * nCnt < SIZE := by omega
  have hdisp := DispatchMmaCnt_eq s job mCnt nCnt hm8 hn8
  rw [hq, List.nil_append, fanOut_eq_fanJobs] at hdisp
  have hL : (fanJobs job mCnt nCnt).length = mCnt * nCnt := by simp [fanJobs]
  obtain ⟨s2, e1, q1, _, _, _, v1⟩ :=
    execCsim_jobs fp (mCnt * nCnt) SIZE_MAX [] (fanJobs job mCnt nCnt)
      { s with JobQueue_ := (fanJobs job mCnt nCnt).map fresh } (mCnt * nCnt + 1)
      (by simp) (by rw [hF]; decide) (by show s.CycleCnt_ < SIZE; omega)
      (by
        intro i hi
        rw [hL] at hi ⊢
        rw [List.length_nil, Nat.add_zero, subw_of_le (by omega) (by omega)]
        omega)
  have hdone := ExecCsimLoop_done fp (mCnt * nCnt) SIZE_MAX (mCnt * nCnt) s2 (Or.inl q1)
  have hvals := v1
    (by
      intro j hj
      obtain ⟨r, c, hr, hc, rfl⟩ := mem_fanJobs hj
      exact subJob_outDistinct job mCnt nCnt r c hf hn hr hc)
    (by
      intro j1 hj1 j2 hj2
      obtain ⟨r1, c1, hr1, hc1, rfl⟩ := mem_fanJobs hj1
      obtain ⟨r2, c2, hr2, hc2, rfl⟩ := mem_fanJobs hj2
      intro r k c r' c' hr hk hc hr' hc'
      rw [subJob_cellA job mCnt nCnt r1 c1 r k hf hr1 hr hk,
        subJob_cellB job mCnt nCnt r1 c1 k c hf hk hc,
        subJob_cellC job mCnt nCnt r2 c2 r' c' hf hn hr2 hr' hc']
      exact ⟨hAC _ _ _ _ (by omega) hk (by omega) (by omega),
        hBC _ _ _ _ hk (by omega) (by omega) (by omega)⟩)
    (fanJobs_pairwise job mCnt nCnt hf hn)
    (by show fiMode.Permanent ≠ s.FaultCsim_.Mode; rw [hF]; decide)
    (by
      intro i hi
      rw [hL] at hi
      show wrap (s.CycleCnt_ + i) ≠ s.FaultCsimTransCycle_
      rw [hT, wrap_of_lt (by omega)]
      omega)
  refine ⟨_, s2, hdisp, ?_, q1, ?_, ?_⟩
  · unfold ExecCsim
    simp only [List.length_map, hL]
    rw [show 9 * (mCnt * nCnt) + 1 = 8 * (fanJobs job mCnt nCnt).length + (mCnt * nCnt + 1) by
      rw [hL]; omega, e1, hdone]
  · intro i j hi hj
    have hr : i / 8 < mCnt := by omega
    have hc : j / 8 < nCnt := by omega
    have hv := hvals (subJob job (i / 8) (j / 8))
      (subJob_mem_fanJobs job mCnt nCnt _ _ hr hc) (i % 8) (j % 8)
      (Nat.mod_lt _ (by decide)) (Nat.mod_lt _ (by decide))
    rw [subJob_cellC job mCnt nCnt _ _ _ _ hf hn hr (Nat.mod_lt _ (by decide))
      (Nat.mod_lt _ (by decide)), Nat.div_add_mod, Nat.div_add_mod] at hv
    rw [hv]
    unfold refCell refMma
    simp only
    rw [subJob_cellC job mCnt nCnt _ _ _ _ hf hn hr (Nat.mod_lt _ (by decide))
      (Nat.mod_lt _ (by decide)), Nat.div_add_mod, Nat.div_add_mod]
    apply foldl_range_congr
    intro b k hk
    have hK : Kmma = 8 := rfl
    rw [subJob_cellA job mCnt nCnt _ _ _ _ hf hr (Nat.mod_lt _ (by decide)) (by omega),
      subJob_cellB job mCnt nCnt _ _ _ _ hf (by omega) (Nat.mod_lt _ (by decide)),
      Nat.div_add_mod, Nat.div_add_mod]
  · intro h4 h4'
    subst h4 h4'
    rw [DispatchTile_eq, hdisp]

/-! ### Examples for the statements with hypotheses -/

theorem portsFit_tbInit : portsFit tbInit := by
  simp only [portsFit, tbInit, List.length_replicate, SIZE]
  decide

theorem IoSet_drains_in_CyclesRequired_witness :
    (1 ≤ [exampleJob].length ∧ portsFit exampleSim.Tb ∧ 56 * [exampleJob].length < SIZE) ∧
    (∃ sN, ioSetIter exampleFpu id (CyclesRequired [exampleJob].length)
        { exampleSim with JobQueue_ := [fresh exampleJob] } = some sN ∧ sN.JobQueue_ = []) :=
  ⟨⟨by decide, portsFit_tbInit, by decide⟩,
   (IoSet_drains_in_CyclesRequired exampleFpu id
      { exampleSim with JobQueue_ := [fresh exampleJob] } [exampleJob] (by decide) rfl
      portsFit_tbInit (fun _ h => h) (by decide)).2.1⟩

theorem ExecCsim_removes_min_maxJobs_witness :
    ([exampleJob, { exampleJob with MatC := 4000 }].length < SIZE ∧
      exampleSim.FaultCsim_.Row < Mmma ∧ exampleSim.CycleCnt_ < SIZE) ∧
    (∃ s', ExecCsim exampleFpu
        { exampleSim with
          JobQueue_ := [exampleJob, { exampleJob with MatC := 4000 }].map fresh } 1
          = some (0, s') ∧
      s'.JobQueue_ = [fresh { exampleJob with MatC := 4000 }] ∧ s'.CycleCnt_ = 8) := by
  refine ⟨⟨by decide, by decide, by decide⟩, ?_⟩
  obtain ⟨s', h1, h2, h3, _⟩ := ExecCsim_removes_min_maxJobs exampleFpu
    { exampleSim with JobQueue_ := [exampleJob, { exampleJob with MatC := 4000 }].map fresh }
    [exampleJob, { exampleJob with MatC := 4000 }] 1 rfl (by decide) (by decide) (by decide)
  exact ⟨s', h1, h2, h3⟩

theorem exampleJob_fits : exampleJob.fits 2 2 := by
  simp only [job_t.fits, exampleJob, SIZE]
  decide

theorem DispatchMma_ExecCsim_matches_reference_witness :
    (1 ≤ 2 ∧ exampleSim.JobQueue_ = [] ∧ exampleSim.FaultCsim_ = ({} : faultCsim_t) ∧
      exampleSim.FaultCsimTransCycle_ = SIZE_MAX ∧
      exampleSim.CycleCnt_ + 8 * (2 * 2) ≤ SIZE_MAX ∧ exampleJob.fits 2 2) ∧
    (∃ s1 s2, DispatchMmaCnt exampleSim exampleJob 2 2 = some (0, s1) ∧
      ExecCsim exampleFpu s1 SIZE_MAX = some (0, s2) ∧ s2.JobQueue_ = [] ∧
      s2.Heap.read (exampleJob.MatC + 9 * exampleJob.StrideC + 3)
        = refMma exampleFpu exampleSim.Heap exampleJob 9 3 ∧
      refMma exampleFpu exampleSim.Heap exampleJob 9 3 = 61) := by
  refine ⟨⟨by decide, rfl, rfl, rfl, by decide, exampleJob_fits⟩, ?_⟩
  obtain ⟨s1, s2, h1, h2, h3, h4, _⟩ := DispatchMma_ExecCsim_matches_reference exampleFpu
    exampleSim exampleJob 2 2 (by decide) (by decide) rfl rfl rfl (by decide) exampleJob_fits
    (by
      intro i k i' j' hi hk hi' hj'
      show 1000 + i * 8 + k ≠ 3000 + i' * 16 + j'
      omega)
    (by
      intro k j i' j' hk hj hi' hj'
      show 2000 + k * 16 + j ≠ 3000 + i' * 16 + j'
      omega)
  exact ⟨s1, s2, h1, h2, h3, h4 9 3 (by decide) (by decide), by decide⟩


/-! ## `RowCsim` with a fault record -/

theorem RowCsim_some (fp : Fpu) (rand : Nat → Nat) (randPos out : Nat) (a b : List Nat)
    (fi : faultCsim_t) :
    (RowCsim fp rand randPos out a b (some fi)).2.1
      = if fiCsimPlace.ColumnAdders = fi.Place then
          corrupt (rowCsimFaulted fp out a b (rand randPos % Kmma)) fi.Corruption fi.BitPos
        else rowCsimFaulted fp out a b (rand randPos % Kmma) := by
  have key : ∀ (l : List Nat) (st : Nat × Nat),
      (l.foldl (fun (st : Nat × Nat) k =>
        if k = rand randPos % Kmma then
          (st.1, (rowCsimFault fp rand st.2 st.1 (a.getD k 0) (b.getD k 0) fi).RandPos)
        else (fp.add st.1 (fp.mul (a.getD k 0) (b.getD k 0)), st.2)) st).1
        = l.foldl (fun acc k =>
            if k = rand randPos % Kmma then acc
            else fp.add acc (fp.mul (a.getD k 0) (b.getD k 0))) st.1 := by
    intro l
    induction l with
    | nil => intro st; rfl
    | cons k l ih =>
      intro st
      rw [List.foldl_cons, List.foldl_cons, ih]
      by_cases hk : k = rand randPos % Kmma
      · rw [if_pos hk, if_pos hk]
      · rw [if_neg hk, if_neg hk]
  unfold RowCsim rowCsimFaulted
  simp only
  rw [key]

theorem rowCsimFault_not_Multipliers (fp : Fpu) (rand : Nat → Nat) (randPos out aK bK : Nat)
    (fi : faultCsim_t) (h : fiCsimPlace.Multipliers ≠ fi.Place) :
    rowCsimFault fp rand randPos out aK bK fi
      = { accIn := out, aIn := aK, bIn := bK, mul := fp.mul aK bK,
          acc := if fiCsimPlace.AccAdders = fi.Place then
              corrupt (fp.add (fp.mul aK bK) out) fi.Corruption fi.BitPos
            else fp.add (fp.mul aK bK) out,
          RandPos := randPos } := by
  unfold rowCsimFault
  simp [h]

theorem range8 : List.range 8 = [0, 1, 2, 3, 4, 5, 6, 7] := by decide

theorem rowCsimFaulted_unitRow (fp : Fpu) (hm0 : fp.mul 0 0 = 0) (ha0 : fp.add 0 0 = 0) :
    rowCsimFaulted fp 0 unitRow unitRow 0 = 0 := by
  have hK : Kmma = 8 := rfl
  unfold rowCsimFaulted
  rw [hK, range8]
  simp [unitRow, hm0, ha0]

theorem specRowSum_unitRow (fp : Fpu) (hm1 : fp.mul ONE ONE = ONE) (hm0 : fp.mul 0 0 = 0)
    (ha1 : fp.add 0 ONE = ONE) (ha2 : fp.add ONE 0 = ONE) :
    specRowSum fp 0 unitRow unitRow = ONE := by
  unfold specRowSum
  rw [range8]
  simp [unitRow, hm0, hm1, ha1, ha2]

theorem RowCsim_some_randPos (fp : Fpu) (rand : Nat → Nat) (randPos out : Nat) (a b : List Nat)
    (fi : faultCsim_t) (h : fiCsimPlace.Multipliers ≠ fi.Place) :
    (RowCsim fp rand randPos out a b (some fi)).2.2 = randPos + 1 := by
  have key : ∀ (l : List Nat) (st : Nat × Nat),
      (l.foldl (fun (st : Nat × Nat) k =>
        if k = rand randPos % Kmma then
          (st.1, (rowCsimFault fp rand st.2 st.1 (a.getD k 0) (b.getD k 0) fi).RandPos)
        else (fp.add st.1 (fp.mul (a.getD k 0) (b.getD k 0)), st.2)) st).2 = st.2 := by
    intro l
    induction l with
    | nil => intro st; rfl
    | cons k l ih =>
      intro st
      rw [List.foldl_cons, ih]
      by_cases hk : k = rand randPos % Kmma
      · rw [if_pos hk, rowCsimFault_not_Multipliers fp rand _ _ _ _ fi h]
      · rw [if_neg hk]
  unfold RowCsim
  simp only
  rw [key]

/-- C11, defect of the code: with `Place = Multipliers` the branch of `RowCsim`
taken at `k = kFi` computes the corrupted product and the sum in locals and
assigns nothing to `*out`: for every input the final `*out` is the
accumulation over the steps `k ≠ kFi` only.  For `*out = 0.0`,
`a = b = (1.0, 0, ..., 0)`, `kFi = 0` and a flip of bit 0 the code leaves `0.0`
where the claim has `0.0 + corrupt(1.0 * 1.0) = 1.0000000000000002`; the host
arithmetic enters through the listed IEEE-754 facts only. -/
theorem RowCsim_Multipliers_drops_step (fp : Fpu)
    (hm1 : fp.mul ONE ONE = ONE) (hm0 : fp.mul 0 0 = 0) (ha0 : fp.add 0 0 = 0)
    (ha1 : fp.add 0 ONE_ULP = ONE_ULP) (ha2 : fp.add ONE_ULP 0 = ONE_ULP) :
    (∀ (rand : Nat → Nat) (randPos out : Nat) (a b : List Nat) (fi : faultCsim_t),
      fiCsimPlace.Multipliers = fi.Place →
      (RowCsim fp rand randPos out a b (some fi)).2.1
        = rowCsimFaulted fp out a b (rand randPos % Kmma)) ∧
    (RowCsim fp (fun _ => 0) 0 0 unitRow unitRow
        (some (flipBit0 fiCsimPlace.Multipliers))).2.1 = 0 ∧
    specRowMultipliers fp (flipBit0 fiCsimPlace.Multipliers) 0 unitRow unitRow 0 = ONE_ULP := by
  have hc : corrupt ONE fiCorruption.Flip 0 = ONE_ULP := by decide
  refine ⟨?_, ?_, ?_⟩
  · intro rand randPos out a b fi h
    rw [RowCsim_some, if_neg (by rw [← h]; decide)]
  · rw [RowCsim_some, if_neg (by decide)]
    exact rowCsimFaulted_unitRow fp hm0 ha0
  · unfold specRowMultipliers
    rw [range8]
    simp [unitRow, flipBit0, hm0, hm1, hc, ha1, ha2]

theorem RowCsim_Multipliers_drops_step_witness :
    (unitFpu.mul ONE ONE = ONE ∧ unitFpu.add 0 ONE_ULP = ONE_ULP) ∧
    (RowCsim unitFpu (fun _ => 0) 0 0 unitRow unitRow
        (some (flipBit0 fiCsimPlace.Multipliers))).2.1 = 0 ∧
    specRowMultipliers unitFpu (flipBit0 fiCsimPlace.Multipliers) 0 unitRow unitRow 0
      = ONE_ULP :=
  ⟨⟨by decide, by decide⟩,
    (RowCsim_Multipliers_drops_step unitFpu (by decide) (by decide) (by decide) (by decide)
      (by decide)).2⟩

/-- C12, defect of the code: with `Place = ColumnAdders` the final corruption of
`*out` is performed, but the sum it is applied to lacks the product of step
`kFi`, because a fault record is passed and the branch taken at `k = kFi`
assigns nothing to `*out`.  For `*out = 0.0`, `a = b = (1.0, 0, ..., 0)`,
`kFi = 0` and a flip of bit 0 the code leaves `corrupt(0.0) = 4.9e-324` where
the claim has `corrupt(1.0) = 1.0000000000000002`. -/
theorem RowCsim_ColumnAdders_misses_product (fp : Fpu)
    (hm1 : fp.mul ONE ONE = ONE) (hm0 : fp.mul 0 0 = 0) (ha0 : fp.add 0 0 = 0)
    (ha1 : fp.add 0 ONE = ONE) (ha2 : fp.add ONE 0 = ONE) :
    (∀ (rand : Nat → Nat) (randPos out : Nat) (a b : List Nat) (fi : faultCsim_t),
      fiCsimPlace.ColumnAdders = fi.Place →
      (RowCsim fp rand randPos out a b (some fi)).2.1
        = corrupt (rowCsimFaulted fp out a b (rand randPos % Kmma)) fi.Corruption fi.BitPos) ∧
    (RowCsim fp (fun _ => 0) 0 0 unitRow unitRow
        (some (flipBit0 fiCsimPlace.ColumnAdders))).2.1 = 1 ∧
    specRowColumnAdders fp (flipBit0 fiCsimPlace.ColumnAdders) 0 unitRow unitRow = ONE_ULP := by
  refine ⟨?_, ?_, ?_⟩
  · intro rand randPos out a b fi h
    rw [RowCsim_some, if_pos h]
  · rw [RowCsim_some, if_pos (by decide)]
    show corrupt (rowCsimFaulted fp 0 unitRow unitRow 0) _ _ = 1
    rw [rowCsimFaulted_unitRow fp hm0 ha0]
    decide
  · unfold specRowColumnAdders
    rw [specRowSum_unitRow fp hm1 hm0 ha1 ha2]
    decide

theorem RowCsim_ColumnAdders_misses_product_witness :
    (unitFpu.mul ONE ONE = ONE ∧ unitFpu.add 0 ONE = ONE) ∧
    (RowCsim unitFpu (fun _ => 0) 0 0 unitRow unitRow
        (some (flipBit0 fiCsimPlace.ColumnAdders))).2.1 = 1 ∧
    specRowColumnAdders unitFpu (flipBit0 fiCsimPlace.ColumnAdders) 0 unitRow unitRow
      = ONE_ULP :=
  ⟨⟨by decide, by decide⟩,
    (RowCsim_ColumnAdders_misses_product unitFpu (by decide) (by decide) (by decide)
      (by decide) (by decide)).2⟩

/-- C13, defect of the code: with `Place = Inputs` the branch of `RowCsim` taken
at `k = kFi` corrupts no operand and makes no three-way draw (both are guarded
by `Multipliers == Place`), and it assigns nothing to `*out`: the locals are the
uncorrupted operands and for every input the final `*out` is the accumulation
over the steps `k ≠ kFi`.  For `*out = 0.0`, `a = b = (1.0, 0, ..., 0)`,
`kFi = 0` and a flip of bit 0 the code leaves `0.0` where the claim has `1.0`
(accumulator corrupted) or `1.0000000000000002` (`a[0]` or `b[0]` corrupted). -/
theorem RowCsim_Inputs_corrupts_nothing (fp : Fpu)
    (hm1 : fp.mul ONE ONE = ONE) (hm0 : fp.mul 0 0 = 0) (ha0 : fp.add 0 0 = 0)
    (hm2 : fp.mul ONE_ULP ONE = ONE_ULP) (hm3 : fp.mul ONE ONE_ULP = ONE_ULP)
    (ha1 : fp.add 0 ONE_ULP = ONE_ULP) (ha2 : fp.add ONE_ULP 0 = ONE_ULP)
    (ha3 : fp.add 1 ONE = ONE) (ha4 : fp.add ONE 0 = ONE) :
    (∀ (rand : Nat → Nat) (randPos out : Nat) (a b : List Nat) (fi : faultCsim_t),
      fiCsimPlace.Inputs = fi.Place →
      (RowCsim fp rand randPos out a b (some fi)).2.1
          = rowCsimFaulted fp out a b (rand randPos % Kmma) ∧
        (RowCsim fp rand randPos out a b (some fi)).2.2 = randPos + 1) ∧
    (∀ (rand : Nat → Nat) (randPos out aK bK : Nat) (fi : faultCsim_t),
      fiCsimPlace.Inputs = fi.Place →
      (rowCsimFault fp rand randPos out aK bK fi).accIn = out ∧
        (rowCsimFault fp rand randPos out aK bK fi).aIn = aK ∧
        (rowCsimFault fp rand randPos out aK bK fi).bIn = bK) ∧
    (RowCsim fp (fun _ => 0) 0 0 unitRow unitRow (some (flipBit0 fiCsimPlace.Inputs))).2.1 = 0 ∧
    specRowInputs fp (flipBit0 fiCsimPlace.Inputs) 0 unitRow unitRow 0 0 = ONE ∧
    specRowInputs fp (flipBit0 fiCsimPlace.Inputs) 0 unitRow unitRow 0 1 = ONE_ULP ∧
    specRowInputs fp (flipBit0 fiCsimPlace.Inputs) 0 unitRow unitRow 0 2 = ONE_ULP := by
  have hc : corrupt ONE fiCorruption.Flip 0 = ONE_ULP := by decide
  have hc0 : corrupt 0 fiCorruption.Flip 0 = 1 := by decide
  refine ⟨?_, ?_, ?_, ?_, ?_, ?_⟩
  · intro rand randPos out a b fi h
    refine ⟨?_, ?_⟩
    · rw [RowCsim_some, if_neg (by rw [← h]; decide)]
    · exact RowCsim_some_randPos fp rand randPos out a b fi (by rw [← h]; decide)
  · intro rand randPos out aK bK fi h
    rw [rowCsimFault_not_Multipliers fp rand randPos out aK bK fi (by rw [← h]; decide)]
    exact ⟨rfl, rfl, rfl⟩
  · rw [RowCsim_some, if_neg (by decide)]
    exact rowCsimFaulted_unitRow fp hm0 ha0
  · unfold specRowInputs
    rw [range8]
    simp [unitRow, flipBit0, hm0, hm1, hc0, ha3, ha4]
  · unfold specRowInputs
    rw [range8]
    simp [unitRow, flipBit0, hm0, hc, hm2, ha1, ha2]
  · unfold specRowInputs
    rw [range8]
    simp [unitRow, flipBit0, hm0, hc, hm3, ha1, ha2]

theorem RowCsim_Inputs_corrupts_nothing_witness :
    (unitFpu.mul ONE_ULP ONE = ONE_ULP ∧ unitFpu.add 1 ONE = ONE) ∧
    (RowCsim unitFpu (fun _ => 0) 0 0 unitRow unitRow
        (some (flipBit0 fiCsimPlace.Inputs))).2.1 = 0 ∧
    specRowInputs unitFpu (flipBit0 fiCsimPlace.Inputs) 0 unitRow unitRow 0 1 = ONE_ULP :=
  ⟨⟨by decide, by decide⟩,
    (RowCsim_Inputs_corrupts_nothing unitFpu (by decide) (by decide) (by decide) (by decide)
      (by decide) (by decide) (by decide) (by decide) (by decide)).2.2.1,
    (RowCsim_Inputs_corrupts_nothing unitFpu (by decide) (by decide) (by decide) (by decide)
      (by decide) (by decide) (by decide) (by decide) (by decide)).2.2.2.2.1⟩

/-- C14, defect of the code: with `Place = AccAdders` the branch of `RowCsim`
taken at `k = kFi` computes the corrupted partial sum in the local `acc` and
assigns nothing to `*out`: for every input the final `*out` is the
accumulation over the steps `k ≠ kFi`.  For `*out = 0.0`,
`a = b = (1.0, 0, ..., 0)`, `kFi = 0` and a flip of bit 0 the local is
`corrupt(1.0 * 1.0 + 0.0) = 1.0000000000000002`, which is the value the claim
has in `*out`, and the code leaves `0.0`. -/
theorem RowCsim_AccAdders_drops_sum (fp : Fpu)
    (hm1 : fp.mul ONE ONE = ONE) (hm0 : fp.mul 0 0 = 0) (ha0 : fp.add 0 0 = 0)
    (ha1 : fp.add 0 ONE = ONE) (ha2 : fp.add ONE 0 = ONE)
    (ha3 : fp.add ONE_ULP 0 = ONE_ULP) :
    (∀ (rand : Nat → Nat) (randPos out : Nat) (a b : List Nat) (fi : faultCsim_t),
      fiCsimPlace.AccAdders = fi.Place →
      (RowCsim fp rand randPos out a b (some fi)).2.1
        = rowCsimFaulted fp out a b (rand randPos % Kmma)) ∧
    (rowCsimFault fp (fun _ => 0) 1 0 ONE ONE (flipBit0 fiCsimPlace.AccAdders)).acc = ONE_ULP ∧
    (RowCsim fp (fun _ => 0) 0 0 unitRow unitRow
        (some (flipBit0 fiCsimPlace.AccAdders))).2.1 = 0 ∧
    specRowAccAdders fp (flipBit0 fiCsimPlace.AccAdders) 0 unitRow unitRow 0 = ONE_ULP := by
  have hc : corrupt ONE fiCorruption.Flip 0 = ONE_ULP := by decide
  refine ⟨?_, ?_, ?_, ?_⟩
  · intro rand randPos out a b fi h
    rw [RowCsim_some, if_neg (by rw [← h]; decide)]
  · rw [rowCsimFault_not_Multipliers fp _ _ _ _ _ _ (by decide)]
    simp [flipBit0, hm1, ha2, hc]
  · rw [RowCsim_some, if_neg (by decide)]
    exact rowCsimFaulted_unitRow fp hm0 ha0
  · unfold specRowAccAdders
    rw [range8]
    simp [unitRow, flipBit0, hm0, hm1, hc, ha1, ha3]

theorem RowCsim_AccAdders_drops_sum_witness :
    (unitFpu.mul ONE ONE = ONE ∧ unitFpu.add ONE 0 = ONE) ∧
    (RowCsim unitFpu (fun _ => 0) 0 0 unitRow unitRow
        (some (flipBit0 fiCsimPlace.AccAdders))).2.1 = 0 ∧
    specRowAccAdders unitFpu (flipBit0 fiCsimPlace.AccAdders) 0 unitRow unitRow 0 = ONE_ULP :=
  ⟨⟨by decide, by decide⟩,
    (RowCsim_AccAdders_drops_sum unitFpu (by decide) (by decide) (by decide) (by decide)
      (by decide) (by decide)).2.2⟩

/-! ## Setting and resetting the behavioural fault -/

theorem fiSetCsimPlace_mem (RAND_MAX randNr : Nat) :
    fiSetCsimPlace RAND_MAX randNr = fiCsimPlace.Inputs ∨
    fiSetCsimPlace RAND_MAX randNr = fiCsimPlace.Multipliers ∨
    fiSetCsimPlace RAND_MAX randNr = fiCsimPlace.AccAdders ∨
    fiSetCsimPlace RAND_MAX randNr = fiCsimPlace.ColumnAdders := by
  unfold fiSetCsimPlace
  simp only
  split_ifs
  · exact Or.inr (Or.inl rfl)
  · exact Or.inr (Or.inr (Or.inl rfl))
  · exact Or.inr (Or.inr (Or.inr rfl))
  · exact Or.inl rfl

theorem FiSetCsim_None (RAND_MAX : Nat) (s : SystolicArraySim) (place : fiCsimPlace)
    (bits : fiBits) (corruption : fiCorruption) (mode : fiMode)
    (h : place = fiCsimPlace.None ∨ bits = fiBits.None ∨ corruption = fiCorruption.None ∨
      mode = fiMode.None) :
    FiSetCsim RAND_MAX s place bits corruption mode = some (({} : faultCsim_t), s) := by
  unfold FiSetCsim
  rw [if_pos]
  rcases h with h | h | h | h
  · exact Or.inl h.symm
  · exact Or.inr (Or.inl h.symm)
  · exact Or.inr (Or.inr (Or.inl h.symm))
  · exact Or.inr (Or.inr (Or.inr h.symm))

/-- What a call of `FiSetCsim` with proper arguments does to the state. -/
theorem FiSetCsim_ok (RAND_MAX : Nat) (s : SystolicArraySim) (place : fiCsimPlace)
    (bits : fiBits) (corruption : fiCorruption) (mode : fiMode)
    (hp : place ≠ fiCsimPlace.None) (hb : bits ≠ fiBits.None)
    (hc : corruption ≠ fiCorruption.None) (hm : mode ≠ fiMode.None)
    (hq : mode = fiMode.Transient → wrap (s.JobQueue_.length * Nmma) ≠ 0) :
    ∃ s', FiSetCsim RAND_MAX s place bits corruption mode = some (s'.FaultCsim_, s') ∧
      (s'.FaultCsim_.Place = fiCsimPlace.Inputs ∨ s'.FaultCsim_.Place = fiCsimPlace.Multipliers ∨
        s'.FaultCsim_.Place = fiCsimPlace.AccAdders ∨
        s'.FaultCsim_.Place = fiCsimPlace.ColumnAdders) ∧
      (place ≠ fiCsimPlace.Everywhere → s'.FaultCsim_.Place = place) ∧
      s'.FaultCsim_.Corruption = corruption ∧ s'.FaultCsim_.Mode = mode ∧
      (bits = fiBits.Everywhere → s'.FaultCsim_.BitPos ≤ 63) ∧
      (bits = fiBits.Mantissa → s'.FaultCsim_.BitPos ≤ 51) ∧
      s'.FaultCsim_.Row < 8 ∧
      s'.JobQueue_ = s.JobQueue_ ∧ s'.Heap = s.Heap ∧
      (mode = fiMode.Transient → s'.CycleCnt_ = 0 ∧
        s'.FaultCsimTransCycle_ < wrap (s.JobQueue_.length * Nmma)) ∧
      (mode ≠ fiMode.Transient → s'.CycleCnt_ = s.CycleCnt_ ∧
        s'.FaultCsimTransCycle_ = s.FaultCsimTransCycle_) := by
  have hM : Mmma = 8 := rfl
  have h64 : wrap (8 * 8) = 64 := by decide
  have hnone : ¬ (fiCsimPlace.None = place ∨ fiBits.None = bits ∨
      fiCorruption.None = corruption ∨ fiMode.None = mode) := by
    rintro (h | h | h | h)
    · exact hp h.symm
    · exact hb h.symm
    · exact hc h.symm
    · exact hm h.symm
  have hpl : ∀ p : fiCsimPlace,
      p = (if fiCsimPlace.Everywhere = place then
        fiSetCsimPlace RAND_MAX (s.Rand s.RandPos) else place) →
      (p = fiCsimPlace.Inputs ∨ p = fiCsimPlace.Multipliers ∨ p = fiCsimPlace.AccAdders ∨
        p = fiCsimPlace.ColumnAdders) ∧ (place ≠ fiCsimPlace.Everywhere → p = place) := by
    intro p hpe
    by_cases he : fiCsimPlace.Everywhere = place
    · rw [if_pos he] at hpe
      subst hpe
      exact ⟨fiSetCsimPlace_mem _ _, fun h => absurd he.symm h⟩
    · rw [if_neg he] at hpe
      subst hpe
      refine ⟨?_, fun _ => rfl⟩
      cases p
      · exact absurd rfl hp
      · exact absurd rfl he
      · exact Or.inl rfl
      · exact Or.inr (Or.inl rfl)
      · exact Or.inr (Or.inr (Or.inl rfl))
      · exact Or.inr (Or.inr (Or.inr rfl))
  obtain ⟨s1, hs1, hP1, hP2, hJ1, hH1, hC1, hT1⟩ : ∃ s1 : SystolicArraySim,
      (if fiCsimPlace.Everywhere = place then
          ({ s with
            FaultCsim_ :=
              { s.FaultCsim_ with Place := fiSetCsimPlace RAND_MAX (s.Rand s.RandPos) },
            RandPos := s.RandPos + 1 } : SystolicArraySim)
        else { s with FaultCsim_ := { s.FaultCsim_ with Place := place } }) = s1 ∧
      (s1.FaultCsim_.Place = fiCsimPlace.Inputs ∨
        s1.FaultCsim_.Place = fiCsimPlace.Multipliers ∨
        s1.FaultCsim_.Place = fiCsimPlace.AccAdders ∨
        s1.FaultCsim_.Place = fiCsimPlace.ColumnAdders) ∧
      (place ≠ fiCsimPlace.Everywhere → s1.FaultCsim_.Place = place) ∧
      s1.JobQueue_ = s.JobQueue_ ∧ s1.Heap = s.Heap ∧ s1.CycleCnt_ = s.CycleCnt_ ∧
      s1.FaultCsimTransCycle_ = s.FaultCsimTransCycle_ := by
    refine ⟨_, rfl, ?_, ?_, ?_, ?_, ?_, ?_⟩
    · apply (hpl _ _).1; split_ifs <;> rfl
    · apply (hpl _ _).2; split_ifs <;> rfl
    all_goals split_ifs <;> rfl
  unfold FiSetCsim
  rw [if_neg hnone]
  simp only
  rw [hs1]
  by_cases ht : fiMode.Transient = mode
  · have hq' : wrap (s1.JobQueue_.length * Nmma) ≠ 0 := by rw [hJ1]; exact hq ht.symm
    rw [if_neg (fun h => hq' h.2), if_pos ht]
    cases bits with
    | None => exact absurd rfl hb
    | Everywhere =>
      refine ⟨_, rfl, hP1, hP2, rfl, rfl, fun _ => ?_, (fun h => by cases h), ?_, hJ1, hH1,
        fun _ => ⟨rfl, ?_⟩, fun h => absurd ht.symm h⟩
      · show _ % wrap (8 * 8) % 256 ≤ 63
        rw [h64]; omega
      · show _ % Mmma % 256 < 8
        rw [hM]; omega
      · show _ % wrap (s1.JobQueue_.length * Nmma) < _
        rw [hJ1]
        exact Nat.mod_lt _ (Nat.pos_of_ne_zero (hq ht.symm))
    | Mantissa =>
      refine ⟨_, rfl, hP1, hP2, rfl, rfl, (fun h => by cases h), fun _ => ?_, ?_, hJ1, hH1,
        fun _ => ⟨rfl, ?_⟩, fun h => absurd ht.symm h⟩
      · show _ % 52 % 256 ≤ 51
        omega
      · show _ % Mmma % 256 < 8
        rw [hM]; omega
      · show _ % wrap (s1.JobQueue_.length * Nmma) < _
        rw [hJ1]
        exact Nat.mod_lt _ (Nat.pos_of_ne_zero (hq ht.symm))
  · rw [if_neg (fun h => ht h.1), if_neg ht]
    cases bits with
    | None => exact absurd rfl hb
    | Everywhere =>
      refine ⟨_, rfl, hP1, hP2, rfl, rfl, fun _ => ?_, (fun h => by cases h), ?_, hJ1, hH1,
        fun h => absurd h.symm ht, fun _ => ⟨hC1, hT1⟩⟩
      · show _ % wrap (8 * 8) % 256 ≤ 63
        rw [h64]; omega
      · show _ % Mmma % 256 < 8
        rw [hM]; omega
    | Mantissa =>
      refine ⟨_, rfl, hP1, hP2, rfl, rfl, (fun h => by cases h), fun _ => ?_, ?_, hJ1, hH1,
        fun h => absurd h.symm ht, fun _ => ⟨hC1, hT1⟩⟩
      · show _ % 52 % 256 ≤ 51
        omega
      · show _ % Mmma % 256 < 8
        rw [hM]; omega

/-- C17: when one of the four arguments of `FiSetCsim` is the `None` variant, the
call returns the default record (`Place`, `Corruption` and `Mode` all `None`) and
leaves the whole state as it was, in particular the stored fault record, the
stored transient cycle and the cycle counter; no draw is consumed. -/
theorem FiSetCsim_rejects_None (RAND_MAX : Nat) (s : SystolicArraySim) (place : fiCsimPlace)
    (bits : fiBits) (corruption : fiCorruption) (mode : fiMode)
    (h : place = fiCsimPlace.None ∨ bits = fiBits.None ∨ corruption = fiCorruption.None ∨
      mode = fiMode.None) :
    ∃ rec s', FiSetCsim RAND_MAX s place bits corruption mode = some (rec, s') ∧
      rec.Place = fiCsimPlace.None ∧ rec.Corruption = fiCorruption.None ∧
      rec.Mode = fiMode.None ∧ rec = ({} : faultCsim_t) ∧ s' = s ∧
      s'.FaultCsim_ = s.FaultCsim_ ∧ s'.FaultCsimTransCycle_ = s.FaultCsimTransCycle_ ∧
      s'.CycleCnt_ = s.CycleCnt_ :=
  ⟨{}, s, FiSetCsim_None RAND_MAX s place bits corruption mode h, rfl, rfl, rfl, rfl, rfl, rfl,
    rfl, rfl⟩

theorem FiSetCsim_rejects_None_witness :
    ∃ rec s', FiSetCsim 2147483647 exampleJobSim
        fiCsimPlace.Multipliers fiBits.None fiCorruption.Flip fiMode.Transient = some (rec, s') ∧
      rec.Place = fiCsimPlace.None ∧ s'.FaultCsimTransCycle_ = SIZE_MAX := by
  obtain ⟨rec, s', h1, h2, _, _, _, _, _, h3, _⟩ := FiSetCsim_rejects_None 2147483647
    exampleJobSim fiCsimPlace.Multipliers fiBits.None
    fiCorruption.Flip fiMode.Transient (Or.inr (Or.inl rfl))
  exact ⟨rec, s', h1, h2, h3⟩

/-- C18: a call of `FiSetCsim` with four arguments other than `None`, on a
non-empty queue when the mode is `Transient`, succeeds for every outcome of the
draws; the returned record is the stored one, its `Place` is one of `Inputs`,
`Multipliers`, `AccAdders`, `ColumnAdders` and is the argument unless that was
`Everywhere`, `Corruption` and `Mode` are the arguments, `BitPos <= 63` for
`bits = Everywhere`, `BitPos <= 51` for `bits = Mantissa`, and
`Row <= Mmma - 1 = 7`. -/
theorem FiSetCsim_record_in_range (RAND_MAX : Nat) (s : SystolicArraySim) (place : fiCsimPlace)
    (bits : fiBits) (corruption : fiCorruption) (mode : fiMode)
    (hp : place ≠ fiCsimPlace.None) (hb : bits ≠ fiBits.None)
    (hc : corruption ≠ fiCorruption.None) (hm : mode ≠ fiMode.None)
    (hq : mode = fiMode.Transient → s.JobQueue_ ≠ []) (hlen : 8 * s.JobQueue_.length < SIZE) :
    ∃ rec s', FiSetCsim RAND_MAX s place bits corruption mode = some (rec, s') ∧
      rec = s'.FaultCsim_ ∧
      (rec.Place = fiCsimPlace.Inputs ∨ rec.Place = fiCsimPlace.Multipliers ∨
        rec.Place = fiCsimPlace.AccAdders ∨ rec.Place = fiCsimPlace.ColumnAdders) ∧
      (place ≠ fiCsimPlace.Everywhere → rec.Place = place) ∧
      rec.Corruption = corruption ∧ rec.Mode = mode ∧
      (bits = fiBits.Everywhere → rec.BitPos ≤ 63) ∧
      (bits = fiBits.Mantissa → rec.BitPos ≤ 51) ∧
      rec.Row ≤ Mmma - 1 ∧ Mmma - 1 = 7 := by
  have hN : Nmma = 8 := rfl
  obtain ⟨s', h0, h1, h2, h3, h4, h5, h6, h7, _⟩ :=
    FiSetCsim_ok RAND_MAX s place bits corruption mode hp hb hc hm (by
      intro ht
      have hne := hq ht
      have hpos : 0 < s.JobQueue_.length := List.length_pos.mpr hne
      rw [hN, wrap_of_lt (by omega)]
      omega)
  refine ⟨s'.FaultCsim_, s', h0, rfl, h1, h2, h3, h4, h5, h6, ?_, by decide⟩
  have hM : Mmma = 8 := rfl
  rw [hM]
  omega

theorem FiSetCsim_record_in_range_witness :
    ((fiMode.Transient = fiMode.Transient →
        exampleJobSim.JobQueue_ ≠ []) ∧
      8 * exampleJobSim.JobQueue_.length
        < SIZE) ∧
    (∃ rec s', FiSetCsim 2147483647 exampleJobSim
        fiCsimPlace.Everywhere fiBits.Mantissa fiCorruption.Flip fiMode.Transient
          = some (rec, s') ∧
      rec = s'.FaultCsim_ ∧ rec.Mode = fiMode.Transient ∧ rec.BitPos ≤ 51 ∧ rec.Row ≤ 7) := by
  refine ⟨⟨fun _ => by decide, by decide⟩, ?_⟩
  obtain ⟨rec, s', h1, h2, _, _, _, h3, _, h4, h5, _⟩ := FiSetCsim_record_in_range 2147483647
    exampleJobSim fiCsimPlace.Everywhere fiBits.Mantissa
    fiCorruption.Flip fiMode.Transient (by decide) (by decide) (by decide) (by decide)
    (fun _ => by decide) (by decide)
  exact ⟨rec, s', h1, h2, h3, h4 rfl, h5⟩

/-- C19: `FiResetCsim` on a state whose stored record has a `Place` other than
`None` (a fault is set) returns 0, stores the default record and the transient
cycle `SIZE_MAX`, the fault state of a freshly constructed simulator, and
changes nothing else; on a state without a fault it returns -1 and changes
nothing.  `FiResetRTL` does the same for the RTL record, a fault being set when
its `Mode` is not `None`.  After every successful `FiSetCsim` a fault is set, so
that the next `FiResetCsim` returns 0 and the one after it -1. -/
theorem FiReset_restores_default (s : SystolicArraySim) (heap : heap_t) (rand : Nat → Nat) :
    (s.FaultCsim_.Place ≠ fiCsimPlace.None →
      FiResetCsim s = (0, { s with FaultCsim_ := {}, FaultCsimTransCycle_ := SIZE_MAX }) ∧
      (FiResetCsim s).2.FaultCsim_ = (simInit heap rand).FaultCsim_ ∧
      (FiResetCsim s).2.FaultCsimTransCycle_ = (simInit heap rand).FaultCsimTransCycle_ ∧
      FiResetCsim (FiResetCsim s).2 = (-1, (FiResetCsim s).2)) ∧
    (s.FaultCsim_.Place = fiCsimPlace.None → FiResetCsim s = (-1, s)) ∧
    (s.FaultRTL_.Mode ≠ fiMode.None →
      FiResetRTL s = (0, { s with FaultRTL_ := {}, FaultRTLTransCycle_ := SIZE_MAX }) ∧
      (FiResetRTL s).2.FaultRTL_ = (simInit heap rand).FaultRTL_ ∧
      (FiResetRTL s).2.FaultRTLTransCycle_ = (simInit heap rand).FaultRTLTransCycle_ ∧
      FiResetRTL (FiResetRTL s).2 = (-1, (FiResetRTL s).2)) ∧
    (s.FaultRTL_.Mode = fiMode.None → FiResetRTL s = (-1, s)) ∧
    (∀ (RAND_MAX : Nat) (place : fiCsimPlace) (bits : fiBits) (corruption : fiCorruption)
        (mode : fiMode) (rec : faultCsim_t) (s' : SystolicArraySim),
      FiSetCsim RAND_MAX s place bits corruption mode = some (rec, s') →
      rec.Place ≠ fiCsimPlace.None →
      FiResetCsim s' = (0, { s' with FaultCsim_ := {}, FaultCsimTransCycle_ := SIZE_MAX })) := by
  refine ⟨?_, ?_, ?_, ?_, ?_⟩
  · intro h
    have h1 : FiResetCsim s
        = (0, { s with FaultCsim_ := {}, FaultCsimTransCycle_ := SIZE_MAX }) := by
      unfold FiResetCsim
      rw [if_neg (fun h' => h h'.symm)]
    rw [h1]
    exact ⟨rfl, rfl, rfl, rfl⟩
  · intro h
    unfold FiResetCsim
    rw [if_pos h.symm]
  · intro h
    have h1 : FiResetRTL s
        = (0, { s with FaultRTL_ := {}, FaultRTLTransCycle_ := SIZE_MAX }) := by
      unfold FiResetRTL
      rw [if_neg (fun h' => h h'.symm)]
    rw [h1]
    exact ⟨rfl, rfl, rfl, rfl⟩
  · intro h
    unfold FiResetRTL
    rw [if_pos h.symm]
  · intro RAND_MAX place bits corruption mode rec s' hset hrec
    by_cases hn : place = fiCsimPlace.None ∨ bits = fiBits.None ∨
        corruption = fiCorruption.None ∨ mode = fiMode.None
    · rw [FiSetCsim_None RAND_MAX s place bits corruption mode hn] at hset
      injection hset with hset
      injection hset with h1 h2
      exact absurd (by rw [← h1]) hrec
    · have hp : place ≠ fiCsimPlace.None := fun h => hn (Or.inl h)
      have hb : bits ≠ fiBits.None := fun h => hn (Or.inr (Or.inl h))
      have hc : corruption ≠ fiCorruption.None := fun h => hn (Or.inr (Or.inr (Or.inl h)))
      have hm : mode ≠ fiMode.None := fun h => hn (Or.inr (Or.inr (Or.inr h)))
      by_cases hq : mode = fiMode.Transient ∧ wrap (s.JobQueue_.length * Nmma) = 0
      · exfalso
        unfold FiSetCsim at hset
        rw [if_neg (by
          rintro (h | h | h | h)
          · exact hp h.symm
          · exact hb h.symm
          · exact hc h.symm
          · exact hm h.symm)] at hset
        simp only at hset
        rw [if_pos] at hset
        · cases hset
        · refine ⟨hq.1.symm, ?_⟩
          rw [← hq.2]
          split_ifs <;> rfl
      · obtain ⟨s2, h0, h1, _⟩ := FiSetCsim_ok RAND_MAX s place bits corruption mode hp hb hc hm
          (fun ht h0 => hq ⟨ht, h0⟩)
        rw [h0] at hset
        injection hset with hset
        injection hset with _ h2
        subst h2
        unfold FiResetCsim
        rw [if_neg]
        intro hnone
        rcases h1 with h | h | h | h <;> rw [h] at hnone <;> cases hnone

theorem FiReset_restores_default_witness :
    exampleFaultSim.FaultCsim_.Place ≠ fiCsimPlace.None ∧
    (FiResetCsim exampleFaultSim).1 = 0 ∧
    (FiResetCsim exampleFaultSim).2.FaultCsimTransCycle_ = SIZE_MAX ∧
    exampleSim.FaultCsim_.Place = fiCsimPlace.None ∧ (FiResetCsim exampleSim).1 = -1 := by
  have h := FiReset_restores_default exampleFaultSim exampleHeap (fun _ => 0)
  have h' := FiReset_restores_default exampleSim exampleHeap (fun _ => 0)
  refine ⟨by decide, ?_, ?_, rfl, ?_⟩
  · rw [(h.1 (by decide)).1]
  · rw [(h.1 (by decide)).1]
  · rw [h'.2.1 rfl]

/-! ## The behavioural model with a fault set -/

theorem execCsimBody_colCsimFi (fp : Fpu) (s : SystolicArraySim) (e : queueEntry_t) :
    (execCsimBody fp s e).2.Heap
      = (csimRows fp s.FaultCsim_.Row e.Job e.JobCycle s.Heap).write
          (e.Job.cellC s.FaultCsim_.Row e.JobCycle)
          (RowCsim fp s.Rand s.RandPos
            ((csimRows fp s.FaultCsim_.Row e.Job e.JobCycle s.Heap).read
              (e.Job.cellC s.FaultCsim_.Row e.JobCycle))
            ((List.range Kmma).map fun sum =>
              (csimRows fp s.FaultCsim_.Row e.Job e.JobCycle s.Heap).read
                (e.Job.cellA s.FaultCsim_.Row sum))
            ((List.range Kmma).map fun sum =>
              (csimRows fp s.FaultCsim_.Row e.Job e.JobCycle s.Heap).read
                (e.Job.cellB sum e.JobCycle))
            (colCsimFi s)).2.1 := by
  unfold execCsimBody colCsimFi
  simp only [RowCsim_rc, ne_eq, not_true_eq_false, if_false]

theorem execCsimBody_values_other (fp : Fpu) (s : SystolicArraySim) (e : queueEntry_t)
    (hfr : s.FaultCsim_.Row < 8) (hcol : e.JobCycle < 8)
    (hD : e.Job.outDistinct) (hI : e.Job.inputsApart e.Job) :
    ∀ r, r < 8 → r ≠ s.FaultCsim_.Row →
      (execCsimBody fp s e).2.Heap.read (e.Job.cellC r e.JobCycle)
        = refCell fp s.Heap e.Job r e.JobCycle := by
  intro r hr hrf
  have hM : Mmma = 8 := rfl
  have hpre := csimRows_upto fp s.FaultCsim_.Row e.Job e.JobCycle s.Heap hcol hD hI 8
    (Nat.le_refl _)
  rw [execCsimBody_colCsimFi, read_write, if_neg (by
    intro heq
    exact hrf (hD r e.JobCycle _ e.JobCycle hr hcol hfr hcol heq).1)]
  have := hpre.1 r hr hrf
  unfold csimRows
  rw [hM]
  exact this

theorem execCsimBody_values_ex (fp : Fpu) (s : SystolicArraySim) (e : queueEntry_t)
    (hfr : s.FaultCsim_.Row < 8) (hcol : e.JobCycle < 8)
    (hD : e.Job.outDistinct) (hI : e.Job.inputsApart e.Job) :
    ∀ r, r < 8 →
      (r = s.FaultCsim_.Row →
        fiMode.Permanent ≠ s.FaultCsim_.Mode ∧ s.CycleCnt_ ≠ s.FaultCsimTransCycle_) →
      (execCsimBody fp s e).2.Heap.read (e.Job.cellC r e.JobCycle)
        = refCell fp s.Heap e.Job r e.JobCycle := by
  intro r hr hc
  by_cases hrf : r = s.FaultCsim_.Row
  · exact execCsimBody_values fp s e hfr hcol hD hI (hc hrf).2 (hc hrf).1 r hr
  · exact execCsimBody_values_other fp s e hfr hcol hD hI r hr hrf

theorem execCsim_job_ex (fp : Fpu) (o m : Nat) (job : job_t) (rest : List queueEntry_t)
    (hc : subw o (rest.length + 1) < m) (hD : job.outDistinct) (hI : job.inputsApart job) :
    ∀ (d c : Nat) (s : SystolicArraySim) (fuel : Nat), 1 ≤ d → c + d = 8 →
      s.JobQueue_ = { JobCycle := c, Job := job } :: rest → s.FaultCsim_.Row < 8 →
      s.CycleCnt_ < SIZE →
      ∃ s', ExecCsimLoop fp o m (d + fuel) s = ExecCsimLoop fp o m fuel s' ∧
        s'.JobQueue_ = rest ∧ s'.CycleCnt_ = wrap (s.CycleCnt_ + d) ∧ csimKeeps s s' ∧
        (∀ x, (∀ r col, r < 8 → c ≤ col → col < 8 → x ≠ job.cellC r col) →
          s'.Heap.read x = s.Heap.read x) ∧
        (∀ r col, r < 8 → c ≤ col → col < 8 →
          (r = s.FaultCsim_.Row → fiMode.Permanent ≠ s.FaultCsim_.Mode ∧
            wrap (s.CycleCnt_ + (col - c)) ≠ s.FaultCsimTransCycle_) →
          s'.Heap.read (job.cellC r col) = refCell fp s.Heap job r col) := by
  have hS : SIZE = 18446744073709551616 := rfl
  have hN : Nmma = 8 := rfl
  intro d
  induction d with
  | zero => intro c s fuel h; omega
  | succ d ih =>
    intro c s fuel _ hcd hq hfr hcyc
    have hst := execCsimBody_struct fp s { JobCycle := c, Job := job }
    have hfm := execCsimBody_frame fp s { JobCycle := c, Job := job } hfr
    have hval := execCsimBody_values_ex fp s { JobCycle := c, Job := job } hfr
      (show c < 8 by omega) hD hI
    obtain ⟨_, hq1, hc1, hk1, hk2, hk3, hk4, hk5, hk6⟩ := hst
    rw [show d + 1 + fuel = (d + fuel) + 1 by omega,
      ExecCsimLoop_step fp o m (d + fuel) s _ rest hq hc]
    simp only at hq1 hfm hval
    rw [wrap_of_lt (show c + 1 < SIZE by omega), hN, hq, List.tail_cons] at hq1
    rcases Nat.eq_zero_or_pos d with hd0 | hdpos
    · subst hd0
      rw [if_pos (by omega)] at hq1
      refine ⟨_, by rw [Nat.zero_add], hq1, hc1, ⟨hk1, hk2, hk3, hk4, hk5, hk6⟩, ?_, ?_⟩
      · intro x hx
        exact hfm x (fun r hr => hx r c hr (Nat.le_refl _) (by omega))
      · intro r col hr hcc hcol hcond
        have hceq : col = c := by omega
        subst hceq
        apply hval r hr
        intro hrow
        have := hcond hrow
        rw [Nat.sub_self, Nat.add_zero, wrap_of_lt hcyc] at this
        exact this
    · rw [if_neg (by omega)] at hq1
      obtain ⟨s', h1, h2, h3, h4, h5, h6⟩ := ih (c + 1) (execCsimBody fp s ⟨c, job⟩).2 fuel hdpos
        (by omega) hq1 (by rw [hk1]; exact hfr) (by rw [hc1]; exact Nat.mod_lt _ (by decide))
      refine ⟨s', h1, h2, ?_, csimKeeps_trans ⟨hk1, hk2, hk3, hk4, hk5, hk6⟩ h4, ?_, ?_⟩
      · rw [h3, hc1, wrap_wrap_add]; congr 1; omega
      · intro x hx
        rw [h5 x (fun r col hr hcc hcol => hx r col hr (by omega) hcol)]
        exact hfm x (fun r hr => hx r c hr (Nat.le_refl _) (by omega))
      · intro r col hr hcc hcol hcond
        by_cases hceq : col = c
        · subst hceq
          rw [h5 _ (fun r' col' hr' hcc' hcol' heq => by
            have := (hD r col r' col' hr hcol hr' hcol' heq).2; omega)]
          apply hval r hr
          intro hrow
          have := hcond hrow
          rw [Nat.sub_self, Nat.add_zero, wrap_of_lt hcyc] at this
          exact this
        · rw [h6 r col hr (by omega) hcol (by
            intro hrow
            rw [hk1] at hrow
            have := hcond hrow
            rw [hk1, hk2, hc1, wrap_wrap_add,
              show s.CycleCnt_ + 1 + (col - (c + 1)) = s.CycleCnt_ + (col - c) by omega]
            exact this)]
          apply refCell_congr
          · intro k hk
            exact hfm _ (fun r' hr' => (hI r k col r' c hr hk hcol hr' (by omega)).1)
          · intro k hk
            exact hfm _ (fun r' hr' => (hI r k col r' c hr hk hcol hr' (by omega)).2)
          · exact hfm _ (fun r' hr' heq => hceq (hD r col r' c hr hcol hr' (by omega) heq).2)

theorem execCsim_jobs_ex (fp : Fpu) (o m : Nat) (rest : List queueEntry_t) :
    ∀ (js : List job_t) (s : SystolicArraySim) (fuel : Nat),
      s.JobQueue_ = js.map fresh ++ rest → s.FaultCsim_.Row < 8 → s.CycleCnt_ < SIZE →
      (∀ i, i < js.length → subw o (js.length - i + rest.length) < m) →
      (∀ j ∈ js, j.outDistinct) → (∀ j1 ∈ js, ∀ j2 ∈ js, j1.inputsApart j2) →
      js.Pairwise job_t.outputsApart →
      ∃ s', ExecCsimLoop fp o m (8 * js.length + fuel) s = ExecCsimLoop fp o m fuel s' ∧
        s'.JobQueue_ = rest ∧ s'.CycleCnt_ = wrap (s.CycleCnt_ + 8 * js.length) ∧
        csimKeeps s s' ∧
        (∀ x, (∀ j ∈ js, ∀ r col, r < 8 → col < 8 → x ≠ j.cellC r col) →
          s'.Heap.read x = s.Heap.read x) ∧
        (∀ idx j, js[idx]? = some j → ∀ r col, r < 8 → col < 8 →
          (r = s.FaultCsim_.Row → fiMode.Permanent ≠ s.FaultCsim_.Mode ∧
            wrap (s.CycleCnt_ + (8 * idx + col)) ≠ s.FaultCsimTransCycle_) →
          s'.Heap.read (j.cellC r col) = refCell fp s.Heap j r col) := by
  intro js
  induction js with
  | nil =>
    intro s fuel hq _ hcyc _ _ _ _
    refine ⟨s, by simp, by simpa using hq, ?_, ⟨rfl, rfl, rfl, rfl, rfl, rfl⟩, fun x _ => rfl, ?_⟩
    · simp only [List.length_nil, Nat.mul_zero, Nat.add_zero]
      exact (wrap_of_lt hcyc).symm
    · intro idx j hj
      simp at hj
  | cons j js ih =>
    intro s fuel hq hfr hcyc hcond hD hI hO
    simp only [List.map_cons, List.cons_append, fresh] at hq
    rw [List.pairwise_cons] at hO
    have hc0 : subw o ((js.map fresh ++ rest).length + 1) < m := by
      have := hcond 0 (by simp)
      simpa [Nat.add_right_comm] using this
    obtain ⟨s1, e1, q1, c1, k1, f1, v1⟩ :=
      execCsim_job_ex fp o m j (js.map fresh ++ rest) hc0 (hD _ (List.mem_cons_self _ _))
        (hI _ (List.mem_cons_self _ _) _ (List.mem_cons_self _ _))
        8 0 s (8 * js.length + fuel) (by omega) (by omega) hq hfr hcyc
    obtain ⟨s2, e2, q2, c2, k2, f2, v2⟩ := ih s1 fuel q1 (by rw [k1.1]; exact hfr)
      (by rw [c1]; exact Nat.mod_lt _ (by decide))
      (by
        intro i hi
        have := hcond (i + 1) (by simp; omega)
        simpa [Nat.add_sub_add_right] using this)
      (fun j2 hj2 => hD j2 (List.mem_cons_of_mem _ hj2))
      (fun j1 hj1 j2 hj2 => hI j1 (List.mem_cons_of_mem _ hj1) j2 (List.mem_cons_of_mem _ hj2))
      hO.2
    refine ⟨s2, ?_, q2, ?_, csimKeeps_trans k1 k2, ?_, ?_⟩
    · rw [← e2, ← e1]
      congr 1
      simp only [List.length_cons]
      omega
    · rw [c2, c1, wrap_wrap_add]
      congr 1
      simp only [List.length_cons]
      omega
    · intro x hx
      rw [f2 x (fun j' hj' => hx j' (List.mem_cons_of_mem _ hj'))]
      exact f1 x (fun r col hr _ hcol => hx j (List.mem_cons_self _ _) r col hr hcol)
    · intro idx j' hj' r col hr hcol hc
      cases idx with
      | zero =>
        rw [List.getElem?_cons_zero] at hj'
        injection hj' with hj'
        subst hj'
        rw [f2 _ (fun j2 hj2 r' col' hr' hcol' => hO.1 j2 hj2 r col r' col' hr hcol hr' hcol')]
        exact v1 r col hr (Nat.zero_le _) hcol (by
          intro hrow
          have := hc hrow
          rw [Nat.mul_zero, Nat.zero_add] at this
          rw [Nat.sub_zero]
          exact this)
      | succ idx =>
        rw [List.getElem?_cons_succ] at hj'
        have hmem : j' ∈ js := List.getElem?_mem hj'
        rw [v2 idx j' hj' r col hr hcol (by
          intro hrow
          rw [k1.1] at hrow
          have := hc hrow
          rw [k1.1, k1.2.1, c1, wrap_wrap_add,
            show s.CycleCnt_ + 8 + (8 * idx + col) = s.CycleCnt_ + (8 * (idx + 1) + col) by omega]
          exact this)]
        have hIj := hI j' (List.mem_cons_of_mem _ hmem) j (List.mem_cons_self _ _)
        apply refCell_congr
        · intro k hk
          exact f1 _ (fun r' col' hr' _ hcol' => (hIj r k col r' col' hr hk hcol hr' hcol').1)
        · intro k hk
          exact f1 _ (fun r' col' hr' _ hcol' => (hIj r k col r' col' hr hk hcol hr' hcol').2)
        · exact f1 _ (fun r' col' hr' _ hcol' =>
            (hO.1 j' hmem r' col' r col hr' hcol' hr hcol).symm)

theorem ExecCsimCalls_fst (fp : Fpu) (o m : Nat) :
    ∀ (fuel : Nat) (s : SystolicArraySim),
      (ExecCsimCalls fp o m fuel s).map Prod.fst = ExecCsimLoop fp o m fuel s := by
  intro fuel
  induction fuel with
  | zero => intro s; rfl
  | succ fuel ih =>
    intro s
    simp only [ExecCsimCalls, ExecCsimLoop]
    cases hq : s.JobQueue_ with
    | nil => rfl
    | cons e rest =>
      simp only
      by_cases hc : subw o (rest.length + 1) < m
      · simp only [List.length_cons, if_pos hc]
        by_cases hr : (execCsimBody fp s e).1 ≠ 0
        · rw [if_pos hr, if_pos hr]; rfl
        · rw [if_neg hr, if_neg hr, ← ih]
          cases ExecCsimCalls fp o m fuel (execCsimBody fp s e).2 with
          | none => rfl
          | some p => rfl
      · simp only [List.length_cons, if_neg hc]
        rfl

theorem ExecCsimCalls_spec (fp : Fpu) (o m : Nat) :
    ∀ (fuel : Nat) (s : SystolicArraySim) (res : Int × SystolicArraySim)
      (calls : List (Option faultCsim_t)),
      s.CycleCnt_ < SIZE → ExecCsimCalls fp o m fuel s = some (res, calls) →
      calls.length ≤ fuel ∧ res.2.CycleCnt_ = wrap (s.CycleCnt_ + calls.length) ∧
      ∀ i, i < calls.length →
        calls[i]? = some (colCsimFi { s with CycleCnt_ := wrap (s.CycleCnt_ + i) }) := by
  intro fuel
  induction fuel with
  | zero => intro s res calls _ h; cases h
  | succ fuel ih =>
    intro s res calls hcyc h
    simp only [ExecCsimCalls] at h
    have hnil : ∀ (r : Int × SystolicArraySim) (c : List (Option faultCsim_t)),
        r = (0, s) ∧ c = [] → some (r, c) = some (res, calls) →
        calls.length ≤ fuel + 1 ∧ res.2.CycleCnt_ = wrap (s.CycleCnt_ + calls.length) ∧
        ∀ i, i < calls.length →
          calls[i]? = some (colCsimFi { s with CycleCnt_ := wrap (s.CycleCnt_ + i) }) := by
      intro r c hrc heq
      injection heq with heq
      injection heq with h1 h2
      subst h1 h2
      rw [hrc.1, hrc.2]
      refine ⟨Nat.zero_le _, ?_, ?_⟩
      · simp only [List.length_nil, Nat.add_zero]
        exact (wrap_of_lt hcyc).symm
      · intro i hi
        simp at hi
    cases hq : s.JobQueue_ with
    | nil =>
      rw [hq] at h
      exact hnil _ _ ⟨rfl, rfl⟩ h
    | cons e rest =>
      rw [hq] at h
      simp only at h
      by_cases hc : subw o (rest.length + 1) < m
      · simp only [List.length_cons, if_pos hc] at h
        have hst := execCsimBody_struct fp s e
        rw [if_neg (by rw [hst.1]; simp)] at h
        cases hrec : ExecCsimCalls fp o m fuel (execCsimBody fp s e).2 with
        | none => rw [hrec] at h; cases h
        | some p =>
          obtain ⟨res', calls'⟩ := p
          rw [hrec] at h
          simp only at h
          injection h with h
          injection h with h1 h2
          subst h1 h2
          obtain ⟨i1, i2, i3⟩ := ih (execCsimBody fp s e).2 res' calls'
            (by rw [hst.2.2.1]; exact Nat.mod_lt _ (by decide)) hrec
          refine ⟨?_, ?_, ?_⟩
          · simp only [List.length_cons]; omega
          · rw [i2, hst.2.2.1, wrap_wrap_add]
            simp only [List.length_cons]
            congr 1
            omega
          · intro i hi
            cases i with
            | zero =>
              rw [List.getElem?_cons_zero]
              unfold colCsimFi
              simp only [Nat.add_zero]
              rw [wrap_of_lt hcyc]
            | succ i =>
              rw [List.getElem?_cons_succ, i3 i (by simpa using hi)]
              unfold colCsimFi
              simp only
              rw [hst.2.2.1, hst.2.2.2.1, hst.2.2.2.2.1, wrap_wrap_add,
                show s.CycleCnt_ + 1 + i = s.CycleCnt_ + (i + 1) by omega]
      · simp only [List.length_cons, if_neg hc] at h
        exact hnil _ _ ⟨rfl, rfl⟩ h

/-- The run of `ExecCsim()` on a queue of freshly dispatched jobs, with the
record of its `RowCsim` invocations. -/
theorem execCsimCalls_drain (fp : Fpu) (s : SystolicArraySim) (js : List job_t)
    (hq : s.JobQueue_ = js.map fresh) (hlen : 56 * js.length < SIZE)
    (hfr : s.FaultCsim_.Row < 8) (hcyc : s.CycleCnt_ < SIZE) :
    ∃ s2 calls, ExecCsim fp s SIZE_MAX = some (0, s2) ∧
      ExecCsimCalls fp js.length SIZE_MAX (9 * js.length + 1) s = some ((0, s2), calls) ∧
      s2.JobQueue_ = [] ∧ calls.length = 8 * js.length ∧
      (∀ i, i < 8 * js.length →
        calls[i]? = some (colCsimFi { s with CycleCnt_ := wrap (s.CycleCnt_ + i) })) := by
  have hS : SIZE = 18446744073709551616 := rfl
  have hSM : SIZE_MAX = 18446744073709551615 := rfl
  obtain ⟨s2, e1, q1, c1, _⟩ :=
    execCsim_jobs fp js.length SIZE_MAX [] js s (js.length + 1)
      (by rw [List.append_nil]; exact hq) hfr hcyc
      (by
        intro i hi
        rw [List.length_nil, Nat.add_zero, subw_of_le (by omega) (by omega)]
        omega)
  have hdone := ExecCsimLoop_done fp js.length SIZE_MAX js.length s2 (Or.inl q1)
  have hloop : ExecCsimLoop fp js.length SIZE_MAX (9 * js.length + 1) s = some (0, s2) := by
    rw [show 9 * js.length + 1 = 8 * js.length + (js.length + 1) by omega, e1, hdone]
  have hfst := ExecCsimCalls_fst fp js.length SIZE_MAX (9 * js.length + 1) s
  rw [hloop] at hfst
  cases hcalls : ExecCsimCalls fp js.length SIZE_MAX (9 * js.length + 1) s with
  | none => rw [hcalls] at hfst; cases hfst
  | some p =>
    obtain ⟨res, calls⟩ := p
    rw [hcalls] at hfst
    simp only [Option.map_some', Option.some.injEq] at hfst
    subst hfst
    obtain ⟨i1, i2, i3⟩ := ExecCsimCalls_spec fp js.length SIZE_MAX _ s _ calls hcyc hcalls
    have hlenc : calls.length = 8 * js.length := by
      have i2' : s2.CycleCnt_ = wrap (s.CycleCnt_ + calls.length) := i2
      rw [c1] at i2'
      unfold wrap at i2'
      rw [hS] at i2'
      omega
    refine ⟨s2, calls, ?_, rfl, q1, hlenc, ?_⟩
    · unfold ExecCsim
      rw [hq, List.length_map]
      exact hloop
    · intro i hi
      exact i3 i (by omega)

/-- C15: on a queue of `L >= 1` freshly dispatched jobs, for every outcome of the
draws, `FiSetCsim(place, bits, corruption, mode)` with arguments other than
`None` succeeds and the following `ExecCsim()` drains the queue with exactly
`8 * L` invocations of `RowCsim`, the invocation number `i` being made at the
cycle-counter value `i` when the mode is `Transient`.  With `Transient` the
stored transient cycle is below `8 * L` and invocation `i` receives the stored
record if `i` is the transient cycle and the null pointer otherwise; with
`Permanent` every invocation receives the stored record. -/
theorem ExecCsim_fault_pointer_schedule (fp : Fpu) (RAND_MAX : Nat) (s : SystolicArraySim)
    (js : List job_t) (place : fiCsimPlace) (bits : fiBits) (corruption : fiCorruption)
    (mode : fiMode)
    (hq : s.JobQueue_ = js.map fresh) (hL : 1 ≤ js.length) (hlen : 56 * js.length < SIZE)
    (hcyc : s.CycleCnt_ < SIZE)
    (hp : place ≠ fiCsimPlace.None) (hb : bits ≠ fiBits.None)
    (hc : corruption ≠ fiCorruption.None) (hm : mode ≠ fiMode.None) :
    ∃ rec s1 s2 calls, FiSetCsim RAND_MAX s place bits corruption mode = some (rec, s1) ∧
      rec = s1.FaultCsim_ ∧ rec.Mode = mode ∧
      ExecCsim fp s1 SIZE_MAX = some (0, s2) ∧ s2.JobQueue_ = [] ∧
      ExecCsimCalls fp js.length SIZE_MAX (9 * js.length + 1) s1 = some ((0, s2), calls) ∧
      calls.length = 8 * js.length ∧
      (mode = fiMode.Transient →
        s1.FaultCsimTransCycle_ < 8 * js.length ∧
        (∀ i, i < 8 * js.length →
          calls[i]? = some (colCsimFi { s1 with CycleCnt_ := i }) ∧
          calls[i]? = some (if i = s1.FaultCsimTransCycle_ then some rec else none))) ∧
      (mode = fiMode.Permanent → ∀ i, i < 8 * js.length → calls[i]? = some (some rec)) := by
  have hS : SIZE = 18446744073709551616 := rfl
  have hN : Nmma = 8 := rfl
  have hw : wrap (s.JobQueue_.length * Nmma) = 8 * js.length := by
    rw [hq, List.length_map, hN, wrap_of_lt (by omega)]
    omega
  obtain ⟨s1, h0, _, _, _, h4, _, _, h7, h8, _, h10, h11⟩ :=
    FiSetCsim_ok RAND_MAX s place bits corruption mode hp hb hc hm (by
      intro _
      rw [hw]
      omega)
  have hcyc1 : s1.CycleCnt_ < SIZE := by
    by_cases ht : mode = fiMode.Transient
    · rw [(h10 ht).1]; omega
    · rw [(h11 ht).1]; exact hcyc
  obtain ⟨s2, calls, e1, e2, e3, e4, e5⟩ :=
    execCsimCalls_drain fp s1 js (by rw [h8]; exact hq) hlen h7 hcyc1
  refine ⟨s1.FaultCsim_, s1, s2, calls, h0, rfl, h4, e1, e3, e2, e4, ?_, ?_⟩
  · intro ht
    obtain ⟨hc0, hT⟩ := h10 ht
    rw [hw] at hT
    refine ⟨hT, ?_⟩
    intro i hi
    have := e5 i hi
    rw [hc0, Nat.zero_add, wrap_of_lt (by omega)] at this
    refine ⟨this, ?_⟩
    rw [this]
    unfold colCsimFi
    simp only
    have hnp : ¬ fiMode.Permanent = s1.FaultCsim_.Mode := by
      rw [h4, ht]
      decide
    by_cases hi' : i = s1.FaultCsimTransCycle_
    · rw [if_pos (Or.inl hi'), if_pos hi']
    · rw [if_neg (fun h => h.elim hi' hnp), if_neg hi']
  · intro hpm i hi
    have := e5 i hi
    rw [this]
    unfold colCsimFi
    simp only
    rw [if_pos (Or.inr (by rw [h4, hpm]))]

theorem ExecCsim_fault_pointer_schedule_witness :
    (exampleJobSim.JobQueue_ = [exampleJob].map fresh ∧ 1 ≤ [exampleJob].length ∧
      56 * [exampleJob].length < SIZE ∧ exampleJobSim.CycleCnt_ < SIZE) ∧
    (∃ rec s1 s2 calls, FiSetCsim 2147483647 exampleJobSim fiCsimPlace.Multipliers
        fiBits.Everywhere fiCorruption.Flip fiMode.Transient = some (rec, s1) ∧
      ExecCsim exampleFpu s1 SIZE_MAX = some (0, s2) ∧
      ExecCsimCalls exampleFpu 1 SIZE_MAX 10 s1 = some ((0, s2), calls) ∧
      calls.length = 8 ∧ s1.FaultCsimTransCycle_ < 8 ∧
      calls[s1.FaultCsimTransCycle_]? = some (some rec)) := by
  refine ⟨⟨rfl, by decide, by decide, by decide⟩, ?_⟩
  obtain ⟨rec, s1, s2, calls, h1, _, _, h2, _, h3, h4, h5, _⟩ :=
    ExecCsim_fault_pointer_schedule exampleFpu 2147483647 exampleJobSim [exampleJob]
      fiCsimPlace.Multipliers fiBits.Everywhere fiCorruption.Flip fiMode.Transient rfl
      (by decide) (by decide) (by decide) (by decide) (by decide) (by decide) (by decide)
  obtain ⟨h6, h7⟩ := h5 rfl
  refine ⟨rec, s1, s2, calls, h1, h2, h3, h4, h6, ?_⟩
  rw [(h7 _ h6).2, if_pos rfl]

/-- C16: on a queue of `L >= 1` freshly dispatched jobs with pairwise
non-overlapping buffers, after `FiSetCsim(place, bits, corruption, Transient)`
has returned the record `rec` and stored the transient cycle `t`, and
`ExecCsim()` has drained the queue, every `MatC` element of every job other
than the element in row `rec.Row` and column `t % 8` of job number `t / 8` holds
the fault-free reference value `refCell`, the initial `C[i, j]` plus the
products `A[i, k] * B[k, j]` added for `k = 0 .. 7` in this order; in
particular all rows other than `rec.Row` are exact. -/
theorem ExecCsim_transient_fault_confined (fp : Fpu) (RAND_MAX : Nat) (s : SystolicArraySim)
    (js : List job_t) (place : fiCsimPlace) (bits : fiBits) (corruption : fiCorruption)
    (hq : s.JobQueue_ = js.map fresh) (hL : 1 ≤ js.length) (hlen : 56 * js.length < SIZE)
    (hp : place ≠ fiCsimPlace.None) (hb : bits ≠ fiBits.None)
    (hc : corruption ≠ fiCorruption.None)
    (hD : ∀ j ∈ js, j.outDistinct) (hI : ∀ j1 ∈ js, ∀ j2 ∈ js, j1.inputsApart j2)
    (hO : js.Pairwise job_t.outputsApart) :
    ∃ rec s1 s2, FiSetCsim RAND_MAX s place bits corruption fiMode.Transient = some (rec, s1) ∧
      rec = s1.FaultCsim_ ∧ rec.Row < 8 ∧ s1.FaultCsimTransCycle_ < 8 * js.length ∧
      ExecCsim fp s1 SIZE_MAX = some (0, s2) ∧ s2.JobQueue_ = [] ∧
      (∀ idx j, js[idx]? = some j → ∀ r col, r < 8 → col < 8 →
        ¬ (idx = s1.FaultCsimTransCycle_ / 8 ∧ r = rec.Row ∧
          col = s1.FaultCsimTransCycle_ % 8) →
        s2.Heap.read (j.cellC r col) = refCell fp s.Heap j r col) ∧
      (∀ j ∈ js, ∀ r col, r < 8 → col < 8 → r ≠ rec.Row →
        s2.Heap.read (j.cellC r col) = refCell fp s.Heap j r col) := by
  have hS : SIZE = 18446744073709551616 := rfl
  have hSM : SIZE_MAX = 18446744073709551615 := rfl
  have hN : Nmma = 8 := rfl
  have hw : wrap (s.JobQueue_.length * Nmma) = 8 * js.length := by
    rw [hq, List.length_map, hN, wrap_of_lt (by omega)]
    omega
  obtain ⟨s1, h0, _, _, _, h4, _, _, h7, h8, h9, h10, _⟩ :=
    FiSetCsim_ok RAND_MAX s place bits corruption fiMode.Transient hp hb hc (by decide) (by
      intro _
      rw [hw]
      omega)
  obtain ⟨hc0, hT⟩ := h10 rfl
  rw [hw] at hT
  obtain ⟨s2, e1, q1, _, _, _, v1⟩ :=
    execCsim_jobs_ex fp js.length SIZE_MAX [] js s1 (js.length + 1)
      (by rw [List.append_nil, h8]; exact hq) h7 (by rw [hc0]; omega)
      (by
        intro i hi
        rw [List.length_nil, Nat.add_zero, subw_of_le (by omega) (by omega)]
        omega) hD hI hO
  have hdone := ExecCsimLoop_done fp js.length SIZE_MAX js.length s2 (Or.inl q1)
  have hvals : ∀ idx j, js[idx]? = some j → ∀ r col, r < 8 → col < 8 →
      ¬ (idx = s1.FaultCsimTransCycle_ / 8 ∧ r = s1.FaultCsim_.Row ∧
        col = s1.FaultCsimTransCycle_ % 8) →
      s2.Heap.read (j.cellC r col) = refCell fp s.Heap j r col := by
    intro idx j hj r col hr hcol hne
    have hidx : idx < js.length := by
      rcases Nat.lt_or_ge idx js.length with h | h
      · exact h
      · rw [List.getElem?_eq_none h] at hj
        cases hj
    rw [← h9]
    apply v1 idx j hj r col hr hcol
    intro hrow
    refine ⟨by rw [h4]; decide, ?_⟩
    rw [hc0, Nat.zero_add, wrap_of_lt (by omega)]
    intro heq
    apply hne
    refine ⟨?_, hrow, ?_⟩
    · omega
    · omega
  refine ⟨s1.FaultCsim_, s1, s2, h0, rfl, h7, hT, ?_, q1, hvals, ?_⟩
  · unfold ExecCsim
    rw [h8, hq, List.length_map,
      show 9 * js.length + 1 = 8 * js.length + (js.length + 1) by omega, e1, hdone]
  · intro j hj r col hr hcol hrow
    obtain ⟨idx, hidx⟩ := List.getElem?_of_mem hj
    exact hvals idx j hidx r col hr hcol (fun h => hrow h.2.1)

theorem exampleJob_cells (r c : Nat) (hr : r < 8) (hc : c < 8) :
    exampleJob.cellA r c = 1000 + r * 8 + c ∧ exampleJob.cellB r c = 2000 + r * 16 + c ∧
    exampleJob.cellC r c = 3000 + r * 16 + c := by
  have hS : SIZE = 18446744073709551616 := rfl
  simp only [job_t.cellA, job_t.cellB, job_t.cellC, exampleJob]
  rw [wrap_of_lt (show r * 8 < SIZE by omega), wrap_of_lt (show r * 8 + c < SIZE by omega),
    wrap_of_lt (show r * 16 < SIZE by omega), wrap_of_lt (show r * 16 + c < SIZE by omega)]
  omega

theorem exampleJob_apart :
    (∀ j ∈ [exampleJob], j.outDistinct) ∧
    (∀ j1 ∈ [exampleJob], ∀ j2 ∈ [exampleJob], j1.inputsApart j2) ∧
    [exampleJob].Pairwise job_t.outputsApart := by
  refine ⟨?_, ?_, List.pairwise_singleton _ _⟩
  · intro j hj
    rw [List.mem_singleton] at hj
    subst hj
    intro r c r' c' hr hc hr' hc' h
    rw [(exampleJob_cells r c hr hc).2.2, (exampleJob_cells r' c' hr' hc').2.2] at h
    omega
  · intro j1 hj1 j2 hj2
    rw [List.mem_singleton] at hj1 hj2
    subst hj1 hj2
    intro r k c r' c' hr hk hc hr' hc'
    rw [(exampleJob_cells r k hr hk).1, (exampleJob_cells k c hk hc).2.1,
      (exampleJob_cells r' c' hr' hc').2.2]
    omega

theorem ExecCsim_transient_fault_confined_witness :
    (exampleJobSim.JobQueue_ = [exampleJob].map fresh ∧ 1 ≤ [exampleJob].length ∧
      56 * [exampleJob].length < SIZE) ∧
    (∃ rec s1 s2, FiSetCsim 2147483647 exampleJobSim fiCsimPlace.Multipliers
        fiBits.Everywhere fiCorruption.Flip fiMode.Transient = some (rec, s1) ∧
      rec.Row < 8 ∧ ExecCsim exampleFpu s1 SIZE_MAX = some (0, s2) ∧
      (∀ r col, r < 8 → col < 8 → r ≠ rec.Row →
        s2.Heap.read (exampleJob.cellC r col)
          = refCell exampleFpu exampleJobSim.Heap exampleJob r col)) := by
  refine ⟨⟨rfl, by decide, by decide⟩, ?_⟩
  obtain ⟨rec, s1, s2, h1, _, h2, _, h3, _, _, h4⟩ :=
    ExecCsim_transient_fault_confined exampleFpu 2147483647 exampleJobSim [exampleJob]
      fiCsimPlace.Multipliers fiBits.Everywhere fiCorruption.Flip rfl
      (by decide) (by decide) (by decide) (by decide) (by decide)
      exampleJob_apart.1 exampleJob_apart.2.1 exampleJob_apart.2.2
  exact ⟨rec, s1, s2, h1, h2, h3, fun r col hr hcol hrow =>
    h4 exampleJob (List.mem_singleton.mpr rfl) r col hr hcol hrow⟩

/-! ## The 65-bit encoding -/

theorem and_two_pow_ne_zero (x k : Nat) : x &&& 2 ^ k ≠ 0 ↔ x.testBit k = true := by
  constructor
  · intro h
    by_contra hb
    apply h
    apply Nat.eq_of_testBit_eq
    intro i
    rw [Nat.testBit_and, Nat.testBit_two_pow, Nat.zero_testBit]
    by_cases hki : k = i
    · subst hki; simp [hb]
    · simp [hki]
  · intro h h0
    have := congrArg (fun y => y.testBit k) h0
    simp only [Nat.testBit_and, Nat.testBit_two_pow_self, Nat.zero_testBit, h] at this
    cases this

theorem getD_set (d : List Nat) (B v k : Nat) (hB : B < d.length) :
    (d.set B v).getD k 0 = if k = B then v else d.getD k 0 := by
  rw [List.getD_eq_getElem?_getD, List.getD_eq_getElem?_getD, List.getElem?_set]
  by_cases hk : B = k
  · subst hk
    rw [if_pos rfl, if_pos hB, if_pos rfl]
    rfl
  · rw [if_neg hk, if_neg (fun h => hk h.symm)]

theorem bitsCopyBit_bitAt (startBit : Nat) (bits d : List Nat) (bit i : Nat)
    (hw : startBit + bit < SIZE) (hlen : (startBit + bit) / 8 < d.length) :
    bitAt (bitsCopyBit startBit bits d bit) i
      = if i = startBit + bit then bitAt bits bit else bitAt d i := by
  have h255 : (255 : Nat) = 2 ^ 8 - 1 := by decide
  have hi8 : i % 8 < 8 := Nat.mod_lt _ (by decide)
  unfold bitsCopyBit bitAt
  simp only
  rw [wrap_of_lt hw, Nat.one_shiftLeft, Nat.one_shiftLeft]
  by_cases hc : bits.getD (bit / 8) 0 &&& 2 ^ (bit % 8) ≠ 0
  · rw [if_pos hc, getD_set d _ _ _ hlen]
    have hb := (and_two_pow_ne_zero _ _).mp hc
    by_cases hi : i = startBit + bit
    · subst hi
      rw [if_pos rfl, if_pos rfl, Nat.testBit_or, Nat.testBit_two_pow_self, hb]
      simp
    · rw [if_neg hi]
      by_cases hB : i / 8 = (startBit + bit) / 8
      · rw [if_pos hB, Nat.testBit_or, Nat.testBit_two_pow, hB]
        have : ¬ (startBit + bit) % 8 = i % 8 := by omega
        simp [this]
      · rw [if_neg hB]
  · rw [if_neg hc, getD_set d _ _ _ hlen]
    have hb : (bits.getD (bit / 8) 0).testBit (bit % 8) = false := by
      by_contra h
      exact hc ((and_two_pow_ne_zero _ _).mpr (by simpa using h))
    by_cases hi : i = startBit + bit
    · subst hi
      rw [if_pos rfl, if_pos rfl, Nat.testBit_and, Nat.testBit_xor, Nat.testBit_two_pow_self, hb,
        h255, Nat.testBit_two_pow_sub_one]
      simp [hi8]
    · rw [if_neg hi]
      by_cases hB : i / 8 = (startBit + bit) / 8
      · rw [if_pos hB, Nat.testBit_and, Nat.testBit_xor, Nat.testBit_two_pow, h255,
          Nat.testBit_two_pow_sub_one, hB]
        have : ¬ (startBit + bit) % 8 = i % 8 := by omega
        simp [this, hi8]
      · rw [if_neg hB]

theorem foldl_bitsCopyBit_bitAt (startBit : Nat) (bits d : List Nat) :
    ∀ n, startBit + n ≤ SIZE → startBit + n ≤ 8 * d.length → ∀ i,
      bitAt ((List.range n).foldl (bitsCopyBit startBit bits) d) i
        = if startBit ≤ i ∧ i < startBit + n then bitAt bits (i - startBit) else bitAt d i := by
  intro n
  induction n with
  | zero =>
    intro _ _ i
    rw [if_neg (by omega)]
    rfl
  | succ n ih =>
    intro hw hlen i
    rw [List.range_succ, List.foldl_append, List.foldl_cons, List.foldl_nil,
      bitsCopyBit_bitAt _ _ _ _ _ (by omega)
        (by rw [foldl_bitsCopyBit_length]; omega),
      ih (by omega) (by omega)]
    by_cases hi : i = startBit + n
    · subst hi
      rw [if_pos rfl, if_pos (by omega), Nat.add_sub_cancel_left]
    · rw [if_neg hi]
      by_cases h2 : startBit ≤ i ∧ i < startBit + n
      · rw [if_pos h2, if_pos (by omega)]
      · rw [if_neg h2, if_neg (by omega)]

theorem bitsCopy_bitAt (pData : List Nat) (nData startBit : Nat) (bits : List Nat) (nBits : Nat)
    (h : startBit + nBits ≤ 8 * nData) (h2 : 8 * nData < SIZE) (h3 : nData ≤ pData.length)
    (i : Nat) :
    bitAt (bitsCopy pData nData startBit bits nBits).2 i
      = if startBit ≤ i ∧ i < startBit + nBits then bitAt bits (i - startBit)
        else bitAt pData i := by
  have hS : SIZE = 18446744073709551616 := rfl
  have hrc := bitsCopy_rc pData nData startBit bits nBits h h2
  unfold bitsCopy at hrc ⊢
  simp only at hrc ⊢
  by_cases hc : wrap (wrap (startBit + nBits) / 8
      + (if wrap (startBit + nBits) % 8 ≠ 0 then 1 else 0)) > nData
  · rw [if_pos hc] at hrc
    cases hrc
  · rw [if_neg hc]
    exact foldl_bitsCopyBit_bitAt startBit bits pData nBits (by omega) (by omega) i

theorem bitsCopyBit_isBytes (startBit : Nat) (bits d : List Nat) (bit : Nat) (hd : isBytes d) :
    isBytes (bitsCopyBit startBit bits d bit) := by
  have h8 : 1 <<< (wrap (startBit + bit) % 8) < 2 ^ 8 := by
    rw [Nat.one_shiftLeft]
    exact Nat.pow_lt_pow_right (by decide) (Nat.mod_lt _ (by decide))
  have hget : ∀ k, d.getD k 0 < 2 ^ 8 := by
    intro k
    rw [List.getD_eq_getElem?_getD]
    cases hk : d[k]? with
    | none => decide
    | some b => exact hd b (List.getElem?_mem hk)
  unfold bitsCopyBit
  simp only
  intro b hb
  split_ifs at hb
  · rcases List.mem_or_eq_of_mem_set hb with h | h
    · exact hd b h
    · rw [h]
      exact Nat.or_lt_two_pow (hget _) h8
  · rcases List.mem_or_eq_of_mem_set hb with h | h
    · exact hd b h
    · rw [h]
      exact lt_of_le_of_lt Nat.and_le_left (hget _)

theorem bitsCopy_isBytes (pData : List Nat) (nData startBit : Nat) (bits : List Nat) (nBits : Nat)
    (hd : isBytes pData) : isBytes (bitsCopy pData nData startBit bits nBits).2 := by
  have key : ∀ (l : List Nat) (d : List Nat), isBytes d →
      isBytes (l.foldl (bitsCopyBit startBit bits) d) := by
    intro l
    induction l with
    | nil => intro d h; exact h
    | cons b l ih =>
      intro d h
      rw [List.foldl_cons]
      exact ih _ (bitsCopyBit_isBytes startBit bits d b h)
  unfold bitsCopy
  simp only
  split_ifs
  · exact hd
  · exact key _ _ hd
  · exact hd
  · exact key _ _ hd

theorem bitAt_bytesLE (v n j : Nat) (hj : j < 8 * n) : bitAt (bytesLE v n) j = v.testBit j := by
  have h256 : (256 : Nat) = 2 ^ 8 := by decide
  have hj8 : j % 8 < 8 := Nat.mod_lt _ (by decide)
  unfold bitAt bytesLE
  rw [List.getD_eq_getElem?_getD, List.getElem?_map, List.getElem?_range (by omega)]
  simp only [Option.map_some', Option.getD_some]
  rw [h256, Nat.testBit_mod_two_pow, Nat.testBit_shiftRight, Nat.div_add_mod]
  simp [hj8]

theorem isBytes_getD (d : List Nat) (hd : isBytes d) (k : Nat) : d.getD k 0 < 256 := by
  rw [List.getD_eq_getElem?_getD]
  cases hk : d[k]? with
  | none => decide
  | some b => exact hd b (List.getElem?_mem hk)

theorem word32_lt (d : List Nat) (hd : isBytes d) (w : Nat) : word32 d w < 2 ^ 32 := by
  have h0 := isBytes_getD d hd (4 * w)
  have h1 := isBytes_getD d hd (4 * w + 1)
  have h2 := isBytes_getD d hd (4 * w + 2)
  have h3 := isBytes_getD d hd (4 * w + 3)
  unfold word32
  omega

theorem word32_testBit (d : List Nat) (hd : isBytes d) (w j : Nat) (hj : j < 32) :
    (word32 d w).testBit j = bitAt d (32 * w + j) := by
  have h0 := isBytes_getD d hd (4 * w)
  have h1 := isBytes_getD d hd (4 * w + 1)
  have h2 := isBytes_getD d hd (4 * w + 2)
  have h3 := isBytes_getD d hd (4 * w + 3)
  have hr : j % 8 < 8 := Nat.mod_lt _ (by decide)
  have hq : j / 8 < 4 := by omega
  have hbyte : (word32 d w >>> (8 * (j / 8))) % 2 ^ 8 = d.getD (4 * w + j / 8) 0 := by
    rw [Nat.shiftRight_eq_div_pow]
    unfold word32
    have e8 : (2 : Nat) ^ 8 = 256 := by decide
    have e0 : (2 : Nat) ^ (8 * 0) = 1 := by decide
    have e1 : (2 : Nat) ^ (8 * 1) = 256 := by decide
    have e2 : (2 : Nat) ^ (8 * 2) = 65536 := by decide
    have e3 : (2 : Nat) ^ (8 * 3) = 16777216 := by decide
    generalize j / 8 = q at hq
    interval_cases q
    · rw [e0, e8]
      show _ = d.getD (4 * w) 0
      omega
    · rw [e1]; omega
    · rw [e2, e8]; omega
    · rw [e3, e8]; omega
  have hsplit : (word32 d w).testBit j
      = ((word32 d w >>> (8 * (j / 8))) % 2 ^ 8).testBit (j % 8) := by
    rw [Nat.testBit_mod_two_pow, Nat.testBit_shiftRight, Nat.div_add_mod]
    simp [hr]
  rw [hsplit, hbyte]
  unfold bitAt
  rw [show (32 * w + j) / 8 = 4 * w + j / 8 by omega, show (32 * w + j) % 8 = j % 8 by omega]

theorem BIT_MASK_11 : BIT_MASK 11 = 2 ^ 11 - 1 := by decide
theorem BIT_MASK_52 : BIT_MASK 52 = 2 ^ 52 - 1 := by decide
theorem BIT_MASK_54 : BIT_MASK 54 = 2 ^ 54 - 1 := by decide

/-- `toDouble` reads bits 0..53 and bits 54..64 of the storage. -/
theorem toDouble_fields (d : List Nat) (hd : isBytes d) (sm e : Nat)
    (hsm : sm < 2 ^ 54) (he : e < 2 ^ 11)
    (h1 : ∀ j, j < 54 → bitAt d j = sm.testBit j)
    (h2 : ∀ j, j < 11 → bitAt d (54 + j) = e.testBit j) :
    toDouble d = decode65 sm e := by
  have hS : SIZE = 18446744073709551616 := rfl
  have w0 := word32_lt d hd 0
  have w1 := word32_lt d hd 1
  have w2 := word32_lt d hd 2
  have hsm0 : (wrap (word32 d 1 <<< 32) ||| word32 d 0) &&& BIT_MASK 54 = sm := by
    apply Nat.eq_of_testBit_eq
    intro j
    rw [BIT_MASK_54, Nat.testBit_and, Nat.testBit_or, Nat.testBit_two_pow_sub_one,
      wrap_of_lt (by rw [Nat.shiftLeft_eq]; omega), Nat.testBit_shiftLeft]
    by_cases hj : j < 54
    · rw [← h1 j hj]
      by_cases hj32 : j < 32
      · rw [word32_testBit d hd 0 j hj32]
        simp [hj, show ¬ j ≥ 32 by omega]
      · rw [Nat.testBit_lt_two_pow (lt_of_lt_of_le w0 (Nat.pow_le_pow_right (by decide)
          (show 32 ≤ j by omega))), word32_testBit d hd 1 (j - 32) (by omega),
          show 32 * 1 + (j - 32) = j by omega]
        simp [hj, show j ≥ 32 by omega]
    · rw [Nat.testBit_lt_two_pow (lt_of_lt_of_le hsm (Nat.pow_le_pow_right (by decide)
        (show 54 ≤ j by omega)))]
      simp [hj]
  have hexp : (wrap (word32 d 2 <<< 10) ||| (word32 d 1 >>> 22)) &&& BIT_MASK 11 = e := by
    apply Nat.eq_of_testBit_eq
    intro j
    rw [BIT_MASK_11, Nat.testBit_and, Nat.testBit_or, Nat.testBit_two_pow_sub_one,
      wrap_of_lt (by rw [Nat.shiftLeft_eq]; omega), Nat.testBit_shiftLeft,
      Nat.testBit_shiftRight]
    by_cases hj : j < 11
    · rw [← h2 j hj]
      by_cases hj10 : j < 10
      · rw [word32_testBit d hd 1 (22 + j) (by omega),
          show 32 * 1 + (22 + j) = 54 + j by omega]
        simp [hj, show ¬ j ≥ 10 by omega]
      · have hj' : j = 10 := by omega
        subst hj'
        rw [Nat.testBit_lt_two_pow (show word32 d 1 < 2 ^ (22 + 10) from w1),
          word32_testBit d hd 2 (10 - 10) (by omega)]
        simp
    · rw [Nat.testBit_lt_two_pow (lt_of_lt_of_le he (Nat.pow_le_pow_right (by decide)
        (show 11 ≤ j by omega)))]
      simp [hj]
  unfold toDouble decode65
  simp only
  rw [hsm0, hexp]

theorem tmpExp65_eq (x : Nat) : tmpExp65 x = x / 2 ^ 52 % 2 ^ 11 := by
  unfold tmpExp65
  rw [BIT_MASK_11, Nat.and_pow_two_sub_one_eq_mod, Nat.shiftRight_eq_div_pow]

theorem isnormal_iff (x : Nat) :
    isnormal x = true ↔ x / 2 ^ 52 % 2 ^ 11 ≠ 0 ∧ x / 2 ^ 52 % 2 ^ 11 ≠ 2047 := by
  have h : (2047 : Nat) = 2 ^ 11 - 1 := by decide
  unfold isnormal
  rw [Nat.shiftRight_eq_div_pow]
  nth_rewrite 1 [h]
  nth_rewrite 2 [h]
  rw [Nat.and_pow_two_sub_one_eq_mod]
  simp

theorem or_two_pow_mul (a b i : Nat) (hb : b < 2 ^ i) : b ||| 2 ^ i * a = 2 ^ i * a + b := by
  rw [Nat.or_comm, ← Nat.mul_add_lt_is_or hb]

theorem or_two_pow_mul_left (a b i : Nat) (hb : b < 2 ^ i) :
    2 ^ i * a ||| b = 2 ^ i * a + b := (Nat.mul_add_lt_is_or hb a).symm

theorem testBit_eq_true_iff (x i : Nat) : x.testBit i = true ↔ x / 2 ^ i % 2 = 1 := by
  rw [Nat.testBit_to_div_mod]
  simp

theorem signedMantissa65_eq (x : Nat) (hx : x < 2 ^ 64) (hn : isnormal x = true) :
    signedMantissa65 x
      = if x < 2 ^ 63 then 2 ^ 52 + x % 2 ^ 52 else 2 ^ 54 - (2 ^ 52 + x % 2 ^ 52) := by
  have hS : SIZE = 18446744073709551616 := rfl
  have hf : x % 2 ^ 52 < 2 ^ 52 := Nat.mod_lt _ (by decide)
  have hor : x % 2 ^ 52 ||| 2 ^ 52 = 2 ^ 52 + x % 2 ^ 52 := by
    have := or_two_pow_mul 1 (x % 2 ^ 52) 52 hf
    rw [Nat.mul_one] at this
    exact this
  unfold signedMantissa65
  simp only
  rw [if_pos hn, BIT_MASK_52, BIT_MASK_54, Nat.and_pow_two_sub_one_eq_mod,
    Nat.and_pow_two_sub_one_eq_mod, wrap_one_shiftLeft (show 52 ≤ 63 by decide),
    wrap_one_shiftLeft (show 63 ≤ 63 by decide), hor]
  by_cases hs : x < 2 ^ 63
  · rw [if_pos hs, if_neg (by
      rw [not_not]
      by_contra hne
      have := (testBit_eq_true_iff x 63).mp ((and_two_pow_ne_zero x 63).mp hne)
      omega)]
    omega
  · rw [if_neg hs, if_pos ((and_two_pow_ne_zero x 63).mpr
      ((testBit_eq_true_iff x 63).mpr (by omega)))]
    unfold subw
    rw [hS]
    omega

theorem signedMantissa65_lt (x : Nat) : signedMantissa65 x < 2 ^ 54 := by
  unfold signedMantissa65
  simp only
  rw [BIT_MASK_54, Nat.and_pow_two_sub_one_eq_mod]
  exact Nat.mod_lt _ (by decide)

theorem tmpExp65_lt (x : Nat) : tmpExp65 x < 2 ^ 11 := by
  rw [tmpExp65_eq]
  exact Nat.mod_lt _ (by decide)

theorem decode65_encode (x : Nat) (hx : x < 2 ^ 64) (hn : isnormal x = true) :
    decode65 (signedMantissa65 x) (tmpExp65 x) = x := by
  have hS : SIZE = 18446744073709551616 := rfl
  have hf : x % 2 ^ 52 < 2 ^ 52 := Nat.mod_lt _ (by decide)
  have he : x / 2 ^ 52 % 2 ^ 11 < 2 ^ 11 := Nat.mod_lt _ (by decide)
  have hC : (0xFFC0000000000000 : Nat) = 2 ^ 54 * 1023 := by decide
  unfold decode65
  simp only
  rw [signedMantissa65_eq x hx hn, tmpExp65_eq, BIT_MASK_52, Nat.and_pow_two_sub_one_eq_mod,
    wrap_one_shiftLeft (show 53 ≤ 63 by decide)]
  by_cases hs : x < 2 ^ 63
  · rw [if_pos hs]
    have hcond : ¬ ((2 ^ 52 + x % 2 ^ 52) &&& 2 ^ 53 ≠ 0) := by
      intro hne
      have := (testBit_eq_true_iff _ 53).mp ((and_two_pow_ne_zero _ 53).mp hne)
      omega
    rw [if_neg hcond, if_neg hcond, Nat.zero_shiftLeft, show wrap 0 = 0 from rfl, Nat.zero_or,
      Nat.shiftLeft_eq, wrap_of_lt (by omega), Nat.mul_comm,
      or_two_pow_mul_left _ _ _ (Nat.mod_lt _ (by decide))]
    omega
  · rw [if_neg hs]
    have hcond : (2 ^ 54 - (2 ^ 52 + x % 2 ^ 52)) &&& 2 ^ 53 ≠ 0 :=
      (and_two_pow_ne_zero _ 53).mpr ((testBit_eq_true_iff _ 53).mpr (by omega))
    rw [if_pos hcond, if_pos hcond, wrap_one_shiftLeft (show 11 ≤ 63 by decide), hC,
      or_two_pow_mul 1023 _ 54 (by omega)]
    have h1 : 2 ^ 11 ||| x / 2 ^ 52 % 2 ^ 11 = 2 ^ 11 + x / 2 ^ 52 % 2 ^ 11 := by
      have := or_two_pow_mul 1 (x / 2 ^ 52 % 2 ^ 11) 11 he
      rw [Nat.mul_one, Nat.or_comm] at this
      exact this
    rw [h1, Nat.shiftLeft_eq, wrap_of_lt (by omega), Nat.mul_comm,
      or_two_pow_mul_left _ _ _ (Nat.mod_lt _ (by decide))]
    unfold subw
    rw [hS]
    omega

/-- The storage after `elemSet(sNFp64_t *, double)`: bits 0..53 hold the signed
mantissa, bits 54..64 the exponent field, the other bits are kept. -/
theorem elemSetNFp64_bits (w : List Nat) (x : Nat) (hw : w.length = 12) :
    (elemSetNFp64 w x).1 = 0 ∧ (elemSetNFp64 w x).2.length = 12 ∧
    ∀ i, bitAt (elemSetNFp64 w x).2 i
      = if i < 54 then (signedMantissa65 x).testBit i
        else if i < 65 then (tmpExp65 x).testBit (i - 54) else bitAt w i := by
  have hS : SIZE = 18446744073709551616 := rfl
  have r1 := bitsCopy_rc w 12 0 (bytesLE (signedMantissa65 x) 8) 54 (by omega) (by omega)
  have l1 := bitsCopy_length w 12 0 (bytesLE (signedMantissa65 x) 8) 54
  have r2 := bitsCopy_rc (bitsCopy w 12 0 (bytesLE (signedMantissa65 x) 8) 54).2 12 54
    (bytesLE (tmpExp65 x) 2) 11 (by omega) (by omega)
  have hres : elemSetNFp64 w x
      = (0, (bitsCopy (bitsCopy w 12 0 (bytesLE (signedMantissa65 x) 8) 54).2 12 54
          (bytesLE (tmpExp65 x) 2) 11).2) := by
    unfold elemSetNFp64
    simp only
    rw [if_neg (by rw [r1]; simp), if_neg (by rw [r2]; simp)]
  rw [hres]
  refine ⟨rfl, ?_, ?_⟩
  · show (bitsCopy _ 12 54 _ 11).2.length = 12
    rw [bitsCopy_length, l1, hw]
  · intro i
    show bitAt (bitsCopy _ 12 54 _ 11).2 i = _
    rw [bitsCopy_bitAt _ 12 54 _ 11 (by omega) (by omega) (by rw [l1, hw]),
      bitsCopy_bitAt _ 12 0 _ 54 (by omega) (by omega) (by rw [hw])]
    by_cases h1 : i < 54
    · rw [if_neg (by omega), if_pos (by omega), if_pos h1, Nat.sub_zero,
        bitAt_bytesLE _ _ _ (by omega)]
    · rw [if_neg h1]
      by_cases h2 : i < 65
      · rw [if_pos (by omega), if_pos h2, bitAt_bytesLE _ _ _ (by omega)]
      · rw [if_neg (by omega), if_neg (by omega), if_neg h2]

theorem elemSetNFp64_isBytes (w : List Nat) (x : Nat) (hb : isBytes w) :
    isBytes (elemSetNFp64 w x).2 := by
  unfold elemSetNFp64
  simp only
  split_ifs
  · exact bitsCopy_isBytes _ _ _ _ _ hb
  · exact bitsCopy_isBytes _ _ _ _ _ (bitsCopy_isBytes _ _ _ _ _ hb)
  · exact bitsCopy_isBytes _ _ _ _ _ (bitsCopy_isBytes _ _ _ _ _ hb)

/-- Decoding the word written by `elemSet(sNFp64_t *, double)` gives the double
`toDouble` assembles from the two fields of the value. -/
theorem toDouble_elemSetNFp64 (w : List Nat) (x : Nat) (hw : w.length = 12) (hb : isBytes w) :
    toDouble (elemSetNFp64 w x).2 = decode65 (signedMantissa65 x) (tmpExp65 x) := by
  obtain ⟨_, _, hbits⟩ := elemSetNFp64_bits w x hw
  apply toDouble_fields _ (elemSetNFp64_isBytes w x hb) _ _ (signedMantissa65_lt x)
    (tmpExp65_lt x)
  · intro j hj
    rw [hbits, if_pos hj]
  · intro j hj
    rw [hbits, if_neg (by omega), if_pos (by omega), Nat.add_sub_cancel_left]

/-- C20: for every normal double `x` (exponent field in 1..2046, either sign,
any fraction) and every previous content of the 12-byte word `w`,
`elemSet(&w, x)` returns 0 and `toDouble` of the written word is `x`, bit for
bit; encoding the decoded value again, into any word, writes the same 65
bits, and these do not depend on the previous content of the word. -/
theorem toDouble_elemSet_roundtrip (w : List Nat) (x : Nat) (hw : w.length = 12)
    (hb : isBytes w) (hx : x < 2 ^ 64)
    (he : 1 ≤ x / 2 ^ 52 % 2 ^ 11 ∧ x / 2 ^ 52 % 2 ^ 11 ≤ 2046) :
    isnormal x = true ∧ (elemSetNFp64 w x).1 = 0 ∧ toDouble (elemSetNFp64 w x).2 = x ∧
    (∀ w' : List Nat, w'.length = 12 → isBytes w' →
      (elemSetNFp64 w' (toDouble (elemSetNFp64 w x).2)).1 = 0 ∧
      ∀ i, i < 65 →
        bitAt (elemSetNFp64 w' (toDouble (elemSetNFp64 w x).2)).2 i
          = bitAt (elemSetNFp64 w x).2 i) := by
  have hn : isnormal x = true := (isnormal_iff x).mpr ⟨by omega, by omega⟩
  have hrt : toDouble (elemSetNFp64 w x).2 = x := by
    rw [toDouble_elemSetNFp64 w x hw hb, decode65_encode x hx hn]
  refine ⟨hn, (elemSetNFp64_bits w x hw).1, hrt, ?_⟩
  intro w' hw' _
  rw [hrt]
  refine ⟨(elemSetNFp64_bits w' x hw').1, ?_⟩
  intro i hi
  rw [(elemSetNFp64_bits w' x hw').2.2 i, (elemSetNFp64_bits w x hw).2.2 i]
  by_cases h1 : i < 54
  · rw [if_pos h1, if_pos h1]
  · rw [if_neg h1, if_neg h1, if_pos hi, if_pos hi]

theorem toDouble_elemSet_roundtrip_witness :
    ((List.replicate 12 255).length = 12 ∧ MINUS_ONE < 2 ^ 64 ∧
      1 ≤ MINUS_ONE / 2 ^ 52 % 2 ^ 11 ∧ MINUS_ONE / 2 ^ 52 % 2 ^ 11 ≤ 2046) ∧
    toDouble (elemSetNFp64 (List.replicate 12 255) MINUS_ONE).2 = MINUS_ONE :=
  ⟨⟨by decide, by decide, by decide, by decide⟩,
    (toDouble_elemSet_roundtrip (List.replicate 12 255) MINUS_ONE (by decide)
      (by intro b hb; rw [List.eq_of_mem_replicate hb]; decide) (by decide)
      ⟨by decide, by decide⟩).2.2.1⟩

/-! ## The layout of the 65-bit word -/

theorem signedMantissa65_value (x : Nat) (hx : x < 2 ^ 64) :
    signedMantissa65 x = specMantissa54 x := by
  have hS : SIZE = 18446744073709551616 := rfl
  have hf : x % 2 ^ 52 < 2 ^ 52 := Nat.mod_lt _ (by decide)
  have hor : x % 2 ^ 52 ||| 2 ^ 52 = 2 ^ 52 + x % 2 ^ 52 := by
    have := or_two_pow_mul 1 (x % 2 ^ 52) 52 hf
    rw [Nat.mul_one] at this
    exact this
  have hsign : (x &&& 2 ^ 63 ≠ 0) ↔ x / 2 ^ 63 = 1 := by
    rw [and_two_pow_ne_zero, testBit_eq_true_iff]
    omega
  unfold signedMantissa65 specMantissa54
  simp only
  rw [BIT_MASK_52, BIT_MASK_54, Nat.and_pow_two_sub_one_eq_mod,
    Nat.and_pow_two_sub_one_eq_mod, wrap_one_shiftLeft (show 52 ≤ 63 by decide),
    wrap_one_shiftLeft (show 63 ≤ 63 by decide), hor]
  by_cases hn : isnormal x = true
  · have hn' := (isnormal_iff x).mp hn
    have hm : (if 1 ≤ x / 2 ^ 52 % 2 ^ 11 ∧ x / 2 ^ 52 % 2 ^ 11 ≤ 2046 then 2 ^ 52 else 0)
        = 2 ^ 52 := if_pos (by omega)
    rw [if_pos hn, hm]
    by_cases hs : x / 2 ^ 63 = 1
    · rw [if_pos (hsign.mpr hs), if_pos hs]
      unfold subw
      rw [hS]
      omega
    · rw [if_neg (fun h => hs (hsign.mp h)), if_neg hs]
      omega
  · have hn' : ¬ (x / 2 ^ 52 % 2 ^ 11 ≠ 0 ∧ x / 2 ^ 52 % 2 ^ 11 ≠ 2047) :=
      fun h => hn ((isnormal_iff x).mpr h)
    have he : x / 2 ^ 52 % 2 ^ 11 < 2 ^ 11 := Nat.mod_lt _ (by decide)
    have hm : (if 1 ≤ x / 2 ^ 52 % 2 ^ 11 ∧ x / 2 ^ 52 % 2 ^ 11 ≤ 2046 then 2 ^ 52 else 0)
        = 0 := if_neg (by omega)
    rw [if_neg hn, hm]
    by_cases hs : x / 2 ^ 63 = 1
    · rw [if_pos (hsign.mpr hs), if_pos hs]
      unfold subw
      rw [hS]
      omega
    · rw [if_neg (fun h => hs (hsign.mp h)), if_neg hs]
      omega

/-- C21: for every double `x` and every previous content of the 12-byte storage,
`elemSet(sNFp64_t *, x)` returns 0; afterwards bits 0..53 of the storage are the
54-bit two's complement of the signed mantissa (`specMantissa54`: the fraction,
plus `2 ^ 52` iff `x` is normal, negated iff the sign bit is set), bits 54..64
are the exponent field, and bits 65..95 are as before. -/
theorem elemSetNFp64_layout (w : List Nat) (x : Nat) (hw : w.length = 12) (hx : x < 2 ^ 64) :
    (elemSetNFp64 w x).1 = 0 ∧ (elemSetNFp64 w x).2.length = 12 ∧
    (∀ i, i < 54 → bitAt (elemSetNFp64 w x).2 i = (specMantissa54 x).testBit i) ∧
    (∀ j, j < 11 → bitAt (elemSetNFp64 w x).2 (54 + j) = (x / 2 ^ 52 % 2 ^ 11).testBit j) ∧
    (∀ i, 65 ≤ i → bitAt (elemSetNFp64 w x).2 i = bitAt w i) ∧
    specMantissa54 x < 2 ^ 54 := by
  obtain ⟨h1, h2, h3⟩ := elemSetNFp64_bits w x hw
  refine ⟨h1, h2, ?_, ?_, ?_, ?_⟩
  · intro i hi
    rw [h3, if_pos hi, signedMantissa65_value x hx]
  · intro j hj
    rw [h3, if_neg (by omega), if_pos (by omega), Nat.add_sub_cancel_left, tmpExp65_eq]
  · intro i hi
    rw [h3, if_neg (by omega), if_neg (by omega)]
  · rw [← signedMantissa65_value x hx]
    exact signedMantissa65_lt x

theorem elemSetNFp64_layout_witness :
    ((List.replicate 12 255).length = 12 ∧ MINUS_ONE < 2 ^ 64) ∧
    (elemSetNFp64 (List.replicate 12 255) MINUS_ONE).1 = 0 ∧
    bitAt (elemSetNFp64 (List.replicate 12 255) MINUS_ONE).2 53
      = (specMantissa54 MINUS_ONE).testBit 53 ∧
    bitAt (elemSetNFp64 (List.replicate 12 255) MINUS_ONE).2 70 = true :=
  ⟨⟨by decide, by decide⟩,
    (elemSetNFp64_layout (List.replicate 12 255) MINUS_ONE (by decide) (by decide)).1,
    (elemSetNFp64_layout (List.replicate 12 255) MINUS_ONE (by decide) (by decide)).2.2.1 53
      (by decide),
    ((elemSetNFp64_layout (List.replicate 12 255) MINUS_ONE (by decide)
      (by decide)).2.2.2.2.1 70 (by decide)).trans (by decide)⟩

/-! ## `bitsCopy` -/

theorem bitsCopy_rc_iff (pData : List Nat) (nData startBit : Nat) (bits : List Nat)
    (nBits : Nat) (hsum : startBit + nBits < SIZE) :
    ((bitsCopy pData nData startBit bits nBits).1 = -1 ↔ startBit + nBits > 8 * nData) ∧
    (startBit + nBits > 8 * nData → (bitsCopy pData nData startBit bits nBits).2 = pData) ∧
    (¬ startBit + nBits > 8 * nData → (bitsCopy pData nData startBit bits nBits).1 = 0) := by
  have hS : SIZE = 18446744073709551616 := rfl
  have hreq : wrap (wrap (startBit + nBits) / 8
      + (if wrap (startBit + nBits) % 8 ≠ 0 then 1 else 0)) > nData
      ↔ startBit + nBits > 8 * nData := by
    rw [wrap_of_lt hsum]
    by_cases h8 : (startBit + nBits) % 8 ≠ 0
    · rw [if_pos h8, wrap_of_lt (by omega)]
      omega
    · rw [if_neg h8, wrap_of_lt (by omega)]
      omega
  unfold bitsCopy
  simp only
  by_cases hc : startBit + nBits > 8 * nData
  · rw [if_pos (hreq.mpr hc)]
    exact ⟨⟨fun _ => hc, fun _ => rfl⟩, fun _ => rfl, fun h => absurd hc h⟩
  · rw [if_neg (fun h => hc (hreq.mp h))]
    refine ⟨⟨fun h => ?_, fun h => absurd h hc⟩, fun h => absurd h hc, fun _ => rfl⟩
    simp at h

theorem hugeBuffer_length : hugeBuffer.length = 2 ^ 61 := List.length_replicate _ _

theorem bitsCopy_huge_rc : (bitsCopy hugeBuffer (2 ^ 61) SIZE_MAX [3] 2).1 = 0 := by
  unfold bitsCopy
  simp only
  rw [if_neg (by decide)]

/-- C24, counterexample: for `startBit = SIZE_MAX` and `nBits = 2` on a buffer of
`2 ^ 61` bytes the sum `startBit + nBits` wraps to 1, so `bitsCopy` returns 0
although `startBit + nBits = 2 ^ 64 + 1` exceeds the `8 * nData = 2 ^ 64` bits
of the buffer. -/
theorem bitsCopy_sum_wraps :
    hugeBuffer.length = 2 ^ 61 ∧ 2 ≤ 255 ∧ SIZE_MAX + 2 > 8 * 2 ^ 61 ∧
    (bitsCopy hugeBuffer (2 ^ 61) SIZE_MAX [3] 2).1 = 0 ∧
    ¬ ((bitsCopy hugeBuffer (2 ^ 61) SIZE_MAX [3] 2).1 = -1 ↔ SIZE_MAX + 2 > 8 * 2 ^ 61) := by
  refine ⟨hugeBuffer_length, by decide, by decide, bitsCopy_huge_rc, ?_⟩
  rw [bitsCopy_huge_rc]
  decide

/-- C24, amended: for every buffer, every `nData`, every `nBits <= 255` and every
`startBit` with `startBit + nBits < 2 ^ 64` (no overflow of `size_t`), `bitsCopy`
returns -1 if and only if `startBit + nBits > 8 * nData`, and then leaves the
buffer as it was; otherwise it returns 0. -/
theorem bitsCopy_fails_iff_too_small (pData : List Nat) (nData startBit : Nat)
    (bits : List Nat) (nBits : Nat) (_hn : nBits ≤ 255) (hsum : startBit + nBits < SIZE) :
    ((bitsCopy pData nData startBit bits nBits).1 = -1 ↔ startBit + nBits > 8 * nData) ∧
    (startBit + nBits > 8 * nData → (bitsCopy pData nData startBit bits nBits).2 = pData) ∧
    (¬ startBit + nBits > 8 * nData → (bitsCopy pData nData startBit bits nBits).1 = 0) :=
  bitsCopy_rc_iff pData nData startBit bits nBits hsum

theorem bitsCopy_fails_iff_too_small_witness :
    ((8 : Nat) ≤ 255 ∧ 60 + 8 < SIZE ∧ 60 + 8 > 8 * 8) ∧
    (bitsCopy (List.replicate 8 255) 8 60 [0] 8).1 = -1 ∧
    (bitsCopy (List.replicate 8 255) 8 60 [0] 8).2 = List.replicate 8 255 :=
  ⟨⟨by decide, by decide, by decide⟩,
    ((bitsCopy_fails_iff_too_small (List.replicate 8 255) 8 60 [0] 8 (by decide)
      (by decide)).1).mpr (by decide),
    (bitsCopy_fails_iff_too_small (List.replicate 8 255) 8 60 [0] 8 (by decide)
      (by decide)).2.1 (by decide)⟩

theorem bitAt_ext (d1 d2 : List Nat) (hlen : d1.length = d2.length) (h1 : isBytes d1)
    (h2 : isBytes d2) (h : ∀ i, bitAt d1 i = bitAt d2 i) : d1 = d2 := by
  apply List.ext_getElem hlen
  intro k hk1 hk2
  have hb1 : d1[k] < 2 ^ 8 := h1 _ (List.getElem_mem _)
  have hb2 : d2[k] < 2 ^ 8 := h2 _ (List.getElem_mem _)
  apply Nat.eq_of_testBit_eq
  intro j
  by_cases hj : j < 8
  · have := h (8 * k + j)
    unfold bitAt at this
    rw [show (8 * k + j) / 8 = k by omega, show (8 * k + j) % 8 = j by omega,
      List.getD_eq_getElem?_getD, List.getD_eq_getElem?_getD, List.getElem?_eq_getElem hk1,
      List.getElem?_eq_getElem hk2] at this
    exact this
  · rw [Nat.testBit_lt_two_pow (lt_of_lt_of_le hb1 (Nat.pow_le_pow_right (by decide)
      (show 8 ≤ j by omega))),
      Nat.testBit_lt_two_pow (lt_of_lt_of_le hb2 (Nat.pow_le_pow_right (by decide)
      (show 8 ≤ j by omega)))]

/-- The effect of a successful `bitsCopy` whose bit range does not wrap. -/
theorem bitsCopy_effect (pData : List Nat) (nData startBit : Nat) (bits : List Nat)
    (nBits : Nat) (hsum : startBit + nBits < SIZE) (hlen : nData ≤ pData.length)
    (hrc : (bitsCopy pData nData startBit bits nBits).1 = 0) (i : Nat) :
    bitAt (bitsCopy pData nData startBit bits nBits).2 i
      = if startBit ≤ i ∧ i < startBit + nBits then bitAt bits (i - startBit)
        else bitAt pData i := by
  have hle : ¬ startBit + nBits > 8 * nData := by
    intro h
    have := (bitsCopy_rc_iff pData nData startBit bits nBits hsum).1.mpr h
    rw [hrc] at this
    cases this
  have hres : (bitsCopy pData nData startBit bits nBits).2
      = (List.range nBits).foldl (bitsCopyBit startBit bits) pData := by
    unfold bitsCopy at hrc ⊢
    simp only at hrc ⊢
    split_ifs at hrc ⊢
    all_goals first | rfl | cases hrc
  rw [hres]
  exact foldl_bitsCopyBit_bitAt startBit bits pData nBits (by omega) (by omega) i

/-- C25, counterexample: the call of `bitsCopy` with `startBit = SIZE_MAX` and
`nBits = 2` on a zeroed buffer of `2 ^ 61` bytes succeeds and sets bit 0 of the
buffer (the bit position `startBit + 1` wraps to 0), which is none of the bits
`startBit + i`, `i < nBits`. -/
theorem bitsCopy_wrapped_bit :
    (bitsCopy hugeBuffer (2 ^ 61) SIZE_MAX [3] 2).1 = 0 ∧
    bitAt hugeBuffer 0 = false ∧
    bitAt (bitsCopy hugeBuffer (2 ^ 61) SIZE_MAX [3] 2).2 0 = true ∧
    (∀ i, i < 2 → SIZE_MAX + i ≠ 0) := by
  refine ⟨bitsCopy_huge_rc, ?_, ?_, fun i _ => by
    have : SIZE_MAX = 18446744073709551615 := rfl
    omega⟩
  · unfold bitAt hugeBuffer
    rw [List.getD_eq_getElem?_getD, List.getElem?_replicate]
    decide
  · have hres : (bitsCopy hugeBuffer (2 ^ 61) SIZE_MAX [3] 2).2
        = (List.range 2).foldl (bitsCopyBit SIZE_MAX [3]) hugeBuffer := by
      unfold bitsCopy
      simp only
      rw [if_neg (by decide)]
    have hr2 : List.range 2 = [0, 1] := by decide
    rw [hres, hr2, List.foldl_cons, List.foldl_cons, List.foldl_nil]
    have hlen : (bitsCopyBit SIZE_MAX [3] hugeBuffer 0).length = 2 ^ 61 := by
      have := foldl_bitsCopyBit_length SIZE_MAX [3] [0] hugeBuffer
      rw [List.foldl_cons, List.foldl_nil] at this
      rw [this, hugeBuffer_length]
    generalize bitsCopyBit SIZE_MAX [3] hugeBuffer 0 = d1 at hlen
    unfold bitsCopyBit bitAt
    simp only
    rw [show wrap (SIZE_MAX + 1) = 0 by decide]
    rw [if_pos (by decide), getD_set d1 _ _ _ (by rw [hlen]; decide), if_pos (by decide),
      Nat.testBit_or]
    simp

/-- C25, amended: after every successful `bitsCopy(dst, nData, startBit, src,
nBits)`, `nBits <= 255`, on a buffer of at least `nData` bytes with
`startBit + nBits < 2 ^ 64` (the bit positions do not wrap), bit `startBit + i`
of `dst` is bit `i` of `src` for every `i < nBits` and every other bit of `dst`
is as before; the length is kept; repeating the call changes nothing, and with
`nBits = 0` nothing changes. -/
theorem bitsCopy_copies_bits (pData : List Nat) (nData startBit : Nat) (bits : List Nat)
    (nBits : Nat) (_hn : nBits ≤ 255) (hsum : startBit + nBits < SIZE)
    (hlen : nData ≤ pData.length)
    (hb : isBytes pData) (hrc : (bitsCopy pData nData startBit bits nBits).1 = 0) :
    (∀ i, i < nBits →
      bitAt (bitsCopy pData nData startBit bits nBits).2 (startBit + i) = bitAt bits i) ∧
    (∀ j, ¬ (startBit ≤ j ∧ j < startBit + nBits) →
      bitAt (bitsCopy pData nData startBit bits nBits).2 j = bitAt pData j) ∧
    (bitsCopy pData nData startBit bits nBits).2.length = pData.length ∧
    bitsCopy (bitsCopy pData nData startBit bits nBits).2 nData startBit bits nBits
      = (0, (bitsCopy pData nData startBit bits nBits).2) ∧
    (nBits = 0 → (bitsCopy pData nData startBit bits nBits).2 = pData) := by
  have heff := bitsCopy_effect pData nData startBit bits nBits hsum hlen hrc
  have hl := bitsCopy_length pData nData startBit bits nBits
  have hle : ¬ startBit + nBits > 8 * nData := by
    intro h
    have := (bitsCopy_rc_iff pData nData startBit bits nBits hsum).1.mpr h
    rw [hrc] at this
    cases this
  refine ⟨?_, ?_, hl, ?_, ?_⟩
  · intro i hi
    rw [heff, if_pos (by omega), Nat.add_sub_cancel_left]
  · intro j hj
    rw [heff, if_neg hj]
  · have hrc2 := (bitsCopy_rc_iff (bitsCopy pData nData startBit bits nBits).2 nData startBit
      bits nBits hsum).2.2 hle
    have heff2 := bitsCopy_effect (bitsCopy pData nData startBit bits nBits).2 nData startBit
      bits nBits hsum (by rw [hl]; exact hlen) hrc2
    apply Prod.ext
    · exact hrc2
    · apply bitAt_ext _ _ (bitsCopy_length _ _ _ _ _)
        (bitsCopy_isBytes _ _ _ _ _ (bitsCopy_isBytes _ _ _ _ _ hb))
        (bitsCopy_isBytes _ _ _ _ _ hb)
      intro i
      rw [heff2, heff]
      by_cases hi : startBit ≤ i ∧ i < startBit + nBits
      · rw [if_pos hi, if_pos hi]
      · rw [if_neg hi, if_neg hi]
  · intro h0
    subst h0
    unfold bitsCopy
    simp only
    split_ifs <;> rfl

theorem bitsCopy_copies_bits_witness :
    ((6 : Nat) ≤ 255 ∧ 4 + 6 < SIZE ∧ 2 ≤ [255, 0].length ∧
      (bitsCopy [255, 0] 2 4 [37] 6).1 = 0) ∧
    bitAt (bitsCopy [255, 0] 2 4 [37] 6).2 (4 + 1) = bitAt [37] 1 ∧
    bitAt (bitsCopy [255, 0] 2 4 [37] 6).2 3 = bitAt [255, 0] 3 ∧
    (bitsCopy [255, 0] 2 4 [37] 6).2 = [95, 2] :=
  ⟨⟨by decide, by decide, by decide, by decide⟩,
    (bitsCopy_copies_bits [255, 0] 2 4 [37] 6 (by decide) (by decide) (by decide)
      (by intro b hb; simp at hb; omega) (by decide)).1 1 (by decide),
    (bitsCopy_copies_bits [255, 0] 2 4 [37] 6 (by decide) (by decide) (by decide)
      (by intro b hb; simp at hb; omega) (by decide)).2.1 3 (by decide),
    by decide⟩

/-! ## The generic element access -/

/-- C26: for every buffer, size, position and value, the generic `elemSet` and
`elemGet` return -1 whenever `nBitsElem` is not 65; `elemSet` then leaves the
buffer and `elemGet` leaves `*value` as they were. -/
theorem elemSet_elemGet_reject_width (pData : List Nat) (nData nBitsElem pos value : Nat)
    (h : nBitsElem ≠ 65) :
    elemSet pData nData nBitsElem pos value = (-1, pData) ∧
    elemGet value pData nData nBitsElem pos = (-1, value) := by
  unfold elemSet elemGet
  rw [if_pos (fun h' => h h'.symm), if_pos (fun h' => h h'.symm)]
  exact ⟨rfl, rfl⟩

theorem elemSet_elemGet_reject_width_witness :
    (64 : Nat) ≠ 65 ∧ elemSet [1, 2, 3] 3 64 0 ONE = (-1, [1, 2, 3]) ∧
    elemGet 7 [1, 2, 3] 3 64 0 = (-1, 7) :=
  ⟨by decide, elemSet_elemGet_reject_width [1, 2, 3] 3 64 0 ONE (by decide) |>.1,
    (elemSet_elemGet_reject_width [1, 2, 3] 3 64 0 7 (by decide)).2⟩

/-! ## The 20-bit and 33-bit encodings -/

theorem BIT_MASK_8 : BIT_MASK 8 = 2 ^ 8 - 1 := by decide
theorem BIT_MASK_10 : BIT_MASK 10 = 2 ^ 10 - 1 := by decide
theorem BIT_MASK_12 : BIT_MASK 12 = 2 ^ 12 - 1 := by decide
theorem BIT_MASK_23 : BIT_MASK 23 = 2 ^ 23 - 1 := by decide
theorem BIT_MASK_25 : BIT_MASK 25 = 2 ^ 25 - 1 := by decide

theorem and_two_pow_ne_zero_iff (x k : Nat) : x &&& 2 ^ k ≠ 0 ↔ x / 2 ^ k % 2 = 1 := by
  rw [and_two_pow_ne_zero, testBit_eq_true_iff]

theorem or_two_pow (b i : Nat) (hb : b < 2 ^ i) : b ||| 2 ^ i = 2 ^ i + b := by
  have := or_two_pow_mul 1 b i hb
  rw [Nat.mul_one] at this
  exact this

theorem floatOfDouble_exact (cv : hostCvt) (x : Nat) (hx : isFloatValue x) :
    floatOfDouble cv x
      = x / 2 ^ 63 * 2 ^ 31 + (x / 2 ^ 52 % 2 ^ 11 - 896) * 2 ^ 23 + x % 2 ^ 52 / 2 ^ 29 := by
  obtain ⟨h1, h2, h3, h4⟩ := hx
  unfold floatOfDouble
  simp only
  rw [if_pos ⟨h2, h3, h4⟩, Nat.mod_eq_of_lt (show x / 2 ^ 63 < 2 by omega)]

theorem isFloatValue_isnormal (x : Nat) (hx : isFloatValue x) : isnormal x = true := by
  obtain ⟨h1, h2, h3, h4⟩ := hx
  rw [isnormal_iff]
  omega

theorem tmpNFp32_eq (cv : hostCvt) (x : Nat) (hx : isFloatValue x) :
    tmpNFp32 cv x = specWord33 x := by
  have hS : SIZE = 18446744073709551616 := rfl
  have hu := floatOfDouble_exact cv x hx
  have hn := isFloatValue_isnormal x hx
  obtain ⟨h1, h2, h3, h4⟩ := hx
  have hf : x % 2 ^ 52 / 2 ^ 29 < 2 ^ 23 := by omega
  have hs : x / 2 ^ 63 < 2 := by omega
  unfold tmpNFp32 specWord33 specMantissa25
  simp only
  rw [hu, if_pos hn, BIT_MASK_8, BIT_MASK_23, BIT_MASK_25, Nat.and_pow_two_sub_one_eq_mod,
    Nat.and_pow_two_sub_one_eq_mod, Nat.and_pow_two_sub_one_eq_mod, Nat.shiftRight_eq_div_pow,
    Nat.one_shiftLeft, Nat.one_shiftLeft, Nat.shiftLeft_eq,
    show wrap32 (2 ^ 31) = 2 ^ 31 from rfl]
  generalize x / 2 ^ 63 = s at hs ⊢
  generalize x / 2 ^ 52 % 2 ^ 11 = e at h2 h3 ⊢
  generalize x % 2 ^ 52 / 2 ^ 29 = f at hf ⊢
  have e1 : (s * 2 ^ 31 + (e - 896) * 2 ^ 23 + f) / 2 ^ 23 % 2 ^ 8 = e - 896 := by omega
  have e2 : wrap32 ((s * 2 ^ 31 + (e - 896) * 2 ^ 23 + f) % 2 ^ 23) = f := by
    unfold wrap32
    omega
  have e3 : (s * 2 ^ 31 + (e - 896) * 2 ^ 23 + f) &&& 2 ^ 31 ≠ 0 ↔ s = 1 := by
    rw [and_two_pow_ne_zero_iff]
    omega
  rw [e1, e2, or_two_pow f 23 hf, wrap_of_lt (by omega)]
  by_cases hs1 : s = 1
  · rw [if_pos (e3.mpr hs1), if_pos hs1]
    have e4 : sext32 (neg32 (2 ^ 23 + f)) % 2 ^ 25 = 2 ^ 25 - (2 ^ 23 + f) := by
      unfold sext32 neg32
      split_ifs <;> omega
    rw [e4, Nat.mul_comm, or_two_pow_mul_left _ _ _ (by omega)]
  · rw [if_neg (fun h => hs1 (e3.mp h)), if_neg hs1]
    have e4 : sext32 (2 ^ 23 + f) % 2 ^ 25 = 2 ^ 23 + f := by
      unfold sext32
      split_ifs <;> omega
    rw [e4, Nat.mul_comm, or_two_pow_mul_left _ _ _ (by omega)]

theorem specMantissa25_lt (x : Nat) : specMantissa25 x < 2 ^ 25 := by
  unfold specMantissa25
  simp only
  split_ifs <;> omega

theorem toDoubleNFp32_mod (cv : hostCvt) (d : Nat) :
    toDoubleNFp32 cv d = toDoubleNFp32 cv (d % 2 ^ 33) := by
  unfold toDoubleNFp32
  simp only
  rw [BIT_MASK_25, BIT_MASK_8, Nat.and_pow_two_sub_one_eq_mod, Nat.and_pow_two_sub_one_eq_mod,
    Nat.and_pow_two_sub_one_eq_mod, Nat.and_pow_two_sub_one_eq_mod, Nat.shiftRight_eq_div_pow,
    Nat.shiftRight_eq_div_pow, show d % 2 ^ 33 % 2 ^ 25 = d % 2 ^ 25 by omega,
    show d % 2 ^ 33 / 2 ^ 25 % 2 ^ 8 = d / 2 ^ 25 % 2 ^ 8 by omega]

theorem toDoubleNFp32_fields (cv : hostCvt) (s e f : Nat) (hs : s < 2) (h2 : 897 ≤ e)
    (h3 : e ≤ 1150) (hf : f < 2 ^ 23) :
    toDoubleNFp32 cv ((e - 896) * 2 ^ 25 + (if s = 1 then 2 ^ 25 - (2 ^ 23 + f) else 2 ^ 23 + f))
      = s * 2 ^ 63 + e * 2 ^ 52 + f * 2 ^ 29 := by
  have hC : (0xFE000000 : Nat) = 2 ^ 25 * 127 := by norm_num
  unfold toDoubleNFp32 doubleOfFloat
  simp only
  rw [BIT_MASK_25, BIT_MASK_8, BIT_MASK_23, Nat.and_pow_two_sub_one_eq_mod,
    Nat.and_pow_two_sub_one_eq_mod, Nat.and_pow_two_sub_one_eq_mod, Nat.shiftRight_eq_div_pow,
    Nat.one_shiftLeft]
  by_cases hs1 : s = 1
  · subst hs1
    rw [if_pos rfl]
    have e1 : wrap32 (((e - 896) * 2 ^ 25 + (2 ^ 25 - (2 ^ 23 + f))) % 2 ^ 25)
        = 2 ^ 25 - (2 ^ 23 + f) := by
      unfold wrap32
      omega
    have e2 : ((e - 896) * 2 ^ 25 + (2 ^ 25 - (2 ^ 23 + f))) / 2 ^ 25 % 2 ^ 8 = e - 896 := by
      omega
    have hcond : (2 ^ 25 - (2 ^ 23 + f)) &&& 2 ^ 24 ≠ 0 :=
      (and_two_pow_ne_zero_iff _ 24).mpr (by omega)
    rw [e1, e2, if_pos hcond, if_pos hcond, hC, or_two_pow_mul 127 _ 25 (by omega)]
    have e3 : sext32 (neg32 (2 ^ 25 * 127 + (2 ^ 25 - (2 ^ 23 + f)))) % 2 ^ 23 = f := by
      unfold sext32 neg32
      split_ifs <;> omega
    have e4 : wrap32 (1 <<< 8) = 2 ^ 8 := by decide
    have e4' : 2 ^ 8 ||| (e - 896) = 2 ^ 8 + (e - 896) := by
      rw [Nat.or_comm]
      exact or_two_pow _ 8 (by omega)
    rw [e3, e4, e4', Nat.shiftLeft_eq]
    have e5 : wrap32 (wrap32 (2 ^ 8 + (e - 896)) * 2 ^ 23) = 2 ^ 23 * (2 ^ 8 + (e - 896)) := by
      unfold wrap32
      omega
    rw [e5, or_two_pow_mul_left _ _ _ hf]
    have e6 : wrap32 (2 ^ 23 * (2 ^ 8 + (e - 896)) + f)
        = 2 ^ 31 + (e - 896) * 2 ^ 23 + f := by
      unfold wrap32
      omega
    rw [e6, if_pos (by omega)]
    omega
  · have hs0 : s = 0 := by omega
    subst hs0
    rw [if_neg (show ¬ ((0 : Nat) = 1) by decide)]
    have e1 : wrap32 (((e - 896) * 2 ^ 25 + (2 ^ 23 + f)) % 2 ^ 25) = 2 ^ 23 + f := by
      unfold wrap32
      omega
    have e2 : ((e - 896) * 2 ^ 25 + (2 ^ 23 + f)) / 2 ^ 25 % 2 ^ 8 = e - 896 := by
      omega
    have hcond : ¬ ((2 ^ 23 + f) &&& 2 ^ 24 ≠ 0) := by
      rw [and_two_pow_ne_zero_iff]
      omega
    rw [e1, e2, if_neg hcond, if_neg hcond]
    have e3 : sext32 (2 ^ 23 + f) % 2 ^ 23 = f := by
      unfold sext32
      split_ifs <;> omega
    have e4 : wrap32 (0 <<< 8) = 0 := by decide
    rw [e3, e4, Nat.zero_or, Nat.shiftLeft_eq]
    have e5 : wrap32 (wrap32 (e - 896) * 2 ^ 23) = 2 ^ 23 * (e - 896) := by
      unfold wrap32
      omega
    rw [e5, or_two_pow_mul_left _ _ _ hf]
    have e6 : wrap32 (2 ^ 23 * (e - 896) + f) = (e - 896) * 2 ^ 23 + f := by
      unfold wrap32
      omega
    rw [e6, if_pos (by omega)]
    omega

theorem toDoubleNFp32_specWord33 (cv : hostCvt) (x : Nat) (hx : isFloatValue x) :
    toDoubleNFp32 cv (specWord33 x) = x := by
  obtain ⟨h1, h2, h3, h4⟩ := hx
  have hx' : x / 2 ^ 63 * 2 ^ 63 + x / 2 ^ 52 % 2 ^ 11 * 2 ^ 52
      + x % 2 ^ 52 / 2 ^ 29 * 2 ^ 29 = x := by omega
  have := toDoubleNFp32_fields cv (x / 2 ^ 63) (x / 2 ^ 52 % 2 ^ 11) (x % 2 ^ 52 / 2 ^ 29)
    (by omega) h2 h3 (by omega)
  rw [hx'] at this
  exact this

theorem word64_lt (d : List Nat) (hd : isBytes d) : word64 d < 2 ^ 64 := by
  have w0 := word32_lt d hd 0
  have w1 := word32_lt d hd 1
  unfold word64
  omega

theorem word64_testBit (d : List Nat) (hd : isBytes d) (j : Nat) (hj : j < 64) :
    (word64 d).testBit j = bitAt d j := by
  unfold word64
  rw [Nat.add_comm, Nat.testBit_mul_pow_two_add _ (word32_lt d hd 0)]
  by_cases h : j < 32
  · rw [if_pos h, word32_testBit d hd 0 j h, show 32 * 0 + j = j by omega]
  · rw [if_neg h, word32_testBit d hd 1 (j - 32) (by omega), show 32 * 1 + (j - 32) = j by omega]

/-- The storage after `elemSet(sNFp32_t *, double)`: bits 0..32 hold the word
`tmp`, the other bits are kept. -/
theorem elemSetNFp32_bits (cv : hostCvt) (w : List Nat) (x : Nat) (hw : w.length = 8) :
    (elemSetNFp32 cv w x).1 = 0 ∧ (elemSetNFp32 cv w x).2.length = 8 ∧
    ∀ i, bitAt (elemSetNFp32 cv w x).2 i
      = if i < 33 then (tmpNFp32 cv x).testBit i else bitAt w i := by
  have hS : SIZE = 18446744073709551616 := rfl
  have r1 := bitsCopy_rc w 8 0 (bytesLE (tmpNFp32 cv x) 8) 33 (by omega) (by omega)
  have hres : elemSetNFp32 cv w x = (0, (bitsCopy w 8 0 (bytesLE (tmpNFp32 cv x) 8) 33).2) := by
    unfold elemSetNFp32
    simp only
    rw [if_neg (by rw [r1]; simp)]
  rw [hres]
  refine ⟨rfl, ?_, ?_⟩
  · show (bitsCopy w 8 0 _ 33).2.length = 8
    rw [bitsCopy_length, hw]
  · intro i
    show bitAt (bitsCopy w 8 0 _ 33).2 i = _
    rw [bitsCopy_bitAt _ 8 0 _ 33 (by omega) (by omega) (by rw [hw])]
    by_cases h1 : i < 33
    · rw [if_pos (by omega), if_pos h1, Nat.sub_zero, bitAt_bytesLE _ _ _ (by omega)]
    · rw [if_neg (by omega), if_neg h1]

theorem elemSetNFp32_isBytes (cv : hostCvt) (w : List Nat) (x : Nat) (hb : isBytes w) :
    isBytes (elemSetNFp32 cv w x).2 := by
  unfold elemSetNFp32
  simp only
  split_ifs <;> exact bitsCopy_isBytes _ _ _ _ _ hb

/-- The storage after `elemSet(sNFp16_t *, double)`: bits 0..19 hold the word
`tmp`, the other bits are kept. -/
theorem elemSetNFp16_bits (cv : hostCvt) (w : List Nat) (x : Nat) (hw : w.length = 4) :
    (elemSetNFp16 cv w x).1 = 0 ∧ (elemSetNFp16 cv w x).2.length = 4 ∧
    ∀ i, bitAt (elemSetNFp16 cv w x).2 i
      = if i < 20 then (tmpNFp16 cv x).testBit i else bitAt w i := by
  have hS : SIZE = 18446744073709551616 := rfl
  have r1 := bitsCopy_rc w 4 0 (bytesLE (tmpNFp16 cv x) 4) 20 (by omega) (by omega)
  have hres : elemSetNFp16 cv w x = (0, (bitsCopy w 4 0 (bytesLE (tmpNFp16 cv x) 4) 20).2) := by
    unfold elemSetNFp16
    simp only
    rw [if_neg (by rw [r1]; simp)]
  rw [hres]
  refine ⟨rfl, ?_, ?_⟩
  · show (bitsCopy w 4 0 _ 20).2.length = 4
    rw [bitsCopy_length, hw]
  · intro i
    show bitAt (bitsCopy w 4 0 _ 20).2 i = _
    rw [bitsCopy_bitAt _ 4 0 _ 20 (by omega) (by omega) (by rw [hw])]
    by_cases h1 : i < 20
    · rw [if_pos (by omega), if_pos h1, Nat.sub_zero, bitAt_bytesLE _ _ _ (by omega)]
    · rw [if_neg (by omega), if_neg h1]

theorem elemSetNFp16_isBytes (cv : hostCvt) (w : List Nat) (x : Nat) (hb : isBytes w) :
    isBytes (elemSetNFp16 cv w x).2 := by
  unfold elemSetNFp16
  simp only
  split_ifs <;> exact bitsCopy_isBytes _ _ _ _ _ hb

theorem specWord33_lt (x : Nat) (hx : isFloatValue x) : specWord33 x < 2 ^ 33 := by
  obtain ⟨h1, h2, h3, h4⟩ := hx
  have := specMantissa25_lt x
  unfold specWord33
  omega

theorem word64_elemSetNFp32 (cv : hostCvt) (w : List Nat) (x : Nat) (hw : w.length = 8)
    (hb : isBytes w) (hx : isFloatValue x) :
    word64 (elemSetNFp32 cv w x).2 % 2 ^ 33 = specWord33 x := by
  obtain ⟨_, _, hbits⟩ := elemSetNFp32_bits cv w x hw
  have hb2 := elemSetNFp32_isBytes cv w x hb
  apply Nat.eq_of_testBit_eq
  intro j
  rw [Nat.testBit_mod_two_pow]
  by_cases hj : j < 33
  · rw [word64_testBit _ hb2 j (by omega), hbits j, if_pos hj, tmpNFp32_eq cv x hx]
    simp [hj]
  · rw [Nat.testBit_lt_two_pow (lt_of_lt_of_le (specWord33_lt x hx)
      (Nat.pow_le_pow_right (by decide) (show 33 ≤ j by omega)))]
    simp [hj]

/-- C23: for every double `x` that is a normal binary32 value (either sign) and
every 8-byte storage, `elemSet(sNFp32_t*, x)` returns 0, `toDouble(sNFp32_t)` of
the stored word returns exactly `x`, bits 0..24 of the word are the 25-bit
two's-complement signed mantissa with leading 1 and bits 25..32 are the 8-bit
biased exponent. -/
theorem toDoubleNFp32_elemSet_roundtrip (cv : hostCvt) (w : List Nat) (x : Nat)
    (hw : w.length = 8) (hb : isBytes w) (hx : isFloatValue x) :
    (elemSetNFp32 cv w x).1 = 0 ∧
    toDoubleNFp32 cv (word64 (elemSetNFp32 cv w x).2) = x ∧
    (∀ j, j < 25 → bitAt (elemSetNFp32 cv w x).2 j = (specMantissa25 x).testBit j) ∧
    (∀ j, j < 8 →
      bitAt (elemSetNFp32 cv w x).2 (25 + j) = (x / 2 ^ 52 % 2 ^ 11 - 896).testBit j) ∧
    specMantissa25 x < 2 ^ 25 ∧ x / 2 ^ 52 % 2 ^ 11 - 896 < 2 ^ 8 := by
  obtain ⟨hrc, _, hbits⟩ := elemSetNFp32_bits cv w x hw
  have hm := specMantissa25_lt x
  have hword : ∀ j, (specWord33 x).testBit j
      = if j < 25 then (specMantissa25 x).testBit j
        else (x / 2 ^ 52 % 2 ^ 11 - 896).testBit (j - 25) := by
    intro j
    unfold specWord33
    rw [Nat.mul_comm, Nat.testBit_mul_pow_two_add _ hm]
  refine ⟨hrc, ?_, ?_, ?_, hm, ?_⟩
  · rw [toDoubleNFp32_mod, word64_elemSetNFp32 cv w x hw hb hx,
      toDoubleNFp32_specWord33 cv x hx]
  · intro j hj
    rw [hbits, if_pos (by omega), tmpNFp32_eq cv x hx, hword, if_pos hj]
  · intro j hj
    rw [hbits, if_pos (by omega), tmpNFp32_eq cv x hx, hword, if_neg (by omega),
      Nat.add_sub_cancel_left]
  · obtain ⟨h1, h2, h3, h4⟩ := hx
    omega

theorem toDoubleNFp32_elemSet_roundtrip_witness :
    ((List.replicate 8 255).length = 8 ∧ isFloatValue MINUS_ONE_HALF) ∧
    toDoubleNFp32 zeroCvt (word64 (elemSetNFp32 zeroCvt (List.replicate 8 255)
      MINUS_ONE_HALF).2) = MINUS_ONE_HALF :=
  ⟨⟨by decide, by unfold isFloatValue MINUS_ONE_HALF; decide⟩,
    (toDoubleNFp32_elemSet_roundtrip zeroCvt (List.replicate 8 255) MINUS_ONE_HALF (by decide)
      (by intro b hb; rw [List.eq_of_mem_replicate hb]; decide)
      (by unfold isFloatValue MINUS_ONE_HALF; decide)).2.1⟩

theorem tmpNFp16_eq (cv : hostCvt) (x : Nat) (hx : isFloatValue x) :
    tmpNFp16 cv x = specWord20 x := by
  have hu := floatOfDouble_exact cv x hx
  have hn := isFloatValue_isnormal x hx
  obtain ⟨h1, h2, h3, h4⟩ := hx
  have hf : x % 2 ^ 52 / 2 ^ 29 < 2 ^ 23 := by omega
  have hf10 : x % 2 ^ 52 / 2 ^ 42 = x % 2 ^ 52 / 2 ^ 29 / 2 ^ 13 := by omega
  have hs : x / 2 ^ 63 < 2 := by omega
  unfold tmpNFp16 specWord20 specMantissa12
  simp only
  rw [hu, if_pos hn, BIT_MASK_8, BIT_MASK_10, BIT_MASK_12, Nat.and_pow_two_sub_one_eq_mod,
    Nat.and_pow_two_sub_one_eq_mod, Nat.and_pow_two_sub_one_eq_mod, Nat.shiftRight_eq_div_pow,
    Nat.shiftRight_eq_div_pow, Nat.one_shiftLeft, Nat.one_shiftLeft, Nat.shiftLeft_eq,
    show wrap32 (2 ^ 31) = 2 ^ 31 from rfl, hf10]
  generalize x / 2 ^ 63 = s at hs ⊢
  generalize x / 2 ^ 52 % 2 ^ 11 = e at h2 h3 ⊢
  generalize x % 2 ^ 52 / 2 ^ 29 = f at hf ⊢
  have e1 : wrap32 (wrap32 ((s * 2 ^ 31 + (e - 896) * 2 ^ 23 + f) / 2 ^ 23 % 2 ^ 8) * 2 ^ 12)
      = 2 ^ 12 * (e - 896) := by
    unfold wrap32
    omega
  have e2 : wrap32 ((s * 2 ^ 31 + (e - 896) * 2 ^ 23 + f) / 2 ^ 13 % 2 ^ 10) = f / 2 ^ 13 := by
    unfold wrap32
    omega
  have e3 : (s * 2 ^ 31 + (e - 896) * 2 ^ 23 + f) &&& 2 ^ 31 ≠ 0 ↔ s = 1 := by
    rw [and_two_pow_ne_zero_iff]
    omega
  have hg : f / 2 ^ 13 < 2 ^ 10 := by omega
  rw [e1, e2, or_two_pow _ 10 hg]
  generalize f / 2 ^ 13 = g at hg ⊢
  by_cases hs1 : s = 1
  · rw [if_pos (e3.mpr hs1), if_pos hs1]
    have e4 : sext32 (neg32 (2 ^ 10 + g)) % 2 ^ 12 = 2 ^ 12 - (2 ^ 10 + g) := by
      unfold sext32 neg32
      split_ifs <;> omega
    rw [e4, or_two_pow_mul_left _ _ _ (by omega)]
    unfold wrap32
    omega
  · rw [if_neg (fun h => hs1 (e3.mp h)), if_neg hs1]
    have e4 : sext32 (2 ^ 10 + g) % 2 ^ 12 = 2 ^ 10 + g := by
      unfold sext32
      split_ifs <;> omega
    rw [e4, or_two_pow_mul_left _ _ _ (by omega)]
    unfold wrap32
    omega

theorem specMantissa12_lt (x : Nat) : specMantissa12 x < 2 ^ 12 := by
  unfold specMantissa12
  simp only
  split_ifs <;> omega

theorem specWord20_lt (x : Nat) (hx : isFloatValue x) : specWord20 x < 2 ^ 20 := by
  obtain ⟨h1, h2, h3, h4⟩ := hx
  have := specMantissa12_lt x
  unfold specWord20
  omega

theorem toDoubleNFp16_mod (cv : hostCvt) (d : Nat) :
    toDoubleNFp16 cv d = toDoubleNFp16 cv (d % 2 ^ 20) := by
  unfold toDoubleNFp16
  simp only
  rw [BIT_MASK_12, BIT_MASK_8, Nat.and_pow_two_sub_one_eq_mod, Nat.and_pow_two_sub_one_eq_mod,
    Nat.and_pow_two_sub_one_eq_mod, Nat.and_pow_two_sub_one_eq_mod, Nat.shiftRight_eq_div_pow,
    Nat.shiftRight_eq_div_pow, show d % 2 ^ 20 % 2 ^ 12 = d % 2 ^ 12 by omega,
    show d % 2 ^ 20 / 2 ^ 12 % 2 ^ 8 = d / 2 ^ 12 % 2 ^ 8 by omega]

/-- The decoder `toDouble(const sNFp16_t &)` puts the whole magnitude `2 ^ 10 + g`
of the mantissa, leading 1 included and not shifted, into the low bits of the
fraction of the `float`. -/
theorem toDoubleNFp16_fields (cv : hostCvt) (s e g : Nat) (hs : s < 2) (h2 : 897 ≤ e)
    (h3 : e ≤ 1150) (hg : g < 2 ^ 10) :
    toDoubleNFp16 cv ((e - 896) * 2 ^ 12 + (if s = 1 then 2 ^ 12 - (2 ^ 10 + g) else 2 ^ 10 + g))
      = s * 2 ^ 63 + e * 2 ^ 52 + (2 ^ 10 + g) * 2 ^ 29 := by
  have hC : (0xFFFFF000 : Nat) = 2 ^ 12 * 1048575 := by norm_num
  unfold toDoubleNFp16 doubleOfFloat
  simp only
  rw [BIT_MASK_12, BIT_MASK_8, BIT_MASK_23, Nat.and_pow_two_sub_one_eq_mod,
    Nat.and_pow_two_sub_one_eq_mod, Nat.and_pow_two_sub_one_eq_mod, Nat.shiftRight_eq_div_pow,
    Nat.one_shiftLeft]
  by_cases hs1 : s = 1
  · subst hs1
    rw [if_pos rfl]
    have e1 : wrap32 (((e - 896) * 2 ^ 12 + (2 ^ 12 - (2 ^ 10 + g))) % 2 ^ 12)
        = 2 ^ 12 - (2 ^ 10 + g) := by
      unfold wrap32
      omega
    have e2 : ((e - 896) * 2 ^ 12 + (2 ^ 12 - (2 ^ 10 + g))) / 2 ^ 12 % 2 ^ 8 = e - 896 := by
      omega
    have hcond : (2 ^ 12 - (2 ^ 10 + g)) &&& 2 ^ 11 ≠ 0 :=
      (and_two_pow_ne_zero_iff _ 11).mpr (by omega)
    rw [e1, e2, if_pos hcond, if_pos hcond, hC, or_two_pow_mul 1048575 _ 12 (by omega)]
    have e3 : sext32 (neg32 (2 ^ 12 * 1048575 + (2 ^ 12 - (2 ^ 10 + g)))) % 2 ^ 23
        = 2 ^ 10 + g := by
      unfold sext32 neg32
      split_ifs <;> omega
    have e4 : wrap32 (1 <<< 8) = 2 ^ 8 := by decide
    have e4' : 2 ^ 8 ||| (e - 896) = 2 ^ 8 + (e - 896) := by
      rw [Nat.or_comm]
      exact or_two_pow _ 8 (by omega)
    rw [e3, e4, e4', Nat.shiftLeft_eq]
    have e5 : wrap32 (wrap32 (2 ^ 8 + (e - 896)) * 2 ^ 23) = 2 ^ 23 * (2 ^ 8 + (e - 896)) := by
      unfold wrap32
      omega
    rw [e5, or_two_pow_mul_left _ _ _ (by omega)]
    have e6 : wrap32 (2 ^ 23 * (2 ^ 8 + (e - 896)) + (2 ^ 10 + g))
        = 2 ^ 31 + (e - 896) * 2 ^ 23 + (2 ^ 10 + g) := by
      unfold wrap32
      omega
    rw [e6, if_pos (by omega)]
    omega
  · have hs0 : s = 0 := by omega
    subst hs0
    rw [if_neg (show ¬ ((0 : Nat) = 1) by decide)]
    have e1 : wrap32 (((e - 896) * 2 ^ 12 + (2 ^ 10 + g)) % 2 ^ 12) = 2 ^ 10 + g := by
      unfold wrap32
      omega
    have e2 : ((e - 896) * 2 ^ 12 + (2 ^ 10 + g)) / 2 ^ 12 % 2 ^ 8 = e - 896 := by
      omega
    have hcond : ¬ ((2 ^ 10 + g) &&& 2 ^ 11 ≠ 0) := by
      rw [and_two_pow_ne_zero_iff]
      omega
    rw [e1, e2, if_neg hcond, if_neg hcond]
    have e3 : sext32 (2 ^ 10 + g) % 2 ^ 23 = 2 ^ 10 + g := by
      unfold sext32
      split_ifs <;> omega
    have e4 : wrap32 (0 <<< 8) = 0 := by decide
    rw [e3, e4, Nat.zero_or, Nat.shiftLeft_eq]
    have e5 : wrap32 (wrap32 (e - 896) * 2 ^ 23) = 2 ^ 23 * (e - 896) := by
      unfold wrap32
      omega
    rw [e5, or_two_pow_mul_left _ _ _ (by omega)]
    have e6 : wrap32 (2 ^ 23 * (e - 896) + (2 ^ 10 + g)) = (e - 896) * 2 ^ 23 + (2 ^ 10 + g) := by
      unfold wrap32
      omega
    rw [e6, if_pos (by omega)]
    omega

theorem word32_elemSetNFp16 (cv : hostCvt) (w : List Nat) (x : Nat) (hw : w.length = 4)
    (hb : isBytes w) (hx : isFloatValue x) :
    word32 (elemSetNFp16 cv w x).2 0 % 2 ^ 20 = specWord20 x := by
  obtain ⟨_, _, hbits⟩ := elemSetNFp16_bits cv w x hw
  have hb2 := elemSetNFp16_isBytes cv w x hb
  apply Nat.eq_of_testBit_eq
  intro j
  rw [Nat.testBit_mod_two_pow]
  by_cases hj : j < 20
  · rw [word32_testBit _ hb2 0 j (by omega), show 32 * 0 + j = j by omega, hbits j, if_pos hj,
      tmpNFp16_eq cv x hx]
    simp [hj]
  · rw [Nat.testBit_lt_two_pow (lt_of_lt_of_le (specWord20_lt x hx)
      (Nat.pow_le_pow_right (by decide) (show 20 ≤ j by omega)))]
    simp [hj]

/-- C22: for every double `x` that is a normal binary32 value whose 13 low
fraction bits are zero, `elemSet(sNFp16_t*, x)` returns 0 and stores the 12-bit
signed mantissa with leading 1 in bits 0..11 and the exponent in bits 12..19,
but `toDouble(sNFp16_t)` of the stored word does not return `x`: it returns the
double with the sign and exponent of `x` whose fraction is the magnitude of the
mantissa, leading 1 included, in the low bits of the binary32 fraction. -/
theorem toDoubleNFp16_elemSet_differs (cv : hostCvt) (w : List Nat) (x : Nat)
    (hw : w.length = 4) (hb : isBytes w) (hx : isFloatValue x) (h13 : x % 2 ^ 42 = 0) :
    (elemSetNFp16 cv w x).1 = 0 ∧
    (∀ j, j < 12 → bitAt (elemSetNFp16 cv w x).2 j = (specMantissa12 x).testBit j) ∧
    (∀ j, j < 8 →
      bitAt (elemSetNFp16 cv w x).2 (12 + j) = (x / 2 ^ 52 % 2 ^ 11 - 896).testBit j) ∧
    toDoubleNFp16 cv (word32 (elemSetNFp16 cv w x).2 0)
      = x / 2 ^ 52 * 2 ^ 52 + (2 ^ 10 + x % 2 ^ 52 / 2 ^ 42) * 2 ^ 29 ∧
    toDoubleNFp16 cv (word32 (elemSetNFp16 cv w x).2 0) ≠ x := by
  obtain ⟨hrc, _, hbits⟩ := elemSetNFp16_bits cv w x hw
  have hm := specMantissa12_lt x
  have hword : ∀ j, (specWord20 x).testBit j
      = if j < 12 then (specMantissa12 x).testBit j
        else (x / 2 ^ 52 % 2 ^ 11 - 896).testBit (j - 12) := by
    intro j
    unfold specWord20
    rw [Nat.mul_comm, Nat.testBit_mul_pow_two_add _ hm]
  have hdec : toDoubleNFp16 cv (word32 (elemSetNFp16 cv w x).2 0)
      = x / 2 ^ 52 * 2 ^ 52 + (2 ^ 10 + x % 2 ^ 52 / 2 ^ 42) * 2 ^ 29 := by
    rw [toDoubleNFp16_mod, word32_elemSetNFp16 cv w x hw hb hx]
    obtain ⟨h1, h2, h3, h4⟩ := hx
    have := toDoubleNFp16_fields cv (x / 2 ^ 63) (x / 2 ^ 52 % 2 ^ 11) (x % 2 ^ 52 / 2 ^ 42)
      (by omega) h2 h3 (by omega)
    unfold specWord20 specMantissa12
    simp only
    rw [this]
    omega
  refine ⟨hrc, ?_, ?_, hdec, ?_⟩
  · intro j hj
    rw [hbits, if_pos (by omega), tmpNFp16_eq cv x hx, hword, if_pos hj]
  · intro j hj
    rw [hbits, if_pos (by omega), tmpNFp16_eq cv x hx, hword, if_neg (by omega),
      Nat.add_sub_cancel_left]
  · rw [hdec]
    obtain ⟨h1, h2, h3, h4⟩ := hx
    omega

theorem toDoubleNFp16_elemSet_differs_witness :
    ((List.replicate 4 0).length = 4 ∧ isFloatValue ONE ∧ ONE % 2 ^ 42 = 0) ∧
    ONE = 0x3FF0000000000000 ∧
    toDoubleNFp16 zeroCvt (word32 (elemSetNFp16 zeroCvt (List.replicate 4 0) ONE).2 0)
      = 0x3FF0008000000000 ∧
    toDoubleNFp16 zeroCvt (word32 (elemSetNFp16 zeroCvt (List.replicate 4 0) ONE).2 0) ≠ ONE :=
  ⟨⟨by decide, by unfold isFloatValue ONE; decide, by decide⟩, by decide,
    (toDoubleNFp16_elemSet_differs zeroCvt (List.replicate 4 0) ONE (by decide)
      (by intro b hb; rw [List.eq_of_mem_replicate hb]; decide)
      (by unfold isFloatValue ONE; decide) (by decide)).2.2.2.1.trans (by decide),
    (toDoubleNFp16_elemSet_differs zeroCvt (List.replicate 4 0) ONE (by decide)
      (by intro b hb; rw [List.eq_of_mem_replicate hb]; decide)
      (by unfold isFloatValue ONE; decide) (by decide)).2.2.2.2⟩

/-! ## The weights of `fiCsimPlace::Everywhere` -/

theorem fiSetCsimPlace_iff (RAND_MAX r : Nat) (hR : RAND_MAX < 2 ^ 31) :
    (fiSetCsimPlace RAND_MAX r = fiCsimPlace.Multipliers ↔ r < 8 * (RAND_MAX / 17)) ∧
    (fiSetCsimPlace RAND_MAX r = fiCsimPlace.AccAdders ↔
      8 * (RAND_MAX / 17) ≤ r ∧ r < 16 * (RAND_MAX / 17)) ∧
    (fiSetCsimPlace RAND_MAX r = fiCsimPlace.ColumnAdders ↔
      16 * (RAND_MAX / 17) ≤ r ∧ r < 17 * (RAND_MAX / 17)) ∧
    (fiSetCsimPlace RAND_MAX r = fiCsimPlace.Inputs ↔ 17 * (RAND_MAX / 17) ≤ r) := by
  have hS : SIZE = 18446744073709551616 := rfl
  have h16 : wrap (2 * Kmma) = 16 := by decide
  have h17 : wrap (16 + 1) = 17 := by decide
  have hK : Kmma = 8 := rfl
  unfold fiSetCsimPlace
  simp only
  rw [h16, h17, hK, wrap_of_lt (show 8 * (RAND_MAX / 17) < SIZE by omega),
    wrap_of_lt (show 16 * (RAND_MAX / 17) < SIZE by omega),
    wrap_of_lt (show 17 * (RAND_MAX / 17) < SIZE by omega)]
  by_cases c1 : r < 8 * (RAND_MAX / 17)
  · rw [if_pos c1]
    refine ⟨?_, ?_, ?_, ?_⟩ <;> constructor <;> intro h <;> first | rfl | omega | cases h
  · rw [if_neg c1]
    by_cases c2 : r < 16 * (RAND_MAX / 17)
    · rw [if_pos c2]
      refine ⟨?_, ?_, ?_, ?_⟩ <;> constructor <;> intro h <;> first | rfl | omega | cases h
    · rw [if_neg c2]
      by_cases c3 : r < 17 * (RAND_MAX / 17)
      · rw [if_pos c3]
        refine ⟨?_, ?_, ?_, ?_⟩ <;> constructor <;> intro h <;> first | rfl | omega | cases h
      · rw [if_neg c3]
        refine ⟨?_, ?_, ?_, ?_⟩ <;> constructor <;> intro h <;> first | rfl | omega | cases h

theorem card_filter_range_Ico (n a b : Nat) (p : Nat → Prop) [DecidablePred p]
    (hp : ∀ r, p r ↔ a ≤ r ∧ r < b) (hb : b ≤ n) :
    ((Finset.range n).filter p).card = b - a := by
  have : (Finset.range n).filter p = Finset.Ico a b := by
    ext r
    rw [Finset.mem_filter, Finset.mem_range, Finset.mem_Ico, hp]
    omega
  rw [this, Nat.card_Ico]

theorem FiSetCsim_Everywhere_place (RAND_MAX : Nat) (s : SystolicArraySim) (bits : fiBits)
    (corruption : fiCorruption) (mode : fiMode) (r : faultCsim_t × SystolicArraySim)
    (hb : bits ≠ fiBits.None) (hc : corruption ≠ fiCorruption.None) (hm : mode ≠ fiMode.None)
    (hr : FiSetCsim RAND_MAX s fiCsimPlace.Everywhere bits corruption mode = some r) :
    r.1.Place = fiSetCsimPlace RAND_MAX (s.Rand s.RandPos) := by
  have hnone : ¬ (fiCsimPlace.None = fiCsimPlace.Everywhere ∨ fiBits.None = bits ∨
      fiCorruption.None = corruption ∨ fiMode.None = mode) := by
    rintro (h | h | h | h)
    · cases h
    · exact hb h.symm
    · exact hc h.symm
    · exact hm h.symm
  unfold FiSetCsim at hr
  rw [if_neg hnone] at hr
  simp only at hr
  split_ifs at hr
  all_goals
    cases bits with
    | None => exact absurd rfl hb
    | Everywhere =>
      simp only [Option.some.injEq] at hr
      rw [← hr]
      rfl
    | Mantissa =>
      simp only [Option.some.injEq] at hr
      rw [← hr]
      rfl

/-- C28: for `FiSetCsim` with place `Everywhere` the stored place is a function
of the single draw `r` of `rand()`; with `F = RAND_MAX / 17` it is `Multipliers`
iff `r < 8 * F`, `AccAdders` iff `8 * F <= r < 16 * F`, `ColumnAdders` iff
`16 * F <= r < 17 * F` and `Inputs` otherwise; of the `RAND_MAX + 1` draws
exactly `8 * F` select `Multipliers`, `8 * F` select `AccAdders`, `F` select
`ColumnAdders` and `RAND_MAX % 17 + 1 <= 17` select `Inputs`. -/
theorem FiSetCsim_Everywhere_weights (RAND_MAX : Nat) (hR : RAND_MAX < 2 ^ 31) :
    (∀ (s : SystolicArraySim) (bits : fiBits) (corruption : fiCorruption) (mode : fiMode)
        (r : faultCsim_t × SystolicArraySim),
      bits ≠ fiBits.None → corruption ≠ fiCorruption.None → mode ≠ fiMode.None →
      FiSetCsim RAND_MAX s fiCsimPlace.Everywhere bits corruption mode = some r →
      r.1.Place = fiSetCsimPlace RAND_MAX (s.Rand s.RandPos)) ∧
    (∀ r, (fiSetCsimPlace RAND_MAX r = fiCsimPlace.Multipliers ↔ r < 8 * (RAND_MAX / 17)) ∧
      (fiSetCsimPlace RAND_MAX r = fiCsimPlace.AccAdders ↔
        8 * (RAND_MAX / 17) ≤ r ∧ r < 16 * (RAND_MAX / 17)) ∧
      (fiSetCsimPlace RAND_MAX r = fiCsimPlace.ColumnAdders ↔
        16 * (RAND_MAX / 17) ≤ r ∧ r < 17 * (RAND_MAX / 17)) ∧
      (fiSetCsimPlace RAND_MAX r = fiCsimPlace.Inputs ↔ 17 * (RAND_MAX / 17) ≤ r)) ∧
    ((Finset.range (RAND_MAX + 1)).filter
      (fun r => fiSetCsimPlace RAND_MAX r = fiCsimPlace.Multipliers)).card
        = 8 * (RAND_MAX / 17) ∧
    ((Finset.range (RAND_MAX + 1)).filter
      (fun r => fiSetCsimPlace RAND_MAX r = fiCsimPlace.AccAdders)).card
        = 8 * (RAND_MAX / 17) ∧
    ((Finset.range (RAND_MAX + 1)).filter
      (fun r => fiSetCsimPlace RAND_MAX r = fiCsimPlace.ColumnAdders)).card
        = RAND_MAX / 17 ∧
    ((Finset.range (RAND_MAX + 1)).filter
      (fun r => fiSetCsimPlace RAND_MAX r = fiCsimPlace.Inputs)).card
        = RAND_MAX % 17 + 1 ∧
    RAND_MAX % 17 + 1 ≤ 17 := by
  have hiff := fun r => fiSetCsimPlace_iff RAND_MAX r hR
  refine ⟨fun s bits corruption mode r hb hc hm hr =>
      FiSetCsim_Everywhere_place RAND_MAX s bits corruption mode r hb hc hm hr,
    hiff, ?_, ?_, ?_, ?_, by omega⟩
  · rw [card_filter_range_Ico (RAND_MAX + 1) 0 (8 * (RAND_MAX / 17)) _
      (fun r => by rw [(hiff r).1]; omega) (by omega)]
    omega
  · rw [card_filter_range_Ico (RAND_MAX + 1) (8 * (RAND_MAX / 17)) (16 * (RAND_MAX / 17)) _
      (fun r => (hiff r).2.1) (by omega)]
    omega
  · rw [card_filter_range_Ico (RAND_MAX + 1) (16 * (RAND_MAX / 17)) (17 * (RAND_MAX / 17)) _
      (fun r => (hiff r).2.2.1) (by omega)]
    omega
  · have : (Finset.range (RAND_MAX + 1)).filter
        (fun r => fiSetCsimPlace RAND_MAX r = fiCsimPlace.Inputs)
        = Finset.Ico (17 * (RAND_MAX / 17)) (RAND_MAX + 1) := by
      ext r
      rw [Finset.mem_filter, Finset.mem_range, Finset.mem_Ico, (hiff r).2.2.2]
      omega
    rw [this, Nat.card_Ico]
    omega

theorem FiSetCsim_Everywhere_weights_witness :
    (2147483647 : Nat) < 2 ^ 31 ∧
    ((Finset.range (2147483647 + 1)).filter
      (fun r => fiSetCsimPlace 2147483647 r = fiCsimPlace.Inputs)).card = 9 ∧
    fiSetCsimPlace 2147483647 2147483639 = fiCsimPlace.Inputs ∧
    fiSetCsimPlace 2147483647 2147483638 = fiCsimPlace.ColumnAdders :=
  ⟨by decide, (FiSetCsim_Everywhere_weights 2147483647 (by decide)).2.2.2.2.2.1,
    ((FiSetCsim_Everywhere_weights 2147483647 (by decide)).2.1 2147483639).2.2.2.mpr
      (by decide),
    ((FiSetCsim_Everywhere_weights 2147483647 (by decide)).2.1 2147483638).2.2.1.mpr
      (by decide)⟩

/-! ## The input and output schedule of `IoSet` -/

theorem ioPhaseK_iff (c k : Nat) (hc : c < SIZE) :
    ioPhaseK c = some k ↔ k < 8 ∧ c = 12 * (k / 2) + k % 2 := by
  have hS : SIZE = 18446744073709551616 := rfl
  have hF : FmaCycles_ = 12 := rfl
  have hK : Kmma = 8 := rfl
  have hsub : subw c 1 % 12 = 0 ∧ c ≠ 0 ↔ c % 12 = 1 := by
    by_cases h0 : c = 0
    · subst h0
      constructor
      · intro h; exact absurd rfl h.2
      · intro h; omega
    · rw [subw_of_le (by omega) hc]
      omega
  unfold ioPhaseK
  simp only [hF, hK]
  by_cases he : c % 12 = 0
  · have ho : ¬ c % 12 = 1 := by omega
    simp only [he, decide_True, Bool.true_or, if_true, Nat.add_zero]
    rw [wrap_of_lt (show 2 * (c / 12) < SIZE by omega),
      wrap_of_lt (show 2 * (c / 12) < SIZE by omega)]
    split_ifs with h8
    · constructor
      · intro h
        injection h with h
        omega
      · intro h
        congr 1
        omega
    · constructor
      · intro h; cases h
      · intro h; omega
  · by_cases ho : c % 12 = 1
    · have ho' := hsub.mpr ho
      have he' : ¬ (0 = c % 12) := by omega
      simp only [he', decide_False, Bool.false_or, ho'.1, ho'.2, ne_eq, not_false_eq_true,
        decide_True, Bool.and_self, if_true, Bool.false_eq_true, if_false]
      rw [wrap_of_lt (show 2 * (c / 12) < SIZE by omega),
        wrap_of_lt (show 2 * (c / 12) + 1 < SIZE by omega)]
      split_ifs with h8
      · constructor
        · intro h
          injection h with h
          omega
        · intro h
          congr 1
          omega
      · constructor
        · intro h; cases h
        · intro h; omega
    · have he' : ¬ (0 = c % 12) := by omega
      have ho' : ¬ (0 = subw c 1 % 12 ∧ c ≠ 0) := by
        intro h
        exact ho (hsub.mp ⟨h.1.symm, h.2⟩)
      have hb : (decide (0 = c % 12) || decide (0 = subw c 1 % 12) && decide (c ≠ 0)) = false := by
        rw [Bool.or_eq_false_iff, Bool.and_eq_false_iff]
        refine ⟨decide_eq_false he', ?_⟩
        by_cases h1 : 0 = subw c 1 % 12
        · exact Or.inr (decide_eq_false (fun h => ho' ⟨h1, h⟩))
        · exact Or.inl (decide_eq_false h1)
      rw [hb]
      simp only [Bool.false_eq_true, if_false]
      constructor
      · intro h; cases h
      · intro h; omega

theorem ioSetRight_calls (e : queueEntry_t) (st : ioState) :
    ioSetRight e st = forRc (ioSetRightCall e.Job) (ioSetRightCalls e.JobCycle) st := by
  unfold ioSetRight ioSetRightCalls
  simp only
  generalize List.range (min (wrap (e.JobCycle / 2 + 1)) Nmma) = xs
  induction xs generalizing st with
  | nil => rfl
  | cons n xs ih =>
    rw [List.filterMap_cons]
    cases hk : ioPhaseK (subw e.JobCycle (wrap (2 * n))) with
    | none =>
      simp only [forRc, hk, Option.map_none', ne_eq, not_true_eq_false, if_false]
      exact ih st
    | some k =>
      simp only [forRc, hk, Option.map_some', ioSetRightCall]
      split_ifs <;> first | rfl | exact ih _

theorem mem_ioSetRightCalls (c k n : Nat) (hc : c < SIZE) :
    (k, n) ∈ ioSetRightCalls c ↔ k < 8 ∧ n < 8 ∧ c = 2 * n + 12 * (k / 2) + k % 2 := by
  have hS : SIZE = 18446744073709551616 := rfl
  have hN : Nmma = 8 := rfl
  unfold ioSetRightCalls
  rw [List.mem_filterMap, hN, wrap_of_lt (show c / 2 + 1 < SIZE by omega)]
  constructor
  · rintro ⟨n', hn', h⟩
    rw [List.mem_range] at hn'
    rw [Option.map_eq_some'] at h
    obtain ⟨k', hk', hp⟩ := h
    injection hp with h1 h2
    subst h1 h2
    rw [wrap_of_lt (show 2 * n' < SIZE by omega),
      subw_of_le (show 2 * n' ≤ c by omega) hc] at hk'
    have := (ioPhaseK_iff _ _ (by omega)).mp hk'
    omega
  · rintro ⟨hk, hn, hceq⟩
    refine ⟨n, List.mem_range.mpr (by omega), ?_⟩
    rw [wrap_of_lt (show 2 * n < SIZE by omega), subw_of_le (show 2 * n ≤ c by omega) hc,
      (ioPhaseK_iff (c - 2 * n) k (by omega)).mpr ⟨hk, by omega⟩]
    rfl

theorem ioSetRightCalls_nodup (c : Nat) : (ioSetRightCalls c).Nodup := by
  unfold ioSetRightCalls
  apply List.Nodup.filterMap _ (List.nodup_range _)
  intro a a' b hb hb'
  rw [Option.mem_def, Option.map_eq_some'] at hb hb'
  obtain ⟨_, _, h1⟩ := hb
  obtain ⟨_, _, h2⟩ := hb'
  rw [← h2] at h1
  injection h1 with _ h

theorem ioSetLeft_some (e : queueEntry_t) (m k : Nat) (st : ioState) (hm : m < 8)
    (hk : ioPhaseK e.JobCycle = some k) :
    ioSetLeft e m st
      = (if (setValue st.Tb.multLeft st.Tb.multLeft.length 65 (m * 8 + k)
            (st.Heap.read (e.Job.cellA m k))).1 ≠ 0 then -1 else 0,
          { st with Tb := { st.Tb with multLeft :=
            (setValue st.Tb.multLeft st.Tb.multLeft.length 65 (m * 8 + k)
              (st.Heap.read (e.Job.cellA m k))).2 } }) := by
  have hS : SIZE = 18446744073709551616 := rfl
  have hK : Kmma = 8 := rfl
  have hk8 := ioPhaseK_lt hk
  unfold ioSetLeft
  rw [hk]
  simp only
  rw [hK, wrap_of_lt (show m * 8 < SIZE by omega), wrap_of_lt (show m * 8 + k < SIZE by omega)]

theorem ioSetLeft_none (e : queueEntry_t) (m : Nat) (st : ioState)
    (hk : ioPhaseK e.JobCycle = none) : ioSetLeft e m st = (0, st) := by
  unfold ioSetLeft
  rw [hk]

/-- C29: at a job cycle `c <= 66` of a job, `IoSet` presents `A[m, k]` to element
`m * 8 + k` of `multLeft` if and only if `c = 12 * (k / 2) + k % 2`, and presents
`B[k, n]` to element `k` of `multRight` if and only if
`c = 2 * n + 12 * (k / 2) + k % 2` (`k < 8`, `n < 8`); every element of `A` and of
`B` is presented at exactly one job cycle of the job, and no input is presented
after job cycle 51, before `JobCycleOutputStart_ = 52`. -/
theorem IoSet_input_schedule (job : job_t) (c : Nat) (st : ioState) (hc : c ≤ 66) :
    (∀ k, ioPhaseK c = some k ↔ k < 8 ∧ c = 12 * (k / 2) + k % 2) ∧
    (∀ m k, m < 8 → ioPhaseK c = some k →
      ioSetLeft { JobCycle := c, Job := job } m st
        = (if (setValue st.Tb.multLeft st.Tb.multLeft.length 65 (m * 8 + k)
              (st.Heap.read (job.cellA m k))).1 ≠ 0 then -1 else 0,
            { st with Tb := { st.Tb with multLeft :=
              (setValue st.Tb.multLeft st.Tb.multLeft.length 65 (m * 8 + k)
                (st.Heap.read (job.cellA m k))).2 } })) ∧
    (ioPhaseK c = none → ∀ m, ioSetLeft { JobCycle := c, Job := job } m st = (0, st)) ∧
    ioSetRight { JobCycle := c, Job := job } st
      = forRc (ioSetRightCall job) (ioSetRightCalls c) st ∧
    (∀ k n, (k, n) ∈ ioSetRightCalls c ↔ k < 8 ∧ n < 8 ∧ c = 2 * n + 12 * (k / 2) + k % 2) ∧
    (ioSetRightCalls c).Nodup ∧
    (∀ k, k < 8 → ∃! c', c' ≤ 66 ∧ ioPhaseK c' = some k) ∧
    (∀ k n, k < 8 → n < 8 → ∃! c', c' ≤ 66 ∧ (k, n) ∈ ioSetRightCalls c') ∧
    ((ioPhaseK c ≠ none ∨ ioSetRightCalls c ≠ []) → c ≤ 51) ∧
    (7, 7) ∈ ioSetRightCalls 51 ∧ JobCycleOutputStart_ = 52 := by
  have hS : SIZE = 18446744073709551616 := rfl
  have hlt : ∀ c', c' ≤ 66 → c' < SIZE := fun c' h => by omega
  refine ⟨fun k => ioPhaseK_iff c k (hlt c hc),
    fun m k hm hk => ioSetLeft_some { JobCycle := c, Job := job } m k st hm hk,
    fun hk m => ioSetLeft_none { JobCycle := c, Job := job } m st hk,
    ioSetRight_calls { JobCycle := c, Job := job } st,
    fun k n => mem_ioSetRightCalls c k n (hlt c hc), ioSetRightCalls_nodup c, ?_, ?_, ?_,
    (mem_ioSetRightCalls 51 7 7 (by omega)).mpr (by omega), by decide⟩
  · intro k hk
    refine ⟨12 * (k / 2) + k % 2, ⟨by omega, (ioPhaseK_iff _ k (by omega)).mpr ⟨hk, rfl⟩⟩, ?_⟩
    rintro c' ⟨h1, h2⟩
    exact ((ioPhaseK_iff c' k (hlt c' h1)).mp h2).2
  · intro k n hk hn
    refine ⟨2 * n + 12 * (k / 2) + k % 2,
      ⟨by omega, (mem_ioSetRightCalls _ k n (by omega)).mpr ⟨hk, hn, rfl⟩⟩, ?_⟩
    rintro c' ⟨h1, h2⟩
    exact ((mem_ioSetRightCalls c' k n (hlt c' h1)).mp h2).2.2
  · rintro (h | h)
    · cases hk : ioPhaseK c with
      | none => exact absurd hk h
      | some k =>
        have := (ioPhaseK_iff c k (hlt c hc)).mp hk
        omega
    · cases hl : ioSetRightCalls c with
      | nil => exact absurd hl h
      | cons p rest =>
        have hp : (p.1, p.2) ∈ ioSetRightCalls c := by
          rw [hl]
          exact List.mem_cons_self _ _
        have := (mem_ioSetRightCalls c p.1 p.2 (hlt c hc)).mp hp
        omega

theorem IoSet_input_schedule_witness :
    (25 : Nat) ≤ 66 ∧ ioPhaseK 25 = some 5 ∧ ioSetRightCalls 25 = [(5, 0), (3, 6)] :=
  ⟨by decide,
    ((IoSet_input_schedule exampleJob 25 exampleIoState
      (by decide)).1 5).mpr (by decide),
    by decide⟩

theorem ioSetAcc_some (e : queueEntry_t) (m n : Nat) (st : ioState) (hn : n < 8)
    (hc : e.JobCycle = 2 * n) :
    ioSetAcc e m st
      = (if (setValue st.Tb.acc st.Tb.acc.length 65 m
            (st.Heap.read (e.Job.cellC m n))).1 ≠ 0 then -1 else 0,
          { st with Tb := { st.Tb with acc :=
            (setValue st.Tb.acc st.Tb.acc.length 65 m (st.Heap.read (e.Job.cellC m n))).2 } }) := by
  have hN : Nmma = 8 := rfl
  unfold ioSetAcc
  rw [if_pos (by omega)]
  simp only
  rw [hN, if_pos (by omega), show e.JobCycle / 2 = n by omega]

theorem ioSetAcc_none (e : queueEntry_t) (m : Nat) (st : ioState)
    (hc : ∀ n, n < 8 → e.JobCycle ≠ 2 * n) : ioSetAcc e m st = (0, st) := by
  have hN : Nmma = 8 := rfl
  unfold ioSetAcc
  by_cases h2 : 0 = e.JobCycle % 2
  · rw [if_pos h2]
    simp only
    rw [hN, if_neg (fun h => hc (e.JobCycle / 2) h (by omega))]
  · rw [if_neg h2]

theorem ioSetOut_some (e : queueEntry_t) (m n : Nat) (st : ioState) (hn : n < 8)
    (hc : e.JobCycle = 52 + 2 * n) :
    ioSetOut e m st
      = (0, { st with Heap :=
          st.Heap.write (e.Job.cellC m n) (getValue st.Tb.out st.Tb.out.length 65 m) }) := by
  have hS : SIZE = 18446744073709551616 := rfl
  have hO : JobCycleOutputStart_ = 52 := by decide
  have hN : Nmma = 8 := rfl
  unfold ioSetOut
  rw [hO, hN, if_pos (by omega), subw_of_le (by omega) (by omega)]
  simp only
  rw [if_pos (by omega), if_neg (by omega), show (e.JobCycle - 52) / 2 = n by omega]

theorem ioSetOut_none (e : queueEntry_t) (m : Nat) (st : ioState) (h66 : e.JobCycle ≤ 66)
    (hc : ∀ n, n < 8 → e.JobCycle ≠ 52 + 2 * n) : ioSetOut e m st = (0, st) := by
  have hS : SIZE = 18446744073709551616 := rfl
  have hO : JobCycleOutputStart_ = 52 := by decide
  have hN : Nmma = 8 := rfl
  unfold ioSetOut
  rw [hO, hN]
  by_cases h52 : 52 ≤ e.JobCycle
  · rw [if_pos h52, subw_of_le h52 (by omega)]
    simp only
    rw [if_neg (fun h => hc ((e.JobCycle - 52) / 2) (by omega) (by omega))]
  · rw [if_neg h52]

/-- Every job cycle in the queue stays at most `JobCycleDone_` while `IoSet`
is called on a queue that started fresh. -/
theorem ioSetIter_cycles (fp : Fpu) (eval : testBench_t → testBench_t)
    (heval : ∀ tb, portsFit tb → portsFit (eval tb)) :
    ∀ (k : Nat) (s : SystolicArraySim), portsFit s.Tb →
      (∃ t js, t ≤ 66 ∧ s.JobQueue_ = sched t js) →
      ∀ s', ioSetIter fp eval k s = some s' → ∃ t js, t ≤ 66 ∧ s'.JobQueue_ = sched t js := by
  intro k
  induction k with
  | zero =>
    intro s _ hq s' hs'
    injection hs' with hs'
    rw [← hs']
    exact hq
  | succ k ih =>
    intro s hp hq s' hs'
    obtain ⟨t, js, ht, hq⟩ := hq
    cases js with
    | nil =>
      have hq0 : s.JobQueue_ = [] := hq
      have : IoSet fp s true = (-1, s) := by
        unfold IoSet
        rw [hq0]
      simp only [ioSetIter, this] at hs'
      cases hs'
    | cons j rest =>
      obtain ⟨h1, h2, h3⟩ := IoSet_sched_step fp s true t j rest hq ht hp
      simp only [ioSetIter] at hs'
      rw [if_neg (by rw [h1]; simp)] at hs'
      refine ih _ (heval _ h2) ?_ s' hs'
      by_cases h66 : t = 66
      · exact ⟨49, rest, by omega, by rw [if_pos h66] at h3; exact h3⟩
      · exact ⟨t + 1, j :: rest, by omega, by rw [if_neg h66] at h3; exact h3⟩

/-- C30: at a job cycle `c <= 66` of a job, `IoSet` loads the accumulator of row
`m` from `MatC[m * StrideC + n]` exactly when `c = 2 * n` with `n < 8`, and writes
the output of row `m` to `MatC[m * StrideC + n]` exactly when `c = 52 + 2 * n` with
`n < 8`; the output step never returns the error for an unexpected `n`; every
column is loaded at exactly one job cycle and written at exactly one job cycle;
and in every run of `IoSet` calls from a fresh queue every job cycle in the
queue is at most 66, the calls succeeding until the queue is empty. -/
theorem IoSet_acc_out_schedule (fp : Fpu) (eval : testBench_t → testBench_t)
    (job : job_t) (c m : Nat) (st : ioState) (hc : c ≤ 66) :
    (∀ n, n < 8 → c = 2 * n →
      ioSetAcc { JobCycle := c, Job := job } m st
        = (if (setValue st.Tb.acc st.Tb.acc.length 65 m
              (st.Heap.read (job.cellC m n))).1 ≠ 0 then -1 else 0,
            { st with Tb := { st.Tb with acc :=
              (setValue st.Tb.acc st.Tb.acc.length 65 m (st.Heap.read (job.cellC m n))).2 } })) ∧
    ((∀ n, n < 8 → c ≠ 2 * n) → ioSetAcc { JobCycle := c, Job := job } m st = (0, st)) ∧
    (∀ n, n < 8 → c = 52 + 2 * n →
      ioSetOut { JobCycle := c, Job := job } m st
        = (0, { st with Heap :=
            st.Heap.write (job.cellC m n) (getValue st.Tb.out st.Tb.out.length 65 m) })) ∧
    ((∀ n, n < 8 → c ≠ 52 + 2 * n) → ioSetOut { JobCycle := c, Job := job } m st = (0, st)) ∧
    (ioSetOut { JobCycle := c, Job := job } m st).1 = 0 ∧
    (∀ n, n < 8 → ∃! c', c' ≤ 66 ∧ c' = 2 * n) ∧
    (∀ n, n < 8 → ∃! c', c' ≤ 66 ∧ c' = 52 + 2 * n) ∧
    (∀ (js : List job_t) (s : SystolicArraySim) (k : Nat),
      (∀ tb, portsFit tb → portsFit (eval tb)) → portsFit s.Tb →
      s.JobQueue_ = js.map fresh →
      (∀ s', ioSetIter fp eval k s = some s' → ∀ e ∈ s'.JobQueue_, e.JobCycle ≤ 66) ∧
      (js ≠ [] → k ≤ 67 + 18 * (js.length - 1) → ∃ s', ioSetIter fp eval k s = some s')) := by
  have hfresh : ∀ js : List job_t, js.map fresh = sched 0 js := by
    intro js
    rw [sched_zero]
    rfl
  refine ⟨fun n hn h => ioSetAcc_some { JobCycle := c, Job := job } m n st hn h,
    fun h => ioSetAcc_none { JobCycle := c, Job := job } m st h,
    fun n hn h => ioSetOut_some { JobCycle := c, Job := job } m n st hn h,
    fun h => ioSetOut_none { JobCycle := c, Job := job } m st hc h, ?_,
    fun n hn => ⟨2 * n, ⟨by omega, rfl⟩, fun c' h => h.2⟩,
    fun n hn => ⟨52 + 2 * n, ⟨by omega, rfl⟩, fun c' h => h.2⟩, ?_⟩
  · by_cases h : ∃ n, n < 8 ∧ c = 52 + 2 * n
    · obtain ⟨n, hn, h⟩ := h
      rw [ioSetOut_some { JobCycle := c, Job := job } m n st hn h]
    · rw [ioSetOut_none { JobCycle := c, Job := job } m st hc
        (fun n hn hcn => h ⟨n, hn, hcn⟩)]
  · intro js s k heval hp hq
    rw [hfresh] at hq
    constructor
    · intro s' hs' e he
      obtain ⟨t, js', ht, hq'⟩ := ioSetIter_cycles fp eval heval k s hp ⟨0, js, by omega, hq⟩ s' hs'
      rw [hq'] at he
      exact Nat.le_trans (sched_le js' t e he) ht
    · intro hjs hk
      have hr0 : retiredAfter 0 = 0 := by decide
      obtain ⟨s', hs', _⟩ := ioSetIter_sched fp eval heval js k 0 s hp
        (by rw [hr0]; exact hq) (by omega) hjs
      exact ⟨s', hs'⟩

theorem IoSet_acc_out_schedule_witness :
    (58 : Nat) ≤ 66 ∧ exampleJob.cellC 2 3 = 3035 ∧
    (ioSetOut { JobCycle := 58, Job := exampleJob } 2 exampleIoState).1 = 0 ∧
    (ioSetOut { JobCycle := 58, Job := exampleJob } 2 exampleIoState).2.Heap.read 3035
      = getValue tbInit.out tbInit.out.length 65 2 := by
  rw [(IoSet_acc_out_schedule exampleFpu id exampleJob 58 2 exampleIoState
    (by decide)).2.2.1 3 (by decide) (by decide)]
  refine ⟨by decide, by decide, rfl, ?_⟩
  unfold heap_t.write
  simp only
  rw [if_pos (show 3035 = exampleJob.cellC 2 3 by decide)]
  rfl

/-! ## The error flag -/

theorem csimCost_le (q : List queueEntry_t) : csimCost q ≤ 9 * q.length := by
  induction q with
  | nil => exact Nat.le_refl _
  | cons e rest ih =>
    have : csimNeed e.JobCycle ≤ 9 := by
      unfold csimNeed
      split_ifs <;> omega
    simp only [csimCost, List.map_cons, List.sum_cons, List.length_cons] at ih ⊢
    omega

/-- The loop of `ExecCsim` ends on every queue, and leaves the error flag as it is. -/
theorem ExecCsimLoop_total (fp : Fpu) (o m : Nat) :
    ∀ (fuel : Nat) (s : SystolicArraySim), csimCost s.JobQueue_ < fuel →
      ∃ r, ExecCsimLoop fp o m fuel s = some r ∧ r.2.DieError_ = s.DieError_ := by
  have hS : SIZE = 18446744073709551616 := rfl
  have hN : Nmma = 8 := rfl
  intro fuel
  induction fuel with
  | zero => intro s h; omega
  | succ fuel ih =>
    intro s hfuel
    cases hq : s.JobQueue_ with
    | nil => exact ⟨(0, s), ExecCsimLoop_done fp o m fuel s (Or.inl hq), rfl⟩
    | cons e rest =>
      by_cases hc : subw o (rest.length + 1) < m
      · rw [ExecCsimLoop_step fp o m fuel s e rest hq hc]
        obtain ⟨_, hqq, _, _, _, _, _, _, hdie⟩ := execCsimBody_struct fp s e
        have hcost : csimCost (execCsimBody fp s e).2.JobQueue_ < fuel := by
          rw [hqq, hq, hN]
          rw [hq] at hfuel
          simp only [csimCost, List.map_cons, List.sum_cons, List.tail_cons] at hfuel ⊢
          by_cases h8 : wrap (e.JobCycle + 1) ≥ 8
          · rw [if_pos h8]
            have : csimNeed e.JobCycle = 1 := by
              unfold csimNeed
              rw [if_pos h8]
            omega
          · rw [if_neg h8]
            simp only [List.map_cons, List.sum_cons]
            have h1 : csimNeed e.JobCycle = 9 - wrap (e.JobCycle + 1) := by
              unfold csimNeed
              rw [if_neg h8]
            have h2 : csimNeed (wrap (e.JobCycle + 1)) = 8 - wrap (e.JobCycle + 1) := by
              unfold csimNeed
              rw [wrap_of_lt (show wrap (e.JobCycle + 1) + 1 < SIZE by omega)]
              split_ifs <;> omega
            omega
        obtain ⟨r, hr, hd⟩ := ih _ hcost
        exact ⟨r, hr, by rw [hd, hdie]⟩
      · exact ⟨(0, s), ExecCsimLoop_done fp o m fuel s (Or.inr (by rw [hq]; exact hc)), rfl⟩

theorem ExecCsim_total (fp : Fpu) (s : SystolicArraySim) (maxJobs : Nat) :
    ∃ r, ExecCsim fp s maxJobs = some r ∧ r.2.DieError_ = s.DieError_ := by
  unfold ExecCsim
  apply ExecCsimLoop_total
  have := csimCost_le s.JobQueue_
  omega

theorem bumpJobCycles_length : ∀ (n : Nat) (q : List queueEntry_t),
    (bumpJobCycles n q).length = q.length := by
  intro n
  induction n with
  | zero => intro q; cases q <;> rfl
  | succ n ih =>
    intro q
    cases q with
    | nil => rfl
    | cons e rest => simp only [bumpJobCycles, List.length_cons, ih]

theorem rtlBudget_le (q : List queueEntry_t) : rtlBudget q ≤ 67 * q.length := by
  cases q with
  | nil => exact Nat.le_refl _
  | cons e rest =>
    simp only [rtlBudget, List.length_cons]
    omega

theorem IoSet_DieError (fp : Fpu) (s : SystolicArraySim) (b : Bool) :
    (IoSet fp s b).2.DieError_ = s.DieError_ := by
  unfold IoSet
  cases s.JobQueue_ with
  | nil => rfl
  | cons front rest =>
    simp only
    split_ifs <;> rfl

theorem IoSet_budget (fp : Fpu) (s : SystolicArraySim) (b : Bool) (front : queueEntry_t)
    (rest : List queueEntry_t) (hq : s.JobQueue_ = front :: rest) (h0 : (IoSet fp s b).1 = 0) :
    rtlBudget (IoSet fp s b).2.JobQueue_ < rtlBudget s.JobQueue_ := by
  have hS : SIZE = 18446744073709551616 := rfl
  have hD : JobCycleDone_ = 66 := by decide
  have hbump : bumpJobCycles (concurrentJobs (front :: rest)).length (front :: rest)
      = { front with JobCycle := wrap (front.JobCycle + 1) }
          :: bumpJobCycles (concurrentTail front rest).length rest := by
    simp only [concurrentJobs, List.length_cons, bumpJobCycles]
  have hlen := bumpJobCycles_length (concurrentTail front rest).length rest
  have hle := rtlBudget_le (bumpJobCycles (concurrentTail front rest).length rest)
  unfold IoSet at h0 ⊢
  rw [hq] at h0 ⊢
  simp only at h0 ⊢
  rw [hD] at h0 ⊢
  have hfront : rtlBudget (front :: rest) = max 1 (67 - front.JobCycle) + 67 * rest.length := rfl
  split_ifs at h0 ⊢
  all_goals first
    | (cases h0; done)
    | (show rtlBudget (bumpJobCycles (concurrentTail front rest).length rest) < _
       rw [hfront]
       omega)
    | (show max 1 (67 - wrap (front.JobCycle + 1))
          + 67 * (bumpJobCycles (concurrentTail front rest).length rest).length < _
       rw [hfront, hlen, wrap_of_lt (show front.JobCycle + 1 < SIZE by omega)]
       omega)

theorem map_cons_fst {α : Type} (b : Bool) (o : Option (α × List Bool)) :
    (o.map fun x => (x.1, b :: x.2)).map Prod.fst = o.map Prod.fst := by
  cases o <;> rfl

theorem map_nil_fst {α : Type} (o : Option α) :
    (o.map fun x => (x, ([] : List Bool))).map Prod.fst = o := by
  cases o <;> rfl

theorem execRtlLoopErrs_fst (fp : Fpu) (eval : testBench_t → testBench_t) (ft ftt : Bool) :
    ∀ (fuel : Nat) (s : SystolicArraySim),
      (execRtlLoopErrs fp eval ft ftt fuel s).map Prod.fst = execRtlLoop fp eval ft ftt fuel s := by
  intro fuel
  induction fuel with
  | zero => intro s; rfl
  | succ fuel ih =>
    intro s
    cases hq : s.JobQueue_ with
    | nil =>
      simp only [execRtlLoopErrs, execRtlLoop, hq]
      rfl
    | cons front rest =>
      simp only [execRtlLoopErrs, execRtlLoop, hq]
      generalize IoSet fp _ _ = r
      generalize (if fiMode.Transient = r.2.FaultRTL_.Mode then _ else _ : Int × testBench_t) = fiR
      by_cases h1 : r.1 ≠ 0
      · rw [if_pos h1, if_pos h1]
        rfl
      · rw [if_neg h1, if_neg h1]
        by_cases h2 : fiR.1 ≠ 0
        · rw [if_pos h2, if_pos h2]
          rfl
        · rw [if_neg h2, if_neg h2, map_cons_fst]
          by_cases h3 : (decide (fiMode.Transient = r.2.FaultRTL_.Mode) && ft) = true
          · rw [if_pos h3, if_pos h3]
            cases r.2.JobQueue_ with
            | nil => exact ih _
            | cons f t =>
              simp only
              split_ifs <;> first | exact map_nil_fst _ | exact ih _
          · rw [if_neg h3, if_neg h3]
            exact ih _

theorem ExecRtlErrs_fst (fp : Fpu) (eval : testBench_t → testBench_t) (s : SystolicArraySim)
    (ft ftt : Bool) :
    (ExecRtlErrs fp eval s ft ftt).map Prod.fst = ExecRtl fp eval s ft ftt := by
  unfold ExecRtlErrs ExecRtl
  by_cases h0 : JobQueueReadBeforeWrite s.JobQueue_ = true
  · rw [if_pos h0, if_pos h0]
    rfl
  · rw [if_neg h0, if_neg h0]
    simp only
    generalize (if fiMode.Permanent = s.FaultRTL_.Mode then _ else _ : Int × testBench_t) = r0
    by_cases h1 : r0.1 ≠ 0
    · rw [if_pos h1, if_pos h1]
      rfl
    · rw [if_neg h1, if_neg h1]
      have hloop : ∀ r : Int × SystolicArraySim,
          Option.map Prod.fst
            (if r.1 ≠ 0 then some (r, ([] : List Bool))
              else execRtlLoopErrs fp eval ft ftt (67 * r.2.JobQueue_.length + 1)
                { r.2 with Tb := { r.2.Tb with clk := 1 } })
          = if r.1 ≠ 0 then some r
            else execRtlLoop fp eval ft ftt (67 * r.2.JobQueue_.length + 1)
              { r.2 with Tb := { r.2.Tb with clk := 1 } } := by
        intro r
        by_cases h2 : r.1 ≠ 0
        · rw [if_pos h2, if_pos h2]
          rfl
        · rw [if_neg h2, if_neg h2]
          exact execRtlLoopErrs_fst fp eval ft ftt _ _
      generalize (if s.FaultRTLTransCycle_ > JobCycleDone_ then _ else _ : Nat) = jb
      by_cases c1 : (decide (fiMode.Transient = s.FaultRTL_.Mode) && ft) = true
      · simp only [if_pos c1]
        by_cases c2 : jb ≠ 0
        · simp only [if_pos c2]
          generalize ExecCsim fp _ _ = ec
          cases ec with
          | none => rfl
          | some r =>
            simp only
            by_cases c3 : r.1 ≠ 0
            · simp only [if_pos c3]
              exact hloop (-1, r.2)
            · simp only [if_neg c3]
              exact hloop (0, { r.2 with
                JobQueue_ := resetJobCycles r.2.JobQueue_, CycleCnt_ := CyclesRequired jb })
        · simp only [if_neg c2]
          exact hloop (0, { s with Tb := r0.2 })
      · simp only [if_neg c1]
        exact hloop (0, { s with Tb := r0.2 })

/-- The main loop of `ExecRtl` ends on every queue within the passes `ExecRtl`
allows for, and the error flag after it is set exactly when it was set before
or the netlist raised `error` after one of the evaluations. -/
theorem execRtlLoopErrs_total (fp : Fpu) (eval : testBench_t → testBench_t) (ft ftt : Bool) :
    ∀ (fuel : Nat) (s : SystolicArraySim), rtlBudget s.JobQueue_ < fuel →
      ∃ r errs, execRtlLoopErrs fp eval ft ftt fuel s = some (r, errs) ∧
        r.2.DieError_ = (s.DieError_ || errs.any id) ∧
        ∀ b ∈ errs, ∃ tb, (eval tb).error = b := by
  intro fuel
  induction fuel with
  | zero => intro s h; omega
  | succ fuel ih =>
    intro s hfuel
    cases hq : s.JobQueue_ with
    | nil =>
      refine ⟨(0, s), [], ?_, by simp, fun b hb => by cases hb⟩
      simp only [execRtlLoopErrs, hq]
    | cons front rest =>
      have hd := IoSet_DieError fp
        { s with Tb := { s.Tb with clk := if s.Tb.clk ≠ 0 then 0 else 1 } }
        (decide ((if s.Tb.clk ≠ 0 then 0 else 1) ≠ 0))
      have hb := IoSet_budget fp
        { s with Tb := { s.Tb with clk := if s.Tb.clk ≠ 0 then 0 else 1 } }
        (decide ((if s.Tb.clk ≠ 0 then 0 else 1) ≠ 0)) front rest hq
      simp only [execRtlLoopErrs, hq]
      simp only [hq] at hb hd
      rw [hq] at hfuel
      generalize IoSet fp _ _ = r at hb hd ⊢
      generalize (if fiMode.Transient = r.2.FaultRTL_.Mode then _ else _ : Int × testBench_t) = fiR
      by_cases h1 : r.1 ≠ 0
      · rw [if_pos h1]
        exact ⟨_, _, rfl, by simp [hd], fun b hb => by cases hb⟩
      · rw [if_neg h1]
        by_cases h2 : fiR.1 ≠ 0
        · rw [if_pos h2]
          exact ⟨_, _, rfl, by simp [hd], fun b hb => by cases hb⟩
        · rw [if_neg h2]
          have hb1 := hb (by simpa using h1)
          have hdd : (if (eval fiR.2).error = true then true else r.2.DieError_)
              = (s.DieError_ || (eval fiR.2).error) := by
            rw [hd]
            cases (eval fiR.2).error <;> simp
          have hloop := ih
            { r.2 with
              Tb := eval fiR.2, CycleCnt_ := wrap (r.2.CycleCnt_ + 1),
              DieError_ := if (eval fiR.2).error then true else r.2.DieError_ }
            (by show rtlBudget r.2.JobQueue_ < fuel; omega)
          have hcsim := ExecCsim_total fp
            { r.2 with
              Tb := eval fiR.2, CycleCnt_ := wrap (r.2.CycleCnt_ + 1),
              DieError_ := if (eval fiR.2).error then true else r.2.DieError_,
              JobQueue_ := resetJobCycles r.2.JobQueue_ } SIZE_MAX
          simp only at hloop hcsim
          generalize (if (eval fiR.2).error = true then true else r.2.DieError_) = d
            at hdd hloop hcsim ⊢
          have hfin : ∀ (o : Option ((Int × SystolicArraySim) × List Bool)),
              (∃ r' errs, o = some (r', errs) ∧ r'.2.DieError_ = (d || errs.any id) ∧
                ∀ b ∈ errs, ∃ tb, (eval tb).error = b) →
              ∃ r' errs, Option.map (fun x => (x.1, (eval fiR.2).error :: x.2)) o
                  = some (r', errs) ∧
                r'.2.DieError_ = (s.DieError_ || errs.any id) ∧
                ∀ b ∈ errs, ∃ tb, (eval tb).error = b := by
            rintro o ⟨r', errs, rfl, hd', he'⟩
            refine ⟨r', (eval fiR.2).error :: errs, rfl, ?_, ?_⟩
            · rw [hd', hdd, List.any_cons, id, Bool.or_assoc]
            · intro b hb
              rcases List.mem_cons.mp hb with h | h
              · exact ⟨fiR.2, h.symm⟩
              · exact he' b h
          apply hfin
          by_cases h3 : (decide (fiMode.Transient = r.2.FaultRTL_.Mode) && ft) = true
          · rw [if_pos h3]
            split
            · split_ifs
              · obtain ⟨r', hr', hdr⟩ := hcsim
                exact ⟨r', [], by rw [hr']; rfl, by rw [hdr]; simp, fun b hb => by cases hb⟩
              · exact hloop
            · exact hloop
          · rw [if_neg h3]
            exact hloop

/-- The method `ExecRtl` returns on every state, and the error flag after it is
set exactly when it was set before or the netlist raised `error` after one of
the evaluations of the call. -/
theorem ExecRtlErrs_total (fp : Fpu) (eval : testBench_t → testBench_t) (s : SystolicArraySim)
    (ft ftt : Bool) :
    ∃ r errs, ExecRtlErrs fp eval s ft ftt = some (r, errs) ∧
      r.2.DieError_ = (s.DieError_ || errs.any id) ∧
      ∀ b ∈ errs, ∃ tb, (eval tb).error = b := by
  unfold ExecRtlErrs
  by_cases h0 : JobQueueReadBeforeWrite s.JobQueue_ = true
  · rw [if_pos h0]
    exact ⟨_, _, rfl, by simp, fun b hb => by cases hb⟩
  · rw [if_neg h0]
    simp only
    generalize (if fiMode.Permanent = s.FaultRTL_.Mode then _ else _ : Int × testBench_t) = r0
    by_cases h1 : r0.1 ≠ 0
    · rw [if_pos h1]
      exact ⟨_, _, rfl, by simp, fun b hb => by cases hb⟩
    · rw [if_neg h1]
      have hloop : ∀ r : Int × SystolicArraySim, r.2.DieError_ = s.DieError_ →
          ∃ r' errs,
            (if r.1 ≠ 0 then some (r, ([] : List Bool))
              else execRtlLoopErrs fp eval ft ftt (67 * r.2.JobQueue_.length + 1)
                { r.2 with Tb := { r.2.Tb with clk := 1 } }) = some (r', errs) ∧
            r'.2.DieError_ = (s.DieError_ || errs.any id) ∧
            ∀ b ∈ errs, ∃ tb, (eval tb).error = b := by
        intro r hr
        by_cases h2 : r.1 ≠ 0
        · rw [if_pos h2]
          exact ⟨_, _, rfl, by simp [hr], fun b hb => by cases hb⟩
        · rw [if_neg h2]
          obtain ⟨r', errs, h3, h4, h5⟩ := execRtlLoopErrs_total fp eval ft ftt
            (67 * r.2.JobQueue_.length + 1) { r.2 with Tb := { r.2.Tb with clk := 1 } }
            (by
              have := rtlBudget_le r.2.JobQueue_
              show rtlBudget r.2.JobQueue_ < _
              omega)
          exact ⟨r', errs, h3, by rw [h4]; show (r.2.DieError_ || _) = _; rw [hr], h5⟩
      generalize (if s.FaultRTLTransCycle_ > JobCycleDone_ then _ else _ : Nat) = jb
      by_cases c1 : (decide (fiMode.Transient = s.FaultRTL_.Mode) && ft) = true
      · rw [if_pos c1]
        by_cases c2 : jb ≠ 0
        · rw [if_pos c2]
          obtain ⟨ec, hec, hdc⟩ := ExecCsim_total fp { s with Tb := r0.2 } jb
          rw [hec]
          simp only
          by_cases c3 : ec.1 ≠ 0
          · rw [if_pos c3]
            exact hloop _ hdc
          · rw [if_neg c3]
            exact hloop _ hdc
        · rw [if_neg c2]
          exact hloop _ rfl
      · rw [if_neg c1]
        exact hloop _ rfl

theorem dispatchMmaCols_DieError (job : job_t) (Ap row colEnd : Nat) :
    ∀ (fuel col : Nat) (s : SystolicArraySim) (r : Int × SystolicArraySim),
      dispatchMmaCols job Ap row colEnd fuel col s = some r → r.2.DieError_ = s.DieError_ := by
  intro fuel
  induction fuel with
  | zero => intro col s r h; cases h
  | succ fuel ih =>
    intro col s r h
    simp only [dispatchMmaCols, DispatchMma] at h
    split_ifs at h
    all_goals first
      | (injection h with h; rw [← h])
      | exact (ih _ _ _ h).trans rfl

theorem dispatchMmaRows_DieError (job : job_t) (rowEnd colEnd : Nat) :
    ∀ (fuel row : Nat) (s : SystolicArraySim) (r : Int × SystolicArraySim),
      dispatchMmaRows job rowEnd colEnd fuel row s = some r → r.2.DieError_ = s.DieError_ := by
  intro fuel
  induction fuel with
  | zero => intro row s r h; cases h
  | succ fuel ih =>
    intro row s r h
    simp only [dispatchMmaRows] at h
    split_ifs at h
    · cases hc : dispatchMmaCols job (job.MatA + wrap (row * job.StrideA)) row colEnd
          (colEnd + 1) 0 s with
      | none => rw [hc] at h; cases h
      | some rc =>
        have hcd := dispatchMmaCols_DieError job _ row colEnd _ _ s rc hc
        rw [hc] at h
        simp only at h
        split_ifs at h
        · injection h with h
          rw [← h, hcd]
        · rw [ih _ _ _ h, hcd]
    · injection h with h
      rw [← h]

theorem dispatchTileCols_DieError (job : job_t) (Ap row : Nat) :
    ∀ (fuel col : Nat) (s : SystolicArraySim) (r : Int × SystolicArraySim),
      dispatchTileCols job Ap row fuel col s = some r → r.2.DieError_ = s.DieError_ := by
  intro fuel
  induction fuel with
  | zero => intro col s r h; cases h
  | succ fuel ih =>
    intro col s r h
    simp only [dispatchTileCols, DispatchMma] at h
    split_ifs at h
    all_goals first
      | (injection h with h; rw [← h])
      | exact (ih _ _ _ h).trans rfl

theorem dispatchTileRows_DieError (job : job_t) :
    ∀ (fuel row : Nat) (s : SystolicArraySim) (r : Int × SystolicArraySim),
      dispatchTileRows job fuel row s = some r → r.2.DieError_ = s.DieError_ := by
  intro fuel
  induction fuel with
  | zero => intro row s r h; cases h
  | succ fuel ih =>
    intro row s r h
    simp only [dispatchTileRows] at h
    split_ifs at h
    · cases hc : dispatchTileCols job (job.MatA + wrap (row * job.StrideA)) row
          (Ntile + 1) 0 s with
      | none => rw [hc] at h; cases h
      | some rc =>
        have hcd := dispatchTileCols_DieError job _ row _ _ s rc hc
        rw [hc] at h
        simp only at h
        split_ifs at h
        · injection h with h
          rw [← h, hcd]
        · rw [ih _ _ _ h, hcd]
    · injection h with h
      rw [← h]

theorem FiSetCsim_DieError (RAND_MAX : Nat) (s : SystolicArraySim) (place : fiCsimPlace)
    (bits : fiBits) (corruption : fiCorruption) (mode : fiMode)
    (r : faultCsim_t × SystolicArraySim)
    (h : FiSetCsim RAND_MAX s place bits corruption mode = some r) :
    r.2.DieError_ = s.DieError_ := by
  unfold FiSetCsim at h
  simp only at h
  split_ifs at h
  all_goals
    first
    | (injection h with h; rw [← h])
    | (cases bits <;> simp only [Option.some.injEq] at h <;> rw [← h] <;> rfl)

theorem FiSetRTL_DieError (RandomFiGet : SystolicArraySim → randomFiGet_t)
    (s : SystolicArraySim) (mode : fiMode) (r : faultRTL_t × SystolicArraySim)
    (h : FiSetRTL RandomFiGet s mode = some r) : r.2.DieError_ = s.DieError_ := by
  unfold FiSetRTL at h
  simp only at h
  split_ifs at h
  all_goals
    injection h with h
    rw [← h]

theorem ExecCsimLoop_DieError (fp : Fpu) (o m : Nat) :
    ∀ (fuel : Nat) (s : SystolicArraySim) (r : Int × SystolicArraySim),
      ExecCsimLoop fp o m fuel s = some r → r.2.DieError_ = s.DieError_ := by
  intro fuel
  induction fuel with
  | zero => intro s r h; cases h
  | succ fuel ih =>
    intro s r h
    simp only [ExecCsimLoop] at h
    cases hq : s.JobQueue_ with
    | nil =>
      rw [hq] at h
      injection h with h
      rw [← h]
    | cons e rest =>
      rw [hq] at h
      simp only at h
      have hd := (execCsimBody_struct fp s e).2.2.2.2.2.2.2.2
      split_ifs at h
      · injection h with h
        rw [← h, hd]
      · rw [ih _ _ h, hd]
      · injection h with h
        rw [← h]

/-- C27: every call of `ExecRtl` returns, and `ErrorDetected()` after the call is
true if and only if it was true before the call or the `error` output of the
netlist was high after at least one `eval` of the call, the outputs being those
of an arbitrary netlist `eval`; with the flag false before and `error` never
high the flag is false after the call; and no method of the simulator changes
a set flag: `DispatchMma`, `DispatchTile`, `ExecCsim`, `FiSetCsim`, `FiSetRTL`,
`FiResetCsim`, `FiResetRTL` and `IoSet` leave the flag as it is. -/
theorem ExecRtl_error_flag (fp : Fpu) (eval : testBench_t → testBench_t) (s : SystolicArraySim)
    (ft ftt : Bool) :
    (∃ r errs, ExecRtlErrs fp eval s ft ftt = some (r, errs) ∧
      ExecRtl fp eval s ft ftt = some r ∧
      (∀ b ∈ errs, ∃ tb, (eval tb).error = b) ∧
      (ErrorDetected r.2 = true ↔ ErrorDetected s = true ∨ true ∈ errs) ∧
      (ErrorDetected s = false → (∀ b ∈ errs, b = false) → ErrorDetected r.2 = false) ∧
      (ErrorDetected s = false → (∀ tb, (eval tb).error = false) →
        ErrorDetected r.2 = false)) ∧
    (∀ job, ErrorDetected (DispatchMma s job).2 = ErrorDetected s) ∧
    (∀ job mCnt nCnt r, DispatchMmaCnt s job mCnt nCnt = some r →
      ErrorDetected r.2 = ErrorDetected s) ∧
    (∀ job r, DispatchTile s job = some r → ErrorDetected r.2 = ErrorDetected s) ∧
    (∀ maxJobs r, ExecCsim fp s maxJobs = some r → ErrorDetected r.2 = ErrorDetected s) ∧
    (∀ RAND_MAX place bits corruption mode r,
      FiSetCsim RAND_MAX s place bits corruption mode = some r →
      ErrorDetected r.2 = ErrorDetected s) ∧
    (∀ RandomFiGet mode r, FiSetRTL RandomFiGet s mode = some r →
      ErrorDetected r.2 = ErrorDetected s) ∧
    ErrorDetected (FiResetCsim s).2 = ErrorDetected s ∧
    ErrorDetected (FiResetRTL s).2 = ErrorDetected s ∧
    (∀ b, ErrorDetected (IoSet fp s b).2 = ErrorDetected s) := by
  refine ⟨?_, fun _ => rfl,
    fun job mCnt nCnt r h => dispatchMmaRows_DieError job _ _ _ _ s r h,
    fun job r h => dispatchTileRows_DieError job _ _ s r h,
    fun maxJobs r h => ExecCsimLoop_DieError fp _ _ _ s r h,
    fun RAND_MAX place bits corruption mode r h =>
      FiSetCsim_DieError RAND_MAX s place bits corruption mode r h,
    fun RandomFiGet mode r h => FiSetRTL_DieError RandomFiGet s mode r h, ?_, ?_,
    fun b => IoSet_DieError fp s b⟩
  · obtain ⟨r, errs, h1, h2, h3⟩ := ExecRtlErrs_total fp eval s ft ftt
    have hfst := ExecRtlErrs_fst fp eval s ft ftt
    rw [h1] at hfst
    have hany : errs.any id = true ↔ true ∈ errs := by
      rw [List.any_eq_true]
      constructor
      · rintro ⟨b, hb, hid⟩
        have : b = true := hid
        rw [← this]
        exact hb
      · intro h
        exact ⟨true, h, rfl⟩
    have hiff : ErrorDetected r.2 = true ↔ ErrorDetected s = true ∨ true ∈ errs := by
      unfold ErrorDetected
      rw [h2, Bool.or_eq_true, hany]
    have hfalse : ErrorDetected s = false → (∀ b ∈ errs, b = false) →
        ErrorDetected r.2 = false := by
      intro hs hall
      cases hr : ErrorDetected r.2 with
      | false => rfl
      | true =>
        rcases hiff.mp hr with h | h
        · rw [hs] at h
          cases h
        · cases hall true h
    refine ⟨r, errs, h1, hfst.symm, h3, hiff, hfalse, fun hs hall => hfalse hs ?_⟩
    intro b hb
    obtain ⟨tb, htb⟩ := h3 b hb
    rw [← htb]
    exact hall tb
  · unfold FiResetCsim
    split_ifs <;> rfl
  · unfold FiResetRTL
    split_ifs <;> rfl

theorem ExecRtl_error_flag_witness :
    exampleSim.JobQueue_ = [] ∧ ErrorDetected exampleSim = false ∧
    ∃ r, ExecRtl exampleFpu exampleEval exampleSim false false = some r ∧
      ErrorDetected r.2 = false := by
  obtain ⟨r, errs, h1, h2, _, _, h5, _⟩ :=
    (ExecRtl_error_flag exampleFpu exampleEval exampleSim false false).1
  have he : ExecRtlErrs exampleFpu exampleEval exampleSim false false
      = some ((0, { exampleSim with
          Tb := { (FiRtlReset exampleSim.Tb).2 with clk := 1 } }), []) := rfl
  rw [he] at h1
  injection h1 with h1
  injection h1 with _ h1
  refine ⟨rfl, rfl, r, h2, h5 rfl ?_⟩
  rw [← h1]
  intro b hb
  cases hb

/-! ## `FiSetCsim` on an empty queue -/

/-- C40: `FiSetCsim` with mode `Transient` and arguments other than `None`
performs the division `rand() % totalJobQueueCycles` whatever the queue is: the
call divides by zero exactly when `JobQueue_.size() * Nmma()` is 0, in
particular on every state with an empty queue, and then returns no record;
`FiSetRTL` on the same state tests `0 == cyclesRequired` and returns the
default record. -/
theorem FiSetCsim_Transient_divides_by_zero (RAND_MAX : Nat) (s : SystolicArraySim)
    (place : fiCsimPlace) (bits : fiBits) (corruption : fiCorruption)
    (hp : place ≠ fiCsimPlace.None) (hb : bits ≠ fiBits.None)
    (hc : corruption ≠ fiCorruption.None) :
    (FiSetCsim RAND_MAX s place bits corruption fiMode.Transient = none ↔
      wrap (s.JobQueue_.length * Nmma) = 0) ∧
    (s.JobQueue_ = [] → FiSetCsim RAND_MAX s place bits corruption fiMode.Transient = none) ∧
    (∀ RandomFiGet : SystolicArraySim → randomFiGet_t, s.JobQueue_ = [] →
      (RandomFiGet s).rc = 0 → (RandomFiGet s).fiSignalWidth ≠ 0 →
      ∃ s', FiSetRTL RandomFiGet s fiMode.Transient = some ({}, s')) := by
  have hnone : ¬ (fiCsimPlace.None = place ∨ fiBits.None = bits ∨
      fiCorruption.None = corruption ∨ fiMode.None = fiMode.Transient) := by
    rintro (h | h | h | h)
    · exact hp h.symm
    · exact hb h.symm
    · exact hc h.symm
    · cases h
  have hiff : FiSetCsim RAND_MAX s place bits corruption fiMode.Transient = none ↔
      wrap (s.JobQueue_.length * Nmma) = 0 := by
    constructor
    · intro h
      by_contra h0
      obtain ⟨s', hs', _⟩ := FiSetCsim_ok RAND_MAX s place bits corruption fiMode.Transient
        hp hb hc (by decide) (fun _ => h0)
      rw [hs'] at h
      cases h
    · intro h0
      unfold FiSetCsim
      rw [if_neg hnone]
      simp only
      have hq : ∀ p : fiCsimPlace, (if fiCsimPlace.Everywhere = place then
            ({ s with
              FaultCsim_ := { s.FaultCsim_ with Place := p },
              RandPos := s.RandPos + 1 } : SystolicArraySim)
          else { s with FaultCsim_ := { s.FaultCsim_ with Place := place } }).JobQueue_
          = s.JobQueue_ := by
        intro p
        split_ifs <;> rfl
      rw [if_pos ⟨trivial, by rw [hq]; exact h0⟩]
  refine ⟨hiff, fun hq => hiff.mpr (by rw [hq]; rfl), ?_⟩
  intro RandomFiGet hq hrc hw
  unfold FiSetRTL
  rw [if_neg (by decide)]
  simp only
  rw [if_neg (by rw [hrc]; simp), if_neg hw, if_pos trivial, hq]
  exact ⟨_, if_pos (by decide)⟩

theorem FiSetCsim_Transient_divides_by_zero_witness :
    (fiCsimPlace.Multipliers ≠ fiCsimPlace.None ∧ fiBits.Everywhere ≠ fiBits.None ∧
      fiCorruption.Flip ≠ fiCorruption.None) ∧ exampleSim.JobQueue_ = [] ∧
    FiSetCsim 2147483647 exampleSim fiCsimPlace.Multipliers fiBits.Everywhere
      fiCorruption.Flip fiMode.Transient = none :=
  ⟨⟨by decide, by decide, by decide⟩, rfl,
    (FiSetCsim_Transient_divides_by_zero 2147483647 exampleSim fiCsimPlace.Multipliers
      fiBits.Everywhere fiCorruption.Flip (by decide) (by decide) (by decide)).2.1 rfl⟩

/-! ## The replicated encoders -/

/-- C39: for every buffer, size, element width, position and value the netlist
variant of `setValue` returns the same code and leaves the same buffer as the
generic `elemSet` of `helpers`; and the non-netlist variant of `setValue`
leaves in `out[outIndex]` the storage, and returns the code, that
`elemSet(sNFp64_t *, value)` produces on that element, so both write the same
65-bit word. -/
theorem setValue_agrees_with_elemSet (pData : List Nat) (nData nBitsElem pos value : Nat)
    (out : List (List Nat)) (outIndex : Nat) :
    setValue pData nData nBitsElem pos value = elemSet pData nData nBitsElem pos value ∧
    setValueWide out outIndex value
      = ((elemSetNFp64 (out.getD outIndex []) value).1,
          out.set outIndex (elemSetNFp64 (out.getD outIndex []) value).2) ∧
    ((out.getD outIndex []).length = 12 →
      (setValueWide out outIndex value).1 = 0 ∧
      ∀ i, i < 65 →
        bitAt ((setValueWide out outIndex value).2.getD outIndex []) i
          = bitAt (elemSetNFp64 (out.getD outIndex []) value).2 i) := by
  have h2 : setValueWide out outIndex value
      = ((elemSetNFp64 (out.getD outIndex []) value).1,
          out.set outIndex (elemSetNFp64 (out.getD outIndex []) value).2) := by
    unfold setValueWide elemSetNFp64
    simp only
    split_ifs <;> rfl
  refine ⟨by unfold setValue elemSet; rfl, h2, ?_⟩
  intro hlen
  obtain ⟨hrc, _, _⟩ := elemSetNFp64_bits (out.getD outIndex []) value hlen
  rw [h2]
  refine ⟨hrc, fun i _ => ?_⟩
  have hidx : outIndex < out.length := by
    by_contra hge
    rw [List.getD_eq_getElem?_getD, List.getElem?_eq_none (by omega)] at hlen
    cases hlen
  show bitAt ((out.set outIndex _).getD outIndex []) i = _
  rw [List.getD_eq_getElem?_getD, List.getElem?_set_self hidx]
  rfl

theorem setValue_agrees_with_elemSet_witness :
    ([List.replicate 12 255, List.replicate 12 0].getD 1 []).length = 12 ∧
    (setValueWide [List.replicate 12 255, List.replicate 12 0] 1 ONE).1 = 0 ∧
    (setValueWide [List.replicate 12 255, List.replicate 12 0] 1 ONE).2
      = [List.replicate 12 255, (elemSetNFp64 (List.replicate 12 0) ONE).2] :=
  ⟨by decide,
    ((setValue_agrees_with_elemSet [] 0 65 0 ONE
      [List.replicate 12 255, List.replicate 12 0] 1).2.2 (by decide)).1,
    by decide⟩

/-! ## The generic element access on a buffer -/

/-- The three outcomes of the generic `elemSet`: an element that does not even
leave room for its mantissa field is rejected with the buffer as it was; an
element with room for the mantissa field only has that field written before
the call fails; an element that fits is written. -/
theorem elemSet_cases (pData : List Nat) (nData pos value : Nat)
    (h1 : 65 * pos + 65 < SIZE) (h2 : 8 * nData < SIZE) (hlen : nData ≤ pData.length) :
    (8 * nData < 65 * pos + 54 → elemSet pData nData 65 pos value = (-1, pData)) ∧
    (65 * pos + 54 ≤ 8 * nData → 8 * nData < 65 * pos + 65 →
      (elemSet pData nData 65 pos value).1 = -1 ∧
      ∀ i, bitAt (elemSet pData nData 65 pos value).2 i
        = if 65 * pos ≤ i ∧ i < 65 * pos + 54 then
            (signedMantissa65 value).testBit (i - 65 * pos)
          else bitAt pData i) ∧
    (65 * pos + 65 ≤ 8 * nData →
      (elemSet pData nData 65 pos value).1 = 0 ∧
      ∀ i, bitAt (elemSet pData nData 65 pos value).2 i
        = if 65 * pos ≤ i ∧ i < 65 * pos + 54 then
            (signedMantissa65 value).testBit (i - 65 * pos)
          else if 65 * pos + 54 ≤ i ∧ i < 65 * pos + 65 then
            (tmpExp65 value).testBit (i - (65 * pos + 54))
          else bitAt pData i) ∧
    (elemSet pData nData 65 pos value).2.length = pData.length ∧
    (isBytes pData → isBytes (elemSet pData nData 65 pos value).2) := by
  have hS : SIZE = 18446744073709551616 := rfl
  have hw1 : wrap (65 * pos) = 65 * pos := wrap_of_lt (by omega)
  have hw2 : wrap (8 * nData) = 8 * nData := wrap_of_lt h2
  have hw3 : wrap (pos * 65) = 65 * pos := by rw [Nat.mul_comm]; exact hw1
  have hw4 : wrap (65 * pos + 54) = 65 * pos + 54 := wrap_of_lt (by omega)
  have c1 := bitsCopy_rc_iff pData nData (65 * pos) (bytesLE (signedMantissa65 value) 8) 54
    (by omega)
  have l1 := bitsCopy_length pData nData (65 * pos) (bytesLE (signedMantissa65 value) 8) 54
  have c2 := bitsCopy_rc_iff
    (bitsCopy pData nData (65 * pos) (bytesLE (signedMantissa65 value) 8) 54).2 nData
    (65 * pos + 54) (bytesLE (tmpExp65 value) 2) 11 (by omega)
  have l2 := bitsCopy_length
    (bitsCopy pData nData (65 * pos) (bytesLE (signedMantissa65 value) 8) 54).2 nData
    (65 * pos + 54) (bytesLE (tmpExp65 value) 2) 11
  have hdef : elemSet pData nData 65 pos value
      = if 65 * pos ≥ 8 * nData then (-1, pData)
        else if (bitsCopy pData nData (65 * pos) (bytesLE (signedMantissa65 value) 8) 54).1 ≠ 0
        then (-1, (bitsCopy pData nData (65 * pos) (bytesLE (signedMantissa65 value) 8) 54).2)
        else if (bitsCopy
            (bitsCopy pData nData (65 * pos) (bytesLE (signedMantissa65 value) 8) 54).2 nData
            (65 * pos + 54) (bytesLE (tmpExp65 value) 2) 11).1 ≠ 0
        then (-1, (bitsCopy
            (bitsCopy pData nData (65 * pos) (bytesLE (signedMantissa65 value) 8) 54).2 nData
            (65 * pos + 54) (bytesLE (tmpExp65 value) 2) 11).2)
        else (0, (bitsCopy
            (bitsCopy pData nData (65 * pos) (bytesLE (signedMantissa65 value) 8) 54).2 nData
            (65 * pos + 54) (bytesLE (tmpExp65 value) 2) 11).2) := by
    unfold elemSet
    rw [if_neg (by decide), hw1, hw2, hw3, hw4]
  have hm1 : ∀ h : ¬ 65 * pos + 54 > 8 * nData, ∀ i,
      bitAt (bitsCopy pData nData (65 * pos) (bytesLE (signedMantissa65 value) 8) 54).2 i
        = if 65 * pos ≤ i ∧ i < 65 * pos + 54 then
            (signedMantissa65 value).testBit (i - 65 * pos)
          else bitAt pData i := by
    intro h i
    rw [bitsCopy_effect _ _ _ _ _ (by omega) hlen (c1.2.2 h)]
    by_cases hi : 65 * pos ≤ i ∧ i < 65 * pos + 54
    · rw [if_pos hi, if_pos hi, bitAt_bytesLE _ _ _ (by omega)]
    · rw [if_neg hi, if_neg hi]
  refine ⟨?_, ?_, ?_, ?_, ?_⟩
  · intro h
    rw [hdef]
    by_cases h0 : 65 * pos ≥ 8 * nData
    · rw [if_pos h0]
    · rw [if_neg h0, if_pos (by rw [c1.1.mpr (by omega)]; decide), c1.2.1 (by omega)]
  · intro ha hb
    have r1 := c1.2.2 (by omega)
    have r2 := c2.1.mpr (by omega)
    have e2 := c2.2.1 (by omega)
    rw [hdef, if_neg (by omega), if_neg (by rw [r1]; simp), if_pos (by rw [r2]; decide), e2]
    exact ⟨rfl, hm1 (by omega)⟩
  · intro ha
    have r1 := c1.2.2 (by omega)
    have r2 := c2.2.2 (by omega)
    rw [hdef, if_neg (by omega), if_neg (by rw [r1]; simp), if_neg (by rw [r2]; simp)]
    refine ⟨rfl, fun i => ?_⟩
    show bitAt (bitsCopy _ nData (65 * pos + 54) _ 11).2 i = _
    rw [bitsCopy_effect _ _ _ _ _ (by omega) (by rw [l1]; exact hlen) r2, hm1 (by omega)]
    by_cases hi : 65 * pos ≤ i ∧ i < 65 * pos + 54
    · rw [if_neg (by omega), if_pos hi, if_pos hi]
    · rw [if_neg hi, if_neg hi]
      by_cases hi2 : 65 * pos + 54 ≤ i ∧ i < 65 * pos + 65
      · rw [if_pos (by omega), if_pos hi2, bitAt_bytesLE _ _ _ (by omega)]
      · rw [if_neg (by omega), if_neg hi2]
  · rw [hdef]
    split_ifs
    · rfl
    · exact l1
    · exact l2.trans l1
    · exact l2.trans l1
  · intro hb
    rw [hdef]
    split_ifs
    · exact hb
    · exact bitsCopy_isBytes _ _ _ _ _ hb
    · exact bitsCopy_isBytes _ _ _ _ _ (bitsCopy_isBytes _ _ _ _ _ hb)
    · exact bitsCopy_isBytes _ _ _ _ _ (bitsCopy_isBytes _ _ _ _ _ hb)

/-- C38: the generic `elemSet` is not atomic.  On a buffer with room for the
mantissa field of the element but not for its exponent field
(`65 * pos + 54 <= 8 * nData < 65 * pos + 65`) the call returns -1 after it has
stored the 54 bits of the signed mantissa at bits `65 * pos ..` of the buffer;
the other bits are kept.  On a buffer without room for the mantissa field the
call returns -1 and the buffer is unchanged. -/
theorem elemSet_fails_after_mantissa (pData : List Nat) (nData pos value : Nat)
    (h1 : 65 * pos + 65 < SIZE) (h2 : 8 * nData < SIZE) (hlen : nData ≤ pData.length)
    (ha : 65 * pos + 54 ≤ 8 * nData) (hb : 8 * nData < 65 * pos + 65) :
    (elemSet pData nData 65 pos value).1 = -1 ∧
    (∀ i, i < 54 → bitAt (elemSet pData nData 65 pos value).2 (65 * pos + i)
      = (signedMantissa65 value).testBit i) ∧
    (∀ j, ¬ (65 * pos ≤ j ∧ j < 65 * pos + 54) →
      bitAt (elemSet pData nData 65 pos value).2 j = bitAt pData j) ∧
    (∀ nData', 8 * nData' < 65 * pos + 54 → nData' ≤ pData.length →
      elemSet pData nData' 65 pos value = (-1, pData)) := by
  have hS : SIZE = 18446744073709551616 := rfl
  obtain ⟨hrc, hbits⟩ := (elemSet_cases pData nData pos value h1 h2 hlen).2.1 ha hb
  refine ⟨hrc, fun i hi => ?_, fun j hj => ?_, fun nData' h hl => ?_⟩
  · rw [hbits, if_pos (by omega), Nat.add_sub_cancel_left]
  · rw [hbits, if_neg hj]
  · exact (elemSet_cases pData nData' pos value h1 (by omega) hl).1 h

theorem elemSet_fails_after_mantissa_witness :
    (65 * 0 + 65 < SIZE ∧ 8 * 7 < SIZE ∧ 7 ≤ sevenBytes.length ∧ 65 * 0 + 54 ≤ 8 * 7 ∧
      8 * 7 < 65 * 0 + 65) ∧
    (elemSet sevenBytes 7 65 0 ONE).1 = -1 ∧
    sevenBytes = [0, 0, 0, 0, 0, 0, 0] ∧
    (elemSet sevenBytes 7 65 0 ONE).2 = [0, 0, 0, 0, 0, 0, 16] :=
  ⟨⟨by decide, by decide, by decide, by decide, by decide⟩,
    (elemSet_fails_after_mantissa sevenBytes 7 0 ONE (by decide) (by decide) (by decide)
      (by decide) (by decide)).1,
    by decide, by decide⟩

theorem gatherBit_length (pData : List Nat) (bitStart : Nat) (t : List Nat) (bit : Nat) :
    (gatherBit pData bitStart t bit).length = t.length := by
  unfold gatherBit
  split_ifs
  · exact List.length_set _ _ _
  · rfl

theorem gatherBit_isBytes (pData : List Nat) (bitStart : Nat) (t : List Nat) (bit : Nat)
    (ht : isBytes t) : isBytes (gatherBit pData bitStart t bit) := by
  have h8 : 1 <<< (bit % 8) < 2 ^ 8 := by
    rw [Nat.one_shiftLeft]
    exact Nat.pow_lt_pow_right (by decide) (Nat.mod_lt _ (by decide))
  unfold gatherBit
  split_ifs
  · intro b hb
    rcases List.mem_or_eq_of_mem_set hb with h | h
    · exact ht b h
    · rw [h]
      exact Nat.or_lt_two_pow (isBytes_getD t ht _) h8
  · exact ht

theorem gatherBit_bitAt (pData : List Nat) (bitStart : Nat) (t : List Nat) (bit j : Nat)
    (hw : bitStart + bit < SIZE) (hlen : bit / 8 < t.length) (hfresh : bitAt t bit = false) :
    bitAt (gatherBit pData bitStart t bit) j
      = if j = bit then bitAt pData (bitStart + bit) else bitAt t j := by
  unfold gatherBit
  rw [wrap_of_lt hw, Nat.one_shiftLeft, Nat.one_shiftLeft]
  by_cases hc : pData.getD ((bitStart + bit) / 8) 0 &&& 2 ^ ((bitStart + bit) % 8) ≠ 0
  · rw [if_pos hc]
    have hb : bitAt pData (bitStart + bit) = true := (and_two_pow_ne_zero _ _).mp hc
    unfold bitAt at hb ⊢
    rw [getD_set t _ _ _ hlen]
    by_cases hj : j = bit
    · subst hj
      rw [if_pos rfl, if_pos rfl, Nat.testBit_or, Nat.testBit_two_pow_self, hb]
      simp
    · rw [if_neg hj]
      by_cases hB : j / 8 = bit / 8
      · rw [if_pos hB, Nat.testBit_or, Nat.testBit_two_pow, hB]
        have : ¬ bit % 8 = j % 8 := by omega
        simp [this]
      · rw [if_neg hB]
  · rw [if_neg hc]
    have hb : bitAt pData (bitStart + bit) = false := by
      by_contra h
      have ht : bitAt pData (bitStart + bit) = true := by simpa using h
      exact hc ((and_two_pow_ne_zero _ _).mpr ht)
    by_cases hj : j = bit
    · subst hj
      rw [if_pos rfl, hb, hfresh]
    · rw [if_neg hj]

/-- The temporary word that the bit loop of `elemGet` and `getValue` gathers. -/
theorem foldl_gatherBit (pData : List Nat) (bitStart : Nat) :
    ∀ n, n ≤ 96 → bitStart + n ≤ SIZE →
      ((List.range n).foldl (gatherBit pData bitStart) (List.replicate 12 0)).length = 12 ∧
      isBytes ((List.range n).foldl (gatherBit pData bitStart) (List.replicate 12 0)) ∧
      ∀ j, bitAt ((List.range n).foldl (gatherBit pData bitStart) (List.replicate 12 0)) j
        = (decide (j < n) && bitAt pData (bitStart + j)) := by
  intro n
  induction n with
  | zero =>
    intro _ _
    refine ⟨rfl, ?_, ?_⟩
    · intro b hb
      rw [List.eq_of_mem_replicate hb]
      decide
    · intro j
      rw [List.range_zero, List.foldl_nil]
      unfold bitAt
      rw [List.getD_eq_getElem?_getD]
      by_cases hj : j / 8 < 12
      · rw [List.getElem?_replicate, if_pos hj]
        simp
      · rw [List.getElem?_eq_none (by rw [List.length_replicate]; omega)]
        simp
  | succ n ih =>
    intro hn hw
    obtain ⟨hl, hb, hbits⟩ := ih (by omega) (by omega)
    rw [List.range_succ, List.foldl_append, List.foldl_cons, List.foldl_nil]
    refine ⟨by rw [gatherBit_length, hl], gatherBit_isBytes _ _ _ _ hb, fun j => ?_⟩
    rw [gatherBit_bitAt _ _ _ _ _ (by omega) (by rw [hl]; omega)
      (by rw [hbits]; simp), hbits]
    by_cases hj : j = n
    · subst hj
      rw [if_pos rfl]
      simp
    · rw [if_neg hj]
      by_cases hjn : j < n
      · simp [hjn, show j < n + 1 by omega]
      · simp [hjn, show ¬ j < n + 1 by omega]

theorem elemGet_eq (value : Nat) (pData : List Nat) (nData pos : Nat)
    (h1 : 65 * pos + 65 < SIZE) (h2 : 8 * nData < SIZE) :
    elemGet value pData nData 65 pos
      = if 65 * (pos + 1) ≥ 8 * nData then (-1, value)
        else (0, toDouble ((List.range 65).foldl (gatherBit pData (65 * pos))
          (List.replicate 12 0))) := by
  have hS : SIZE = 18446744073709551616 := rfl
  unfold elemGet
  rw [if_neg (by decide), wrap_of_lt (show pos + 1 < SIZE by omega),
    wrap_of_lt (show 65 * (pos + 1) < SIZE by omega), wrap_of_lt h2, Nat.mul_comm pos 65,
    wrap_of_lt (show 65 * pos < SIZE by omega)]
  rfl

/-- What `elemGet` returns depends on the 65 bits of the element only. -/
theorem elemGet_congr (value : Nat) (d1 d2 : List Nat) (nData pos : Nat)
    (h1 : 65 * pos + 65 < SIZE) (h2 : 8 * nData < SIZE)
    (h : ∀ j, j < 65 → bitAt d1 (65 * pos + j) = bitAt d2 (65 * pos + j)) :
    elemGet value d1 nData 65 pos = elemGet value d2 nData 65 pos := by
  have hS : SIZE = 18446744073709551616 := rfl
  obtain ⟨l1, b1, g1⟩ := foldl_gatherBit d1 (65 * pos) 65 (by decide) (by omega)
  obtain ⟨l2, b2, g2⟩ := foldl_gatherBit d2 (65 * pos) 65 (by decide) (by omega)
  have heq : (List.range 65).foldl (gatherBit d1 (65 * pos)) (List.replicate 12 0)
      = (List.range 65).foldl (gatherBit d2 (65 * pos)) (List.replicate 12 0) := by
    apply bitAt_ext _ _ (l1.trans l2.symm) b1 b2
    intro j
    rw [g1, g2]
    by_cases hj : j < 65
    · rw [h j hj]
    · simp [hj]
  rw [elemGet_eq value d1 nData pos h1 h2, elemGet_eq value d2 nData pos h1 h2, heq]

/-- C37: for a normal double `v` and a position at which the element fits the
buffer, the generic `elemSet` succeeds; a following `elemGet` at that position
returns `v` when the element ends before the last bit of the buffer
(`65 * (pos + 1) < 8 * nData`) but fails, leaving `*value` as it was, when the
element ends exactly at the end of the buffer (`65 * (pos + 1) = 8 * nData`);
`elemGet` at every other position gives what it gave before the write. -/
theorem elemGet_rejects_exact_fit (out : Nat) (pData : List Nat) (nData pos v : Nat)
    (hfit : 65 * (pos + 1) ≤ 8 * nData) (h2 : 8 * nData < SIZE) (hlen : nData ≤ pData.length)
    (hv : v < 2 ^ 64) (hn : isnormal v = true) :
    (elemSet pData nData 65 pos v).1 = 0 ∧
    (65 * (pos + 1) = 8 * nData →
      elemGet out (elemSet pData nData 65 pos v).2 nData 65 pos = (-1, out)) ∧
    (65 * (pos + 1) < 8 * nData →
      elemGet out (elemSet pData nData 65 pos v).2 nData 65 pos = (0, v)) ∧
    (∀ pos', pos' ≠ pos → 65 * (pos' + 1) ≤ 8 * nData →
      elemGet out (elemSet pData nData 65 pos v).2 nData 65 pos'
        = elemGet out pData nData 65 pos') := by
  have hS : SIZE = 18446744073709551616 := rfl
  obtain ⟨_, _, hok, _, hbytes⟩ := elemSet_cases pData nData pos v (by omega) h2 hlen
  obtain ⟨hrc, hbits⟩ := hok (by omega)
  refine ⟨hrc, fun he => ?_, fun hlt => ?_, fun pos' hne hfit' => ?_⟩
  · rw [elemGet_eq _ _ _ _ (by omega) h2, if_pos (by omega)]
  · rw [elemGet_eq _ _ _ _ (by omega) h2, if_neg (by omega)]
    obtain ⟨_, gb, gbits⟩ := foldl_gatherBit (elemSet pData nData 65 pos v).2 (65 * pos) 65
      (by decide) (by omega)
    rw [toDouble_fields _ gb (signedMantissa65 v) (tmpExp65 v) (signedMantissa65_lt v)
      (tmpExp65_lt v) ?_ ?_, decode65_encode v hv hn]
    · intro j hj
      rw [gbits, hbits, if_pos (by omega), Nat.add_sub_cancel_left]
      simp [show j < 65 by omega]
    · intro j hj
      rw [gbits, hbits, if_neg (by omega), if_pos (by omega),
        show 65 * pos + (54 + j) - (65 * pos + 54) = j by omega]
      simp [show 54 + j < 65 by omega]
  · apply elemGet_congr _ _ _ _ _ (by omega) h2
    intro j hj
    have hdis : ¬ (65 * pos ≤ 65 * pos' + j ∧ 65 * pos' + j < 65 * pos + 65) := by
      rcases Nat.lt_or_gt_of_ne hne with h | h
      · omega
      · omega
    rw [hbits, if_neg (by omega), if_neg (by omega)]

theorem elemGet_rejects_exact_fit_witness :
    (65 * (7 + 1) ≤ 8 * 65 ∧ 8 * 65 < SIZE ∧ 65 ≤ portBytes.length ∧ ONE < 2 ^ 64 ∧
      isnormal ONE = true ∧ 65 * (7 + 1) = 8 * 65) ∧
    (elemSet portBytes 65 65 7 ONE).1 = 0 ∧
    elemGet 0 (elemSet portBytes 65 65 7 ONE).2 65 65 7 = (-1, 0) :=
  ⟨⟨by decide, by decide, by decide, by decide, by decide, by decide⟩,
    (elemGet_rejects_exact_fit 0 portBytes 65 7 ONE (by decide) (by decide) (by decide)
      (by decide) (by decide)).1,
    (elemGet_rejects_exact_fit 0 portBytes 65 7 ONE (by decide) (by decide) (by decide)
      (by decide) (by decide)).2.1
      (by decide)⟩

/-! ## The NFp64 round trip on all doubles -/

theorem decode65_nonneg (m e : Nat) (hm : m < 2 ^ 53) (he : e < 2 ^ 11) :
    decode65 m e = 2 ^ 52 * e + m % 2 ^ 52 := by
  have hS : SIZE = 18446744073709551616 := rfl
  unfold decode65
  simp only
  rw [BIT_MASK_52, Nat.and_pow_two_sub_one_eq_mod, wrap_one_shiftLeft (show 53 ≤ 63 by decide)]
  have hcond : ¬ (m &&& 2 ^ 53 ≠ 0) := by
    intro hne
    have := (testBit_eq_true_iff _ 53).mp ((and_two_pow_ne_zero _ 53).mp hne)
    omega
  rw [if_neg hcond, if_neg hcond, Nat.zero_shiftLeft, show wrap 0 = 0 from rfl, Nat.zero_or,
    Nat.shiftLeft_eq, wrap_of_lt (by omega), Nat.mul_comm,
    or_two_pow_mul_left _ _ _ (Nat.mod_lt _ (by decide))]

theorem decode65_neg (m e : Nat) (h0 : 0 < m) (hm : m < 2 ^ 53) (he : e < 2 ^ 11) :
    decode65 (2 ^ 54 - m) e = 2 ^ 63 + 2 ^ 52 * e + m % 2 ^ 52 := by
  have hS : SIZE = 18446744073709551616 := rfl
  have hC : (0xFFC0000000000000 : Nat) = 2 ^ 54 * 1023 := by decide
  unfold decode65
  simp only
  rw [BIT_MASK_52, Nat.and_pow_two_sub_one_eq_mod, wrap_one_shiftLeft (show 53 ≤ 63 by decide)]
  have hcond : (2 ^ 54 - m) &&& 2 ^ 53 ≠ 0 :=
    (and_two_pow_ne_zero _ 53).mpr ((testBit_eq_true_iff _ 53).mpr (by omega))
  rw [if_pos hcond, if_pos hcond, wrap_one_shiftLeft (show 11 ≤ 63 by decide), hC,
    or_two_pow_mul 1023 _ 54 (by omega)]
  have h1 : 2 ^ 11 ||| e = 2 ^ 11 + e := by
    have := or_two_pow_mul 1 e 11 he
    rw [Nat.mul_one, Nat.or_comm] at this
    exact this
  rw [h1, Nat.shiftLeft_eq, wrap_of_lt (by omega), Nat.mul_comm,
    or_two_pow_mul_left _ _ _ (Nat.mod_lt _ (by decide))]
  unfold subw
  rw [hS]
  omega

theorem decode65_specMantissa54 (x : Nat) (hx : x < 2 ^ 64) :
    decode65 (specMantissa54 x) (x / 2 ^ 52 % 2 ^ 11)
      = if x = NEG_ZERO ∨ x = NEG_INF then x - 2 ^ 63 else x := by
  have hf : x % 2 ^ 52 < 2 ^ 52 := Nat.mod_lt _ (by decide)
  have he : x / 2 ^ 52 % 2 ^ 11 < 2 ^ 11 := Nat.mod_lt _ (by decide)
  have hZ : NEG_ZERO = 2 ^ 63 := by decide
  have hI : NEG_INF = 2 ^ 63 + 2 ^ 52 * 2047 := by decide
  rw [hZ, hI]
  unfold specMantissa54
  simp only
  generalize hM : (if 1 ≤ x / 2 ^ 52 % 2 ^ 11 ∧ x / 2 ^ 52 % 2 ^ 11 ≤ 2046 then 2 ^ 52 else 0)
    = M
  have hMv : (M = 2 ^ 52 ∧ 1 ≤ x / 2 ^ 52 % 2 ^ 11 ∧ x / 2 ^ 52 % 2 ^ 11 ≤ 2046) ∨
      (M = 0 ∧ (x / 2 ^ 52 % 2 ^ 11 = 0 ∨ x / 2 ^ 52 % 2 ^ 11 = 2047)) := by
    rw [← hM]
    by_cases c : 1 ≤ x / 2 ^ 52 % 2 ^ 11 ∧ x / 2 ^ 52 % 2 ^ 11 ≤ 2046
    · rw [if_pos c]
      exact Or.inl ⟨rfl, c⟩
    · rw [if_neg c]
      exact Or.inr ⟨rfl, by omega⟩
  by_cases hs : x / 2 ^ 63 = 1
  · rw [if_pos hs]
    by_cases hm0 : x % 2 ^ 52 + M = 0
    · rw [hm0, show (2 ^ 54 - 0) % 2 ^ 54 = 0 by decide, decode65_nonneg 0 _ (by decide) he,
        if_pos (by omega)]
      omega
    · rw [Nat.mod_eq_of_lt (by omega), decode65_neg _ _ (by omega) (by omega) he,
        if_neg (by omega)]
      omega
  · rw [if_neg hs, decode65_nonneg _ _ (by omega) he, if_neg (by omega)]
    omega

/-- C36: for every double `x` and every previous content of the 12-byte storage,
decoding what `elemSet(sNFp64_t *, x)` stored gives `x` bit for bit, except for
`-0.0` and `-infinity`, which decode to `+0.0` and `+infinity`: these two are
the only patterns that do not survive, and each is stored as the same word as
its positive counterpart. -/
theorem toDouble_elemSetNFp64_all_doubles (w : List Nat) (x : Nat) (hw : w.length = 12)
    (hb : isBytes w) (hx : x < 2 ^ 64) :
    toDouble (elemSetNFp64 w x).2 = (if x = NEG_ZERO ∨ x = NEG_INF then x - 2 ^ 63 else x) ∧
    (toDouble (elemSetNFp64 w x).2 = x ↔ ¬ (x = NEG_ZERO ∨ x = NEG_INF)) ∧
    elemSetNFp64 w NEG_ZERO = elemSetNFp64 w 0 ∧
    elemSetNFp64 w NEG_INF = elemSetNFp64 w POS_INF ∧
    toDouble (elemSetNFp64 w NEG_ZERO).2 = 0 ∧
    toDouble (elemSetNFp64 w NEG_INF).2 = POS_INF := by
  have hZ : NEG_ZERO = 2 ^ 63 := by decide
  have hI : NEG_INF = 2 ^ 63 + 2 ^ 52 * 2047 := by decide
  have hall : ∀ y, y < 2 ^ 64 → toDouble (elemSetNFp64 w y).2
      = (if y = NEG_ZERO ∨ y = NEG_INF then y - 2 ^ 63 else y) := by
    intro y hy
    rw [toDouble_elemSetNFp64 w y hw hb, signedMantissa65_value y hy, tmpExp65_eq,
      decode65_specMantissa54 y hy]
  have hm0 : signedMantissa65 NEG_ZERO = signedMantissa65 0 := by decide
  have he0 : tmpExp65 NEG_ZERO = tmpExp65 0 := by decide
  have hm1 : signedMantissa65 NEG_INF = signedMantissa65 POS_INF := by decide
  have he1 : tmpExp65 NEG_INF = tmpExp65 POS_INF := by decide
  refine ⟨hall x hx, ?_, ?_, ?_, ?_, ?_⟩
  · rw [hall x hx]
    by_cases c : x = NEG_ZERO ∨ x = NEG_INF
    · rw [if_pos c]
      constructor
      · intro h _
        rw [hZ, hI] at c
        omega
      · intro h
        exact absurd c h
    · rw [if_neg c]
      exact ⟨fun _ => c, fun _ => rfl⟩
  · unfold elemSetNFp64
    rw [hm0, he0]
  · unfold elemSetNFp64
    rw [hm1, he1]
  · rw [hall NEG_ZERO (by decide), if_pos (Or.inl rfl)]
    decide
  · rw [hall NEG_INF (by decide), if_pos (Or.inr rfl)]
    decide

theorem toDouble_elemSetNFp64_all_doubles_witness :
    ((List.replicate 12 255).length = 12 ∧ isBytes (List.replicate 12 255) ∧
      NEG_INF < 2 ^ 64) ∧
    toDouble (elemSetNFp64 (List.replicate 12 255) NEG_INF).2 = NEG_INF - 2 ^ 63 :=
  ⟨⟨by decide, by intro b hb; rw [List.eq_of_mem_replicate hb]; decide, by decide⟩,
    (toDouble_elemSetNFp64_all_doubles (List.replicate 12 255) NEG_INF (by decide)
      (by intro b hb; rw [List.eq_of_mem_replicate hb]; decide) (by decide)).1.trans
      (if_pos (Or.inr rfl))⟩

/-! ## The jobs in flight -/

theorem sched_getElem? (js : List job_t) : ∀ (t i : Nat),
    (sched t js)[i]? = (js[i]?).map fun j => { JobCycle := t - 18 * i, Job := j } := by
  have hP : JobCyclePassedFirstStage_ = 17 := by decide
  induction js with
  | nil => intro t i; rfl
  | cons j rest ih =>
    intro t i
    cases i with
    | zero => simp [sched]
    | succ i =>
      simp only [sched, hP, List.getElem?_cons_succ]
      rw [ih]
      congr 1
      funext x
      congr 1
      omega

theorem sched_length (js : List job_t) : ∀ t, (sched t js).length = js.length := by
  induction js with
  | nil => intro t; rfl
  | cons j rest ih => intro t; simp only [sched, List.length_cons, ih]

theorem concurrentTail_sched (js : List job_t) : ∀ (t : Nat) (j : job_t),
    concurrentTail { JobCycle := t, Job := j } (sched (t - 18) js)
      = (sched (t - 18) js).take (t / 18) := by
  have hP : JobCyclePassedFirstStage_ = 17 := by decide
  induction js with
  | nil => intro t j; simp [sched, concurrentTail]
  | cons j' rest ih =>
    intro t j
    simp only [sched, concurrentTail, hP]
    by_cases h17 : t > 17
    · rw [if_pos h17, ih (t - 18) j', show t / 18 = (t - 18) / 18 + 1 by omega,
        List.take_succ_cons]
    · rw [if_neg h17, show t / 18 = 0 by omega, List.take_zero]

theorem concurrentJobs_sched (t : Nat) (js : List job_t) :
    concurrentJobs (sched t js) = (sched t js).take (t / 18 + 1) := by
  have hP : JobCyclePassedFirstStage_ = 17 := by decide
  cases js with
  | nil => rfl
  | cons j rest =>
    simp only [sched, concurrentJobs, hP, List.take_succ_cons]
    rw [concurrentTail_sched]

theorem inFlightAt_getElem? (js : List job_t) (n p : Nat) :
    (inFlightAt js n)[p]?
      = if retiredAfter n + p ≤ n / 18 then
          (js[retiredAfter n + p]?).map fun j =>
            { JobCycle := n - 18 * (retiredAfter n + p), Job := j }
        else none := by
  have hr := retiredAfter_spec n
  unfold inFlightAt
  rw [concurrentJobs_sched, List.getElem?_take]
  by_cases hp : retiredAfter n + p ≤ n / 18
  · rw [if_pos hp, if_pos (by omega), sched_getElem?, List.getElem?_drop]
    congr 1
    funext x
    congr 1
    omega
  · rw [if_neg hp, if_neg (by omega)]

theorem inFlightAt_length (js : List job_t) (n : Nat) :
    (inFlightAt js n).length = min (n / 18 + 1 - retiredAfter n) (js.length - retiredAfter n) := by
  have hr := retiredAfter_spec n
  unfold inFlightAt
  rw [concurrentJobs_sched, List.length_take, sched_length, List.length_drop]
  congr 1
  omega

theorem inFlightAt_length_le (js : List job_t) (n : Nat) : (inFlightAt js n).length ≤ 4 := by
  have hr := retiredAfter_spec n
  rw [inFlightAt_length]
  omega

/-- The queue after `n` calls of `IoSet` on a fresh queue, for every call of the run. -/
theorem ioSetIter_inFlight (fp : Fpu) (eval : testBench_t → testBench_t)
    (heval : ∀ tb, portsFit tb → portsFit (eval tb)) (js : List job_t) (s : SystolicArraySim)
    (hq : s.JobQueue_ = js.map fresh) (hp : portsFit s.Tb) (n : Nat)
    (hn : n < 67 + 18 * (js.length - 1)) (hjs : js ≠ []) :
    ∃ s', ioSetIter fp eval n s = some s' ∧ portsFit s'.Tb ∧ s'.JobQueue_ ≠ [] ∧
      concurrentJobs s'.JobQueue_ = inFlightAt js n := by
  have hlen : 0 < js.length := List.length_pos.mpr hjs
  have hq0 : s.JobQueue_ = sched (0 - 18 * retiredAfter 0) (js.drop (retiredAfter 0)) := by
    rw [hq, show retiredAfter 0 = 0 from rfl, List.drop_zero, sched_zero]
    rfl
  obtain ⟨s', h1, h2, h3⟩ := ioSetIter_sched fp eval heval js n 0 s hp hq0 (by omega) hjs
  rw [Nat.zero_add] at h3
  refine ⟨s', h1, h2, ?_, ?_⟩
  · have hr := retiredAfter_spec n
    intro h
    have hl := congrArg List.length h
    rw [h3, sched_length, List.length_drop, List.length_nil] at hl
    omega
  · rw [h3]
    rfl

theorem inFlightAt_entry (js : List job_t) (n p : Nat) (e : queueEntry_t)
    (h : (inFlightAt js n)[p]? = some e) :
    retiredAfter n + p ≤ n / 18 ∧ e.JobCycle = n - 18 * (retiredAfter n + p) ∧
      js[retiredAfter n + p]? = some e.Job := by
  rw [inFlightAt_getElem?] at h
  by_cases hp : retiredAfter n + p ≤ n / 18
  · rw [if_pos hp, Option.map_eq_some'] at h
    obtain ⟨j, hj, he⟩ := h
    subst he
    exact ⟨hp, rfl, hj⟩
  · rw [if_neg hp] at h
    cases h

theorem inFlightAt_entry_le (js : List job_t) (n p : Nat) (e : queueEntry_t)
    (h : (inFlightAt js n)[p]? = some e) : e.JobCycle ≤ 66 := by
  have hr := retiredAfter_spec n
  obtain ⟨_, h2, _⟩ := inFlightAt_entry js n p e h
  omega

/-- C31 (counterexample): after 54 calls of `IoSet` on the five freshly
dispatched example jobs, the next call services four jobs, more than
`JobCycleDone_ / JobCyclePassedFirstStage_ = 3`. -/
theorem concurrentJobs_four_in_flight :
    (ioSetIter exampleFpu id 54 exampleJobsSim).map
        (fun s => (concurrentJobs s.JobQueue_).length) = some 4 ∧
    JobCycleDone_ / JobCyclePassedFirstStage_ = 3 := by
  obtain ⟨s', h1, _, _, h4⟩ := ioSetIter_inFlight exampleFpu id (fun _ h => h) exampleJobs
    exampleJobsSim rfl portsFit_tbInit 54 (by decide) (by decide)
  refine ⟨?_, by decide⟩
  rw [h1, Option.map_some', h4, inFlightAt_length]
  rfl

/-- C31 (amended): in every half-cycle of a run of `IoSet` that starts from a
queue of freshly dispatched jobs, `IoSet` services at most four jobs, the value
of `RequiredOutPositionsBetweenK()`; four are serviced before call 54 when the
queue holds at least four jobs.  `JobCycleDone_ / JobCyclePassedFirstStage_` is
3, and `JobQueueReadBeforeWrite` compares a job with the two jobs that follow
it (`j - i < 3`). -/
theorem concurrentJobs_at_most_four (fp : Fpu) (eval : testBench_t → testBench_t)
    (s : SystolicArraySim) (js : List job_t) (hq : s.JobQueue_ = js.map fresh)
    (hjs : js ≠ []) (hp : portsFit s.Tb) (heval : ∀ tb, portsFit tb → portsFit (eval tb))
    (hsmall : 67 + 18 * (js.length - 1) < SIZE) :
    (∀ n, n < CyclesRequired js.length →
      ∃ s', ioSetIter fp eval n s = some s' ∧
        (concurrentJobs s'.JobQueue_).length ≤ RequiredOutPositionsBetweenK) ∧
    (4 ≤ js.length →
      ∃ s', ioSetIter fp eval 54 s = some s' ∧ (concurrentJobs s'.JobQueue_).length = 4) ∧
    RequiredOutPositionsBetweenK = 4 ∧ JobCycleDone_ / JobCyclePassedFirstStage_ = 3 ∧
    (JobQueueReadBeforeWrite s.JobQueue_ = true ↔
      ∃ i j, i < j ∧ j < s.JobQueue_.length ∧ j - i < 3 ∧
        ((s.JobQueue_.getD i default).Job.MatC = (s.JobQueue_.getD j default).Job.MatA ∨
         (s.JobQueue_.getD i default).Job.MatC = (s.JobQueue_.getD j default).Job.MatB ∨
         (s.JobQueue_.getD i default).Job.MatC = (s.JobQueue_.getD j default).Job.MatC)) := by
  have hlen : 0 < js.length := List.length_pos.mpr hjs
  refine ⟨?_, ?_, rfl, by decide, readBeforeWrite_exists _⟩
  · intro n hn
    rw [CyclesRequired_eq _ hlen hsmall] at hn
    obtain ⟨s', h1, _, _, h4⟩ := ioSetIter_inFlight fp eval heval js s hq hp n hn hjs
    refine ⟨s', h1, ?_⟩
    rw [h4]
    exact inFlightAt_length_le js n
  · intro h4
    obtain ⟨s', h1, _, _, h5⟩ := ioSetIter_inFlight fp eval heval js s hq hp 54 (by omega) hjs
    refine ⟨s', h1, ?_⟩
    have hr := retiredAfter_spec 54
    rw [h5, inFlightAt_length]
    omega

theorem concurrentJobs_at_most_four_witness :
    (exampleJobsSim.JobQueue_ = exampleJobs.map fresh ∧ exampleJobs ≠ [] ∧
      portsFit exampleJobsSim.Tb ∧ 67 + 18 * (exampleJobs.length - 1) < SIZE ∧
      4 ≤ exampleJobs.length) ∧
    ∃ s', ioSetIter exampleFpu id 54 exampleJobsSim = some s' ∧
      (concurrentJobs s'.JobQueue_).length = 4 :=
  ⟨⟨rfl, by decide, portsFit_tbInit, by decide, by decide⟩,
    (concurrentJobs_at_most_four exampleFpu id exampleJobsSim exampleJobs rfl (by decide)
      portsFit_tbInit (fun _ h => h) (by decide)).2.1 (by decide)⟩

/-- C33: in every half-cycle of a run of `IoSet` that starts from a queue of
freshly dispatched jobs, consecutive entries among the jobs `IoSet` services
are `JobCyclePassedFirstStage_ + 1 = 18` job cycles apart, and so no two of them
present an element to the same position `k` of `multRight`, present an element
of the same column `k` of `multLeft`, present an accumulator column, or have a
column of `out` read; within one entry the calls for `multRight` are pairwise
different and a position `k` is addressed for at most one `n`. -/
theorem IoSet_ports_exclusive (fp : Fpu) (eval : testBench_t → testBench_t)
    (s : SystolicArraySim) (js : List job_t) (hq : s.JobQueue_ = js.map fresh)
    (hjs : js ≠ []) (hp : portsFit s.Tb) (heval : ∀ tb, portsFit tb → portsFit (eval tb))
    (hsmall : 67 + 18 * (js.length - 1) < SIZE) (n : Nat) (hn : n < CyclesRequired js.length) :
    ∃ s', ioSetIter fp eval n s = some s' ∧
      (∀ (p : Nat) (e1 e2 : queueEntry_t), (concurrentJobs s'.JobQueue_)[p]? = some e1 →
        (concurrentJobs s'.JobQueue_)[p + 1]? = some e2 →
        e1.JobCycle = e2.JobCycle + (JobCyclePassedFirstStage_ + 1)) ∧
      (∀ (p1 p2 : Nat) (e1 e2 : queueEntry_t), p1 ≠ p2 → (concurrentJobs s'.JobQueue_)[p1]? = some e1 →
        (concurrentJobs s'.JobQueue_)[p2]? = some e2 →
        (∀ k n1 n2, (k, n1) ∈ ioSetRightCalls e1.JobCycle →
          ¬ (k, n2) ∈ ioSetRightCalls e2.JobCycle) ∧
        (∀ k, ioPhaseK e1.JobCycle = some k → ¬ ioPhaseK e2.JobCycle = some k) ∧
        ((0 = e1.JobCycle % 2 ∧ e1.JobCycle / 2 < Nmma) →
          ¬ (0 = e2.JobCycle % 2 ∧ e2.JobCycle / 2 < Nmma)) ∧
        ((JobCycleOutputStart_ ≤ e1.JobCycle ∧ 0 = subw e1.JobCycle JobCycleOutputStart_ % 2) →
          ¬ (JobCycleOutputStart_ ≤ e2.JobCycle ∧
            0 = subw e2.JobCycle JobCycleOutputStart_ % 2))) ∧
      (∀ e ∈ concurrentJobs s'.JobQueue_, (ioSetRightCalls e.JobCycle).Nodup ∧
        ∀ k n1 n2, (k, n1) ∈ ioSetRightCalls e.JobCycle →
          (k, n2) ∈ ioSetRightCalls e.JobCycle → n1 = n2) := by
  have hS : SIZE = 18446744073709551616 := rfl
  have hP : JobCyclePassedFirstStage_ = 17 := by decide
  have hO : JobCycleOutputStart_ = 52 := by decide
  have hN : Nmma = 8 := rfl
  have hlen : 0 < js.length := List.length_pos.mpr hjs
  rw [CyclesRequired_eq _ hlen hsmall] at hn
  obtain ⟨s', h1, _, _, h4⟩ := ioSetIter_inFlight fp eval heval js s hq hp n hn hjs
  refine ⟨s', h1, ?_, ?_, ?_⟩
  · intro p e1 e2 he1 he2
    rw [h4] at he1 he2
    obtain ⟨a1, a2, _⟩ := inFlightAt_entry js n p e1 he1
    obtain ⟨b1, b2, _⟩ := inFlightAt_entry js n (p + 1) e2 he2
    rw [hP]
    omega
  · intro p1 p2 e1 e2 hne he1 he2
    rw [h4] at he1 he2
    have l1 := inFlightAt_entry_le js n p1 e1 he1
    have l2 := inFlightAt_entry_le js n p2 e2 he2
    obtain ⟨a1, a2, _⟩ := inFlightAt_entry js n p1 e1 he1
    obtain ⟨b1, b2, _⟩ := inFlightAt_entry js n p2 e2 he2
    have hapart : e1.JobCycle + 18 ≤ e2.JobCycle ∨ e2.JobCycle + 18 ≤ e1.JobCycle := by
      rcases Nat.lt_or_gt_of_ne hne with h | h
      · right; omega
      · left; omega
    refine ⟨?_, ?_, ?_, ?_⟩
    · intro k n1 n2 c1 c2
      rw [mem_ioSetRightCalls _ _ _ (by omega)] at c1 c2
      omega
    · intro k c1 c2
      rw [ioPhaseK_iff _ _ (by omega)] at c1 c2
      omega
    · rw [hN]
      intro c1 c2
      omega
    · rw [hO]
      intro c1 c2
      have d1 := c1.2
      have d2 := c2.2
      rw [subw_of_le c1.1 (by omega)] at d1
      rw [subw_of_le c2.1 (by omega)] at d2
      omega
  · intro e he
    rw [h4] at he
    obtain ⟨p, hp'⟩ := List.getElem?_of_mem he
    have l1 := inFlightAt_entry_le js n p e hp'
    refine ⟨ioSetRightCalls_nodup _, ?_⟩
    intro k n1 n2 c1 c2
    rw [mem_ioSetRightCalls _ _ _ (by omega)] at c1 c2
    omega

theorem IoSet_ports_exclusive_witness :
    (exampleJobsSim.JobQueue_ = exampleJobs.map fresh ∧ exampleJobs ≠ [] ∧
      portsFit exampleJobsSim.Tb ∧ 67 + 18 * (exampleJobs.length - 1) < SIZE ∧
      54 < CyclesRequired exampleJobs.length) ∧
    ∃ s', ioSetIter exampleFpu id 54 exampleJobsSim = some s' ∧
      ∀ (p : Nat) (e1 e2 : queueEntry_t), (concurrentJobs s'.JobQueue_)[p]? = some e1 →
        (concurrentJobs s'.JobQueue_)[p + 1]? = some e2 →
        e1.JobCycle = e2.JobCycle + (JobCyclePassedFirstStage_ + 1) :=
  ⟨⟨rfl, by decide, portsFit_tbInit, by decide, by decide⟩,
    (IoSet_ports_exclusive exampleFpu id exampleJobsSim exampleJobs rfl (by decide)
      portsFit_tbInit (fun _ h => h) (by decide) 54 (by decide)).imp
      fun _ h => ⟨h.1, h.2.1⟩⟩

theorem fresh_queue_job (js : List job_t) (i : Nat) (j : job_t) (h : js[i]? = some j) :
    ((js.map fresh).getD i default).Job = j := by
  rw [List.getD_eq_getElem?_getD, List.getElem?_map, h]
  rfl

/-- C34: on a queue of freshly dispatched jobs that `JobQueueReadBeforeWrite`
accepts, two jobs `i < j` with the same `MatC` and `StrideC` are at least three
places apart and address the same cells; in the run of `IoSet`, whenever the
later job is serviced at the job cycle `2 * col` at which it loads accumulator
column `col`, the earlier job was serviced in a strictly earlier call at the job
cycle `JobCycleOutputStart_ + 2 * col`, at which `IoSet` stores its output
column `col` to these cells; and the later job does reach that job cycle. -/
theorem IoSet_acc_load_after_out_store (fp : Fpu) (eval : testBench_t → testBench_t)
    (s : SystolicArraySim) (js : List job_t) (hq : s.JobQueue_ = js.map fresh)
    (hp : portsFit s.Tb) (heval : ∀ tb, portsFit tb → portsFit (eval tb))
    (hsmall : 67 + 18 * (js.length - 1) < SIZE)
    (hrbw : JobQueueReadBeforeWrite s.JobQueue_ = false)
    (i j col : Nat) (ji jj : job_t) (hi : js[i]? = some ji) (hj : js[j]? = some jj)
    (hij : i < j) (hcol : col < Nmma) (hC : ji.MatC = jj.MatC)
    (hSt : ji.StrideC = jj.StrideC) :
    3 ≤ j - i ∧
    (∀ m, ji.cellC m col = jj.cellC m col) ∧
    (∀ m st, ioSetOut { JobCycle := JobCycleOutputStart_ + 2 * col, Job := ji } m st
      = (0, { st with Heap :=
          st.Heap.write (jj.cellC m col) (getValue st.Tb.out st.Tb.out.length 65 m) })) ∧
    (∀ N, N < CyclesRequired js.length →
      ∃ sN, ioSetIter fp eval N s = some sN ∧
        ∀ p, retiredAfter N + p = j →
          (concurrentJobs sN.JobQueue_)[p]? = some { JobCycle := 2 * col, Job := jj } →
          ∃ W sW, W < N ∧ ioSetIter fp eval W s = some sW ∧ retiredAfter W ≤ i ∧
            (concurrentJobs sW.JobQueue_)[i - retiredAfter W]?
              = some { JobCycle := JobCycleOutputStart_ + 2 * col, Job := ji }) ∧
    (∃ sN, ioSetIter fp eval (18 * j + 2 * col) s = some sN ∧
      retiredAfter (18 * j + 2 * col) ≤ j ∧
      (concurrentJobs sN.JobQueue_)[j - retiredAfter (18 * j + 2 * col)]?
        = some { JobCycle := 2 * col, Job := jj }) := by
  have hS : SIZE = 18446744073709551616 := rfl
  have hO : JobCycleOutputStart_ = 52 := by decide
  have hN : Nmma = 8 := rfl
  rw [hN] at hcol
  have hjl : j < js.length := by
    by_contra h
    rw [List.getElem?_eq_none (by omega)] at hj
    cases hj
  have hjs : js ≠ [] := by
    intro h
    rw [h] at hjl
    exact Nat.not_lt_zero _ hjl
  have hlen : 0 < js.length := List.length_pos.mpr hjs
  have hcell : ∀ m, ji.cellC m col = jj.cellC m col := by
    intro m
    unfold job_t.cellC
    rw [hC, hSt]
  have h3 : 3 ≤ j - i := by
    by_contra h
    have : JobQueueReadBeforeWrite s.JobQueue_ = true := by
      rw [readBeforeWrite_exists]
      refine ⟨i, j, hij, ?_, by omega, Or.inr (Or.inr ?_)⟩
      · rw [hq, List.length_map]
        exact hjl
      · rw [hq, fresh_queue_job js i ji hi, fresh_queue_job js j jj hj]
        exact hC
    rw [hrbw] at this
    cases this
  rw [CyclesRequired_eq _ hlen hsmall]
  refine ⟨h3, hcell, ?_, ?_, ?_⟩
  · intro m st
    rw [hO, ioSetOut_some _ m col st hcol rfl]
    simp only
    rw [hcell]
  · intro N hNb
    obtain ⟨sN, h1, _, _, h4⟩ := ioSetIter_inFlight fp eval heval js s hq hp N hNb hjs
    refine ⟨sN, h1, ?_⟩
    intro p hpj hent
    rw [h4] at hent
    obtain ⟨a1, a2, _⟩ := inFlightAt_entry js N p _ hent
    simp only at a2
    have hW : 18 * i + 52 + 2 * col < N := by omega
    obtain ⟨sW, w1, _, _, w4⟩ := ioSetIter_inFlight fp eval heval js s hq hp
      (18 * i + 52 + 2 * col) (by omega) hjs
    have hr := retiredAfter_spec (18 * i + 52 + 2 * col)
    have hri : retiredAfter (18 * i + 52 + 2 * col) ≤ i := by omega
    refine ⟨18 * i + 52 + 2 * col, sW, hW, w1, hri, ?_⟩
    rw [w4, inFlightAt_getElem?, if_pos (by omega),
      show retiredAfter (18 * i + 52 + 2 * col) + (i - retiredAfter (18 * i + 52 + 2 * col)) = i
        by omega, hi, Option.map_some', hO]
    congr 2
    omega
  · obtain ⟨sN, h1, _, _, h4⟩ := ioSetIter_inFlight fp eval heval js s hq hp
      (18 * j + 2 * col) (by omega) hjs
    have hr := retiredAfter_spec (18 * j + 2 * col)
    have hrj : retiredAfter (18 * j + 2 * col) ≤ j := by omega
    refine ⟨sN, h1, hrj, ?_⟩
    rw [h4, inFlightAt_getElem?, if_pos (by omega),
      show retiredAfter (18 * j + 2 * col) + (j - retiredAfter (18 * j + 2 * col)) = j
        by omega, hj, Option.map_some']
    congr 2
    omega

theorem IoSet_acc_load_after_out_store_witness :
    (exampleAccSim.JobQueue_ = exampleAccJobs.map fresh ∧ portsFit exampleAccSim.Tb ∧
      67 + 18 * (exampleAccJobs.length - 1) < SIZE ∧
      JobQueueReadBeforeWrite exampleAccSim.JobQueue_ = false ∧
      exampleAccJobs[0]? = some (exampleJobNr 0) ∧
      exampleAccJobs[4]? = some { exampleJobNr 4 with MatC := (exampleJobNr 0).MatC } ∧
      0 < 4 ∧ 3 < Nmma) ∧
    ∃ sN, ioSetIter exampleFpu id (18 * 4 + 2 * 3) exampleAccSim = some sN ∧
      retiredAfter (18 * 4 + 2 * 3) ≤ 4 ∧
      (concurrentJobs sN.JobQueue_)[4 - retiredAfter (18 * 4 + 2 * 3)]?
        = some { JobCycle := 2 * 3,
                 Job := { exampleJobNr 4 with MatC := (exampleJobNr 0).MatC } } :=
  ⟨⟨rfl, portsFit_tbInit, by decide, by decide, by decide, by decide, by decide, by decide⟩,
    (IoSet_acc_load_after_out_store exampleFpu id exampleAccSim exampleAccJobs rfl
      portsFit_tbInit (fun _ h => h) (by decide) (by decide) 0 4 3 (exampleJobNr 0)
      { exampleJobNr 4 with MatC := (exampleJobNr 0).MatC } (by decide) (by decide)
      (by decide) (by decide) rfl rfl).2.2.2.2⟩

/-! ## The passes of the main loop of `ExecRtl` -/

theorem map_push_fst {α β : Type} (b : β) (o : Option (α × List β)) :
    (o.map fun x => (x.1, b :: x.2)).map Prod.fst = o.map Prod.fst := by
  cases o <;> rfl

theorem map_empty_fst {α β : Type} (o : Option α) :
    (o.map fun x => (x, ([] : List β))).map Prod.fst = o := by
  cases o <;> rfl

theorem execRtlLoopTrace_fst (fp : Fpu) (eval : testBench_t → testBench_t) (ft ftt : Bool) :
    ∀ (fuel : Nat) (s : SystolicArraySim),
      (execRtlLoopTrace fp eval ft ftt fuel s).map Prod.fst
        = execRtlLoop fp eval ft ftt fuel s := by
  intro fuel
  induction fuel with
  | zero => intro s; rfl
  | succ fuel ih =>
    intro s
    cases hq : s.JobQueue_ with
    | nil =>
      simp only [execRtlLoopTrace, execRtlLoop, hq]
      rfl
    | cons front rest =>
      simp only [execRtlLoopTrace, execRtlLoop, hq]
      generalize IoSet fp _ _ = r
      generalize (if fiMode.Transient = r.2.FaultRTL_.Mode then _ else _ : Int × testBench_t) = fiR
      by_cases h1 : r.1 ≠ 0
      · rw [if_pos h1, if_pos h1]
        rfl
      · rw [if_neg h1, if_neg h1]
        by_cases h2 : fiR.1 ≠ 0
        · rw [if_pos h2, if_pos h2]
          rfl
        · rw [if_neg h2, if_neg h2, map_push_fst]
          by_cases h3 : (decide (fiMode.Transient = r.2.FaultRTL_.Mode) && ft) = true
          · rw [if_pos h3, if_pos h3]
            cases r.2.JobQueue_ with
            | nil => exact ih _
            | cons f t =>
              simp only
              split_ifs <;> first | exact map_empty_fst _ | exact ih _
          · rw [if_neg h3, if_neg h3]
            exact ih _

theorem ExecRtlTrace_fst (fp : Fpu) (eval : testBench_t → testBench_t) (s : SystolicArraySim)
    (ft ftt : Bool) :
    (ExecRtlTrace fp eval s ft ftt).map Prod.fst = ExecRtl fp eval s ft ftt := by
  unfold ExecRtlTrace ExecRtl
  by_cases h0 : JobQueueReadBeforeWrite s.JobQueue_ = true
  · rw [if_pos h0, if_pos h0]
    rfl
  · rw [if_neg h0, if_neg h0]
    simp only
    generalize (if fiMode.Permanent = s.FaultRTL_.Mode then _ else _ : Int × testBench_t) = r0
    by_cases h1 : r0.1 ≠ 0
    · rw [if_pos h1, if_pos h1]
      rfl
    · rw [if_neg h1, if_neg h1]
      have hloop : ∀ r : Int × SystolicArraySim,
          Option.map Prod.fst
            (if r.1 ≠ 0 then some (r, ([] : List (Nat × List queueEntry_t)))
              else execRtlLoopTrace fp eval ft ftt (67 * r.2.JobQueue_.length + 1)
                { r.2 with Tb := { r.2.Tb with clk := 1 } })
          = if r.1 ≠ 0 then some r
            else execRtlLoop fp eval ft ftt (67 * r.2.JobQueue_.length + 1)
              { r.2 with Tb := { r.2.Tb with clk := 1 } } := by
        intro r
        by_cases h2 : r.1 ≠ 0
        · rw [if_pos h2, if_pos h2]
          rfl
        · rw [if_neg h2, if_neg h2]
          exact execRtlLoopTrace_fst fp eval ft ftt _ _
      generalize (if s.FaultRTLTransCycle_ > JobCycleDone_ then _ else _ : Nat) = jb
      by_cases c1 : (decide (fiMode.Transient = s.FaultRTL_.Mode) && ft) = true
      · simp only [if_pos c1]
        by_cases c2 : jb ≠ 0
        · simp only [if_pos c2]
          generalize ExecCsim fp _ _ = ec
          cases ec with
          | none => rfl
          | some r =>
            simp only
            by_cases c3 : r.1 ≠ 0
            · simp only [if_pos c3]
              exact hloop (-1, r.2)
            · simp only [if_neg c3]
              exact hloop (0, { r.2 with
                JobQueue_ := resetJobCycles r.2.JobQueue_, CycleCnt_ := CyclesRequired jb })
        · simp only [if_neg c2]
          exact hloop (0, { s with Tb := r0.2 })
      · simp only [if_neg c1]
        exact hloop (0, { s with Tb := r0.2 })

/-- The method `ExecRtl` returns, and the instrumented run returns the same. -/
theorem ExecRtlTrace_total (fp : Fpu) (eval : testBench_t → testBench_t) (s : SystolicArraySim)
    (ft ftt : Bool) :
    ∃ r tr, ExecRtlTrace fp eval s ft ftt = some (r, tr) ∧
      ExecRtl fp eval s ft ftt = some r := by
  obtain ⟨r, errs, h1, _, _⟩ := ExecRtlErrs_total fp eval s ft ftt
  have hfst := ExecRtlErrs_fst fp eval s ft ftt
  rw [h1] at hfst
  have htr := ExecRtlTrace_fst fp eval s ft ftt
  rw [← hfst] at htr
  cases hx : ExecRtlTrace fp eval s ft ftt with
  | none => rw [hx] at htr; cases htr
  | some x =>
    rw [hx] at htr
    refine ⟨x.1, x.2, rfl, ?_⟩
    rw [← hfst]
    exact htr.symm

theorem IoSet_keeps (fp : Fpu) (s : SystolicArraySim) (b : Bool) :
    (IoSet fp s b).2.CycleCnt_ = s.CycleCnt_ ∧ (IoSet fp s b).2.FaultRTL_ = s.FaultRTL_ ∧
      (IoSet fp s b).2.FaultRTLTransCycle_ = s.FaultRTLTransCycle_ := by
  unfold IoSet
  cases s.JobQueue_ with
  | nil => exact ⟨rfl, rfl, rfl⟩
  | cons front rest =>
    simp only
    split_ifs <;> exact ⟨rfl, rfl, rfl⟩

theorem fiRtl_ok (tb : testBench_t) (c1 c2 c3 : Prop) [Decidable c1] [Decidable c2]
    [Decidable c3] (m : List Nat) (a b : Nat) (hp : portsFit tb) :
    (if c1 then if c2 then if c3 then FiRtlApply tb m a b else (0, tb)
        else FiRtlReset tb else (0, tb)).1 = 0 ∧
    portsFit (if c1 then if c2 then if c3 then FiRtlApply tb m a b else (0, tb)
        else FiRtlReset tb else (0, tb)).2 := by
  split_ifs <;> exact ⟨rfl, hp⟩

/-- The first entry of the trace of a run of the main loop on a non-empty queue. -/
theorem execRtlLoopTrace_head (fp : Fpu) (eval : testBench_t → testBench_t) (ft ftt : Bool)
    (fuel : Nat) (s : SystolicArraySim)
    (x : (Int × SystolicArraySim) × List (Nat × List queueEntry_t))
    (h : execRtlLoopTrace fp eval ft ftt fuel s = some x) (hne : s.JobQueue_ ≠ []) :
    ∃ tl, x.2 = (s.CycleCnt_, concurrentJobs s.JobQueue_) :: tl := by
  cases fuel with
  | zero => cases h
  | succ fuel =>
    cases hq : s.JobQueue_ with
    | nil => exact absurd hq hne
    | cons front rest =>
      simp only [execRtlLoopTrace, hq] at h
      generalize IoSet fp _ _ = r at h
      generalize (if fiMode.Transient = r.2.FaultRTL_.Mode then _ else _ : Int × testBench_t)
        = fiR at h
      by_cases h1 : r.1 ≠ 0
      · rw [if_pos h1] at h
        injection h with h
        exact ⟨[], by rw [← h]⟩
      · rw [if_neg h1] at h
        by_cases h2 : fiR.1 ≠ 0
        · rw [if_pos h2] at h
          injection h with h
          exact ⟨[], by rw [← h]⟩
        · rw [if_neg h2, Option.map_eq_some'] at h
          obtain ⟨y, _, hy⟩ := h
          exact ⟨y.2, by rw [← hy]⟩

theorem execRtlLoopTrace_pass (fp : Fpu) (eval : testBench_t → testBench_t)
    (heval : ∀ tb, portsFit tb → portsFit (eval tb)) (ft ftt : Bool) (fuel : Nat)
    (s : SystolicArraySim) (t : Nat) (j : job_t) (rest : List job_t)
    (hq : s.JobQueue_ = sched t (j :: rest)) (ht : t ≤ 66) (hp : portsFit s.Tb)
    (hnf : ft = false ∨
      (s.CycleCnt_ ≤ s.FaultRTLTransCycle_ + 66 ∧ s.FaultRTLTransCycle_ + 67 < SIZE)) :
    ∃ s', execRtlLoopTrace fp eval ft ftt (fuel + 1) s
        = (execRtlLoopTrace fp eval ft ftt fuel s').map
            (fun x => (x.1, (s.CycleCnt_, concurrentJobs s.JobQueue_) :: x.2)) ∧
      portsFit s'.Tb ∧
      s'.JobQueue_ = (if t = 66 then sched 49 rest else sched (t + 1) (j :: rest)) ∧
      s'.CycleCnt_ = wrap (s.CycleCnt_ + 1) ∧ s'.FaultRTL_ = s.FaultRTL_ ∧
      s'.FaultRTLTransCycle_ = s.FaultRTLTransCycle_ := by
  have hS : SIZE = 18446744073709551616 := rfl
  have hP : JobCyclePassedFirstStage_ = 17 := by decide
  have hD : JobCycleDone_ = 66 := by decide
  have hq' : s.JobQueue_ = { JobCycle := t, Job := j } :: sched (t - 18) rest := by
    rw [hq]; simp only [sched, hP]
  have hstep := IoSet_sched_step fp
    { s with Tb := { s.Tb with clk := if s.Tb.clk ≠ 0 then 0 else 1 } }
    (decide ((if s.Tb.clk ≠ 0 then 0 else 1) ≠ 0)) t j rest hq ht hp
  have hk := IoSet_keeps fp
    { s with Tb := { s.Tb with clk := if s.Tb.clk ≠ 0 then 0 else 1 } }
    (decide ((if s.Tb.clk ≠ 0 then 0 else 1) ≠ 0))
  simp only at hk
  simp only [execRtlLoopTrace, hq']
  simp only [hq'] at hstep hk
  generalize IoSet fp _ _ = r at hstep hk ⊢
  have hfi := fiRtl_ok r.2.Tb (fiMode.Transient = r.2.FaultRTL_.Mode)
    (r.2.CycleCnt_ = r.2.FaultRTLTransCycle_) ((!ftt) = true)
    r.2.FaultRTL_.ModuleInstanceChain r.2.FaultRTL_.AssignUUID r.2.FaultRTL_.BitPos hstep.2.1
  generalize (if fiMode.Transient = r.2.FaultRTL_.Mode then _ else _ : Int × testBench_t)
    = fiR at hfi ⊢
  rw [if_neg (by rw [hstep.1]; simp), if_neg (by rw [hfi.1]; simp)]
  refine ⟨{ r.2 with
      Tb := eval fiR.2, CycleCnt_ := wrap (r.2.CycleCnt_ + 1),
      DieError_ := if (eval fiR.2).error then true else r.2.DieError_ }, ?_,
    heval _ hfi.2, hstep.2.2, by rw [← hk.1], hk.2.1, hk.2.2⟩
  congr 1
  by_cases h3 : (decide (fiMode.Transient = r.2.FaultRTL_.Mode) && ft) = true
  · rw [if_pos h3]
    have hft : ft = true := by
      rw [Bool.and_eq_true] at h3
      exact h3.2
    have hb : s.CycleCnt_ ≤ s.FaultRTLTransCycle_ + 66 ∧ s.FaultRTLTransCycle_ + 67 < SIZE := by
      rcases hnf with h | h
      · rw [h] at hft
        cases hft
      · exact h
    split
    · rw [if_neg]
      intro hfl
      have h1 := hfl.1
      simp only at h1
      rw [hk.1, hk.2.2, hD, wrap_of_lt (show s.CycleCnt_ + 1 < SIZE by omega),
        wrap_of_lt (show s.FaultRTLTransCycle_ + 66 < SIZE by omega),
        wrap_of_lt (show s.FaultRTLTransCycle_ + 66 + 1 < SIZE by omega)] at h1
      omega
    · rfl
  · rw [if_neg h3]

theorem sched_advance (js : List job_t) (hjs : js ≠ []) (m : Nat)
    (hm : m < 67 + 18 * (js.length - 1)) :
    ∃ j rest, js.drop (retiredAfter m) = j :: rest ∧ m - 18 * retiredAfter m ≤ 66 ∧
      (if m - 18 * retiredAfter m = 66 then sched 49 rest
        else sched (m - 18 * retiredAfter m + 1) (j :: rest))
      = sched (m + 1 - 18 * retiredAfter (m + 1)) (js.drop (retiredAfter (m + 1))) := by
  have hlen : 0 < js.length := List.length_pos.mpr hjs
  have hm0 := retiredAfter_spec m
  have hm1 := retiredAfter_spec (m + 1)
  have hr : retiredAfter m < js.length := by omega
  obtain ⟨j, rest, hdrop⟩ : ∃ j rest, js.drop (retiredAfter m) = j :: rest := by
    cases h : js.drop (retiredAfter m) with
    | nil => rw [List.drop_eq_nil_iff] at h; omega
    | cons j rest => exact ⟨j, rest, rfl⟩
  refine ⟨j, rest, hdrop, by omega, ?_⟩
  by_cases h66 : m - 18 * retiredAfter m = 66
  · rw [if_pos h66]
    have hr1 : retiredAfter (m + 1) = retiredAfter m + 1 := by omega
    rw [hr1, ← List.drop_drop, hdrop]
    simp only [List.drop_succ_cons, List.drop_zero]
    congr 1
    omega
  · rw [if_neg h66]
    have hr1 : retiredAfter (m + 1) = retiredAfter m := by omega
    rw [hr1, hdrop]
    congr 1
    omega

theorem map_map_trace {α β : Type} (o : Option (α × List β)) (a : β) (l : List β) :
    (o.map fun x => (x.1, l ++ x.2)).map (fun x => (x.1, a :: x.2))
      = o.map fun x => (x.1, (a :: l) ++ x.2) := by
  cases o <;> rfl

/-- The first `n` passes of the main loop of `ExecRtl` on a queue that started
fresh `m` calls of `IoSet` ago, none of them late enough for the flush. -/
theorem execRtlLoopTrace_run (fp : Fpu) (eval : testBench_t → testBench_t)
    (heval : ∀ tb, portsFit tb → portsFit (eval tb)) (ft ftt : Bool) (js : List job_t)
    (hjs : js ≠ []) :
    ∀ (n m fuel : Nat) (s : SystolicArraySim), portsFit s.Tb →
      s.JobQueue_ = sched (m - 18 * retiredAfter m) (js.drop (retiredAfter m)) →
      m + n ≤ 67 + 18 * (js.length - 1) →
      (ft = false ∨
        (s.CycleCnt_ + n ≤ s.FaultRTLTransCycle_ + 67 ∧ s.FaultRTLTransCycle_ + 67 < SIZE)) →
      s.CycleCnt_ + n < SIZE →
      ∃ s', execRtlLoopTrace fp eval ft ftt (n + fuel) s
          = (execRtlLoopTrace fp eval ft ftt fuel s').map
              (fun x => (x.1, (List.range n).map
                (fun i => (s.CycleCnt_ + i, inFlightAt js (m + i))) ++ x.2)) ∧
        portsFit s'.Tb ∧
        s'.JobQueue_
          = sched (m + n - 18 * retiredAfter (m + n)) (js.drop (retiredAfter (m + n))) ∧
        s'.CycleCnt_ = s.CycleCnt_ + n ∧ s'.FaultRTL_ = s.FaultRTL_ ∧
        s'.FaultRTLTransCycle_ = s.FaultRTLTransCycle_ := by
  have hS : SIZE = 18446744073709551616 := rfl
  intro n
  induction n with
  | zero =>
    intro m fuel s hp hq _ _ _
    refine ⟨s, ?_, hp, hq, rfl, rfl, rfl⟩
    rw [Nat.zero_add]
    cases execRtlLoopTrace fp eval ft ftt fuel s <;> rfl
  | succ n ih =>
    intro m fuel s hp hq hmn hnf hc
    obtain ⟨j, rest, hdrop, ht, hadv⟩ := sched_advance js hjs m (by omega)
    have hq2 := hq
    rw [hdrop] at hq2
    obtain ⟨s1, e1, p1, q1, c1, f1, g1⟩ := execRtlLoopTrace_pass fp eval heval ft ftt
      (n + fuel) s _ j rest hq2 ht hp (by
        rcases hnf with h | h
        · exact Or.inl h
        · exact Or.inr ⟨by omega, h.2⟩)
    rw [hadv] at q1
    rw [wrap_of_lt (by omega)] at c1
    obtain ⟨s2, e2, p2, q2, c2, f2, g2⟩ := ih (m + 1) fuel s1 p1 q1 (by omega) (by
        rcases hnf with h | h
        · exact Or.inl h
        · rw [c1, g1]
          exact Or.inr ⟨by omega, h.2⟩) (by omega)
    refine ⟨s2, ?_, p2, ?_, by omega, f2.trans f1, g2.trans g1⟩
    · rw [show n + 1 + fuel = n + fuel + 1 by omega, e1, e2, map_map_trace]
      congr 1
      funext x
      congr 2
      rw [List.range_succ_eq_map, List.map_cons, Nat.add_zero, Nat.add_zero, hq]
      congr 1
      rw [c1, List.map_map]
      apply List.map_congr_left
      intro i _
      simp only [Function.comp]
      rw [show s.CycleCnt_ + 1 + i = s.CycleCnt_ + (i + 1) by omega,
        show m + 1 + i = m + (i + 1) by omega]
    · rw [q2]
      rw [show m + 1 + n = m + (n + 1) by omega]

theorem servicedAt_run (c0 n : Nat) (g : Nat → List queueEntry_t) (c : List queueEntry_t)
    (tl : List (Nat × List queueEntry_t)) :
    servicedAt (c0 + n) ((List.range n).map (fun i => (c0 + i, g i)) ++ (c0 + n, c) :: tl)
      = some c := by
  unfold servicedAt
  rw [List.find?_append]
  have hnone : ((List.range n).map (fun i => (c0 + i, g i))).find?
      (fun x => x.1 == c0 + n) = none := by
    rw [List.find?_eq_none]
    intro x hx
    rw [List.mem_map] at hx
    obtain ⟨i, hi, rfl⟩ := hx
    rw [List.mem_range] at hi
    simp only [beq_iff_eq]
    omega
  rw [hnone]
  simp

theorem resetJobCycles_fresh (js : List job_t) : resetJobCycles (js.map fresh) = js.map fresh := by
  unfold resetJobCycles
  rw [List.map_map]
  rfl

theorem ExecCsim_fresh_queue (fp : Fpu) (s : SystolicArraySim) (js : List job_t)
    (maxJobs : Nat) (hq : s.JobQueue_ = js.map fresh) (hlen : js.length < SIZE)
    (hfr : s.FaultCsim_.Row < 8) (hcyc : s.CycleCnt_ < SIZE) :
    ∃ s', ExecCsim fp s maxJobs = some (0, s') ∧
      s'.JobQueue_ = (js.drop (min maxJobs js.length)).map fresh ∧ csimKeeps s s' := by
  have hS : SIZE = 18446744073709551616 := rfl
  have hNle : min maxJobs js.length ≤ js.length := Nat.min_le_right _ _
  have hNle' : min maxJobs js.length ≤ maxJobs := Nat.min_le_left _ _
  have htl : (js.take (min maxJobs js.length)).length = min maxJobs js.length := by
    rw [List.length_take]; omega
  have hdl : ((js.drop (min maxJobs js.length)).map fresh).length
      = js.length - min maxJobs js.length := by
    rw [List.length_map, List.length_drop]
  have hsplit : s.JobQueue_ = (js.take (min maxJobs js.length)).map fresh
      ++ (js.drop (min maxJobs js.length)).map fresh := by
    rw [← List.map_append, List.take_append_drop]; exact hq
  obtain ⟨s', e1, q1, _, k1, _, _⟩ :=
    execCsim_jobs fp js.length maxJobs ((js.drop (min maxJobs js.length)).map fresh)
      (js.take (min maxJobs js.length)) s (9 * js.length - 8 * min maxJobs js.length + 1)
      hsplit hfr hcyc (by
        intro i hi
        rw [htl] at hi ⊢
        rw [hdl, subw_of_le (by omega) hlen]
        omega)
  rw [htl] at e1
  have hfuel : 9 * js.length + 1
      = 8 * min maxJobs js.length + (9 * js.length - 8 * min maxJobs js.length + 1) := by omega
  have hdone : ExecCsimLoop fp js.length maxJobs
      (9 * js.length - 8 * min maxJobs js.length + 1) s' = some (0, s') := by
    apply ExecCsimLoop_done
    rw [q1, hdl]
    by_cases hlt : min maxJobs js.length < js.length
    · right
      rw [subw_of_le (by omega) hlen]
      omega
    · left
      have : min maxJobs js.length = js.length := by omega
      rw [this, List.drop_length]
      rfl
  refine ⟨s', ?_, q1, k1⟩
  unfold ExecCsim
  rw [hq, List.length_map, hfuel, e1, hdone]

/-- The instrumented `ExecRtl` when no job is skipped. -/
theorem ExecRtlTrace_no_skip (fp : Fpu) (eval : testBench_t → testBench_t)
    (s : SystolicArraySim) (ft ftt : Bool)
    (hrbw : JobQueueReadBeforeWrite s.JobQueue_ = false)
    (hmode : fiMode.Transient = s.FaultRTL_.Mode)
    (hns : ft = false ∨ jobsBefore s.FaultRTLTransCycle_ = 0) :
    ExecRtlTrace fp eval s ft ftt
      = execRtlLoopTrace fp eval ft ftt (67 * s.JobQueue_.length + 1)
          { s with Tb := { (FiRtlReset s.Tb).2 with clk := 1 } } := by
  unfold ExecRtlTrace
  rw [if_neg (by rw [hrbw]; simp)]
  simp only
  rw [if_neg (show ¬ fiMode.Permanent = s.FaultRTL_.Mode by rw [← hmode]; decide)]
  rw [if_neg (show ¬ (FiRtlReset s.Tb).1 ≠ 0 by simp [FiRtlReset])]
  rcases hns with h | h
  · subst h
    simp only [Bool.and_false, Bool.false_eq_true, if_false]
    all_goals rfl
  · have hjb : (if s.FaultRTLTransCycle_ > JobCycleDone_ then
        JobsDoneInCycles (subw s.FaultRTLTransCycle_ JobCycleDone_) else 0) = 0 := h
    by_cases c1 : (decide (fiMode.Transient = s.FaultRTL_.Mode) && ft) = true
    · simp only [if_pos c1]
      rw [hjb]
      simp only [ne_eq, not_true_eq_false, if_false]
    · simp only [if_neg c1]
      all_goals rfl

/-- The instrumented `ExecRtl` when `jobsBefore` jobs are run by `ExecCsim`. -/
theorem ExecRtlTrace_skip (fp : Fpu) (eval : testBench_t → testBench_t)
    (s s' : SystolicArraySim) (ftt : Bool)
    (hrbw : JobQueueReadBeforeWrite s.JobQueue_ = false)
    (hmode : fiMode.Transient = s.FaultRTL_.Mode)
    (hjb : jobsBefore s.FaultRTLTransCycle_ ≠ 0)
    (hcsim : ExecCsim fp { s with Tb := (FiRtlReset s.Tb).2 } (jobsBefore s.FaultRTLTransCycle_)
      = some (0, s')) :
    ExecRtlTrace fp eval s true ftt
      = execRtlLoopTrace fp eval true ftt (67 * (resetJobCycles s'.JobQueue_).length + 1)
          { s' with
            JobQueue_ := resetJobCycles s'.JobQueue_,
            CycleCnt_ := CyclesRequired (jobsBefore s.FaultRTLTransCycle_),
            Tb := { s'.Tb with clk := 1 } } := by
  have hjb' : (if s.FaultRTLTransCycle_ > JobCycleDone_ then
      JobsDoneInCycles (subw s.FaultRTLTransCycle_ JobCycleDone_) else 0)
      = jobsBefore s.FaultRTLTransCycle_ := rfl
  unfold ExecRtlTrace
  rw [if_neg (by rw [hrbw]; simp)]
  simp only
  rw [if_neg (show ¬ fiMode.Permanent = s.FaultRTL_.Mode by rw [← hmode]; decide)]
  rw [if_neg (show ¬ (FiRtlReset s.Tb).1 ≠ 0 by simp [FiRtlReset])]
  have c1 : (decide (fiMode.Transient = s.FaultRTL_.Mode) && true) = true := by
    rw [Bool.and_true, decide_eq_true_eq]
    exact hmode
  simp only [if_pos c1]
  rw [hjb']
  simp only [if_pos hjb]
  rw [hcsim]
  simp only [ne_eq, not_true_eq_false, if_false]

/-! ## The fast-transient skip of `ExecRtl` -/

theorem jobsBefore_eq (f : Nat) (hf : f < SIZE) :
    jobsBefore f
      = if f ≤ 131 then 0 else if f = 132 then SIZE_MAX / 18 + 1 else (f - 133) / 18 + 1 := by
  have hS : SIZE = 18446744073709551616 := rfl
  have hD : JobCycleDone_ = 66 := by decide
  unfold jobsBefore
  rw [hD]
  by_cases h66 : f > 66
  · rw [if_pos h66, subw_of_le (by omega) hf]
    by_cases h131 : f ≤ 131
    · rw [if_pos h131]
      unfold JobsDoneInCycles
      rw [hD, if_pos (by omega)]
    · rw [if_neg h131]
      by_cases h132 : f = 132
      · rw [if_pos h132, h132]
        decide
      · rw [if_neg h132, JobsDoneInCycles_eq _ (by omega) (by omega)]
        omega
  · rw [if_neg h66, if_pos (by omega)]

theorem inFlightAt_ne_nil (js : List job_t) (n : Nat) (hn : n < 67 + 18 * (js.length - 1))
    (hjs : js ≠ []) : inFlightAt js n ≠ [] := by
  have hlen : 0 < js.length := List.length_pos.mpr hjs
  have hr := retiredAfter_spec n
  intro h
  have hl := congrArg List.length h
  rw [inFlightAt_length, List.length_nil] at hl
  omega

/-- The pass of the main loop in which the transient fault is applied, for a
run of the loop that starts with a fresh queue. -/
theorem execRtlLoopTrace_fault_pass (fp : Fpu) (eval : testBench_t → testBench_t)
    (heval : ∀ tb, portsFit tb → portsFit (eval tb)) (ft ftt : Bool) (js : List job_t)
    (hjs : js ≠ []) (s : SystolicArraySim) (hq : s.JobQueue_ = js.map fresh)
    (hp : portsFit s.Tb) (hc : s.CycleCnt_ ≤ s.FaultRTLTransCycle_)
    (hn : s.FaultRTLTransCycle_ - s.CycleCnt_ < 67 + 18 * (js.length - 1))
    (hsize : s.FaultRTLTransCycle_ + 67 < SIZE)
    (r : Int × SystolicArraySim) (tr : List (Nat × List queueEntry_t))
    (h : execRtlLoopTrace fp eval ft ftt (67 * js.length + 1) s = some (r, tr)) :
    servicedAt s.FaultRTLTransCycle_ tr
      = some (inFlightAt js (s.FaultRTLTransCycle_ - s.CycleCnt_)) := by
  have hlen : 0 < js.length := List.length_pos.mpr hjs
  have hq0 : s.JobQueue_ = sched (0 - 18 * retiredAfter 0) (js.drop (retiredAfter 0)) := by
    rw [hq, show retiredAfter 0 = 0 from rfl, List.drop_zero, sched_zero]
    rfl
  obtain ⟨s', e1, _, q1, c1, _, _⟩ := execRtlLoopTrace_run fp eval heval ft ftt js hjs
    (s.FaultRTLTransCycle_ - s.CycleCnt_) 0
    (67 * js.length + 1 - (s.FaultRTLTransCycle_ - s.CycleCnt_)) s hp hq0 (by omega)
    (Or.inr ⟨by omega, hsize⟩) (by omega)
  rw [show s.FaultRTLTransCycle_ - s.CycleCnt_
      + (67 * js.length + 1 - (s.FaultRTLTransCycle_ - s.CycleCnt_)) = 67 * js.length + 1
    by omega, h] at e1
  have e1' := e1.symm
  rw [Option.map_eq_some'] at e1'
  obtain ⟨x, hx, hxr⟩ := e1'
  rw [Nat.zero_add] at q1
  have hne : s'.JobQueue_ ≠ [] := by
    have hr := retiredAfter_spec (s.FaultRTLTransCycle_ - s.CycleCnt_)
    intro h0
    have hl := congrArg List.length h0
    rw [q1, sched_length, List.length_drop, List.length_nil] at hl
    omega
  obtain ⟨tl, htl⟩ := execRtlLoopTrace_head fp eval ft ftt _ s' x hx hne
  have htr : tr = (List.range (s.FaultRTLTransCycle_ - s.CycleCnt_)).map
      (fun i => (s.CycleCnt_ + i, inFlightAt js (0 + i)))
      ++ (s.CycleCnt_ + (s.FaultRTLTransCycle_ - s.CycleCnt_),
          inFlightAt js (s.FaultRTLTransCycle_ - s.CycleCnt_)) :: tl := by
    have h2 := congrArg Prod.snd hxr
    simp only at h2
    rw [← h2, htl, c1, q1]
    rfl
  rw [htr]
  have hrun := servicedAt_run s.CycleCnt_ (s.FaultRTLTransCycle_ - s.CycleCnt_)
    (fun i => inFlightAt js (0 + i)) (inFlightAt js (s.FaultRTLTransCycle_ - s.CycleCnt_)) tl
  rw [show s.CycleCnt_ + (s.FaultRTLTransCycle_ - s.CycleCnt_) = s.FaultRTLTransCycle_
    by omega] at hrun ⊢
  exact hrun

/-- The entries serviced in the pass of `ExecRtl` in which the transient fault
is applied: without the skip the run has made `f` calls of `IoSet` on the whole
queue; with the skip the jobs from `jobsBefore f` on have been serviced since
the counter was set to `CyclesRequired (jobsBefore f)`. -/
theorem ExecRtlTrace_fault_pass (fp : Fpu) (eval : testBench_t → testBench_t)
    (heval : ∀ tb, portsFit tb → portsFit (eval tb)) (s : SystolicArraySim) (js : List job_t)
    (ft ftt : Bool) (hq : s.JobQueue_ = js.map fresh) (hjs : js ≠ []) (hp : portsFit s.Tb)
    (hsmall : 67 * js.length + 67 < SIZE)
    (hrbw : JobQueueReadBeforeWrite s.JobQueue_ = false)
    (hmode : fiMode.Transient = s.FaultRTL_.Mode) (hrow : s.FaultCsim_.Row < 8)
    (hc0 : s.CycleCnt_ = 0) (hf : s.FaultRTLTransCycle_ < 67 + 18 * (js.length - 1))
    (hne : ft = true → s.FaultRTLTransCycle_ ≠ 132) :
    ∃ r tr, ExecRtlTrace fp eval s ft ftt = some (r, tr) ∧
      ExecRtl fp eval s ft ftt = some r ∧
      servicedAt s.FaultRTLTransCycle_ tr
        = some (inFlightAt (js.drop (if ft then jobsBefore s.FaultRTLTransCycle_ else 0))
            (s.FaultRTLTransCycle_
              - CyclesRequired (if ft then jobsBefore s.FaultRTLTransCycle_ else 0))) := by
  have hS : SIZE = 18446744073709551616 := rfl
  have hlen : 0 < js.length := List.length_pos.mpr hjs
  have hjb := jobsBefore_eq s.FaultRTLTransCycle_ (by omega)
  obtain ⟨r, tr, htr, hr⟩ := ExecRtlTrace_total fp eval s ft ftt
  refine ⟨r, tr, htr, hr, ?_⟩
  by_cases hskip : ft = true ∧ jobsBefore s.FaultRTLTransCycle_ ≠ 0
  · obtain ⟨hft, hj0⟩ := hskip
    subst hft
    have h132 := hne rfl
    have h133 : 133 ≤ s.FaultRTLTransCycle_ := by
      by_contra hlt
      rw [if_pos (by omega)] at hjb
      exact hj0 hjb
    rw [if_neg (by omega), if_neg h132] at hjb
    have hjl : jobsBefore s.FaultRTLTransCycle_ < js.length := by omega
    obtain ⟨s', hcs, q1, k1⟩ := ExecCsim_fresh_queue fp
      { s with Tb := (FiRtlReset s.Tb).2 } js (jobsBefore s.FaultRTLTransCycle_) hq (by omega)
      hrow (by show s.CycleCnt_ < SIZE; omega)
    rw [Nat.min_eq_left (Nat.le_of_lt hjl)] at q1
    rw [ExecRtlTrace_skip fp eval s s' ftt hrbw hmode hj0 hcs, q1, resetJobCycles_fresh,
      List.length_map] at htr
    have hC := CyclesRequired_eq (jobsBefore s.FaultRTLTransCycle_) (by omega) (by omega)
    have hfs : s'.FaultRTLTransCycle_ = s.FaultRTLTransCycle_ := k1.2.2.2.1
    have hTb : s'.Tb = (FiRtlReset s.Tb).2 := k1.2.2.2.2.1
    have hdne : js.drop (jobsBefore s.FaultRTLTransCycle_) ≠ [] := by
      intro h0
      rw [List.drop_eq_nil_iff] at h0
      omega
    have hmain := execRtlLoopTrace_fault_pass fp eval heval true ftt
      (js.drop (jobsBefore s.FaultRTLTransCycle_)) hdne
      { s' with
        JobQueue_ := (js.drop (jobsBefore s.FaultRTLTransCycle_)).map fresh,
        CycleCnt_ := CyclesRequired (jobsBefore s.FaultRTLTransCycle_),
        Tb := { s'.Tb with clk := 1 } } rfl
      (by rw [hTb]; exact hp)
      (by show CyclesRequired _ ≤ s'.FaultRTLTransCycle_; rw [hfs, hC]; omega)
      (by
        show s'.FaultRTLTransCycle_ - CyclesRequired _ < _
        rw [hfs, hC, List.length_drop]
        omega)
      (by show s'.FaultRTLTransCycle_ + 67 < SIZE; rw [hfs]; omega)
      r tr htr
    have hm : servicedAt s'.FaultRTLTransCycle_ tr
        = some (inFlightAt (js.drop (jobsBefore s.FaultRTLTransCycle_))
            (s'.FaultRTLTransCycle_ - CyclesRequired (jobsBefore s.FaultRTLTransCycle_))) :=
      hmain
    rw [hfs] at hm
    simp only [if_true]
    exact hm
  · have hns : ft = false ∨ jobsBefore s.FaultRTLTransCycle_ = 0 := by
      by_cases hft : ft = true
      · right
        by_contra h0
        exact hskip ⟨hft, h0⟩
      · left
        simpa using hft
    have hz : (if ft = true then jobsBefore s.FaultRTLTransCycle_ else 0) = 0 := by
      rcases hns with h | h
      · rw [h]
        rfl
      · rw [h]
        split_ifs <;> rfl
    rw [ExecRtlTrace_no_skip fp eval s ft ftt hrbw hmode hns, hq, List.length_map] at htr
    have hmain := execRtlLoopTrace_fault_pass fp eval heval ft ftt js hjs
      { s with Tb := { (FiRtlReset s.Tb).2 with clk := 1 } } hq hp
      (by show s.CycleCnt_ ≤ s.FaultRTLTransCycle_; omega)
      (by show s.FaultRTLTransCycle_ - s.CycleCnt_ < _; omega)
      (by show s.FaultRTLTransCycle_ + 67 < SIZE; omega)
      r tr (by rw [hq]; exact htr)
    rw [hz, List.drop_zero, show CyclesRequired 0 = 0 from rfl, Nat.sub_zero]
    have hm : servicedAt s.FaultRTLTransCycle_ tr
        = some (inFlightAt js (s.FaultRTLTransCycle_ - s.CycleCnt_)) := hmain
    rw [hc0, Nat.sub_zero] at hm
    exact hm

/-- C32: on a queue of `L >= 1` freshly dispatched jobs with a transient fault
cycle `f < CyclesRequired L`, the number `jobsBefore` of jobs that `ExecRtl`
with `fastTransient` runs through the C model satisfies `jobsBefore < L` and
`CyclesRequired jobsBefore <= f` for every `f` other than 132
(`2 * JobCycleDone_`); for `f = 132`, which needs `L >= 5`,
`JobsDoneInCycles (66)` underflows: `jobsBefore` is `SIZE_MAX / 18 + 1`, not
below `L`, `ExecCsim` runs every job, the main loop makes no pass, and `ExecRtl`
returns 0 with an empty queue and a netlist that was never evaluated. -/
theorem ExecRtl_jobsBefore_bound (fp : Fpu) (eval : testBench_t → testBench_t)
    (s : SystolicArraySim) (js : List job_t) (ftt : Bool) (hq : s.JobQueue_ = js.map fresh)
    (hjs : js ≠ []) (hsmall : 67 * js.length + 67 < SIZE)
    (hrbw : JobQueueReadBeforeWrite s.JobQueue_ = false)
    (hmode : fiMode.Transient = s.FaultRTL_.Mode) (hrow : s.FaultCsim_.Row < Mmma)
    (hcyc : s.CycleCnt_ < SIZE) (hf : s.FaultRTLTransCycle_ < CyclesRequired js.length) :
    (s.FaultRTLTransCycle_ ≠ 132 →
      jobsBefore s.FaultRTLTransCycle_ < js.length ∧
      CyclesRequired (jobsBefore s.FaultRTLTransCycle_) ≤ s.FaultRTLTransCycle_) ∧
    (s.FaultRTLTransCycle_ = 132 →
      5 ≤ js.length ∧ jobsBefore s.FaultRTLTransCycle_ = SIZE_MAX / 18 + 1 ∧
      js.length ≤ jobsBefore s.FaultRTLTransCycle_ ∧
      CyclesRequired (jobsBefore s.FaultRTLTransCycle_) = 51 ∧
      ∃ s', ExecRtl fp eval s true ftt = some (0, s') ∧
        ExecRtlTrace fp eval s true ftt = some ((0, s'), []) ∧
        s'.JobQueue_ = [] ∧ s'.Tb = { (FiRtlReset s.Tb).2 with clk := 1 }) := by
  have hS : SIZE = 18446744073709551616 := rfl
  have hM : SIZE_MAX / 18 + 1 = 1024819115206086201 := by decide
  have hlen : 0 < js.length := List.length_pos.mpr hjs
  rw [CyclesRequired_eq _ hlen (by omega)] at hf
  have hjb := jobsBefore_eq s.FaultRTLTransCycle_ (by omega)
  constructor
  · intro hne
    by_cases h131 : s.FaultRTLTransCycle_ ≤ 131
    · rw [if_pos h131] at hjb
      rw [hjb]
      exact ⟨hlen, Nat.zero_le _⟩
    · rw [if_neg h131, if_neg hne] at hjb
      rw [CyclesRequired_eq _ (by omega) (by omega)]
      omega
  · intro h132
    rw [if_neg (by omega), if_pos h132] at hjb
    have hL : js.length ≤ jobsBefore s.FaultRTLTransCycle_ := by omega
    have hj0 : jobsBefore s.FaultRTLTransCycle_ ≠ 0 := by omega
    obtain ⟨s', hcs, q1, k1⟩ := ExecCsim_fresh_queue fp
      { s with Tb := (FiRtlReset s.Tb).2 } js (jobsBefore s.FaultRTLTransCycle_) hq (by omega)
      hrow hcyc
    rw [Nat.min_eq_right hL, List.drop_length] at q1
    have hTb : s'.Tb = (FiRtlReset s.Tb).2 := k1.2.2.2.2.1
    have htr := ExecRtlTrace_skip fp eval s s' ftt hrbw hmode hj0 hcs
    rw [q1] at htr
    have htr' : ExecRtlTrace fp eval s true ftt
        = some ((0, { s' with
            JobQueue_ := [],
            CycleCnt_ := CyclesRequired (jobsBefore s.FaultRTLTransCycle_),
            Tb := { s'.Tb with clk := 1 } }), []) := htr
    have hfst := ExecRtlTrace_fst fp eval s true ftt
    rw [htr'] at hfst
    refine ⟨by omega, hjb, hL, by rw [hjb]; decide, _, hfst.symm, htr', rfl, ?_⟩
    show { s'.Tb with clk := 1 } = _
    rw [hTb]

theorem ExecRtl_jobsBefore_bound_witness :
    ((exampleTransientSim 132).JobQueue_ = exampleJobs.map fresh ∧ exampleJobs ≠ [] ∧
      67 * exampleJobs.length + 67 < SIZE ∧
      JobQueueReadBeforeWrite (exampleTransientSim 132).JobQueue_ = false ∧
      fiMode.Transient = (exampleTransientSim 132).FaultRTL_.Mode ∧
      (exampleTransientSim 132).FaultCsim_.Row < Mmma ∧
      (exampleTransientSim 132).CycleCnt_ < SIZE ∧
      (exampleTransientSim 132).FaultRTLTransCycle_ < CyclesRequired exampleJobs.length ∧
      (exampleTransientSim 132).FaultRTLTransCycle_ = 132) ∧
    exampleJobs.length ≤ jobsBefore (exampleTransientSim 132).FaultRTLTransCycle_ ∧
    ∃ s', ExecRtl exampleFpu id (exampleTransientSim 132) true false = some (0, s') ∧
      ExecRtlTrace exampleFpu id (exampleTransientSim 132) true false = some ((0, s'), []) ∧
      s'.JobQueue_ = [] ∧
      s'.Tb = { (FiRtlReset (exampleTransientSim 132).Tb).2 with clk := 1 } :=
  ⟨⟨rfl, by decide, by decide, by decide, rfl, by decide, by decide, by decide, rfl⟩,
    ((ExecRtl_jobsBefore_bound exampleFpu id (exampleTransientSim 132) exampleJobs false rfl
      (by decide) (by decide) (by decide) rfl (by decide) (by decide) (by decide)).2 rfl).2.2.1,
    ((ExecRtl_jobsBefore_bound exampleFpu id (exampleTransientSim 132) exampleJobs false rfl
      (by decide) (by decide) (by decide) rfl (by decide) (by decide)
      (by decide)).2 rfl).2.2.2.2⟩

/-- C35 (counterexample): with the five example jobs and the transient fault at
cycle 138, the pass in which the fault is applied services the fifth job at job
cycle 66 when `fastTransient` is false, but the third, fourth and fifth job at
the job cycles 53, 35 and 17 when `fastTransient` is true. -/
theorem ExecRtl_fast_phase_differs :
    (ExecRtlTrace exampleFpu id (exampleTransientSim 138) false false).map
        (fun x => servicedAt 138 x.2)
      = some (some [{ JobCycle := 66, Job := exampleJobNr 4 }]) ∧
    (ExecRtlTrace exampleFpu id (exampleTransientSim 138) true false).map
        (fun x => servicedAt 138 x.2)
      = some (some [{ JobCycle := 53, Job := exampleJobNr 2 },
          { JobCycle := 35, Job := exampleJobNr 3 },
          { JobCycle := 17, Job := exampleJobNr 4 }]) := by
  obtain ⟨r1, tr1, h1, _, s1⟩ := ExecRtlTrace_fault_pass exampleFpu id (fun _ h => h)
    (exampleTransientSim 138) exampleJobs false false rfl (by decide) portsFit_tbInit
    (by decide) (by decide) rfl (by decide) rfl (by decide) (by intro h; cases h)
  obtain ⟨r2, tr2, h2, _, s2⟩ := ExecRtlTrace_fault_pass exampleFpu id (fun _ h => h)
    (exampleTransientSim 138) exampleJobs true false rfl (by decide) portsFit_tbInit
    (by decide) (by decide) rfl (by decide) rfl (by decide) (by intro _; decide)
  have e1 : servicedAt 138 tr1 = some [{ JobCycle := 66, Job := exampleJobNr 4 }] :=
    s1.trans (by decide)
  have e2 : servicedAt 138 tr2 = some [{ JobCycle := 53, Job := exampleJobNr 2 },
      { JobCycle := 35, Job := exampleJobNr 3 },
      { JobCycle := 17, Job := exampleJobNr 4 }] := s2.trans (by decide)
  rw [h1, h2, Option.map_some', Option.map_some', e1, e2]
  exact ⟨rfl, rfl⟩

/-- C35 (amended): on a queue of `L >= 1` freshly dispatched jobs with the cycle
counter at 0 and a transient fault cycle `f < CyclesRequired L`, `ExecRtl`
returns in either mode; without `fastTransient` the pass with `CycleCnt_ = f`
services the entries a run of `f` calls of `IoSet` on the whole queue has in
flight; with `fastTransient` and `f <= 131` no job is skipped and the pass
services the same entries at the same job cycles; with `fastTransient` and
`f >= 133` the jobs from `jobsBefore f` on restart at job cycle 0 with the
counter at `CyclesRequired (jobsBefore f)`, both runs have entries in flight in
that pass, and no entry of the fast run is at the job cycle of an entry of the
run without the skip. -/
theorem ExecRtl_fast_fault_phase (fp : Fpu) (eval : testBench_t → testBench_t)
    (s : SystolicArraySim) (js : List job_t) (ftt : Bool) (hq : s.JobQueue_ = js.map fresh)
    (hjs : js ≠ []) (hp : portsFit s.Tb) (heval : ∀ tb, portsFit tb → portsFit (eval tb))
    (hsmall : 67 * js.length + 67 < SIZE)
    (hrbw : JobQueueReadBeforeWrite s.JobQueue_ = false)
    (hmode : fiMode.Transient = s.FaultRTL_.Mode) (hrow : s.FaultCsim_.Row < Mmma)
    (hc0 : s.CycleCnt_ = 0) (hf : s.FaultRTLTransCycle_ < CyclesRequired js.length) :
    (∃ r tr, ExecRtlTrace fp eval s false ftt = some (r, tr) ∧
      ExecRtl fp eval s false ftt = some r ∧
      servicedAt s.FaultRTLTransCycle_ tr = some (inFlightAt js s.FaultRTLTransCycle_)) ∧
    (s.FaultRTLTransCycle_ ≤ 131 →
      ∃ r tr, ExecRtlTrace fp eval s true ftt = some (r, tr) ∧
        ExecRtl fp eval s true ftt = some r ∧
        servicedAt s.FaultRTLTransCycle_ tr = some (inFlightAt js s.FaultRTLTransCycle_)) ∧
    (133 ≤ s.FaultRTLTransCycle_ →
      (∃ r tr, ExecRtlTrace fp eval s true ftt = some (r, tr) ∧
        ExecRtl fp eval s true ftt = some r ∧
        servicedAt s.FaultRTLTransCycle_ tr
          = some (inFlightAt (js.drop (jobsBefore s.FaultRTLTransCycle_))
              (s.FaultRTLTransCycle_ - CyclesRequired (jobsBefore s.FaultRTLTransCycle_)))) ∧
      jobsBefore s.FaultRTLTransCycle_ = (s.FaultRTLTransCycle_ - 133) / 18 + 1 ∧
      CyclesRequired (jobsBefore s.FaultRTLTransCycle_)
        = 49 + 18 * jobsBefore s.FaultRTLTransCycle_ ∧
      inFlightAt js s.FaultRTLTransCycle_ ≠ [] ∧
      inFlightAt (js.drop (jobsBefore s.FaultRTLTransCycle_))
        (s.FaultRTLTransCycle_ - CyclesRequired (jobsBefore s.FaultRTLTransCycle_)) ≠ [] ∧
      ∀ e1 ∈ inFlightAt js s.FaultRTLTransCycle_,
        ∀ e2 ∈ inFlightAt (js.drop (jobsBefore s.FaultRTLTransCycle_))
          (s.FaultRTLTransCycle_ - CyclesRequired (jobsBefore s.FaultRTLTransCycle_)),
        e1.JobCycle ≠ e2.JobCycle) := by
  have hS : SIZE = 18446744073709551616 := rfl
  have hlen : 0 < js.length := List.length_pos.mpr hjs
  rw [CyclesRequired_eq _ hlen (by omega)] at hf
  have hjb := jobsBefore_eq s.FaultRTLTransCycle_ (by omega)
  refine ⟨?_, ?_, ?_⟩
  · obtain ⟨r, tr, h1, h2, h3⟩ := ExecRtlTrace_fault_pass fp eval heval s js false ftt hq hjs
      hp hsmall hrbw hmode hrow hc0 hf (by intro h; cases h)
    exact ⟨r, tr, h1, h2, h3⟩
  · intro h131
    obtain ⟨r, tr, h1, h2, h3⟩ := ExecRtlTrace_fault_pass fp eval heval s js true ftt hq hjs
      hp hsmall hrbw hmode hrow hc0 hf (by intro _; omega)
    rw [if_pos h131] at hjb
    simp only [if_true] at h3
    rw [hjb, List.drop_zero, show CyclesRequired 0 = 0 from rfl, Nat.sub_zero] at h3
    exact ⟨r, tr, h1, h2, h3⟩
  · intro h133
    obtain ⟨r, tr, h1, h2, h3⟩ := ExecRtlTrace_fault_pass fp eval heval s js true ftt hq hjs
      hp hsmall hrbw hmode hrow hc0 hf (by intro _; omega)
    simp only [if_true] at h3
    rw [if_neg (by omega), if_neg (by omega)] at hjb
    have hC := CyclesRequired_eq (jobsBefore s.FaultRTLTransCycle_) (by omega) (by omega)
    have hC' : CyclesRequired (jobsBefore s.FaultRTLTransCycle_)
        = 49 + 18 * jobsBefore s.FaultRTLTransCycle_ := by omega
    have hdne : js.drop (jobsBefore s.FaultRTLTransCycle_) ≠ [] := by
      intro h0
      rw [List.drop_eq_nil_iff] at h0
      omega
    refine ⟨⟨r, tr, h1, h2, h3⟩, hjb, hC', inFlightAt_ne_nil js _ hf hjs,
      inFlightAt_ne_nil _ _ (by rw [List.length_drop]; omega) hdne, ?_⟩
    intro e1 he1 e2 he2
    obtain ⟨p1, hp1⟩ := List.getElem?_of_mem he1
    obtain ⟨p2, hp2⟩ := List.getElem?_of_mem he2
    obtain ⟨a1, a2, _⟩ := inFlightAt_entry _ _ _ _ hp1
    obtain ⟨b1, b2, _⟩ := inFlightAt_entry _ _ _ _ hp2
    rw [hC'] at b1 b2
    omega

theorem ExecRtl_fast_fault_phase_witness :
    ((exampleTransientSim 138).JobQueue_ = exampleJobs.map fresh ∧ exampleJobs ≠ [] ∧
      portsFit (exampleTransientSim 138).Tb ∧ 67 * exampleJobs.length + 67 < SIZE ∧
      JobQueueReadBeforeWrite (exampleTransientSim 138).JobQueue_ = false ∧
      fiMode.Transient = (exampleTransientSim 138).FaultRTL_.Mode ∧
      (exampleTransientSim 138).FaultCsim_.Row < Mmma ∧
      (exampleTransientSim 138).CycleCnt_ = 0 ∧
      (exampleTransientSim 138).FaultRTLTransCycle_ < CyclesRequired exampleJobs.length ∧
      133 ≤ (exampleTransientSim 138).FaultRTLTransCycle_) ∧
    ∃ r tr, ExecRtlTrace exampleFpu id (exampleTransientSim 138) true false = some (r, tr) ∧
      ExecRtl exampleFpu id (exampleTransientSim 138) true false = some r ∧
      servicedAt (exampleTransientSim 138).FaultRTLTransCycle_ tr
        = some (inFlightAt
            (exampleJobs.drop (jobsBefore (exampleTransientSim 138).FaultRTLTransCycle_))
            ((exampleTransientSim 138).FaultRTLTransCycle_
              - CyclesRequired (jobsBefore (exampleTransientSim 138).FaultRTLTransCycle_))) :=
  ⟨⟨rfl, by decide, portsFit_tbInit, by decide, by decide, rfl, by decide, rfl, by decide,
      by decide⟩,
    ((ExecRtl_fast_fault_phase exampleFpu id (exampleTransientSim 138) exampleJobs false rfl
      (by decide) portsFit_tbInit (fun _ h => h) (by decide) (by decide) rfl (by decide) rfl
      (by decide)).2.2 (by decide)).1⟩

end SystolicArray
